import Mathlib

/-! # QML/V8 debugger protocol engine (`src/plugins/debugger/qml/qmlengine.cpp`)

A shallow embedding of the client-side protocol engine: request builders,
framing, the object-graph resolver `extractData`, the response/event
dispatcher `messageReceived` and the breakpoint synchroniser.

Conventions of the embedding

* `QVariant` / `QJsonValue` are one inductive type.  JSON numbers are
  restricted to integers (`QVariant::toInt` of an integral number is that
  number); a `QVariantMap` is an association list whose first binding of a key
  is the one `value(key)` returns.
* `QString` and textual `QByteArray` values are `String`; the binary frame of
  the wire codec is a list of bytes.
* The diagnostic log (`showMessage`) is not part of the model.
-/

namespace QmlEngine

/-! ## QVariant -/

/-- The variant type carried by decoded JSON documents. -/
inductive QVariant where
  | invalid : QVariant
  | bool : Bool → QVariant
  | num : Int → QVariant
  | str : String → QVariant
  | list : List QVariant → QVariant
  | map : List (String × QVariant) → QVariant

instance : Inhabited QVariant := ⟨QVariant.invalid⟩

abbrev QVariantList := List QVariant
abbrev QVariantMap := List (String × QVariant)

/-- Value of a decimal digit character, if it is one. -/
def digitValue (c : Char) : Option Nat :=
  if 48 ≤ c.toNat ∧ c.toNat ≤ 57 then some (c.toNat - 48) else none

/-- Reads a (non-empty) run of decimal digits, most significant first. -/
def parseDigits : List Char → Nat → Option Nat
  | [], acc => some acc
  | c :: cs, acc =>
    match digitValue c with
    | some v => parseDigits cs (acc * 10 + v)
    | none => none

/-- The conversion `QString::toInt`: an optionally signed decimal number, `0` when the text
is not one. -/
def stringToInt (s : String) : Int :=
  match s.toList with
  | [] => 0
  | '-' :: c :: cs =>
    match parseDigits (c :: cs) 0 with
    | some n => - (n : Int)
    | none => 0
  | '+' :: c :: cs =>
    match parseDigits (c :: cs) 0 with
    | some n => (n : Int)
    | none => 0
  | cs =>
    match parseDigits cs 0 with
    | some n => (n : Int)
    | none => 0

namespace QVariant

/-- Qt `QVariant::isValid`. -/
def isValid : QVariant → Bool
  | invalid => false
  | _ => true

/-- Qt `QVariant::toMap`: the empty map for anything that is not a map. -/
def toMap : QVariant → QVariantMap
  | map m => m
  | _ => []

/-- Qt `QVariant::toList`: the empty list for anything that is not a list. -/
def toList : QVariant → QVariantList
  | list l => l
  | _ => []

/-- Qt `QVariant::toInt`. -/
def toInt : QVariant → Int
  | num n => n
  | bool b => if b then 1 else 0
  | str s => stringToInt s
  | _ => 0

/-- Qt `QVariant::toBool`. -/
def toBool : QVariant → Bool
  | bool b => b
  | num n => decide (n ≠ 0)
  | str s => !(decide (s = "") || decide (s = "0") || decide (s = "false"))
  | _ => false

/-- Qt `QVariant::toString` (also used for `toByteArray`). -/
def toString : QVariant → String
  | str s => s
  | num n => ToString.toString n
  | bool b => if b then "true" else "false"
  | _ => ""

end QVariant

/-- Qt `QVariantMap::value(key)`: the invalid variant when the key is absent. -/
def mapValue (m : QVariantMap) (key : String) : QVariant :=
  match m.find? (fun kv => decide (kv.1 = key)) with
  | some kv => kv.2
  | none => QVariant.invalid

/-- Qt `QVariantMap::contains(key)`. -/
def mapContains (m : QVariantMap) (key : String) : Bool :=
  m.any (fun kv => decide (kv.1 = key))

/-! ## Protocol constants (`qmlv8debuggerclientconstants.h`) -/

/-- Modelled from the spec: the service tag of the outer frame (the constants
header is not part of the sources at hand). -/
def V8DEBUG : String := "V8DEBUG"
/-- Modelled from the spec: sub-type tag of an outgoing debugger request. -/
def V8REQUEST : String := "v8request"
/-- Modelled from the spec: sub-type tag of an incoming debugger message. -/
def V8MESSAGE : String := "v8message"
/-- Modelled from the spec: sub-type tag of the signal-breakpoint frame. -/
def BREAKONSIGNAL : String := "breakonsignal"
/-- Modelled from the spec: sub-type tag of the connect frame. -/
def CONNECT : String := "connect"
/-- Modelled from the spec: sub-type tag of the interrupt frame. -/
def INTERRUPT : String := "interrupt"
/-- Modelled from the spec: tag and command name of the disconnect request. -/
def DISCONNECT : String := "disconnect"

/-! ## Object graph resolver -/

/-- The struct `QmlV8ObjectData`. -/
structure QmlV8ObjectData where
  handle : Int := 0
  name : String := ""
  type : String := ""
  value : QVariant := QVariant.invalid
  properties : QVariantList := []

/-- The function `valueFromRef`: the first entry of the handle table whose `handle` field
converts to the wanted handle; `none` stands for `*success = false`. -/
def valueFromRef (handle : Int) (refsVal : QVariant) : Option QVariant :=
  (refsVal.toList.find? (fun ref => decide ((mapValue ref.toMap "handle").toInt = handle))).map
    (fun ref => QVariant.map ref.toMap)

/-- The inline branch of `extractData` (the descriptor has no `ref` key). -/
def extractInline (dataMap : QVariantMap) : QmlV8ObjectData :=
  let objectData : QmlV8ObjectData :=
    { handle := (mapValue dataMap "handle").toInt,
      name := (mapValue dataMap "name").toString }
  let type := (mapValue dataMap "type").toString
  if type = "undefined" then
    { objectData with type := "undefined", value := QVariant.str "undefined" }
  else if type = "null" then
    { objectData with type := "null", value := QVariant.str "null" }
  else if type = "boolean" then
    { objectData with type := "boolean", value := mapValue dataMap "value" }
  else if type = "number" then
    { objectData with type := "number", value := mapValue dataMap "value" }
  else if type = "string" then
    { objectData with type := "string", value := mapValue dataMap "value" }
  else if type = "object" then
    { objectData with type := "object", value := mapValue dataMap "className",
                      properties := (mapValue dataMap "properties").toList }
  else if type = "function" then
    { objectData with type := "function", value := mapValue dataMap "name",
                      properties := (mapValue dataMap "properties").toList }
  else if type = "script" then
    { objectData with type := "script", value := mapValue dataMap "name" }
  else objectData

/-- The function `extractData`.  The C++ function recurses through `{ref: H}` lookups with
no bound; the embedding counts the nested calls with `fuel` and answers
`none` when the recursion is deeper than `fuel`.  An inline descriptor and a
reference with no table entry need no recursive call. -/
def extractData : Nat → QVariant → QVariant → Option QmlV8ObjectData
  | fuel, data, refsVal =>
    let dataMap := data.toMap
    if mapContains dataMap "ref" then
      let handle := (mapValue dataMap "ref").toInt
      let objectData : QmlV8ObjectData :=
        { handle := handle, name := (mapValue dataMap "name").toString }
      match valueFromRef handle refsVal with
      | none => some objectData
      | some dataFromRef =>
        match fuel with
        | 0 => none
        | fuel + 1 =>
          match extractData fuel dataFromRef refsVal with
          | none => none
          | some data =>
            some { objectData with type := data.type, value := data.value,
                                   properties := data.properties }
    else
      some (extractInline dataMap)

/-! ## Engine state -/

/-- The enum `StepAction`. -/
inductive StepAction where
  | Continue | StepIn | StepOut | Next
  deriving DecidableEq, Repr

/-- The enum `Exceptions`. -/
inductive Exceptions where
  | NoExceptions | UncaughtExceptions | AllExceptions
  deriving DecidableEq, Repr

/-- The type `QmlDebugClient::State`. -/
inductive ClientState where
  | NotConnected | Unavailable | Enabled
  deriving DecidableEq, Repr

/-- The states of `DebuggerEngine::state()` the protocol engine reacts to. -/
inductive DebuggerState where
  | DebuggerNotReady | EngineRunRequested | InferiorRunRequested | InferiorRunOk
  | InferiorStopOk | InferiorUnrunnable | InferiorShutdownRequested | DebuggerFinished
  deriving DecidableEq, Repr

/-- The message argument of `packMessage`, kept symbolic: nothing (the default
argument), a compact JSON document, or the `target`/`enabled` pair streamed
for a signal breakpoint. -/
inductive Payload where
  | empty : Payload
  | json : QVariant → Payload
  | signal : String → Bool → Payload

/-- A packed frame `[service tag][sub-type][message]`. -/
structure Packet where
  service : String
  type : String
  message : Payload

/-- The enum `BreakpointType`, the kinds the engine distinguishes. -/
inductive BreakpointType where
  | BreakpointByFileAndLine | BreakpointAtJavaScriptThrow | BreakpointOnQmlSignalEmit
  | BreakpointByFunction
  deriving DecidableEq, Repr

/-- The enum `BreakpointState`. -/
inductive BreakpointState where
  | BreakpointNew | BreakpointInsertRequested | BreakpointInsertProceeding
  | BreakpointChangeRequested | BreakpointChangeProceeding | BreakpointInserted
  | BreakpointRemoveRequested | BreakpointRemoveProceeding | BreakpointDead
  deriving DecidableEq, Repr

/-- The fields of `BreakpointParameters` the engine reads. -/
structure BreakpointParameters where
  type : BreakpointType
  enabled : Bool := true
  fileName : String := ""
  lineNumber : Int := 0
  functionName : String := ""
  condition : String := ""
  ignoreCount : Int := 0
  isCppBreakpoint : Bool := false
  deriving DecidableEq, Repr

/-- The fields of `BreakpointResponse` the engine writes. -/
structure BreakpointResponse where
  enabled : Bool := true
  lineNumber : Int := 0
  functionName : String := ""
  deriving DecidableEq, Repr

abbrev BreakpointModelId := Nat

/-- One breakpoint of the break handler. -/
structure Breakpoint where
  id : BreakpointModelId
  params : BreakpointParameters
  state : BreakpointState := BreakpointState.BreakpointNew
  response : BreakpointResponse := {}
  claimed : Bool := false
  deriving DecidableEq, Repr

/-- Modelled from the spec: the break handler, "a breakpoint model exposing
enumerable owned/pending breakpoints with per-breakpoint parameter and
response accessors, and lifecycle notification callbacks"
(`breakhandler.cpp` is not part of the sources at hand). -/
structure BreakHandler where
  items : List Breakpoint := []
  nextId : BreakpointModelId := 1
  deriving DecidableEq, Repr

/-- The struct `WatchItem`, the fields the engine fills in. -/
structure WatchItem where
  iname : String := ""
  name : String := ""
  exp : String := ""
  id : Int := 0
  type : String := ""
  value : String := ""
  wantsChildren : Bool := false
  deriving DecidableEq, Repr

/-- Modelled from the spec: the watch model, "a presentation model accepting
... variable-tree node insertions keyed by path" (`watchhandler.cpp` is not
part of the sources at hand).  The tree is kept flat; the path of a node is
its `iname`. -/
structure WatchHandler where
  items : List WatchItem := []
  expandedINames : List String := []
  watchedExpressions : List String := []
  deriving DecidableEq, Repr

/-- The struct `StackFrame`, the fields the engine fills in. -/
structure StackFrame where
  level : Int := -1
  function : String := ""
  file : String := ""
  receiver : String := ""
  line : Int := -1
  usable : Bool := false
  deriving DecidableEq, Repr

/-- Modelled from the spec: the stack model, "a presentation model accepting
ordered frame lists" (`stackhandler.cpp` is not part of the sources at
hand). -/
structure StackHandler where
  frames : List StackFrame := []
  currentIndex : Int := -1
  contentsValid : Bool := false
  deriving DecidableEq, Repr

/-- A node of the console tree. -/
inductive ConsoleItem where
  | node : String → List ConsoleItem → ConsoleItem

/-- The text of a console node. -/
def ConsoleItem.text : ConsoleItem → String
  | ConsoleItem.node t _ => t

/-- Calls the engine makes on its collaborators and on its own send queue, in
the order they happen. -/
inductive Effect where
  | sendMessage : Packet → Effect
  | notifyInferiorSpontaneousStop : Effect
  | stackFrameCompleted : Effect
  | gotoLocation : StackFrame → Effect
  | notifyUpdateStarted : Effect
  | notifyUpdateFinished : Effect
  | printToConsolePane : ConsoleItem → Effect
  | showConsoleMessage : String → Effect
  | updateScriptSource : String → Int → Int → String → Effect
  | setSourceFiles : List (String × String) → Effect

/-- The environment of one call: the helpers defined outside the engine whose
answers depend on the project and the editor. -/
structure Env where
  /-- Helper `adjustBreakpointLineAndColumn(fileName, &line, &column, &valid)`:
  `none` when it returns `false`, else the adjusted line, column and `valid`. -/
  adjustBreakpointLineAndColumn : String → Int → Option (Int × Int × Bool)
  /-- Helper `WatchHandler::watcherName(exp)`. -/
  watcherName : String → String
  /-- Helper `DebuggerEngine::toFileInProject`. -/
  toFileInProject : String → String
  /-- Helper `QFileInfo(file).isReadable()`. -/
  isReadable : String → Bool
  /-- Whether `ConsoleManagerInterface::instance()` is not null. -/
  hasConsoleManager : Bool
  /-- Helper `highlightExceptionCode(lineNumber, filePath, errorMessage)`. -/
  highlightExceptionCode : Int → String → String → List String
  /-- The JSON parse of a payload,
  `QJsonDocument::fromJson(QString(QLatin1String(response)).toUtf8()).toVariant()`. -/
  fromJson : List Nat → QVariant

/-- The class `QmlEnginePrivate` together with the collaborators it drives. -/
structure QmlEnginePrivate where
  sequence : Int := -1
  breakpoints : List (BreakpointModelId × Int) := []
  breakpointsSync : List (Int × BreakpointModelId) := []
  breakpointsTemp : List Int := []
  evaluatingExpression : List (Int × String) := []
  localsAndWatchers : List (Int × String) := []
  updateLocalsAndWatchers : List Int := []
  debuggerCommands : List Int := []
  currentFrameScopes : List Int := []
  stackIndexLookup : List (Int × Int) := []
  previousStepAction : StepAction := StepAction.Continue
  sendBuffer : List Packet := []
  pendingBreakpoints : List (String × BreakpointModelId) := []
  /-- The value of `QmlDebugClient::state()`. -/
  clientState : ClientState := ClientState.NotConnected
  /-- The messages handed to `QmlDebugClient::sendMessage`, oldest first. -/
  sent : List Packet := []
  /-- The value of `DebuggerEngine::state()`. -/
  engineState : DebuggerState := DebuggerState.DebuggerNotReady
  breakHandler : BreakHandler := {}
  watchHandler : WatchHandler := {}
  stackHandler : StackHandler := {}
  /-- The calls made so far, oldest first. -/
  trace : List Effect := []

/-! ## QHash operations -/

/-- Qt `QHash::insert`: replaces the value of an existing key. -/
def hashInsert {κ ν : Type} [DecidableEq κ] (h : List (κ × ν)) (k : κ) (v : ν) : List (κ × ν) :=
  (k, v) :: h.filter (fun kv => decide (kv.1 ≠ k))

/-- Qt `QHash::insertMulti`: adds a binding, the newest first. -/
def hashInsertMulti {κ ν : Type} (h : List (κ × ν)) (k : κ) (v : ν) : List (κ × ν) :=
  (k, v) :: h

/-- Qt `QHash::contains`. -/
def hashContains {κ ν : Type} [DecidableEq κ] (h : List (κ × ν)) (k : κ) : Bool :=
  h.any (fun kv => decide (kv.1 = k))

/-- Qt `QHash::value(key)`, `none` standing for the default-constructed value. -/
def hashValue {κ ν : Type} [DecidableEq κ] (h : List (κ × ν)) (k : κ) : Option ν :=
  (h.find? (fun kv => decide (kv.1 = k))).map Prod.snd

/-- The table left by `QHash::take(key)`: the newest binding of the key is
removed. -/
def hashTakeRest {κ ν : Type} [DecidableEq κ] : List (κ × ν) → κ → List (κ × ν)
  | [], _ => []
  | kv :: h, k => if kv.1 = k then h else kv :: hashTakeRest h k

/-- Qt `QHash::remove(key)`: every binding of the key is removed. -/
def hashRemove {κ ν : Type} [DecidableEq κ] (h : List (κ × ν)) (k : κ) : List (κ × ν) :=
  h.filter (fun kv => decide (kv.1 ≠ k))

/-- Qt `QHash::key(value)`: a key bound to the value (the first of the table),
`none` standing for the default-constructed key. -/
def hashKey {κ ν : Type} [DecidableEq ν] (h : List (κ × ν)) (v : ν) : Option κ :=
  (h.find? (fun kv => decide (kv.2 = v))).map Prod.fst

/-- Qt `QHash::values(key)`. -/
def hashValues {κ ν : Type} [DecidableEq κ] (h : List (κ × ν)) (k : κ) : List ν :=
  (h.filter (fun kv => decide (kv.1 = k))).map Prod.snd

/-- Qt `QList::removeOne`. -/
def removeOne : List Int → Int → List Int
  | [], _ => []
  | x :: xs, v => if x = v then xs else x :: removeOne xs v

/-! ## Request builders -/

/-- The effect of `int` arithmetic leaving the range of a 32-bit `int`: the
value wraps around (two's complement). -/
def wrapInt32 (n : Int) : Int := (n + 2147483648) % 4294967296 - 2147483648

/-- Qt `QJsonObject::insert`: replaces the value of an existing key. -/
def jsonInsert (obj : QVariantMap) (key : String) (v : QVariant) : QVariantMap :=
  if mapContains obj key then
    obj.map (fun kv => if kv.1 = key then (key, v) else kv)
  else obj ++ [(key, v)]

/-- The function `QmlEnginePrivate::packMessage`: `rs << cmd << type << message`
with `cmd = V8DEBUG`; the bytes of the frame are `Packet.encode`. -/
def packMessage (type : String) (message : Payload := Payload.empty) : Packet :=
  { service := V8DEBUG, type := type, message := message }

/-- The function `QmlEnginePrivate::initObject`: `{seq: ++sequence, type: "request"}`. -/
def initObject (d : QmlEnginePrivate) : QmlEnginePrivate × QVariantMap :=
  let sequence := wrapInt32 (d.sequence + 1)
  ({ d with sequence := sequence },
   [("seq", QVariant.num sequence), ("type", QVariant.str "request")])

/-- The function `QmlEnginePrivate::sendMessage`: straight to the transport when
the client is enabled, else into the send buffer. -/
def sendMessage (d : QmlEnginePrivate) (msg : Packet) : QmlEnginePrivate :=
  let d := { d with trace := d.trace ++ [Effect.sendMessage msg] }
  if d.clientState = ClientState.Enabled then
    { d with sent := d.sent ++ [msg] }
  else
    { d with sendBuffer := d.sendBuffer ++ [msg] }

/-- The function `QmlEnginePrivate::sendAndLogV8Request`. -/
def sendAndLogV8Request (d : QmlEnginePrivate) (request : QVariantMap) : QmlEnginePrivate :=
  sendMessage d (packMessage V8REQUEST (Payload.json (QVariant.map request)))

/-- The function `QmlEnginePrivate::connect`. -/
def connect (d : QmlEnginePrivate) : QmlEnginePrivate :=
  sendMessage d (packMessage CONNECT)

/-- The function `QmlEnginePrivate::disconnect`. -/
def disconnect (d : QmlEnginePrivate) : QmlEnginePrivate :=
  let (d, jsonVal) := initObject d
  let jsonVal := jsonInsert jsonVal "command" (QVariant.str DISCONNECT)
  sendMessage d (packMessage DISCONNECT (Payload.json (QVariant.map jsonVal)))

/-- The function `QmlEnginePrivate::continueDebugging`. -/
def continueDebugging (d : QmlEnginePrivate) (action : StepAction) : QmlEnginePrivate :=
  let (d, jsonVal) := initObject d
  let jsonVal := jsonInsert jsonVal "command" (QVariant.str "continue")
  let jsonVal :=
    match action with
    | StepAction.Continue => jsonVal
    | StepAction.StepIn =>
      jsonInsert jsonVal "arguments" (QVariant.map [("stepaction", QVariant.str "in")])
    | StepAction.StepOut =>
      jsonInsert jsonVal "arguments" (QVariant.map [("stepaction", QVariant.str "out")])
    | StepAction.Next =>
      jsonInsert jsonVal "arguments" (QVariant.map [("stepaction", QVariant.str "next")])
  let d := sendAndLogV8Request d jsonVal
  { d with previousStepAction := action }

/-- The function `QmlEnginePrivate::evaluate`. -/
def evaluate (d : QmlEnginePrivate) (expr : String) (global : Bool := false)
    (disableBreak : Bool := false) (frame : Int := -1) (addContext : Bool := false) :
    QmlEnginePrivate :=
  let (d, jsonVal) := initObject d
  let jsonVal := jsonInsert jsonVal "command" (QVariant.str "evaluate")
  let args : QVariantMap := [("expression", QVariant.str expr)]
  let args := if frame ≠ -1 then jsonInsert args "frame" (QVariant.num frame) else args
  let args := if global then jsonInsert args "global" (QVariant.bool global) else args
  let args :=
    if disableBreak then jsonInsert args "disable_break" (QVariant.bool disableBreak) else args
  let args :=
    if addContext then
      jsonInsert args "additional_context"
        (QVariant.list (d.watchHandler.items.map (fun data =>
          QVariant.map [("name", QVariant.str data.name),
                        ("handle", QVariant.num (wrapInt32 data.id))])))
    else args
  let jsonVal := jsonInsert jsonVal "arguments" (QVariant.map args)
  sendAndLogV8Request d jsonVal

/-- The function `QmlEnginePrivate::lookup`. -/
def lookup (d : QmlEnginePrivate) (handles : List Int) (includeSource : Bool := false) :
    QmlEnginePrivate :=
  let (d, jsonVal) := initObject d
  let jsonVal := jsonInsert jsonVal "command" (QVariant.str "lookup")
  let args : QVariantMap := [("handles", QVariant.list (handles.map QVariant.num))]
  let args :=
    if includeSource then jsonInsert args "includeSource" (QVariant.bool includeSource)
    else args
  let jsonVal := jsonInsert jsonVal "arguments" (QVariant.map args)
  sendAndLogV8Request d jsonVal

/-- The function `QmlEnginePrivate::backtrace`. -/
def backtrace (d : QmlEnginePrivate) (fromFrame : Int := -1) (toFrame : Int := -1)
    (bottom : Bool := false) : QmlEnginePrivate :=
  let (d, jsonVal) := initObject d
  let jsonVal := jsonInsert jsonVal "command" (QVariant.str "backtrace")
  let args : QVariantMap := []
  let args := if fromFrame ≠ -1 then jsonInsert args "fromFrame" (QVariant.num fromFrame) else args
  let args := if toFrame ≠ -1 then jsonInsert args "toFrame" (QVariant.num toFrame) else args
  let args := if bottom then jsonInsert args "bottom" (QVariant.bool bottom) else args
  let jsonVal := jsonInsert jsonVal "arguments" (QVariant.map args)
  sendAndLogV8Request d jsonVal

/-- The function `QmlEnginePrivate::frame`. -/
def frame (d : QmlEnginePrivate) (number : Int := -1) : QmlEnginePrivate :=
  let (d, jsonVal) := initObject d
  let jsonVal := jsonInsert jsonVal "command" (QVariant.str "frame")
  let jsonVal :=
    if number ≠ -1 then
      jsonInsert jsonVal "arguments" (QVariant.map [("number", QVariant.num number)])
    else jsonVal
  sendAndLogV8Request d jsonVal

/-- The function `QmlEnginePrivate::scope`. -/
def scope (d : QmlEnginePrivate) (number : Int := -1) (frameNumber : Int := -1) :
    QmlEnginePrivate :=
  let (d, jsonVal) := initObject d
  let jsonVal := jsonInsert jsonVal "command" (QVariant.str "scope")
  let jsonVal :=
    if number ≠ -1 then
      let args : QVariantMap := [("number", QVariant.num number)]
      let args :=
        if frameNumber ≠ -1 then jsonInsert args "frameNumber" (QVariant.num frameNumber)
        else args
      jsonInsert jsonVal "arguments" (QVariant.map args)
    else jsonVal
  sendAndLogV8Request d jsonVal

/-- The function `QmlEnginePrivate::scripts`; the filter is a string, a number
or neither (then the JSON null is sent). -/
def scripts (d : QmlEnginePrivate) (types : Int := 4) (ids : List Int := [])
    (includeSource : Bool := false) (filter : QVariant := QVariant.invalid) :
    QmlEnginePrivate :=
  let (d, jsonVal) := initObject d
  let jsonVal := jsonInsert jsonVal "command" (QVariant.str "scripts")
  let args : QVariantMap := [("types", QVariant.num types)]
  let args :=
    if ids.length ≠ 0 then jsonInsert args "ids" (QVariant.list (ids.map QVariant.num))
    else args
  let args :=
    if includeSource then jsonInsert args "includeSource" (QVariant.bool includeSource)
    else args
  let filterValue : QVariant :=
    match filter with
    | QVariant.str s => QVariant.str s
    | QVariant.num n => QVariant.num n
    | _ => QVariant.invalid
  let args := jsonInsert args "filter" filterValue
  let jsonVal := jsonInsert jsonVal "arguments" (QVariant.map args)
  sendAndLogV8Request d jsonVal

/-- The characters after the last `/`. -/
def baseNameChars : List Char → List Char → List Char
  | [], acc => acc.reverse
  | c :: cs, acc => if c = '/' then baseNameChars cs [] else baseNameChars cs (c :: acc)

/-- The helper `Utils::FileName::fromString(target).fileName()`: the part of the
path after its last `/`. -/
def fileNameOf (target : String) : String :=
  String.mk (baseNameChars target.toList [])

/-- The function `QmlEnginePrivate::setBreakpoint`.  A request of type `event`
builds no JSON request and takes no sequence number. -/
def setBreakpoint (d : QmlEnginePrivate) (type target : String) (enabled : Bool := true)
    (line : Int := 0) (column : Int := 0) (condition : String := "")
    (ignoreCount : Int := -1) : QmlEnginePrivate :=
  if type = "event" then
    sendMessage d (packMessage BREAKONSIGNAL (Payload.signal target enabled))
  else
    let (d, jsonVal) := initObject d
    let jsonVal := jsonInsert jsonVal "command" (QVariant.str "setbreakpoint")
    let args : QVariantMap := [("type", QVariant.str type), ("enabled", QVariant.bool enabled)]
    let args :=
      if type = "scriptRegExp" then jsonInsert args "target" (QVariant.str (fileNameOf target))
      else jsonInsert args "target" (QVariant.str target)
    let args := if line ≠ 0 then jsonInsert args "line" (QVariant.num (line - 1)) else args
    let args := if column ≠ 0 then jsonInsert args "column" (QVariant.num (column - 1)) else args
    let args :=
      if condition ≠ "" then jsonInsert args "condition" (QVariant.str condition) else args
    let args :=
      if ignoreCount ≠ -1 then jsonInsert args "ignoreCount" (QVariant.num ignoreCount) else args
    let jsonVal := jsonInsert jsonVal "arguments" (QVariant.map args)
    sendAndLogV8Request d jsonVal

/-- The function `QmlEnginePrivate::clearBreakpoint`. -/
def clearBreakpoint (d : QmlEnginePrivate) (breakpoint : Int) : QmlEnginePrivate :=
  let (d, jsonVal) := initObject d
  let jsonVal := jsonInsert jsonVal "command" (QVariant.str "clearbreakpoint")
  let args : QVariantMap := [("breakpoint", QVariant.num breakpoint)]
  let jsonVal := jsonInsert jsonVal "arguments" (QVariant.map args)
  sendAndLogV8Request d jsonVal

/-- The function `QmlEnginePrivate::setExceptionBreak`. -/
def setExceptionBreak (d : QmlEnginePrivate) (type : Exceptions) (enabled : Bool := false) :
    QmlEnginePrivate :=
  let (d, jsonVal) := initObject d
  let jsonVal := jsonInsert jsonVal "command" (QVariant.str "setexceptionbreak")
  let args : QVariantMap := []
  let args :=
    if type = Exceptions.AllExceptions then jsonInsert args "type" (QVariant.str "all") else args
  let args := if enabled then jsonInsert args "enabled" (QVariant.bool enabled) else args
  let jsonVal := jsonInsert jsonVal "arguments" (QVariant.map args)
  sendAndLogV8Request d jsonVal

/-- The function `QmlEnginePrivate::version`. -/
def version (d : QmlEnginePrivate) : QmlEnginePrivate :=
  let (d, jsonVal) := initObject d
  let jsonVal := jsonInsert jsonVal "command" (QVariant.str "version")
  sendAndLogV8Request d jsonVal

/-- The function `QmlEnginePrivate::clearCache`. -/
def clearCache (d : QmlEnginePrivate) : QmlEnginePrivate :=
  { d with currentFrameScopes := [], updateLocalsAndWatchers := [] }

/-- The request-building operations with their arguments. -/
inductive Command where
  | disconnect : Command
  | continueDebugging : StepAction → Command
  | evaluate : String → Bool → Bool → Int → Bool → Command
  | lookup : List Int → Bool → Command
  | backtrace : Int → Int → Bool → Command
  | frame : Int → Command
  | scope : Int → Int → Command
  | scripts : Int → List Int → Bool → QVariant → Command
  | setBreakpoint : String → String → Bool → Int → Int → String → Int → Command
  | clearBreakpoint : Int → Command
  | setExceptionBreak : Exceptions → Bool → Command
  | version : Command

/-- Runs one request-building operation. -/
def Command.run (d : QmlEnginePrivate) : Command → QmlEnginePrivate
  | Command.disconnect => QmlEngine.disconnect d
  | Command.continueDebugging a => QmlEngine.continueDebugging d a
  | Command.evaluate e g b f c => QmlEngine.evaluate d e g b f c
  | Command.lookup hs i => QmlEngine.lookup d hs i
  | Command.backtrace f t b => QmlEngine.backtrace d f t b
  | Command.frame n => QmlEngine.frame d n
  | Command.scope n f => QmlEngine.scope d n f
  | Command.scripts t ids i f => QmlEngine.scripts d t ids i f
  | Command.setBreakpoint ty ta e l c co ig => QmlEngine.setBreakpoint d ty ta e l c co ig
  | Command.clearBreakpoint b => QmlEngine.clearBreakpoint d b
  | Command.setExceptionBreak t e => QmlEngine.setExceptionBreak d t e
  | Command.version => QmlEngine.version d

/-- Runs a sequence of request-building operations, first to last. -/
def runCommands (d : QmlEnginePrivate) (cmds : List Command) : QmlEnginePrivate :=
  cmds.foldl Command.run d

/-- The `seq` field of a packet carrying a JSON request. -/
def Packet.seq (p : Packet) : Option Int :=
  match p.message with
  | Payload.json doc =>
    if mapContains doc.toMap "seq" then some (mapValue doc.toMap "seq").toInt else none
  | _ => none

/-- The `seq` fields of the JSON requests among the calls of a trace, in
order. -/
def requestSeqs (trace : List Effect) : List Int :=
  trace.filterMap (fun e =>
    match e with
    | Effect.sendMessage p => p.seq
    | _ => none)

/-- The `seq` fields of the requests emitted while going from `d` to `e`. -/
def issuedSeqs (d e : QmlEnginePrivate) : List Int :=
  requestSeqs (e.trace.drop d.trace.length)

/-- The `command` field of a packet carrying a JSON request. -/
def Packet.command (p : Packet) : Option String :=
  match p.message with
  | Payload.json doc =>
    if mapContains doc.toMap "command" then some (mapValue doc.toMap "command").toString
    else none
  | _ => none

/-- The `arguments` field of a packet carrying a JSON request (not valid when
the request has none). -/
def Packet.arguments (p : Packet) : QVariant :=
  match p.message with
  | Payload.json doc => mapValue doc.toMap "arguments"
  | _ => QVariant.invalid

/-- The calls made while going from `d` to `e`. -/
def newEffects (d e : QmlEnginePrivate) : List Effect :=
  e.trace.drop d.trace.length

/-- The commands of the JSON requests among the calls of a trace, in order. -/
def requestCommands (trace : List Effect) : List String :=
  trace.filterMap (fun e =>
    match e with
    | Effect.sendMessage p => p.command
    | _ => none)

/-! ## Collaborator models -/

/-- Qt `QString::startsWith` / `QByteArray::startsWith`. -/
def startsWith (s pre : String) : Bool := pre.toList.isPrefixOf s.toList

/-- Qt `QString::endsWith`. -/
def endsWith (s suf : String) : Bool := suf.toList.reverse.isPrefixOf s.toList.reverse

/-- The conversion of an `int` handle to the `quint64` id of a watch item. -/
def toQuint64 (n : Int) : Int := n % 18446744073709551616

/-- Modelled from the spec: `WatchHandler::findItem`, the node stored under a
path. -/
def WatchHandler.findItem (w : WatchHandler) (iname : String) : Option WatchItem :=
  w.items.find? (fun i => decide (i.iname = iname))

/-- Modelled from the spec: `WatchHandler::insertItem`, an insertion "keyed by
path": the node that was stored under the same path, and the nodes below it,
are replaced by the new node. -/
def WatchHandler.insertItem (w : WatchHandler) (item : WatchItem) : WatchHandler :=
  { w with items :=
      w.items.filter (fun i =>
        !(decide (i.iname = item.iname) || startsWith i.iname (item.iname ++ "."))) ++ [item] }

/-- Modelled from the spec: `WatchItem::appendChild`, the node is added below
its parent. -/
def WatchHandler.appendChild (w : WatchHandler) (item : WatchItem) : WatchHandler :=
  { w with items := w.items ++ [item] }

/-- The test `WatchItem::isLocal`. -/
def WatchItem.isLocal (i : WatchItem) : Bool := startsWith i.iname "local."

/-- Modelled from the spec: `WatchItem::setError`, "type unset, display value
= failure message"; the node has no children. -/
def WatchItem.setError (i : WatchItem) (msg : String) : WatchItem :=
  { i with value := msg, wantsChildren := false }

/-- Modelled from the spec: `StackHandler::currentFrame`, a default frame
(not usable) when the current index addresses no frame. -/
def StackHandler.currentFrame (s : StackHandler) : StackFrame :=
  if 0 ≤ s.currentIndex then (s.frames.get? s.currentIndex.toNat).getD {} else {}

/-- Modelled from the spec: `StackHandler::setFrames`, "the first remaining
frame becomes current". -/
def StackHandler.setFrames (_s : StackHandler) (frames : List StackFrame) : StackHandler :=
  { frames := frames, currentIndex := 0, contentsValid := true }

/-- Modelled from the spec: `BreakHandler::breakpointById`; `none` stands for
the invalid breakpoint handle. -/
def BreakHandler.breakpointById (h : BreakHandler) (id : BreakpointModelId) : Option Breakpoint :=
  h.items.find? (fun b => decide (b.id = id))

/-- Applies a change to the breakpoint with the given id. -/
def BreakHandler.modify (h : BreakHandler) (id : BreakpointModelId)
    (f : Breakpoint → Breakpoint) : BreakHandler :=
  { h with items := h.items.map (fun b => if b.id = id then f b else b) }

/-- Modelled from the spec: the lifecycle notification callbacks move the
breakpoint to the state they name. -/
def BreakHandler.setState (h : BreakHandler) (id : BreakpointModelId) (st : BreakpointState) :
    BreakHandler :=
  h.modify id (fun b => { b with state := st })

/-- Modelled from the spec: `Breakpoint::setResponse`. -/
def BreakHandler.setResponse (h : BreakHandler) (id : BreakpointModelId)
    (br : BreakpointResponse) : BreakHandler :=
  h.modify id (fun b => { b with response := br })

/-- Modelled from the spec: `BreakHandler::appendBreakpoint`, a new breakpoint
with a fresh id, in state `New`. -/
def BreakHandler.appendBreakpoint (h : BreakHandler) (params : BreakpointParameters) :
    BreakHandler :=
  { items := h.items ++ [{ id := h.nextId, params := params }], nextId := h.nextId + 1 }

/-- Records a call on a collaborator. -/
def emit (d : QmlEnginePrivate) (e : Effect) : QmlEnginePrivate :=
  { d with trace := d.trace ++ [e] }

/-- Modelled from the spec: `DebuggerEngine::notifyInferiorSpontaneousStop`,
the engine "is first marked stopped". -/
def notifyInferiorSpontaneousStop (d : QmlEnginePrivate) : QmlEnginePrivate :=
  emit { d with engineState := DebuggerState.InferiorStopOk } Effect.notifyInferiorSpontaneousStop

/-- Sets the lifecycle state of a breakpoint of the engine's break handler. -/
def setBreakpointState (d : QmlEnginePrivate) (id : BreakpointModelId) (st : BreakpointState) :
    QmlEnginePrivate :=
  { d with breakHandler := d.breakHandler.setState id st }

/-! ## Watch items built from decoded values -/

/-- The function `insertSubItems`: one child node per property whose name is not
empty and does not start with a dot.  A null parent is the `QTC_ASSERT`
early return. -/
def insertSubItems (fuel : Nat) (w : WatchHandler) (parent : Option WatchItem)
    (properties : QVariantList) (refsVal : QVariant) : Option WatchHandler :=
  match parent with
  | none => some w
  | some parent =>
    properties.foldlM (fun w property =>
      match extractData fuel property refsVal with
      | none => none
      | some propertyData =>
        let name := propertyData.name
        if startsWith name "." || decide (name = "") then some w
        else
          let exp :=
            if parent.type = "object" then
              if parent.value = "Array" then parent.exp ++ "[" ++ name ++ "]"
              else if parent.value = "Object" then parent.exp ++ "." ++ name
              else ""
            else name
          some (w.appendChild
            { iname := parent.iname ++ "." ++ name, name := name, exp := exp,
              id := toQuint64 propertyData.handle, type := propertyData.type,
              value := propertyData.value.toString,
              wantsChildren := decide (propertyData.properties.length ≠ 0) })) w

/-- The function `QmlEnginePrivate::expandObject`.  `none`: the item of id `0`
is not in the watch model (a null pointer is dereferenced). -/
def expandObject (d : QmlEnginePrivate) (iname : String) (objectId : Int) :
    Option QmlEnginePrivate :=
  let plain : QmlEnginePrivate :=
    lookup { d with localsAndWatchers :=
               hashInsertMulti d.localsAndWatchers (wrapInt32 objectId) iname }
      [wrapInt32 objectId]
  if objectId = 0 then
    match d.watchHandler.findItem iname with
    | none => none
    | some watch =>
      if watch.value = "global" then
        if d.stackHandler.contentsValid && d.stackHandler.currentFrame.usable then
          let d := evaluate d watch.name false false d.stackHandler.currentIndex
          some { d with evaluatingExpression := hashInsert d.evaluatingExpression d.sequence iname }
        else some d
      else some plain
  else some plain

/-! ## Response handlers -/

/-- Modelled from the spec: "a designated internal-function marker line", the
text of `INTERNAL_FUNCTION` in the constants header. -/
def INTERNAL_FUNCTION : String :=
  "(function(method) \x7b return (function(object, data, qmlglobal) \x7b return (function() \x7b return method(object, data, qmlglobal, arguments.length, arguments); \x7d);\x7d);\x7d)"

/-- Whether a variant is the string `s` (comparison of a `QVariant` with a
string literal). -/
def isString (v : QVariant) (s : String) : Bool :=
  match v with
  | QVariant.str t => decide (t = s)
  | _ => false

/-- The function `constructLogItemTree` on decoded object data: `some none` is
the null item of a value that is not valid; `none` is a recursion deeper than
`fuel`. -/
def constructLogItemTree : Nat → QmlV8ObjectData → QVariant → Option (Option ConsoleItem)
  | 0, _, _ => none
  | fuel + 1, objectData, refsVal =>
    if !objectData.value.isValid then some none
    else
      let text :=
        if objectData.name = "" then objectData.value.toString
        else objectData.name ++ ": " ++ objectData.value.toString
      let children : Option (List ConsoleItem) :=
        objectData.properties.foldlM (fun (acc : List ConsoleItem) property =>
          match extractData fuel property refsVal with
          | none => none
          | some childObjectData =>
            if childObjectData.handle = objectData.handle then some acc
            else
              match constructLogItemTree fuel childObjectData refsVal with
              | none => none
              | some none => some acc
              | some (some child) =>
                if acc.any (fun c => decide (c.text = child.text)) then some acc
                else some (acc ++ [child])) []
      children.map (fun cs => some (ConsoleItem.node text cs))

/-- The function `QmlEnginePrivate::extractStackFrame`; `none` is a recursion of
`extractData` deeper than `fuel`. -/
def extractStackFrame (fuel : Nat) (env : Env) (bodyVal refsVal : QVariant) :
    Option StackFrame :=
  let body := bodyVal.toMap
  let level := (mapValue body "index").toInt
  if isString (mapValue body "sourceLineText") INTERNAL_FUNCTION then
    some { level := -1 }
  else
    match extractData fuel (mapValue body "func") refsVal,
          extractData fuel (mapValue body "script") refsVal,
          extractData fuel (mapValue body "receiver") refsVal with
    | some func, some script, some receiver =>
      let functionName := func.value.toString
      let functionName := if functionName = "" then "Anonymous Function" else functionName
      let file := env.toFileInProject script.value.toString
      some { level := level, function := functionName, file := file,
             usable := env.isReadable file, receiver := receiver.value.toString,
             line := (mapValue body "line").toInt + 1 }
    | _, _, _ => none

/-- The handles of the expanded local items, as `handleFrame` collects them
into a `QHash<quint64, QByteArray>` before the update. -/
def expandedHandles (w : WatchHandler) : List (Int × String) :=
  w.expandedINames.foldl (fun acc iname =>
    match w.findItem iname with
    | some item => if item.isLocal then hashInsert acc item.id iname else acc
    | none => acc) []

/-- The `this` node `handleFrame` builds from the decoded receiver: for the
global object it is marked as having children and its id is `0`. -/
def thisItem (objectData : QmlV8ObjectData) : WatchItem :=
  let item : WatchItem :=
    { iname := "local.this", name := "this", id := toQuint64 objectData.handle,
      type := objectData.type, value := objectData.value.toString,
      wantsChildren := decide (objectData.properties.length ≠ 0) }
  if item.value = "global" then { item with wantsChildren := true, id := 0 } else item

/-- The scope loop of `handleFrame`: every scope whose type is not global
(`0`) is queued in `currentFrameScopes` and requested. -/
def fetchScopes (d : QmlEnginePrivate) (scopes : QVariantList) : QmlEnginePrivate :=
  scopes.foldl (fun d sc =>
    if (mapValue sc.toMap "type").toInt = 0 then d
    else
      let scopeIndex := (mapValue sc.toMap "index").toInt
      scope { d with currentFrameScopes := d.currentFrameScopes ++ [scopeIndex] } scopeIndex) d

/-- The function `QmlEnginePrivate::handleFrame`. -/
def handleFrame (fuel : Nat) (d : QmlEnginePrivate) (bodyVal refsVal : QVariant) :
    Option QmlEnginePrivate :=
  let currentFrame := bodyVal.toMap
  let d := emit d Effect.notifyUpdateStarted
  let d := clearCache d
  let frameIndex := d.stackHandler.currentIndex
  let handlesToLookup := expandedHandles d.watchHandler
  if frameIndex < 0 then some d
  else if !d.stackHandler.currentFrame.usable then some d
  else
    match extractData fuel (mapValue currentFrame "receiver") refsVal with
    | none => none
    | some objectData =>
      let d := { d with watchHandler := d.watchHandler.insertItem (thisItem objectData) }
      let d := fetchScopes d (mapValue currentFrame "scopes").toList
      let d := emit d (Effect.gotoLocation d.stackHandler.currentFrame)
      match handlesToLookup.foldlM (fun d kv => expandObject d kv.2 kv.1) d with
      | none => none
      | some d => some (emit d Effect.stackFrameCompleted)

/-- The function `QmlEnginePrivate::handleBacktrace`. -/
def handleBacktrace (fuel : Nat) (env : Env) (d : QmlEnginePrivate) (bodyVal refsVal : QVariant) :
    Option QmlEnginePrivate :=
  let body := bodyVal.toMap
  let frames := (mapValue body "frames").toList
  let fromFrameIndex := (mapValue body "fromFrame").toInt
  if fromFrameIndex ≠ 0 then some d
  else
    let loop : Option (List StackFrame × List (Int × Int)) :=
      frames.foldlM (fun (acc : List StackFrame × List (Int × Int)) fr =>
        match extractStackFrame fuel env fr refsVal with
        | none => none
        | some stackFrame =>
          if stackFrame.level < 0 then some acc
          else
            let i : Int := acc.1.length
            some (acc.1 ++ [{ stackFrame with level := i }],
                  hashInsert acc.2 i stackFrame.level)) ([], [])
    match loop with
    | none => none
    | some (stackFrames, lookupTable) =>
      let d := { d with stackIndexLookup := lookupTable,
                        stackHandler := d.stackHandler.setFrames stackFrames }
      handleFrame fuel d ((frames.get? 0).getD QVariant.invalid) refsVal

/-- The function `QmlEnginePrivate::handleScope`. -/
def handleScope (fuel : Nat) (d : QmlEnginePrivate) (bodyVal refsVal : QVariant) :
    Option QmlEnginePrivate :=
  let bodyMap := bodyVal.toMap
  if (mapValue bodyMap "frameIndex").toInt ≠ d.stackHandler.currentIndex then some d
  else
    match extractData fuel (mapValue bodyMap "object") refsVal with
    | none => none
    | some objectData =>
      let loop : Option (QmlEnginePrivate × List Int) :=
        objectData.properties.foldlM (fun (acc : QmlEnginePrivate × List Int) property =>
          match extractData fuel property refsVal with
          | none => none
          | some localData =>
            let exp := localData.name
            if startsWith exp "." || decide (exp = "") then some acc
            else
              let handle := localData.handle
              if localData.value.isValid then
                let item : WatchItem :=
                  { exp := exp, name := exp, iname := "local." ++ exp, id := toQuint64 handle,
                    type := localData.type, value := localData.value.toString,
                    wantsChildren := decide (localData.properties.length ≠ 0) }
                some ({ acc.1 with watchHandler := acc.1.watchHandler.insertItem item }, acc.2)
              else
                some ({ acc.1 with localsAndWatchers :=
                          hashInsertMulti acc.1.localsAndWatchers handle exp },
                      acc.2 ++ [handle])) (d, [])
      match loop with
      | none => none
      | some (d, handlesToLookup) =>
        if handlesToLookup ≠ [] then some (lookup d handlesToLookup)
        else some (emit d Effect.notifyUpdateFinished)

/-- The function `QmlEnginePrivate::handleEvaluate`.  `none`: a recursion of
`extractData` deeper than `fuel`, or the `local.this` item is missing when the
locals are refreshed (a null pointer is dereferenced). -/
def handleEvaluate (fuel : Nat) (env : Env) (d : QmlEnginePrivate) (sequence : Int)
    (success : Bool) (bodyVal refsVal : QVariant) : Option QmlEnginePrivate :=
  if d.updateLocalsAndWatchers.contains sequence then
    let d := { d with updateLocalsAndWatchers := removeOne d.updateLocalsAndWatchers sequence }
    let d := d.currentFrameScopes.foldl (fun d index => scope d index) d
    let iname := "local.this"
    match d.watchHandler.findItem iname with
    | none => none
    | some parent =>
      let d := { d with localsAndWatchers :=
                   hashInsertMulti d.localsAndWatchers (wrapInt32 parent.id) iname }
      some (lookup d [wrapInt32 parent.id])
  else if d.debuggerCommands.contains sequence then
    let d := { d with updateLocalsAndWatchers := removeOne d.updateLocalsAndWatchers sequence }
    match extractData fuel bodyVal refsVal with
    | none => none
    | some body =>
      let printed : Option QmlEnginePrivate :=
        if env.hasConsoleManager then
          match constructLogItemTree fuel body refsVal with
          | none => none
          | some none => some d
          | some (some item) => some (emit d (Effect.printToConsolePane item))
        else some d
      match printed with
      | none => none
      | some d => some (d.currentFrameScopes.foldl (fun d index => scope d index) d)
  else
    match extractData fuel bodyVal refsVal with
    | none => none
    | some body =>
      if hashContains d.evaluatingExpression sequence then
        let exp := (hashValue d.evaluatingExpression sequence).getD ""
        let d := { d with evaluatingExpression := hashTakeRest d.evaluatingExpression sequence }
        if startsWith exp "local." then
          match insertSubItems fuel d.watchHandler (d.watchHandler.findItem exp)
                  body.properties refsVal with
          | none => none
          | some w => some { d with watchHandler := w }
        else
          let iname := env.watcherName exp
          let item : WatchItem :=
            { iname := iname, name := exp, exp := exp, id := toQuint64 body.handle }
          let item :=
            if success then
              { item with type := body.type, value := body.value.toString,
                          wantsChildren := decide (body.properties.length ≠ 0) }
            else item.setError body.value.toString
          let w := d.watchHandler.insertItem item
          match insertSubItems fuel w (some item) body.properties refsVal with
          | none => none
          | some w => some { d with watchHandler := w }
      else some d

/-- The function `QmlEnginePrivate::handleLookup`. -/
def handleLookup (fuel : Nat) (d : QmlEnginePrivate) (bodyVal refsVal : QVariant) :
    Option QmlEnginePrivate :=
  let body := bodyVal.toMap
  let handlesList := body.map Prod.fst
  let loop : Option QmlEnginePrivate :=
    handlesList.foldlM (fun d handle =>
      match extractData fuel (mapValue body handle) refsVal with
      | none => none
      | some bodyObjectData =>
        let pre := (hashValue d.localsAndWatchers (stringToInt handle)).getD ""
        let d := { d with localsAndWatchers := hashTakeRest d.localsAndWatchers (stringToInt handle) }
        if startsWith pre "local." || startsWith pre "watch." then
          match insertSubItems fuel d.watchHandler (d.watchHandler.findItem pre)
                  bodyObjectData.properties refsVal with
          | none => none
          | some w => some { d with watchHandler := w }
        else
          let item : WatchItem :=
            { exp := pre, name := pre, iname := "local." ++ pre,
              id := toQuint64 (stringToInt handle), type := bodyObjectData.type,
              value := bodyObjectData.value.toString,
              wantsChildren := decide (bodyObjectData.properties.length ≠ 0) }
          some { d with watchHandler := d.watchHandler.insertItem item }) d
  loop.map (fun d => emit d Effect.notifyUpdateFinished)

/-! ## Wire codec -/

/-- A `QByteArray` holding binary data. -/
abbrev Bytes := List Nat

/-- The bytes of an ASCII tag. -/
def asciiBytes (s : String) : Bytes := s.toList.map Char.toNat

/-- The stream operator `<<` of a `quint32`: four bytes, most significant first. -/
def writeUInt32 (n : Nat) : Bytes :=
  [n / 16777216 % 256, n / 65536 % 256, n / 256 % 256, n % 256]

/-- The stream operator `<<` of a `QByteArray`: the length as `quint32`, then the
bytes; a null array (`none`) is written as the length `0xFFFFFFFF`. -/
def writeByteArray : Option Bytes → Bytes
  | none => writeUInt32 4294967295
  | some b => writeUInt32 b.length ++ b

/-- The stream operator `>>` of a `QByteArray`: the array read and the rest of
the stream; the empty array and an exhausted stream when the data is short. -/
def readByteArray : Bytes → Bytes × Bytes
  | b0 :: b1 :: b2 :: b3 :: rest =>
    let len := b0 * 16777216 + b1 * 65536 + b2 * 256 + b3
    if len = 4294967295 then ([], rest)
    else if rest.length < len then ([], [])
    else (rest.take len, rest.drop len)
  | _ => ([], [])

/-- The bytes of the message argument of `packMessage`, given the JSON
serialiser `QJsonDocument::toJson(Compact)`; `none` is the null array of the
default argument. -/
def Payload.bytes (toJson : QVariant → Bytes) : Payload → Option Bytes
  | Payload.empty => none
  | Payload.json doc => some (toJson doc)
  | Payload.signal target enabled =>
    some (writeByteArray (some (asciiBytes target)) ++ [if enabled then 1 else 0])

/-- The bytes `packMessage` returns: `rs << cmd << type << message`. -/
def Packet.encode (toJson : QVariant → Bytes) (p : Packet) : Bytes :=
  writeByteArray (some (asciiBytes p.service)) ++ writeByteArray (some (asciiBytes p.type))
    ++ writeByteArray (p.message.bytes toJson)

/-- The reader at the head of `messageReceived`: `ds >> command`, then
`ds >> type >> response`. -/
def readPacket (data : Bytes) : Bytes × Bytes × Bytes :=
  let (command, rest) := readByteArray data
  let (type, rest) := readByteArray rest
  let (response, _) := readByteArray rest
  (command, type, response)

/-- The reader of `messageReceived` followed by the JSON parse of the payload
(`fromJson` is `QJsonDocument::fromJson(..).toVariant()`): service tag,
sub-type and decoded document. -/
def decodeFrame (fromJson : Bytes → QVariant) (data : Bytes) : Bytes × Bytes × QVariant :=
  let (command, type, response) := readPacket data
  (command, type, fromJson response)

/-! ## Dispatch of incoming messages -/

/-- Whether a character is white space for `QString::trimmed` (the ASCII
white space). -/
def isSpace (c : Char) : Bool :=
  decide (c = ' ') || (decide (9 ≤ c.toNat) && decide (c.toNat ≤ 13))

/-- The test `s.trimmed().startsWith(c)`. -/
def trimmedStartsWith (s : String) (c : Char) : Bool :=
  match s.toList.dropWhile isSpace with
  | [] => false
  | x :: _ => decide (x = c)

/-- Qt `QString::indexOf(c)`: `-1` when the character does not occur. -/
def indexOf (s : String) (c : Char) : Int :=
  match s.toList.indexOf? c with
  | some i => (i : Int)
  | none => -1

/-- The update of the breakpoint data at a surfaced `break` event. -/
def updateBreakpointData (d : QmlEnginePrivate) (v8BreakpointIds : List Int)
    (invocationText : String) (sourceLine : Int) : QmlEnginePrivate :=
  v8BreakpointIds.foldl (fun d v8Id =>
    match hashKey d.breakpoints v8Id with
    | none => d
    | some id =>
      match d.breakHandler.breakpointById id with
      | none => d
      | some bp =>
        let br := bp.response
        let br := if br.functionName = "" then { br with functionName := invocationText } else br
        let d := { d with breakHandler := d.breakHandler.setResponse id br }
        if bp.state ≠ BreakpointState.BreakpointInserted then
          let br := { br with lineNumber := sourceLine + 1 }
          let d := { d with breakHandler := d.breakHandler.setResponse id br }
          setBreakpointState d id BreakpointState.BreakpointInserted
        else d) d

/-- The relocation of the breakpoints of a false hit: each one is cleared and
set again at the new column. -/
def relocateBreakpoints (d : QmlEnginePrivate) (v8BreakpointIds : List Int) (newColumn : Int) :
    QmlEnginePrivate :=
  v8BreakpointIds.foldl (fun d v8Id =>
    match hashKey d.breakpoints v8Id with
    | none => d
    | some id =>
      match d.breakHandler.breakpointById id with
      | none => d
      | some bp =>
        let params := bp.params
        let d := clearBreakpoint d v8Id
        let d := setBreakpoint d "scriptRegExp" params.fileName params.enabled params.lineNumber
                   newColumn params.condition params.ignoreCount
        { d with breakpointsSync := hashInsert d.breakpointsSync d.sequence id }) d

/-- The `break` event branch of `messageReceived`. -/
def handleBreakEvent (d : QmlEnginePrivate) (resp : QVariantMap) : QmlEnginePrivate :=
  let breakData := (mapValue resp "body").toMap
  let invocationText := (mapValue breakData "invocationText").toString
  let scriptUrl := (mapValue (mapValue breakData "script").toMap "name").toString
  let sourceLineText := (mapValue breakData "sourceLineText").toString
  let v8BreakpointIds := (mapValue breakData "breakpoints").toList.map QVariant.toInt
  let falseHit : Bool :=
    decide (v8BreakpointIds ≠ []) && startsWith invocationText "[anonymous]()"
      && endsWith scriptUrl ".qml" && trimmedStartsWith sourceLineText '('
  let d :=
    if falseHit then
      let newColumn := indexOf sourceLineText '(' + 1
      continueDebugging (relocateBreakpoints d v8BreakpointIds newColumn) StepAction.Continue
    else d
  let internal : Bool := decide (sourceLineText = INTERNAL_FUNCTION)
  let d := if internal then continueDebugging d d.previousStepAction else d
  let inferiorStop : Bool := !falseHit && !internal
  if inferiorStop then
    let d := updateBreakpointData d v8BreakpointIds invocationText
               (mapValue breakData "sourceLine").toInt
    if d.engineState = DebuggerState.InferiorRunOk then
      let d := v8BreakpointIds.foldl (fun d breakpointId =>
        if d.breakpointsTemp.contains breakpointId then clearBreakpoint d breakpointId else d) d
      backtrace (notifyInferiorSpontaneousStop d)
    else if d.engineState = DebuggerState.InferiorStopOk then backtrace d
    else d
  else d

/-- The `exception` event branch of `messageReceived`. -/
def handleExceptionEvent (env : Env) (d : QmlEnginePrivate) (resp : QVariantMap) :
    QmlEnginePrivate :=
  let body := (mapValue resp "body").toMap
  let lineNumber := (mapValue body "sourceLine").toInt + 1
  let script := (mapValue body "script").toMap
  let filePath := env.toFileInProject (mapValue script "name").toString
  let errorMessage := (mapValue (mapValue body "exception").toMap "text").toString
  let messages := env.highlightExceptionCode lineNumber filePath errorMessage
  let d := messages.foldl (fun d msg => emit d (Effect.showConsoleMessage msg)) d
  let d :=
    if d.engineState = DebuggerState.InferiorRunOk then backtrace (notifyInferiorSpontaneousStop d)
    else d
  if d.engineState = DebuggerState.InferiorStopOk then backtrace d else d

/-- The `setbreakpoint` response branch of `messageReceived`. -/
def handleSetBreakpointResponse (d : QmlEnginePrivate) (resp : QVariantMap) : QmlEnginePrivate :=
  let seq := (mapValue resp "request_seq").toInt
  let breakpointData := (mapValue resp "body").toMap
  let index := (mapValue breakpointData "breakpoint").toInt
  match hashValue d.breakpointsSync seq with
  | some id =>
    let d := { d with breakpointsSync := hashTakeRest d.breakpointsSync seq,
                      breakpoints := hashInsert d.breakpoints id index }
    let actualLocations := (mapValue breakpointData "actual_locations").toList
    if actualLocations.length ≠ 0 then
      match d.breakHandler.breakpointById id with
      | none => d
      | some bp =>
        if bp.state ≠ BreakpointState.BreakpointInserted then
          let br := { bp.response with lineNumber := (mapValue breakpointData "line").toInt + 1 }
          let d := { d with breakHandler := d.breakHandler.setResponse id br }
          setBreakpointState d id BreakpointState.BreakpointInserted
        else d
    else d
  | none => { d with breakpointsTemp := d.breakpointsTemp ++ [index] }

/-- The `scripts` response branch of `messageReceived` (for `success`). -/
def handleScriptsResponse (env : Env) (d : QmlEnginePrivate) (resp : QVariantMap) :
    QmlEnginePrivate :=
  let body := (mapValue resp "body").toList
  let acc : QmlEnginePrivate × List String :=
    body.foldl (fun (acc : QmlEnginePrivate × List String) entry =>
      let entryMap := entry.toMap
      let lineOffset := (mapValue entryMap "lineOffset").toInt
      let columnOffset := (mapValue entryMap "columnOffset").toInt
      let name := (mapValue entryMap "name").toString
      let source := (mapValue entryMap "source").toString
      if name = "" then acc
      else
        let sourceFiles := if acc.2.contains name then acc.2 else acc.2 ++ [name]
        (emit acc.1 (Effect.updateScriptSource name lineOffset columnOffset source),
         sourceFiles)) (d, [])
  emit acc.1 (Effect.setSourceFiles (acc.2.map (fun file => (file, env.toFileInProject file))))

/-- The `response` branch of `messageReceived`: dispatch on the command name,
given the `success` flag and the command name read from the response. -/
def dispatchResponse (fuel : Nat) (env : Env) (d : QmlEnginePrivate) (resp : QVariantMap)
    (success : Bool) (debugCommand : String) : Option QmlEnginePrivate :=
  if debugCommand = "disconnect" then some d
  else if debugCommand = "continue" then some d
  else if debugCommand = "backtrace" then
    if success then handleBacktrace fuel env d (mapValue resp "body") (mapValue resp "refs")
    else some d
  else if debugCommand = "lookup" then
    if success then handleLookup fuel d (mapValue resp "body") (mapValue resp "refs")
    else some d
  else if debugCommand = "evaluate" then
    if success then
      handleEvaluate fuel env d (mapValue resp "request_seq").toInt success
        (mapValue resp "body") (mapValue resp "refs")
    else
      handleEvaluate fuel env d (mapValue resp "request_seq").toInt success
        (QVariant.map [("type", QVariant.str "string"), ("value", mapValue resp "message")])
        QVariant.invalid
  else if debugCommand = "setbreakpoint" then some (handleSetBreakpointResponse d resp)
  else if debugCommand = "clearbreakpoint" then some d
  else if debugCommand = "setexceptionbreak" then some d
  else if debugCommand = "frame" then
    if success then handleFrame fuel d (mapValue resp "body") (mapValue resp "refs")
    else some d
  else if debugCommand = "scope" then
    if success then handleScope fuel d (mapValue resp "body") (mapValue resp "refs")
    else some d
  else if debugCommand = "scripts" then
    if success then some (handleScriptsResponse env d resp) else some d
  else if debugCommand = "version" then some d
  else some d

/-- The `response` branch of `messageReceived`. -/
def handleResponse (fuel : Nat) (env : Env) (d : QmlEnginePrivate) (resp : QVariantMap) :
    Option QmlEnginePrivate :=
  dispatchResponse fuel env d resp (mapValue resp "success").toBool
    (mapValue resp "command").toString

/-- The `event` branch of `messageReceived`: dispatch on the event name. -/
def handleEvent (fuel : Nat) (env : Env) (d : QmlEnginePrivate) (resp : QVariantMap) :
    Option QmlEnginePrivate :=
  let eventType := (mapValue resp "event").toString
  let d :=
    if eventType = "break" then handleBreakEvent d resp
    else if eventType = "exception" then handleExceptionEvent env d resp
    else d
  if eventType = "" then
    let success := (mapValue resp "success").toBool
    let map : QVariantMap := [("type", QVariant.str "string"), ("value", mapValue resp "message")]
    handleEvaluate fuel env d d.sequence success (QVariant.map map) QVariant.invalid
  else some d

/-- The decoded JSON envelope of a `V8MESSAGE` frame: dispatch on its `type`. -/
def handleV8Message (fuel : Nat) (env : Env) (d : QmlEnginePrivate) (resp : QVariantMap) :
    Option QmlEnginePrivate :=
  let type := (mapValue resp "type").toString
  if type = "response" then handleResponse fuel env d resp
  else if type = "event" then handleEvent fuel env d resp
  else some d

/-- The function `QmlEnginePrivate::messageReceived`.  `none`: the call does not
return (a recursion deeper than `fuel`, or a null pointer is dereferenced). -/
def messageReceived (fuel : Nat) (env : Env) (d : QmlEnginePrivate) (data : Bytes) :
    Option QmlEnginePrivate :=
  let (command, type, response) := readPacket data
  if command = asciiBytes V8DEBUG then
    if type = asciiBytes CONNECT then some d
    else if type = asciiBytes INTERRUPT then some d
    else if type = asciiBytes BREAKONSIGNAL then some d
    else if type = asciiBytes V8MESSAGE then
      handleV8Message fuel env d (env.fromJson response).toMap
    else some d
  else some d

/-! ## Breakpoint synchroniser -/

/-- The function `QmlEngine::insertBreakpoint`, for the breakpoint with the
given id (no effect when the break handler has no such breakpoint). -/
def insertBreakpoint (env : Env) (d : QmlEnginePrivate) (id : BreakpointModelId) :
    QmlEnginePrivate :=
  match d.breakHandler.breakpointById id with
  | none => d
  | some bp =>
    let d := setBreakpointState d id BreakpointState.BreakpointInsertProceeding
    let params := bp.params
    let adjusted : Option (Int × Int) × QmlEnginePrivate :=
      if params.type = BreakpointType.BreakpointByFileAndLine then
        match env.adjustBreakpointLineAndColumn params.fileName params.lineNumber with
        | none =>
          (none, { d with pendingBreakpoints :=
                     hashInsertMulti d.pendingBreakpoints params.fileName id })
        | some (line, column, valid) => if valid then (some (line, column), d) else (none, d)
      else (some (params.lineNumber, 0), d)
    match adjusted with
    | (none, d) => d
    | (some (line, column), d) =>
      let d :=
        if params.type = BreakpointType.BreakpointAtJavaScriptThrow then
          let d := setBreakpointState d id BreakpointState.BreakpointInserted
          setExceptionBreak d Exceptions.AllExceptions params.enabled
        else if params.type = BreakpointType.BreakpointByFileAndLine then
          setBreakpoint d "scriptRegExp" params.fileName params.enabled line column
            params.condition params.ignoreCount
        else if params.type = BreakpointType.BreakpointOnQmlSignalEmit then
          let d := setBreakpoint d "event" params.functionName params.enabled
          setBreakpointState d id BreakpointState.BreakpointInserted
        else d
      { d with breakpointsSync := hashInsert d.breakpointsSync d.sequence id }

/-- The table left by erasing the first binding of `key` whose value is `v`,
if there is one. -/
def eraseBinding {κ ν : Type} [DecidableEq κ] [DecidableEq ν] :
    List (κ × ν) → κ → ν → List (κ × ν)
  | [], _, _ => []
  | kv :: h, k, v => if kv.1 = k ∧ kv.2 = v then h else kv :: eraseBinding h k v

/-- The function `QmlEngine::removeBreakpoint`. -/
def removeBreakpoint (d : QmlEnginePrivate) (id : BreakpointModelId) : QmlEnginePrivate :=
  match d.breakHandler.breakpointById id with
  | none => d
  | some bp =>
    let params := bp.params
    if params.type = BreakpointType.BreakpointByFileAndLine
        ∧ (params.fileName, id) ∈ d.pendingBreakpoints then
      { d with pendingBreakpoints := eraseBinding d.pendingBreakpoints params.fileName id }
    else
      let d := setBreakpointState d id BreakpointState.BreakpointRemoveProceeding
      let breakpoint := (hashValue d.breakpoints id).getD 0
      let d := { d with breakpoints := hashRemove d.breakpoints id }
      let d :=
        if params.type = BreakpointType.BreakpointAtJavaScriptThrow then
          setExceptionBreak d Exceptions.AllExceptions
        else if params.type = BreakpointType.BreakpointOnQmlSignalEmit then
          setBreakpoint d "event" params.functionName false
        else clearBreakpoint d breakpoint
      match d.breakHandler.breakpointById id with
      | some bp =>
        if bp.state = BreakpointState.BreakpointRemoveProceeding then
          setBreakpointState d id BreakpointState.BreakpointDead
        else d
      | none => d

/-- The function `QmlEngine::changeBreakpoint`. -/
def changeBreakpoint (d : QmlEnginePrivate) (id : BreakpointModelId) : QmlEnginePrivate :=
  match d.breakHandler.breakpointById id with
  | none => d
  | some bp =>
    let d := setBreakpointState d id BreakpointState.BreakpointChangeProceeding
    let params := bp.params
    let br := bp.response
    let d :=
      if params.type = BreakpointType.BreakpointAtJavaScriptThrow then
        let d := setExceptionBreak d Exceptions.AllExceptions params.enabled
        { d with breakHandler :=
            d.breakHandler.setResponse id { br with enabled := params.enabled } }
      else if params.type = BreakpointType.BreakpointOnQmlSignalEmit then
        let d := setBreakpoint d "event" params.functionName params.enabled
        { d with breakHandler :=
            d.breakHandler.setResponse id { br with enabled := params.enabled } }
      else
        let d := setBreakpointState d id BreakpointState.BreakpointInserted
        let d := setBreakpointState d id BreakpointState.BreakpointRemoveRequested
        { d with breakHandler := d.breakHandler.appendBreakpoint params }
    match d.breakHandler.breakpointById id with
    | some bp =>
      if bp.state = BreakpointState.BreakpointChangeProceeding then
        setBreakpointState d id BreakpointState.BreakpointInserted
      else d
    | none => d

/-- The function `QmlEngine::acceptsBreakpoint`. -/
def acceptsBreakpoint (bp : Breakpoint) : Bool :=
  if !bp.params.isCppBreakpoint then true
  else
    decide (bp.params.type = BreakpointType.BreakpointOnQmlSignalEmit)
      || decide (bp.params.type = BreakpointType.BreakpointByFileAndLine)
      || decide (bp.params.type = BreakpointType.BreakpointAtJavaScriptThrow)

/-- The function `QmlEngine::attemptBreakpointSynchronization`, when the engine
state accepts breakpoint changes: unclaimed breakpoints the engine accepts
are claimed (they become `InsertRequested`), then every owned breakpoint is
dispatched on its state. -/
def attemptBreakpointSynchronization (env : Env) (d : QmlEnginePrivate) : QmlEnginePrivate :=
  let claim : BreakHandler :=
    { d.breakHandler with items := d.breakHandler.items.map (fun bp =>
        if !bp.claimed && acceptsBreakpoint bp then
          { bp with claimed := true, state := BreakpointState.BreakpointInsertRequested }
        else bp) }
  let d := { d with breakHandler := claim }
  let owned := (d.breakHandler.items.filter (fun bp => bp.claimed)).map (fun bp => bp.id)
  owned.foldl (fun d id =>
    match d.breakHandler.breakpointById id with
    | none => d
    | some bp =>
      match bp.state with
      | BreakpointState.BreakpointInsertRequested => insertBreakpoint env d id
      | BreakpointState.BreakpointChangeRequested => changeBreakpoint d id
      | BreakpointState.BreakpointRemoveRequested => removeBreakpoint d id
      | _ => d) d

/-- The function `QmlEngine::documentUpdated`, for the file name of the updated
document. -/
def documentUpdated (env : Env) (d : QmlEnginePrivate) (fileName : String) : QmlEnginePrivate :=
  if hashContains d.pendingBreakpoints fileName then
    let bps := hashValues d.pendingBreakpoints fileName
    let d := { d with pendingBreakpoints := hashRemove d.pendingBreakpoints fileName }
    bps.foldl (fun d bp => insertBreakpoint env d bp) d
  else d

/-- A fresh engine: the counter at `-1`, nothing sent. -/
def freshEngine : QmlEnginePrivate := {}

/-! ## Connection state and the transition system of the engine -/

/-- The function `QmlEnginePrivate::flushSendBuffer`. -/
def flushSendBuffer (d : QmlEnginePrivate) : QmlEnginePrivate :=
  if d.clientState ≠ ClientState.Enabled then d
  else { d with sent := d.sent ++ d.sendBuffer, sendBuffer := [] }

/-- The function `QmlEnginePrivate::stateChanged`, called when the client has
entered the given state. -/
def stateChanged (d : QmlEnginePrivate) (state : ClientState) : QmlEnginePrivate :=
  let d := { d with clientState := state }
  if state = ClientState.Enabled then version (connect (flushSendBuffer d)) else d

/-- Modelled from the spec: the user asks for a change of a breakpoint,
`Inserted ⇄ ChangeRequested`. -/
def requestChange (d : QmlEnginePrivate) (id : BreakpointModelId) : QmlEnginePrivate :=
  { d with breakHandler := d.breakHandler.modify id (fun b =>
      if b.state = BreakpointState.BreakpointInserted then
        { b with state := BreakpointState.BreakpointChangeRequested }
      else b) }

/-- Modelled from the spec: the user removes a breakpoint, `* → RemoveRequested`. -/
def requestRemove (d : QmlEnginePrivate) (id : BreakpointModelId) : QmlEnginePrivate :=
  setBreakpointState d id BreakpointState.BreakpointRemoveRequested

/-- What can happen to the engine: the user edits the breakpoint list, the
break handler asks for synchronisation, a document is loaded, a message
arrives, another part of the engine issues a request, or the debugger or the
connection changes state. -/
inductive Input where
  | appendBreakpoint : BreakpointParameters → Input
  | requestChange : BreakpointModelId → Input
  | requestRemove : BreakpointModelId → Input
  | attemptBreakpointSynchronization : Env → Input
  | documentUpdated : Env → String → Input
  | messageReceived : Nat → Env → Bytes → Input
  | command : Command → Input
  | setEngineState : DebuggerState → Input
  | stateChanged : ClientState → Input

/-- One step of the engine; `none` when the call does not return. -/
def step (d : QmlEnginePrivate) : Input → Option QmlEnginePrivate
  | Input.appendBreakpoint params =>
    some { d with breakHandler := d.breakHandler.appendBreakpoint params }
  | Input.requestChange id => some (requestChange d id)
  | Input.requestRemove id => some (requestRemove d id)
  | Input.attemptBreakpointSynchronization env => some (attemptBreakpointSynchronization env d)
  | Input.documentUpdated env fileName => some (documentUpdated env d fileName)
  | Input.messageReceived fuel env data => messageReceived fuel env d data
  | Input.command c => some (c.run d)
  | Input.setEngineState st => some { d with engineState := st }
  | Input.stateChanged st => some (stateChanged d st)

/-- The state reached from `d` by a sequence of inputs, first to last. -/
def run (d : QmlEnginePrivate) : List Input → Option QmlEnginePrivate
  | [] => some d
  | i :: is =>
    match step d i with
    | none => none
    | some e => run e is

/-- The state with the fields a request builder writes (counter, last step
action, send buffer, transport log, trace) blanked out. -/
def QmlEnginePrivate.core (d : QmlEnginePrivate) : QmlEnginePrivate :=
  { d with sequence := 0, previousStepAction := StepAction.Continue, sendBuffer := [],
           sent := [], trace := [] }

/-- The break handler and the binding table of a state. -/
def bpView (d : QmlEnginePrivate) : BreakHandler × List (BreakpointModelId × Int) :=
  (d.breakHandler, d.breakpoints)


/-- Whether a request-building operation builds a JSON request (all do,
except `setBreakpoint` for the type `event`). -/
def Command.buildsRequest : Command → Bool
  | Command.setBreakpoint ty _ _ _ _ _ _ => decide (ty ≠ "event")
  | _ => true

/-- What a call that builds one JSON request does to the counter and the
trace: the counter is incremented (as an `int`) and one message carrying the
new value as `seq` is sent. -/
def IssuesNext (d e : QmlEnginePrivate) : Prop :=
  e.sequence = wrapInt32 (d.sequence + 1) ∧
  ∃ p, e.trace = d.trace ++ [Effect.sendMessage p] ∧ p.seq = some (wrapInt32 (d.sequence + 1))

/-- What a call that sends one message without a sequence number does. -/
def IssuesNone (d e : QmlEnginePrivate) : Prop :=
  e.sequence = d.sequence ∧
  ∃ p, e.trace = d.trace ++ [Effect.sendMessage p] ∧ p.seq = none

/-- The integers `s + 1, ..., s + k`. -/
def consecutiveFrom (s : Int) : Nat → List Int
  | 0 => []
  | k + 1 => (s + 1) :: consecutiveFrom (s + 1) k

/-- The remote breakpoint indices a `break` event lists (`body.breakpoints`). -/
def eventBreakpointIds (resp : QVariantMap) : List Int :=
  (mapValue (mapValue resp "body").toMap "breakpoints").toList.map QVariant.toInt

/-- The invocation text of a `break` event (`body.invocationText`). -/
def eventInvocationText (resp : QVariantMap) : String :=
  (mapValue (mapValue resp "body").toMap "invocationText").toString

/-- The script name of a `break` event (`body.script.name`). -/
def eventScriptName (resp : QVariantMap) : String :=
  (mapValue (mapValue (mapValue resp "body").toMap "script").toMap "name").toString

/-- The source line text of a `break` event (`body.sourceLineText`). -/
def eventSourceLineText (resp : QVariantMap) : String :=
  (mapValue (mapValue resp "body").toMap "sourceLineText").toString

/-- The pattern of the wrapper function generated for a binding: the
invocation text starts with `[anonymous]()`, the script name ends with `.qml`
and the source line, trimmed, begins with `(`. -/
def wrapperPattern (resp : QVariantMap) : Bool :=
  startsWith (eventInvocationText resp) "[anonymous]()"
    && endsWith (eventScriptName resp) ".qml"
    && trimmedStartsWith (eventSourceLineText resp) '('

/-- The false-hit test of `messageReceived`: the event lists at least one
breakpoint and shows the wrapper pattern. -/
def falseHitRule (resp : QVariantMap) : Bool :=
  decide (eventBreakpointIds resp ≠ []) && wrapperPattern resp

/-- The internal-function test of `messageReceived`: the source line text is
the internal-function marker. -/
def internalRule (resp : QVariantMap) : Bool :=
  decide (eventSourceLineText resp = INTERNAL_FUNCTION)

/-- The console messages of an `exception` event: the error text of the
event highlighted in the source line it names
(`highlightExceptionCode(lineNumber, filePath, errorMessage)`). -/
def exceptionMessages (env : Env) (resp : QVariantMap) : List String :=
  env.highlightExceptionCode ((mapValue (mapValue resp "body").toMap "sourceLine").toInt + 1)
    (env.toFileInProject
      (mapValue (mapValue (mapValue resp "body").toMap "script").toMap "name").toString)
    (mapValue (mapValue (mapValue resp "body").toMap "exception").toMap "text").toString

/-- The loop of `messageReceived` that clears, at a surfaced `break` event
received while running, the listed indices found in `breakpointsTemp`. -/
def clearTemporaryBreakpoints (d : QmlEnginePrivate) (v8BreakpointIds : List Int) :
    QmlEnginePrivate :=
  v8BreakpointIds.foldl (fun d breakpointId =>
    if d.breakpointsTemp.contains breakpointId then clearBreakpoint d breakpointId else d) d

/-- The command and the arguments of the JSON requests among the calls of a
trace, in order. -/
def requestsOf (trace : List Effect) : List (String × QVariant) :=
  trace.filterMap (fun e =>
    match e with
    | Effect.sendMessage p => p.command.map (fun c => (c, p.arguments))
    | _ => none)

/-- The `arguments` object of a `setbreakpoint` request, entry by entry:
`type`, `enabled` and `target` always, `line` (zero-based) when the line is
not `0`, `column` (zero-based) when the column is not `0`, `condition` when it
is not empty and `ignoreCount` when it is not `-1`. -/
def setBreakpointArguments (type target : String) (enabled : Bool) (line column : Int)
    (condition : String) (ignoreCount : Int) : QVariantMap :=
  [("type", QVariant.str type), ("enabled", QVariant.bool enabled),
   ("target", QVariant.str (if type = "scriptRegExp" then fileNameOf target else target))]
    ++ (if line ≠ 0 then [("line", QVariant.num (line - 1))] else [])
    ++ (if column ≠ 0 then [("column", QVariant.num (column - 1))] else [])
    ++ (if condition ≠ "" then [("condition", QVariant.str condition)] else [])
    ++ (if ignoreCount ≠ -1 then [("ignoreCount", QVariant.num ignoreCount)] else [])

/-- The JSON request with the given sequence number, command and arguments
object, as `sendAndLogV8Request` packs it. -/
def requestPacket (seq : Int) (command : String) (arguments : QVariantMap) : Packet :=
  packMessage V8REQUEST (Payload.json (QVariant.map
    [("seq", QVariant.num seq), ("type", QVariant.str "request"),
     ("command", QVariant.str command), ("arguments", QVariant.map arguments)]))

/-- The JSON `continue` request with the given sequence number for a step
action: `stepaction` is `in`, `out` or `next`, and a plain continue has no
`arguments` at all. -/
def continueRequest (seq : Int) (action : StepAction) : Packet :=
  packMessage V8REQUEST (Payload.json (QVariant.map
    ([("seq", QVariant.num seq), ("type", QVariant.str "request"),
      ("command", QVariant.str "continue")]
      ++ match action with
         | StepAction.Continue => []
         | StepAction.StepIn =>
           [("arguments", QVariant.map [("stepaction", QVariant.str "in")])]
         | StepAction.StepOut =>
           [("arguments", QVariant.map [("stepaction", QVariant.str "out")])]
         | StepAction.Next =>
           [("arguments", QVariant.map [("stepaction", QVariant.str "next")])])))

/-- The listed indices of a `break` event that the binding table maps to a
breakpoint of the break handler, each with the id and the breakpoint it is
bound to (the test `bp.isValid()` of the relocation loop). -/
def relocatedBreakpoints (d : QmlEnginePrivate) (v8BreakpointIds : List Int) :
    List (Int × BreakpointModelId × Breakpoint) :=
  v8BreakpointIds.filterMap (fun v8Id =>
    match hashKey d.breakpoints v8Id with
    | none => none
    | some id => (d.breakHandler.breakpointById id).map (fun bp => (v8Id, id, bp)))

/-- The requests of a relocation as the specification describes them: for
every relocated index, a `clearbreakpoint` request for the index followed by
a `setbreakpoint` request for the file and line of its breakpoint at the new
column, numbered consecutively after `seq`. -/
def relocationRequests (seq column : Int) :
    List (Int × BreakpointModelId × Breakpoint) → List Effect
  | [] => []
  | (v8Id, _, bp) :: rest =>
    Effect.sendMessage
        (requestPacket (seq + 1) "clearbreakpoint" [("breakpoint", QVariant.num v8Id)])
      :: Effect.sendMessage
          (requestPacket (seq + 2) "setbreakpoint"
            (setBreakpointArguments "scriptRegExp" bp.params.fileName bp.params.enabled
              bp.params.lineNumber column bp.params.condition bp.params.ignoreCount))
      :: relocationRequests (seq + 2) column rest

/-- The frame loop of `handleBacktrace`, on its own: the frames that
`extractStackFrame` does not mark with a negative level are collected, each
with its position in the collection as level, next to the table from the new
levels to the remote ones. -/
def collectStackFrames (fuel : Nat) (env : Env) (frames : QVariantList) (refsVal : QVariant) :
    Option (List StackFrame × List (Int × Int)) :=
  frames.foldlM (fun (acc : List StackFrame × List (Int × Int)) fr =>
    match extractStackFrame fuel env fr refsVal with
    | none => none
    | some stackFrame =>
      if stackFrame.level < 0 then some acc
      else
        let i : Int := acc.1.length
        some (acc.1 ++ [{ stackFrame with level := i }],
              hashInsert acc.2 i stackFrame.level)) ([], [])

/-- Whether the source line text of a frame of a backtrace response is the
internal-function marker. -/
def isInternalFrame (fr : QVariant) : Bool :=
  isString (mapValue fr.toMap "sourceLineText") INTERNAL_FUNCTION

/-- The frames of a backtrace response that are shown: those that are not
internal frames and whose `index` is not negative, in the response order. -/
def visibleFrames (frames : QVariantList) : QVariantList :=
  frames.filter (fun fr => !isInternalFrame fr && decide (0 ≤ (mapValue fr.toMap "index").toInt))

/-- The frames of a list with the levels `i`, `i + 1`, ... in place of
theirs. -/
def renumberFrom : Nat → List StackFrame → List StackFrame
  | _, [] => []
  | i, sf :: rest => { sf with level := (i : Int) } :: renumberFrom (i + 1) rest

/-- The lifecycle states a breakpoint is in once it has been `Inserted` and
until it is removed: `Inserted`, `ChangeRequested`, `ChangeProceeding`. -/
def BreakpointState.isEstablished : BreakpointState → Bool
  | BreakpointState.BreakpointInserted => true
  | BreakpointState.BreakpointChangeRequested => true
  | BreakpointState.BreakpointChangeProceeding => true
  | _ => false

/-- The invariant of the breakpoint synchroniser with respect to a set `A` of
acknowledged breakpoints: an established file/line breakpoint is
acknowledged, every breakpoint of the binding table is acknowledged, and the
ids of the break handler are distinct and below its next id. -/
def BpInv (A : BreakpointModelId → Prop) (v : BreakHandler × List (BreakpointModelId × Int)) :
    Prop :=
  (∀ bp ∈ v.1.items, bp.params.type = BreakpointType.BreakpointByFileAndLine →
      bp.state.isEstablished = true → A bp.id) ∧
  (∀ kv ∈ v.2, A kv.1) ∧
  (v.1.items.map (fun bp => bp.id)).Nodup ∧
  (∀ bp ∈ v.1.items, bp.id < v.1.nextId)

/-- The decimal digits of a natural number, most significant first (`fuel`
bounds the number of digits). -/
def natDigits : Nat → Nat → List Char → List Char
  | 0, _, acc => acc
  | fuel + 1, n, acc =>
    let acc := Char.ofNat (48 + n % 10) :: acc
    if n / 10 = 0 then acc else natDigits fuel (n / 10) acc

/-- The decimal text of an integer. -/
def intChars (n : Int) : List Char :=
  match n with
  | Int.ofNat k => natDigits 20 k []
  | Int.negSucc k => '-' :: natDigits 20 (k + 1) []

/-- The text of a JSON string: quotes and backslashes are escaped. -/
def quoteChars (s : List Char) : List Char :=
  '"' :: (s.foldr (fun c acc =>
    if c = '"' ∨ c = '\\' then '\\' :: c :: acc else c :: acc) ['"'])

/-- The compact JSON text of a variant nested at most `fuel` deep. -/
def printJson : Nat → QVariant → List Char
  | 0, _ => []
  | fuel + 1, v =>
    match v with
    | QVariant.invalid => "null".toList
    | QVariant.bool b => if b then "true".toList else "false".toList
    | QVariant.num n => intChars n
    | QVariant.str s => quoteChars s.toList
    | QVariant.list l =>
      '[' :: List.intercalate [','] (l.map (printJson fuel)) ++ [']']
    | QVariant.map m =>
      '{' :: List.intercalate [',']
          (m.map (fun kv => quoteChars kv.1.toList ++ ':' :: printJson fuel kv.2)) ++ ['}']

/-- Reads the rest of a JSON string, up to its closing quote. -/
def parseString : List Char → List Char → Option (String × List Char)
  | [], _ => none
  | '"' :: rest, acc => some (String.mk acc.reverse, rest)
  | '\\' :: c :: rest, acc => parseString rest (c :: acc)
  | c :: rest, acc => parseString rest (c :: acc)

/-- Reads a run of decimal digits. -/
def parseNat : List Char → Option Nat → Option (Nat × List Char)
  | [], acc => acc.map (fun n => (n, []))
  | c :: rest, acc =>
    match digitValue c with
    | some v => parseNat rest (some (acc.getD 0 * 10 + v))
    | none => acc.map (fun n => (n, c :: rest))

/-- What the parser is reading: a value, the members of an object or the
elements of an array (with those read so far). -/
inductive ParseMode where
  | value : ParseMode
  | members : List (String × QVariant) → ParseMode
  | elements : List QVariant → ParseMode

/-- A parser of compact JSON text, reading at most `fuel` nested items. -/
def parseJson : Nat → ParseMode → List Char → Option (QVariant × List Char)
  | 0, _, _ => none
  | fuel + 1, ParseMode.value, cs =>
    match cs with
    | '{' :: rest => parseJson fuel (ParseMode.members []) rest
    | '[' :: rest => parseJson fuel (ParseMode.elements []) rest
    | '"' :: rest => (parseString rest []).map (fun r => (QVariant.str r.1, r.2))
    | 't' :: 'r' :: 'u' :: 'e' :: rest => some (QVariant.bool true, rest)
    | 'f' :: 'a' :: 'l' :: 's' :: 'e' :: rest => some (QVariant.bool false, rest)
    | 'n' :: 'u' :: 'l' :: 'l' :: rest => some (QVariant.invalid, rest)
    | '-' :: rest => (parseNat rest none).map (fun r => (QVariant.num (-(r.1 : Int)), r.2))
    | _ => (parseNat cs none).map (fun r => (QVariant.num (r.1 : Int), r.2))
  | fuel + 1, ParseMode.members acc, cs =>
    match cs with
    | '}' :: rest => some (QVariant.map acc.reverse, rest)
    | ',' :: rest => parseJson fuel (ParseMode.members acc) rest
    | '"' :: rest =>
      match parseString rest [] with
      | some (key, ':' :: rest) =>
        match parseJson fuel ParseMode.value rest with
        | some (v, rest) => parseJson fuel (ParseMode.members ((key, v) :: acc)) rest
        | none => none
      | _ => none
    | _ => none
  | fuel + 1, ParseMode.elements acc, cs =>
    match cs with
    | ']' :: rest => some (QVariant.list acc.reverse, rest)
    | ',' :: rest => parseJson fuel (ParseMode.elements acc) rest
    | _ =>
      match parseJson fuel ParseMode.value cs with
      | some (v, rest) => parseJson fuel (ParseMode.elements (v :: acc)) rest
      | none => none

/-- A JSON serialiser for documents nested at most 8 deep, as bytes. -/
def toJsonCompact (v : QVariant) : Bytes := (printJson 8 v).map Char.toNat

/-- A JSON parser for short documents: the invalid variant when the text is
not JSON. -/
def fromJsonCompact (b : Bytes) : QVariant :=
  match parseJson 200 ParseMode.value (b.map Char.ofNat) with
  | some (v, _) => v
  | none => QVariant.invalid

/-! ## Concrete inputs -/

/-- Three operations: two of them build a JSON request. -/
def threeCommands : List Command :=
  [Command.version, Command.setBreakpoint "event" "onClicked" true 0 0 "" (-1),
   Command.evaluate "1+1" false false 0 false]

/-- An engine whose counter is one step below the largest `int`. -/
def nearOverflowEngine : QmlEnginePrivate := { sequence := 2147483646 }

/-- The request `evaluate("1+1", frame = 0)` with sequence number `5`. -/
def evaluateRequest : QVariantMap :=
  [("seq", QVariant.num 5), ("type", QVariant.str "request"),
   ("command", QVariant.str "evaluate"),
   ("arguments", QVariant.map [("expression", QVariant.str "1+1"), ("frame", QVariant.num 0)])]

/-- A handle table whose entry at handle `1` is itself a reference, to the
number stored at handle `2`. -/
def chainedRefs : QVariant :=
  QVariant.list
    [QVariant.map [("handle", QVariant.num 1), ("ref", QVariant.num 2)],
     QVariant.map [("handle", QVariant.num 2), ("type", QVariant.str "number"),
                   ("value", QVariant.num 5)]]

/-- A handle table whose two entries refer to each other; neither refers to
its own handle. -/
def cyclicRefs : QVariant :=
  QVariant.list
    [QVariant.map [("handle", QVariant.num 1), ("ref", QVariant.num 2)],
     QVariant.map [("handle", QVariant.num 2), ("ref", QVariant.num 1)]]

/-- The descriptor `{ref: H}` carrying a name. -/
def refDescriptor (H : Int) (name : String) : QVariant :=
  QVariant.map [("name", QVariant.str name), ("ref", QVariant.num H)]

/-- The inline descriptor `{handle: 7, type: "number", value: 42}`. -/
def numberDescriptor : QVariant :=
  QVariant.map [("handle", QVariant.num 7), ("type", QVariant.str "number"),
                ("value", QVariant.num 42)]

/-- Whether an entry of a handle table is a bare reference to its own handle. -/
def isSelfReference (e : QVariant) : Bool :=
  mapContains e.toMap "ref"
    && decide ((mapValue e.toMap "ref").toInt = (mapValue e.toMap "handle").toInt)

/-- The reference links of a handle table are well-founded when a rank on
handles decreases along every entry that carries a `ref` key. -/
def RefsWellFounded (rank : Int → Nat) (refsVal : QVariant) : Prop :=
  ∀ e ∈ refsVal.toList, mapContains e.toMap "ref" = true →
    rank (mapValue e.toMap "ref").toInt < rank (mapValue e.toMap "handle").toInt

/-- An environment for the examples: no file can be resolved to a line yet,
watchers are named after their expression, every file is readable, a console
is present, and payloads are parsed as compact JSON. -/
def exampleEnv : Env :=
  { adjustBreakpointLineAndColumn := fun _ _ => none,
    watcherName := fun exp => "watch." ++ exp,
    toFileInProject := fun file => file,
    isReadable := fun _ => true,
    hasConsoleManager := true,
    highlightExceptionCode := fun _ _ msg => [msg],
    fromJson := fromJsonCompact }

/-- The bytes of an incoming debugger message carrying a JSON document. -/
def v8MessageFrame (doc : QVariant) : Bytes :=
  (packMessage V8MESSAGE (Payload.json doc)).encode toJsonCompact

/-- A response to a `backtrace` request that failed. -/
def failedBacktraceResponse : QVariant :=
  QVariant.map [("seq", QVariant.num 9), ("type", QVariant.str "response"),
    ("request_seq", QVariant.num 3), ("command", QVariant.str "backtrace"),
    ("success", QVariant.bool false), ("message", QVariant.str "No frames")]

/-- A response to the `evaluate` request number `5` that failed. -/
def failedEvaluateResponse : QVariant :=
  QVariant.map [("seq", QVariant.num 9), ("type", QVariant.str "response"),
    ("request_seq", QVariant.num 5), ("command", QVariant.str "evaluate"),
    ("success", QVariant.bool false), ("message", QVariant.str "ReferenceError: x")]

/-- An engine with the watch expression `x` pending under request number `5`. -/
def engineAwaitingEvaluate : QmlEnginePrivate :=
  { sequence := 5, evaluatingExpression := [(5, "x")] }

/-- A file/line breakpoint on `a.qml`, line 10. -/
def fileLineParams : BreakpointParameters :=
  { type := BreakpointType.BreakpointByFileAndLine, fileName := "a.qml", lineNumber := 10 }

/-- A handle table whose entry at handle `5` is the global object, reported
without properties. -/
def globalRefs : QVariant :=
  QVariant.list
    [QVariant.map [("handle", QVariant.num 5), ("type", QVariant.str "object"),
                   ("className", QVariant.str "global")]]

/-- The property list `[{name: "g", ref: 5}]`. -/
def globalProperty : QVariantList :=
  [QVariant.map [("name", QVariant.str "g"), ("ref", QVariant.num 5)]]

/-- A `scope` response body for frame `0` whose scope object has the property
`g`. -/
def globalScopeBody : QVariant :=
  QVariant.map [("frameIndex", QVariant.num 0),
    ("object", QVariant.map [("handle", QVariant.num (-1)), ("type", QVariant.str "object"),
       ("className", QVariant.str "Object"), ("properties", QVariant.list globalProperty)])]

/-- A `lookup` response body for the handle `5`. -/
def globalLookupBody : QVariant :=
  QVariant.map [("5", QVariant.map [("handle", QVariant.num 5), ("type", QVariant.str "object"),
                                     ("className", QVariant.str "global")])]

/-- An engine stopped in frame `0`, a usable frame. -/
def stoppedEngine : QmlEnginePrivate :=
  { engineState := DebuggerState.InferiorStopOk,
    stackHandler := { frames := [{ level := 0, function := "f", file := "a.qml", line := 3,
                                   usable := true }],
                      currentIndex := 0, contentsValid := true } }

/-- A `frame` response body whose receiver is the global object at handle `5`. -/
def globalFrameBody : QVariant :=
  QVariant.map [("index", QVariant.num 0), ("receiver", QVariant.map [("ref", QVariant.num 5)]),
    ("scopes", QVariant.list [])]

/-- The decoded value of the entry at handle `5` of `globalRefs`, reached by
reference. -/
def globalObjectData : QmlV8ObjectData :=
  { handle := 5, type := "object", value := QVariant.str "global" }

/-- The watch item `local.this` of an object of class `Object`. -/
def thisObjectItem : WatchItem :=
  { iname := "local.this", name := "this", exp := "this", type := "object", value := "Object" }

/-- An environment like `exampleEnv` in which every file is loaded: a
breakpoint position is resolved to the requested line, column `0`. -/
def resolvingEnv : Env :=
  { exampleEnv with adjustBreakpointLineAndColumn := fun _ line => some (line, 0, true) }

/-- A response to the `setbreakpoint` request number `0` with the given
`success` flag, reporting the remote index `7` and one actual location. -/
def setBreakpointResponse (success : Bool) : QVariant :=
  QVariant.map [("seq", QVariant.num 3), ("type", QVariant.str "response"),
    ("request_seq", QVariant.num 0), ("command", QVariant.str "setbreakpoint"),
    ("success", QVariant.bool success),
    ("body", QVariant.map [("type", QVariant.str "scriptRegExp"),
       ("breakpoint", QVariant.num 7), ("line", QVariant.num 9),
       ("actual_locations", QVariant.list
          [QVariant.map [("line", QVariant.num 9), ("column", QVariant.num 0)]])])]

/-- A breakpoint on JavaScript exceptions. -/
def throwParams : BreakpointParameters :=
  { type := BreakpointType.BreakpointAtJavaScriptThrow }

/-- The breakpoint `1`, on JavaScript exceptions, as the user has just set it. -/
def throwBreakpoint : Breakpoint :=
  { id := 1, params := throwParams, claimed := true,
    state := BreakpointState.BreakpointInsertRequested }

/-- An engine whose file/line breakpoint `1` is bound to the remote index `7`
and is in the given lifecycle state. -/
def boundBreakpointEngine (state : BreakpointState) : QmlEnginePrivate :=
  { sequence := 5, breakpoints := [(1, 7)],
    breakHandler :=
      { items := [{ id := 1, params := fileLineParams, claimed := true, state := state }],
        nextId := 2 } }

/-- A successful response to a `clearbreakpoint` request. -/
def clearBreakpointResponse : QVariant :=
  QVariant.map [("seq", QVariant.num 9), ("type", QVariant.str "response"),
    ("request_seq", QVariant.num 6), ("command", QVariant.str "clearbreakpoint"),
    ("success", QVariant.bool true),
    ("body", QVariant.map [("type", QVariant.str "scriptRegExp"),
       ("breakpoint", QVariant.num 7)])]

/-- An engine in which the file/line breakpoint `1` is parked under `a.qml`
next to the breakpoint `2` (same file) and the breakpoint `3` (under `b.qml`);
the breakpoint `4` is bound to the remote index `7` and the request number `5`
awaits its response for the breakpoint `2`. -/
def parkedEngine : QmlEnginePrivate :=
  { sequence := 5,
    pendingBreakpoints := [("a.qml", 2), ("a.qml", 1), ("b.qml", 3)],
    breakpoints := [(4, 7)], breakpointsSync := [(5, 2)],
    breakHandler :=
      { items := [{ id := 1, params := fileLineParams, claimed := true,
                    state := BreakpointState.BreakpointRemoveRequested }],
        nextId := 5 } }

/-- A successful response to a `scripts` request whose body lists the script
`a.qml`. -/
def scriptsResponse : QVariant :=
  QVariant.map [("seq", QVariant.num 1), ("type", QVariant.str "response"),
    ("request_seq", QVariant.num 0), ("command", QVariant.str "scripts"),
    ("success", QVariant.bool true),
    ("body", QVariant.list
       [QVariant.map [("name", QVariant.str "a.qml"), ("id", QVariant.num 1),
          ("lineOffset", QVariant.num 0), ("columnOffset", QVariant.num 0),
          ("source", QVariant.str "import QtQuick 2.0")]])]

/-- A session: the user sets a file/line breakpoint on `a.qml` while the file
cannot be resolved yet, the engine synchronises (the breakpoint is parked),
and a `scripts` response listing `a.qml` arrives. -/
def parkedSession : List Input :=
  [Input.appendBreakpoint fileLineParams,
   Input.attemptBreakpointSynchronization exampleEnv,
   Input.messageReceived 0 exampleEnv (v8MessageFrame scriptsResponse)]

/-- An engine in which the file/line breakpoint `1` is parked under `a.qml`,
the only one for that file, the breakpoint `3` being parked under `b.qml`. -/
def engineWithParkedBreakpoint : QmlEnginePrivate :=
  { sequence := 5,
    pendingBreakpoints := [("a.qml", 1), ("b.qml", 3)],
    breakHandler :=
      { items := [{ id := 1, params := fileLineParams, claimed := true,
                    state := BreakpointState.BreakpointInsertProceeding }],
        nextId := 5 } }

/-- A successful response to the `setbreakpoint` request number `4`, which no
entry of `breakpointsSync` tracks (a run-to-line request), reporting the
remote index `7`. -/
def unboundSetBreakpointResponse : QVariant :=
  QVariant.map [("seq", QVariant.num 8), ("type", QVariant.str "response"),
    ("request_seq", QVariant.num 4), ("command", QVariant.str "setbreakpoint"),
    ("success", QVariant.bool true),
    ("body", QVariant.map [("type", QVariant.str "scriptRegExp"),
       ("breakpoint", QVariant.num 7), ("line", QVariant.num 3),
       ("actual_locations", QVariant.list
          [QVariant.map [("line", QVariant.num 3), ("column", QVariant.num 0)]])])]

/-- A `break` event in the function `f` of `a.js`, on the source line
`x = 1`, listing the given remote breakpoint indices. -/
def plainBreakEvent (ids : List Int) : QVariant :=
  QVariant.map [("seq", QVariant.num 9), ("type", QVariant.str "event"),
    ("event", QVariant.str "break"),
    ("body", QVariant.map [("invocationText", QVariant.str "f()"),
       ("sourceLine", QVariant.num 3), ("sourceColumn", QVariant.num 0),
       ("sourceLineText", QVariant.str "x = 1"),
       ("script", QVariant.map [("name", QVariant.str "a.js")]),
       ("breakpoints", QVariant.list (ids.map QVariant.num))])]

/-- A session: while the program runs, the response to an untracked
`setbreakpoint` request reports the index `7`; a `break` event lists `7`; the
program runs again and a second `break` event lists `7`. -/
def runToLineSession : List Input :=
  [Input.setEngineState DebuggerState.InferiorRunOk,
   Input.messageReceived 0 exampleEnv (v8MessageFrame unboundSetBreakpointResponse),
   Input.messageReceived 0 exampleEnv (v8MessageFrame (plainBreakEvent [7])),
   Input.setEngineState DebuggerState.InferiorRunOk,
   Input.messageReceived 0 exampleEnv (v8MessageFrame (plainBreakEvent [7]))]

/-- A running engine whose `breakpointsTemp` holds the index `7`. -/
def runningEngine : QmlEnginePrivate :=
  { sequence := 5, breakpointsTemp := [7], engineState := DebuggerState.InferiorRunOk }

/-- A `break` event showing the pattern of a binding wrapper (invocation text
`[anonymous]()`, script `main.qml`, source line `(x) => x`), listing the
given remote breakpoint indices. -/
def wrapperBreakEvent (ids : List Int) : QVariant :=
  QVariant.map [("seq", QVariant.num 9), ("type", QVariant.str "event"),
    ("event", QVariant.str "break"),
    ("body", QVariant.map [("invocationText", QVariant.str "[anonymous]()"),
       ("sourceLine", QVariant.num 9), ("sourceColumn", QVariant.num 0),
       ("sourceLineText", QVariant.str "(x) => x"),
       ("script", QVariant.map [("name", QVariant.str "main.qml")]),
       ("breakpoints", QVariant.list (ids.map QVariant.num))])]

/-- A running engine whose file/line breakpoint `1` is `Inserted` and bound to
the remote index `7`. -/
def runningBoundEngine : QmlEnginePrivate :=
  { boundBreakpointEngine BreakpointState.BreakpointInserted with
    engineState := DebuggerState.InferiorRunOk }

/-- A `break` event whose source line text is the internal-function marker,
in the function `f` of `a.js`, listing no breakpoint. -/
def internalBreakEvent : QVariant :=
  QVariant.map [("seq", QVariant.num 9), ("type", QVariant.str "event"),
    ("event", QVariant.str "break"),
    ("body", QVariant.map [("invocationText", QVariant.str "f()"),
       ("sourceLine", QVariant.num 0), ("sourceColumn", QVariant.num 0),
       ("sourceLineText", QVariant.str INTERNAL_FUNCTION),
       ("script", QVariant.map [("name", QVariant.str "a.js")]),
       ("breakpoints", QVariant.list [])])]

/-- A running engine right after the user has stepped in: the step-in
request was the last `continueDebugging` call. -/
def steppingEngine : QmlEnginePrivate :=
  continueDebugging runningEngine StepAction.StepIn

/-- An `exception` event: a reference error on line `4` of `a.js`. -/
def exceptionEvent : QVariant :=
  QVariant.map [("seq", QVariant.num 9), ("type", QVariant.str "event"),
    ("event", QVariant.str "exception"),
    ("body", QVariant.map [("uncaught", QVariant.bool true),
       ("exception", QVariant.map [("text", QVariant.str "ReferenceError: y is not defined")]),
       ("sourceLine", QVariant.num 3), ("sourceColumn", QVariant.num 0),
       ("sourceLineText", QVariant.str "x = y"),
       ("script", QVariant.map [("name", QVariant.str "a.js")])])]

/-- An engine that has been asked to run and is not running yet. -/
def startingEngine : QmlEnginePrivate :=
  { sequence := 5, engineState := DebuggerState.EngineRunRequested }

/-- An event frame without an event name, as the remote side sends it for an
expression it cannot evaluate. -/
def namelessEvent : QVariant :=
  QVariant.map [("seq", QVariant.num 9), ("type", QVariant.str "event"),
    ("success", QVariant.bool false),
    ("message", QVariant.str "SyntaxError: Unexpected token")]

/-- A frame of a backtrace response: its index, the function it is in and the
text of its source line; the script is `a.qml` and the receiver an `Item`. -/
def backtraceFrame (index : Int) (function text : String) : QVariant :=
  QVariant.map [("index", QVariant.num index),
    ("func", QVariant.map [("type", QVariant.str "function"), ("name", QVariant.str function)]),
    ("script", QVariant.map [("type", QVariant.str "script"), ("name", QVariant.str "a.qml")]),
    ("receiver", QVariant.map [("type", QVariant.str "object"),
       ("className", QVariant.str "Item")]),
    ("line", QVariant.num 2), ("sourceLineText", QVariant.str text),
    ("scopes", QVariant.list [])]

/-- The body of a backtrace response with the given frames, from frame `0`. -/
def backtraceBody (frames : List QVariant) : QVariant :=
  QVariant.map [("fromFrame", QVariant.num 0), ("toFrame", QVariant.num frames.length),
    ("totalFrames", QVariant.num frames.length), ("frames", QVariant.list frames)]

/-- Three frames: `f`, an internal frame, and `h`. -/
def framesWithInternal : List QVariant :=
  [backtraceFrame 0 "f" "x = 1", backtraceFrame 1 "" INTERNAL_FUNCTION,
   backtraceFrame 2 "h" "z = 3"]

/-- Two frames, neither internal: `f`, and `g` reported with the index `-2`. -/
def framesWithNegativeIndex : List QVariant :=
  [backtraceFrame 0 "f" "x = 1", backtraceFrame (-2) "g" "y = 2"]

/-- An engine whose client is not connected yet and whose send buffer holds one
unsent message, an `interrupt`. -/
def bufferingEngine : QmlEnginePrivate :=
  { sequence := 3, sendBuffer := [packMessage INTERRUPT] }

/-- The `disconnect` request with the given sequence number, as
`QmlEnginePrivate::disconnect` packs it. -/
def disconnectRequest (seq : Int) : Packet :=
  packMessage DISCONNECT (Payload.json (QVariant.map
    [("seq", QVariant.num seq), ("type", QVariant.str "request"),
     ("command", QVariant.str DISCONNECT)]))

/-- The `version` request with the given sequence number, as
`QmlEnginePrivate::version` packs it. -/
def versionRequest (seq : Int) : Packet :=
  packMessage V8REQUEST (Payload.json (QVariant.map
    [("seq", QVariant.num seq), ("type", QVariant.str "request"),
     ("command", QVariant.str "version")]))

/-- A successful `scope` response for the frame with the given remote index:
the scope object has the local `x`, the number `1`. -/
def scopeResponse (frameIndex : Int) : QVariant :=
  QVariant.map [("seq", QVariant.num 12), ("type", QVariant.str "response"),
    ("request_seq", QVariant.num 6), ("command", QVariant.str "scope"),
    ("success", QVariant.bool true),
    ("body", QVariant.map [("index", QVariant.num 0), ("frameIndex", QVariant.num frameIndex),
       ("type", QVariant.num 1),
       ("object", QVariant.map [("handle", QVariant.num (-1)), ("type", QVariant.str "object"),
          ("className", QVariant.str "Object"),
          ("properties", QVariant.list
            [QVariant.map [("name", QVariant.str "x"), ("ref", QVariant.num 5)]])])]),
    ("refs", QVariant.list
      [QVariant.map [("handle", QVariant.num 5), ("type", QVariant.str "number"),
                     ("value", QVariant.num 1)]])]

/-- An engine stopped in a usable frame whose scope `1` is queued, after the
console command `6 * 7` was sent as the `evaluate` request number `5`
(`executeDebuggerCommand` has appended `5` to `debuggerCommands`). -/
def engineAwaitingCommand : QmlEnginePrivate :=
  { stoppedEngine with sequence := 5, debuggerCommands := [5], currentFrameScopes := [1],
                       clientState := ClientState.Enabled }

/-- The successful response to the `evaluate` request number `5`: the number
`42`. -/
def commandResponse : QVariant :=
  QVariant.map [("seq", QVariant.num 14), ("type", QVariant.str "response"),
    ("request_seq", QVariant.num 5), ("command", QVariant.str "evaluate"),
    ("success", QVariant.bool true),
    ("body", QVariant.map [("handle", QVariant.num 9), ("type", QVariant.str "number"),
                           ("value", QVariant.num 42)]),
    ("refs", QVariant.list [])]

/-- The `arguments` of the `scope` request for a scope index: `{number}`, and
no `arguments` at all for the index `-1` (the default argument of
`QmlEnginePrivate::scope`). -/
def scopeArguments (number : Int) : QVariant :=
  if number ≠ -1 then QVariant.map [("number", QVariant.num number)] else QVariant.invalid

/-- The indices of the scopes of a frame body whose type is not global (`0`),
in the order of the body. -/
def nonGlobalScopes (scopes : QVariantList) : List Int :=
  (scopes.filter (fun sc => decide ((mapValue sc.toMap "type").toInt ≠ 0))).map
    (fun sc => (mapValue sc.toMap "index").toInt)

/-- The `arguments` of the `lookup` request for one handle. -/
def lookupArguments (handle : Int) : QVariant :=
  QVariant.map [("handles", QVariant.list [QVariant.num handle])]

/-- Whether a call is the `stackFrameCompleted` notification. -/
def Effect.isStackFrameCompleted : Effect → Bool
  | Effect.stackFrameCompleted => true
  | _ => false

/-- The JSON requests with the given command among the calls of a trace, in
order. -/
def requestsNamed (command : String) (trace : List Effect) : List (String × QVariant) :=
  (requestsOf trace).filter (fun r => decide (r.1 = command))

/-- An engine stopped in frame `0`, a frame whose file cannot be read. -/
def engineInUnusableFrame : QmlEnginePrivate :=
  { engineState := DebuggerState.InferiorStopOk,
    stackHandler := { frames := [{ level := 0, function := "f", file := "gone.qml", line := 3,
                                   usable := false }],
                      currentIndex := 0, contentsValid := true } }

/-- An engine stopped in a usable frame whose watch model holds the expanded
local `obj`, an object shown in the previous frame under the transient handle
`-3` (stored as the `quint64` id of the item). -/
def engineWithExpandedLocal : QmlEnginePrivate :=
  { stoppedEngine with
    sequence := 7,
    watchHandler :=
      { items := [{ iname := "local.obj", name := "obj", exp := "obj", id := toQuint64 (-3),
                    type := "object", value := "Object", wantsChildren := true }],
        expandedINames := ["local.obj"] } }

/-- A `frame` response body of a frame with one local scope (type `1`, index
`0`) and one global scope (type `0`, index `1`), whose receiver is an `Item`
at handle `11`. -/
def localFrameBody : QVariant :=
  QVariant.map [("index", QVariant.num 0),
    ("receiver", QVariant.map [("handle", QVariant.num 11), ("type", QVariant.str "object"),
                               ("className", QVariant.str "Item")]),
    ("scopes", QVariant.list
      [QVariant.map [("type", QVariant.num 1), ("index", QVariant.num 0)],
       QVariant.map [("type", QVariant.num 0), ("index", QVariant.num 1)]])]

/-- An environment like `exampleEnv` in which no source file can be read. -/
def unreadableEnv : Env :=
  { exampleEnv with isReadable := fun _ => false }

/-- A frame of a backtrace response like `backtraceFrame`, with a local scope
(type `1`, index `0`), a global scope (type `0`, index `1`) and a closure
scope (type `3`, index `2`). -/
def scopedFrame (index : Int) (function text : String) : QVariant :=
  QVariant.map [("index", QVariant.num index),
    ("func", QVariant.map [("type", QVariant.str "function"), ("name", QVariant.str function)]),
    ("script", QVariant.map [("type", QVariant.str "script"), ("name", QVariant.str "a.qml")]),
    ("receiver", QVariant.map [("type", QVariant.str "object"),
       ("className", QVariant.str "Item")]),
    ("line", QVariant.num 2), ("sourceLineText", QVariant.str text),
    ("scopes", QVariant.list
      [QVariant.map [("type", QVariant.num 1), ("index", QVariant.num 0)],
       QVariant.map [("type", QVariant.num 0), ("index", QVariant.num 1)],
       QVariant.map [("type", QVariant.num 3), ("index", QVariant.num 2)]])]

/-- The parameters of a breakpoint on the emission of the QML signal
`onClicked`. -/
def signalParams : BreakpointParameters :=
  { type := BreakpointType.BreakpointOnQmlSignalEmit, functionName := "onClicked" }

/-- The user sets a file/line breakpoint (id `1`) and a signal breakpoint (id
`2`), and the break handler asks the engine to synchronise: both are inserted
in one pass, the file/line breakpoint first. -/
def twoBreakpointSession : List Input :=
  [Input.appendBreakpoint fileLineParams,
   Input.appendBreakpoint signalParams,
   Input.attemptBreakpointSynchronization resolvingEnv]

/-- An engine in which the `setbreakpoint` request number `0` for the
file/line breakpoint `1` is pending and the signal breakpoint `2` is still
`InsertRequested`. -/
def engineBeforeSignalInsert : QmlEnginePrivate :=
  { sequence := 0, breakpointsSync := [(0, 1)],
    breakHandler :=
      { items := [{ id := 1, params := fileLineParams, claimed := true,
                    state := BreakpointState.BreakpointInsertProceeding },
                  { id := 2, params := signalParams, claimed := true,
                    state := BreakpointState.BreakpointInsertRequested }],
        nextId := 3 } }

/-- Modelled from the spec: `StackHandler::setCurrentIndex`, the frame at the
given position of the visible stack becomes current. -/
def StackHandler.setCurrentIndex (s : StackHandler) (index : Int) : StackHandler :=
  { s with currentIndex := index }

/-- The function `QmlEngine::activateFrame`: the `frame` request is made for
the remote index `stackIndexLookup.value(index)` of the visible frame. -/
def activateFrame (d : QmlEnginePrivate) (index : Int) : QmlEnginePrivate :=
  if d.engineState ≠ DebuggerState.InferiorStopOk
      ∧ d.engineState ≠ DebuggerState.InferiorUnrunnable then d
  else
    let d :=
      if index ≠ d.stackHandler.currentIndex then
        frame d ((hashValue d.stackIndexLookup index).getD 0)
      else d
    let d := { d with stackHandler := d.stackHandler.setCurrentIndex index }
    emit d (Effect.gotoLocation
      (if 0 ≤ index then (d.stackHandler.frames.get? index.toNat).getD {} else {}))

/-- The engine stopped with the stack `f`, an internal frame, `h` (remote
indices `0`, `1`, `2`; visible positions `0` for `f` and `1` for `h`), after the
user has selected the frame `h`. -/
def engineInLowerFrame : QmlEnginePrivate :=
  match handleBacktrace 3 exampleEnv stoppedEngine (backtraceBody framesWithInternal)
      (QVariant.list []) with
  | some e => activateFrame e 1
  | none => stoppedEngine

/-- The body of the loop of `QmlEnginePrivate::handleLookup`, for one key of
the response body. -/
def lookupEntry (fuel : Nat) (body : QVariantMap) (refsVal : QVariant) (d : QmlEnginePrivate)
    (handle : String) : Option QmlEnginePrivate :=
  match extractData fuel (mapValue body handle) refsVal with
  | none => none
  | some bodyObjectData =>
    let pre := (hashValue d.localsAndWatchers (stringToInt handle)).getD ""
    let d := { d with localsAndWatchers := hashTakeRest d.localsAndWatchers (stringToInt handle) }
    if startsWith pre "local." || startsWith pre "watch." then
      match insertSubItems fuel d.watchHandler (d.watchHandler.findItem pre)
              bodyObjectData.properties refsVal with
      | none => none
      | some w => some { d with watchHandler := w }
    else
      let item : WatchItem :=
        { exp := pre, name := pre, iname := "local." ++ pre,
          id := toQuint64 (stringToInt handle), type := bodyObjectData.type,
          value := bodyObjectData.value.toString,
          wantsChildren := decide (bodyObjectData.properties.length ≠ 0) }
      some { d with watchHandler := d.watchHandler.insertItem item }

/-- The type names `extractData` gives to primitive values. -/
def primitiveTypes : List String := ["undefined", "null", "boolean", "number", "string"]

/-- The watch node `handleLookup` builds for a looked-up primitive: the local
`name` with the handle, the decoded type and the string form of the decoded
value, and no children to fetch. -/
def primitiveNode (name : String) (handle : Int) (data : QmlV8ObjectData) : WatchItem :=
  { exp := name, name := name, iname := "local." ++ name, id := toQuint64 handle,
    type := data.type, value := data.value.toString, wantsChildren := false }

/-- An engine that has requested `lookup([7])` for the local `x` of the
current scope. -/
def engineAwaitingLookup : QmlEnginePrivate :=
  { stoppedEngine with sequence := 8, localsAndWatchers := [(7, "x")] }

/-- The body of the `lookup` response `{"7": {handle: 7, type: "number",
value: 42}}`. -/
def numberLookupBody : QVariant :=
  QVariant.map [("7", QVariant.map [("handle", QVariant.num 7), ("type", QVariant.str "number"),
                                     ("value", QVariant.num 42)])]

/-- The UTF-8 bytes of one character, given by its code point (the conversion
`QString::toUtf8` applies to each character). -/
def utf8EncodeChar (c : Nat) : Bytes :=
  if c < 128 then [c]
  else if c < 2048 then [192 + c / 64, 128 + c % 64]
  else if c < 65536 then [224 + c / 4096, 128 + c / 64 % 64, 128 + c % 64]
  else [240 + c / 262144, 128 + c / 4096 % 64, 128 + c / 64 % 64, 128 + c % 64]

/-- The bytes `QString(QLatin1String(response)).toUtf8()` of `messageReceived`:
the payload is read as Latin-1 text, one character per byte up to the first
zero byte (`QLatin1String(const QByteArray &)`), and that text is encoded as
UTF-8. -/
def latin1ToUtf8 (response : Bytes) : Bytes :=
  (response.takeWhile (fun b => decide (b ≠ 0))).flatMap utf8EncodeChar

/-- The payload parse of `messageReceived`,
`QJsonDocument::fromJson(QString(QLatin1String(response)).toUtf8()).toVariant()`:
the JSON parser of the Qt library (`fromJson`) is given the re-encoded
payload. -/
def messagePayloadParse (fromJson : Bytes → QVariant) (response : Bytes) : QVariant :=
  fromJson (latin1ToUtf8 response)

/-- The characters of a UTF-8 text, reading at most `fuel` of them; the
reading ends at a sequence that is cut short. -/
def utf8DecodeAux : Nat → Bytes → List Char
  | 0, _ => []
  | fuel + 1, bs =>
    match bs with
    | [] => []
    | b0 :: rest =>
      if b0 < 128 then Char.ofNat b0 :: utf8DecodeAux fuel rest
      else if b0 < 224 then
        match rest with
        | b1 :: rest => Char.ofNat ((b0 - 192) * 64 + (b1 - 128)) :: utf8DecodeAux fuel rest
        | _ => []
      else if b0 < 240 then
        match rest with
        | b1 :: b2 :: rest =>
          Char.ofNat ((b0 - 224) * 4096 + (b1 - 128) * 64 + (b2 - 128))
            :: utf8DecodeAux fuel rest
        | _ => []
      else
        match rest with
        | b1 :: b2 :: b3 :: rest =>
          Char.ofNat ((b0 - 240) * 262144 + (b1 - 128) * 4096 + (b2 - 128) * 64 + (b3 - 128))
            :: utf8DecodeAux fuel rest
        | _ => []

/-- The characters of a UTF-8 text. -/
def utf8Decode (bs : Bytes) : List Char := utf8DecodeAux bs.length bs

/-- A JSON serialiser for documents nested at most 8 deep that writes UTF-8,
as `QJsonDocument::toJson` does: a character above U+007F is written as its
UTF-8 bytes, not escaped. -/
def toJsonUtf8 (v : QVariant) : Bytes :=
  (printJson 8 v).flatMap (fun c => utf8EncodeChar c.toNat)

/-- A JSON parser for short UTF-8 documents: the invalid variant when the text
is not JSON. -/
def fromJsonUtf8 (b : Bytes) : QVariant :=
  match parseJson 200 ParseMode.value (utf8Decode b) with
  | some (v, _) => v
  | none => QVariant.invalid

end QmlEngine
namespace QmlEngine
open QVariant

theorem extractData_inline (fuel : Nat) (data refsVal : QVariant)
    (h : mapContains data.toMap "ref" = false) :
    extractData fuel data refsVal = some (extractInline data.toMap) := by
  unfold extractData
  simp [h]

theorem extractData_ref_missing (fuel : Nat) (data refsVal : QVariant)
    (h : mapContains data.toMap "ref" = true)
    (hv : valueFromRef (mapValue data.toMap "ref").toInt refsVal = none) :
    extractData fuel data refsVal =
      some { handle := (mapValue data.toMap "ref").toInt,
             name := (mapValue data.toMap "name").toString } := by
  unfold extractData
  simp [h, hv]

theorem extractData_ref_found (fuel : Nat) (data refsVal entry : QVariant)
    (h : mapContains data.toMap "ref" = true)
    (hv : valueFromRef (mapValue data.toMap "ref").toInt refsVal = some entry) :
    extractData (fuel + 1) data refsVal =
      (extractData fuel entry refsVal).map (fun d =>
        { handle := (mapValue data.toMap "ref").toInt,
          name := (mapValue data.toMap "name").toString,
          type := d.type, value := d.value, properties := d.properties }) := by
  rw [extractData]
  simp only [h, hv, if_true]
  cases extractData fuel entry refsVal <;> rfl

theorem extractData_ref_zero (data refsVal entry : QVariant)
    (h : mapContains data.toMap "ref" = true)
    (hv : valueFromRef (mapValue data.toMap "ref").toInt refsVal = some entry) :
    extractData 0 data refsVal = none := by
  rw [extractData]
  simp only [h, hv, if_true]

theorem extractData_fuel_succ (fuel : Nat) (refsVal : QVariant) :
    ∀ (data : QVariant) (d : QmlV8ObjectData),
      extractData fuel data refsVal = some d → extractData (fuel + 1) data refsVal = some d := by
  induction fuel with
  | zero =>
    intro data d h
    by_cases hc : mapContains data.toMap "ref" = true
    · cases hv : valueFromRef (mapValue data.toMap "ref").toInt refsVal with
      | none =>
        rw [extractData_ref_missing _ _ _ hc hv] at h ⊢
        exact h
      | some entry =>
        rw [extractData_ref_zero _ _ _ hc hv] at h
        cases h
    · have hc' : mapContains data.toMap "ref" = false := by simpa using hc
      rw [extractData_inline _ _ _ hc'] at h ⊢
      exact h
  | succ n ih =>
    intro data d h
    by_cases hc : mapContains data.toMap "ref" = true
    · cases hv : valueFromRef (mapValue data.toMap "ref").toInt refsVal with
      | none =>
        rw [extractData_ref_missing _ _ _ hc hv] at h ⊢
        exact h
      | some entry =>
        rw [extractData_ref_found _ _ _ _ hc hv] at h ⊢
        cases he : extractData n entry refsVal with
        | none => rw [he] at h; cases h
        | some d' =>
          rw [he] at h
          rw [ih entry d' he]
          exact h
    · have hc' : mapContains data.toMap "ref" = false := by simpa using hc
      rw [extractData_inline _ _ _ hc'] at h ⊢
      exact h

theorem extractData_fuel_le (refsVal data : QVariant) (d : QmlV8ObjectData) (n m : Nat)
    (hnm : n ≤ m) (h : extractData n data refsVal = some d) :
    extractData m data refsVal = some d := by
  induction hnm with
  | refl => exact h
  | step _ ih => exact extractData_fuel_succ _ _ _ _ ih

theorem valueFromRef_handle (handle : Int) (refsVal entry : QVariant)
    (h : valueFromRef handle refsVal = some entry) :
    (mapValue entry.toMap "handle").toInt = handle ∧
      ∃ e ∈ refsVal.toList, entry = QVariant.map e.toMap := by
  unfold valueFromRef at h
  cases hf : refsVal.toList.find? (fun ref => decide ((mapValue ref.toMap "handle").toInt = handle)) with
  | none => rw [hf] at h; cases h
  | some e =>
    rw [hf] at h
    simp only [Option.map_some'] at h
    cases h
    have h1 := List.find?_some hf
    have h2 := List.mem_of_find?_eq_some hf
    exact ⟨by simpa [QVariant.toMap] using h1, e, h2, rfl⟩

theorem sendMessage_trace (d : QmlEnginePrivate) (p : Packet) :
    (sendMessage d p).trace = d.trace ++ [Effect.sendMessage p] ∧
    (sendMessage d p).sequence = d.sequence := by
  unfold sendMessage
  by_cases h : d.clientState = ClientState.Enabled <;> simp [h]

theorem disconnect_issues (d : QmlEnginePrivate) : IssuesNext d (disconnect d) := by
  unfold disconnect initObject
  simp only []
  refine ⟨(sendMessage_trace _ _).2, _, (sendMessage_trace _ _).1, ?_⟩
  simp [Packet.seq, packMessage, jsonInsert, mapContains, mapValue, QVariant.toMap, QVariant.toInt]

theorem continueDebugging_issues (d : QmlEnginePrivate) (a : StepAction) :
    IssuesNext d (continueDebugging d a) := by
  unfold continueDebugging initObject sendAndLogV8Request
  simp only []
  refine ⟨(sendMessage_trace _ _).2, _, (sendMessage_trace _ _).1, ?_⟩
  cases a <;>
    simp [Packet.seq, packMessage, jsonInsert, mapContains, mapValue, QVariant.toMap,
      QVariant.toInt]

theorem evaluate_issues (d : QmlEnginePrivate) (e : String) (g b : Bool) (f : Int) (c : Bool) :
    IssuesNext d (evaluate d e g b f c) := by
  unfold evaluate initObject sendAndLogV8Request
  simp only []
  refine ⟨(sendMessage_trace _ _).2, _, (sendMessage_trace _ _).1, ?_⟩
  simp [Packet.seq, packMessage, jsonInsert, mapContains, mapValue, QVariant.toMap, QVariant.toInt]

theorem lookup_issues (d : QmlEnginePrivate) (hs : List Int) (i : Bool) :
    IssuesNext d (lookup d hs i) := by
  unfold lookup initObject sendAndLogV8Request
  simp only []
  refine ⟨(sendMessage_trace _ _).2, _, (sendMessage_trace _ _).1, ?_⟩
  simp [Packet.seq, packMessage, jsonInsert, mapContains, mapValue, QVariant.toMap, QVariant.toInt]

theorem backtrace_issues (d : QmlEnginePrivate) (f t : Int) (b : Bool) :
    IssuesNext d (backtrace d f t b) := by
  unfold backtrace initObject sendAndLogV8Request
  simp only []
  refine ⟨(sendMessage_trace _ _).2, _, (sendMessage_trace _ _).1, ?_⟩
  simp [Packet.seq, packMessage, jsonInsert, mapContains, mapValue, QVariant.toMap, QVariant.toInt]

theorem frame_issues (d : QmlEnginePrivate) (n : Int) : IssuesNext d (frame d n) := by
  unfold frame initObject sendAndLogV8Request
  simp only []
  refine ⟨(sendMessage_trace _ _).2, _, (sendMessage_trace _ _).1, ?_⟩
  by_cases h : n = -1 <;>
    simp [h, Packet.seq, packMessage, jsonInsert, mapContains, mapValue, QVariant.toMap,
      QVariant.toInt]

theorem scope_issues (d : QmlEnginePrivate) (n f : Int) : IssuesNext d (scope d n f) := by
  unfold scope initObject sendAndLogV8Request
  simp only []
  refine ⟨(sendMessage_trace _ _).2, _, (sendMessage_trace _ _).1, ?_⟩
  by_cases h : n = -1 <;>
    simp [h, Packet.seq, packMessage, jsonInsert, mapContains, mapValue, QVariant.toMap,
      QVariant.toInt]

theorem scripts_issues (d : QmlEnginePrivate) (t : Int) (ids : List Int) (i : Bool)
    (f : QVariant) : IssuesNext d (scripts d t ids i f) := by
  unfold scripts initObject sendAndLogV8Request
  simp only []
  refine ⟨(sendMessage_trace _ _).2, _, (sendMessage_trace _ _).1, ?_⟩
  simp [Packet.seq, packMessage, jsonInsert, mapContains, mapValue, QVariant.toMap, QVariant.toInt]

theorem setBreakpoint_issues (d : QmlEnginePrivate) (ty ta : String) (e : Bool) (l c : Int)
    (co : String) (ig : Int) (h : ty ≠ "event") :
    IssuesNext d (setBreakpoint d ty ta e l c co ig) := by
  unfold setBreakpoint initObject sendAndLogV8Request
  simp only [h, if_false]
  refine ⟨(sendMessage_trace _ _).2, _, (sendMessage_trace _ _).1, ?_⟩
  simp [Packet.seq, packMessage, jsonInsert, mapContains, mapValue, QVariant.toMap, QVariant.toInt]

theorem setBreakpoint_event (d : QmlEnginePrivate) (ta : String) (e : Bool) (l c : Int)
    (co : String) (ig : Int) :
    IssuesNone d (setBreakpoint d "event" ta e l c co ig) := by
  unfold setBreakpoint
  simp only [if_true]
  refine ⟨(sendMessage_trace _ _).2, _, (sendMessage_trace _ _).1, ?_⟩
  simp [Packet.seq, packMessage]

theorem clearBreakpoint_issues (d : QmlEnginePrivate) (b : Int) :
    IssuesNext d (clearBreakpoint d b) := by
  unfold clearBreakpoint initObject sendAndLogV8Request
  simp only []
  refine ⟨(sendMessage_trace _ _).2, _, (sendMessage_trace _ _).1, ?_⟩
  simp [Packet.seq, packMessage, jsonInsert, mapContains, mapValue, QVariant.toMap, QVariant.toInt]

theorem setExceptionBreak_issues (d : QmlEnginePrivate) (t : Exceptions) (e : Bool) :
    IssuesNext d (setExceptionBreak d t e) := by
  unfold setExceptionBreak initObject sendAndLogV8Request
  simp only []
  refine ⟨(sendMessage_trace _ _).2, _, (sendMessage_trace _ _).1, ?_⟩
  simp [Packet.seq, packMessage, jsonInsert, mapContains, mapValue, QVariant.toMap, QVariant.toInt]

theorem version_issues (d : QmlEnginePrivate) : IssuesNext d (version d) := by
  unfold version initObject sendAndLogV8Request
  simp only []
  refine ⟨(sendMessage_trace _ _).2, _, (sendMessage_trace _ _).1, ?_⟩
  simp [Packet.seq, packMessage, jsonInsert, mapContains, mapValue, QVariant.toMap, QVariant.toInt]

theorem Command.run_issues (d : QmlEnginePrivate) (c : Command) :
    (c.buildsRequest = true → IssuesNext d (c.run d)) ∧
    (c.buildsRequest = false → IssuesNone d (c.run d)) := by
  cases c with
  | disconnect => exact ⟨fun _ => disconnect_issues d, by simp [Command.buildsRequest]⟩
  | continueDebugging a =>
    exact ⟨fun _ => continueDebugging_issues d a, by simp [Command.buildsRequest]⟩
  | evaluate e g b f c => exact ⟨fun _ => evaluate_issues d e g b f c, by simp [Command.buildsRequest]⟩
  | lookup hs i => exact ⟨fun _ => lookup_issues d hs i, by simp [Command.buildsRequest]⟩
  | backtrace f t b => exact ⟨fun _ => backtrace_issues d f t b, by simp [Command.buildsRequest]⟩
  | frame n => exact ⟨fun _ => frame_issues d n, by simp [Command.buildsRequest]⟩
  | scope n f => exact ⟨fun _ => scope_issues d n f, by simp [Command.buildsRequest]⟩
  | scripts t ids i f => exact ⟨fun _ => scripts_issues d t ids i f, by simp [Command.buildsRequest]⟩
  | setBreakpoint ty ta e l c co ig =>
    constructor
    · intro h
      have h' : ty ≠ "event" := by simpa [Command.buildsRequest] using h
      exact setBreakpoint_issues d ty ta e l c co ig h'
    · intro h
      have h' : ty = "event" := by simpa [Command.buildsRequest] using h
      subst h'
      exact setBreakpoint_event d ta e l c co ig
  | clearBreakpoint b => exact ⟨fun _ => clearBreakpoint_issues d b, by simp [Command.buildsRequest]⟩
  | setExceptionBreak t e =>
    exact ⟨fun _ => setExceptionBreak_issues d t e, by simp [Command.buildsRequest]⟩
  | version => exact ⟨fun _ => version_issues d, by simp [Command.buildsRequest]⟩

theorem wrapInt32_id (n : Int) (hlo : -2147483648 ≤ n) (hhi : n ≤ 2147483647) :
    wrapInt32 n = n := by
  unfold wrapInt32
  omega

theorem consecutiveFrom_succ (s : Int) (k : Nat) :
    consecutiveFrom s (k + 1) = (s + 1) :: consecutiveFrom (s + 1) k := rfl

theorem consecutiveFrom_lower (k : Nat) : ∀ (s x : Int), x ∈ consecutiveFrom s k → s < x := by
  induction k with
  | zero => intro s x hx; simp [consecutiveFrom] at hx
  | succ k ih =>
    intro s x hx
    rw [consecutiveFrom_succ, List.mem_cons] at hx
    rcases hx with rfl | hx
    · omega
    · have := ih (s + 1) x hx
      omega

theorem consecutiveFrom_pairwise (k : Nat) : ∀ s : Int, (consecutiveFrom s k).Pairwise (· < ·) := by
  induction k with
  | zero => intro s; simp [consecutiveFrom]
  | succ k ih =>
    intro s
    rw [consecutiveFrom_succ]
    exact List.Pairwise.cons (consecutiveFrom_lower k (s + 1)) (ih (s + 1))

theorem runCommands_trace (cmds : List Command) :
    ∀ d : QmlEnginePrivate, -2147483648 ≤ d.sequence + 1 →
      d.sequence + cmds.length ≤ 2147483647 →
      (runCommands d cmds).sequence = d.sequence + (cmds.countP Command.buildsRequest : Nat) ∧
      ∃ t, (runCommands d cmds).trace = d.trace ++ t ∧
        requestSeqs t = consecutiveFrom d.sequence (cmds.countP Command.buildsRequest) := by
  induction cmds with
  | nil =>
    intro d _ _
    exact ⟨by simp [runCommands], [], by simp [runCommands], by simp [requestSeqs, consecutiveFrom]⟩
  | cons c cs ih =>
    intro d hlo hhi
    simp only [List.length_cons, Nat.cast_succ] at hhi
    have hrun : runCommands d (c :: cs) = runCommands (c.run d) cs := by simp [runCommands]
    rw [hrun]
    cases hb : c.buildsRequest with
    | true =>
      obtain ⟨hs, p, ht, hp⟩ := (Command.run_issues d c).1 hb
      have hw : wrapInt32 (d.sequence + 1) = d.sequence + 1 :=
        wrapInt32_id _ hlo (by omega)
      rw [hw] at hs hp
      obtain ⟨hs', t, ht', hq⟩ := ih (c.run d) (by rw [hs]; omega) (by rw [hs]; omega)
      rw [List.countP_cons_of_pos _ _ hb]
      refine ⟨by rw [hs', hs]; push_cast; omega, Effect.sendMessage p :: t, ?_, ?_⟩
      · rw [ht', ht]; simp
      · rw [consecutiveFrom_succ, ← hs, ← hq]
        simp [requestSeqs, hp, hs]
    | false =>
      obtain ⟨hs, p, ht, hp⟩ := (Command.run_issues d c).2 hb
      obtain ⟨hs', t, ht', hq⟩ := ih (c.run d) (by rw [hs]; omega) (by rw [hs]; omega)
      have hb' : ¬ (c.buildsRequest = true) := by simp [hb]
      rw [List.countP_cons_of_neg _ _ hb']
      refine ⟨by rw [hs', hs], Effect.sendMessage p :: t, ?_, ?_⟩
      · rw [ht', ht]; simp
      · rw [← hs, ← hq]
        simp [requestSeqs, hp]

/-! ## C1: sequence numbers -/

/-- C1 (as amended): for every engine state and every sequence of
request-building operations that does not take the `int` counter past its
largest value, the `seq` fields of the requests emitted are the consecutive
integers after the counter (one per operation that builds a JSON request), so
they are strictly increasing and all greater than the counter before. -/
theorem issued_sequence_numbers_increase (d : QmlEnginePrivate) (cmds : List Command)
    (hlo : -2147483648 ≤ d.sequence) (hhi : d.sequence + cmds.length ≤ 2147483647) :
    issuedSeqs d (runCommands d cmds)
        = consecutiveFrom d.sequence (cmds.countP Command.buildsRequest) ∧
      (issuedSeqs d (runCommands d cmds)).Pairwise (· < ·) ∧
      ∀ s ∈ issuedSeqs d (runCommands d cmds), d.sequence < s := by
  obtain ⟨_, t, ht, hq⟩ := runCommands_trace cmds d (by omega) hhi
  have h : issuedSeqs d (runCommands d cmds)
      = consecutiveFrom d.sequence (cmds.countP Command.buildsRequest) := by
    unfold issuedSeqs
    rw [ht, List.drop_left, hq]
  rw [h]
  exact ⟨rfl, consecutiveFrom_pairwise _ _, fun s hs => consecutiveFrom_lower _ _ s hs⟩

/-- C1, witness: a fresh engine running three operations issues `0` and `1`. -/
theorem issued_sequence_numbers_increase_witness :
    (-2147483648 ≤ freshEngine.sequence ∧
      freshEngine.sequence + threeCommands.length ≤ 2147483647) ∧
    (issuedSeqs freshEngine (runCommands freshEngine threeCommands)
        = consecutiveFrom freshEngine.sequence (threeCommands.countP Command.buildsRequest) ∧
      (issuedSeqs freshEngine (runCommands freshEngine threeCommands)).Pairwise (· < ·) ∧
      ∀ s ∈ issuedSeqs freshEngine (runCommands freshEngine threeCommands),
        freshEngine.sequence < s) :=
  ⟨⟨by decide, by decide⟩,
    issued_sequence_numbers_increase freshEngine threeCommands (by decide) (by decide)⟩

/-- C1, counterexample: with the counter one below the largest `int`, two
`version` requests carry the sequence numbers `2147483647` and `-2147483648`:
the second is not greater than the first. -/
theorem issued_sequence_numbers_wrap :
    issuedSeqs nearOverflowEngine
        (runCommands nearOverflowEngine [Command.version, Command.version])
      = [2147483647, -2147483648] ∧
    ¬ (issuedSeqs nearOverflowEngine
        (runCommands nearOverflowEngine [Command.version, Command.version])).Pairwise
          (· < ·) := by
  have h : issuedSeqs nearOverflowEngine
        (runCommands nearOverflowEngine [Command.version, Command.version])
      = [2147483647, -2147483648] := by decide
  rw [h]
  exact ⟨rfl, by decide⟩

theorem readByteArray_cons (b0 b1 b2 b3 : Nat) (rest : Bytes) :
    readByteArray (b0 :: b1 :: b2 :: b3 :: rest) =
      if b0 * 16777216 + b1 * 65536 + b2 * 256 + b3 = 4294967295 then ([], rest)
      else if rest.length < b0 * 16777216 + b1 * 65536 + b2 * 256 + b3 then ([], [])
      else (rest.take (b0 * 16777216 + b1 * 65536 + b2 * 256 + b3),
            rest.drop (b0 * 16777216 + b1 * 65536 + b2 * 256 + b3)) := rfl

theorem readByteArray_writeByteArray (b rest : Bytes) (hlen : b.length < 4294967295) :
    readByteArray (writeByteArray (some b) ++ rest) = (b, rest) := by
  have hsum : b.length / 16777216 % 256 * 16777216 + b.length / 65536 % 256 * 65536
      + b.length / 256 % 256 * 256 + b.length % 256 = b.length := by omega
  have hw : writeByteArray (some b) ++ rest
      = (b.length / 16777216 % 256) :: (b.length / 65536 % 256) :: (b.length / 256 % 256)
          :: (b.length % 256) :: (b ++ rest) := rfl
  rw [hw, readByteArray_cons, hsum]
  have h1 : ¬ (b.length = 4294967295) := by omega
  have h2 : ¬ ((b ++ rest).length < b.length) := by
    rw [List.length_append]; omega
  rw [if_neg h1, if_neg h2, List.take_left, List.drop_left]

theorem asciiBytes_length (s : String) : (asciiBytes s).length = s.length := by
  simp [asciiBytes]

theorem readPacket_encode (toJson : QVariant → Bytes) (type : String) (doc : QVariant)
    (htype : type.length < 4294967295) (hlen : (toJson doc).length < 4294967295) :
    readPacket ((packMessage type (Payload.json doc)).encode toJson)
      = (asciiBytes V8DEBUG, asciiBytes type, toJson doc) := by
  have h0 : (asciiBytes V8DEBUG).length < 4294967295 := by decide
  have h1 : (asciiBytes type).length < 4294967295 := by rw [asciiBytes_length]; exact htype
  have he : (packMessage type (Payload.json doc)).encode toJson
      = writeByteArray (some (asciiBytes V8DEBUG))
          ++ (writeByteArray (some (asciiBytes type))
            ++ (writeByteArray (some (toJson doc)) ++ [])) := by
    simp [Packet.encode, packMessage, Payload.bytes]
  rw [he]
  unfold readPacket
  rw [readByteArray_writeByteArray _ _ h0]
  simp only []
  rw [readByteArray_writeByteArray _ _ h1]
  simp only []
  rw [readByteArray_writeByteArray _ _ hlen]

theorem decodeFrame_eq (fromJson : Bytes → QVariant) (data : Bytes) :
    decodeFrame fromJson data
      = ((readPacket data).1, (readPacket data).2.1, fromJson (readPacket data).2.2) := rfl

/-! ## C2: round trip of the framing codec -/

theorem latin1ToUtf8_ascii (bs : Bytes) (h : ∀ b ∈ bs, 0 < b ∧ b < 128) :
    latin1ToUtf8 bs = bs := by
  unfold latin1ToUtf8
  induction bs with
  | nil => rfl
  | cons b bs ih =>
    have hb := h b (List.mem_cons_self _ _)
    have hne : b ≠ 0 := by omega
    have ih' := ih (fun x hx => h x (List.mem_cons_of_mem _ hx))
    have htw : List.takeWhile (fun b => decide (b ≠ 0)) (b :: bs)
        = b :: List.takeWhile (fun b => decide (b ≠ 0)) bs := by
      simp [List.takeWhile_cons, hne]
    have henc : utf8EncodeChar b = [b] := by
      unfold utf8EncodeChar
      rw [if_pos hb.2]
    rw [htw, List.flatMap_cons, ih', henc]
    rfl

/-- The round trip of the framing codec for ASCII requests: for every request
object whose serialised JSON text consists of ASCII characters other than
NUL, the frame `sendAndLogV8Request` sends, read back with the reader of
`messageReceived` (service tag, sub-type, payload, re-encoding of the payload
and JSON parse), yields the service tag `V8DEBUG`, the sub-type `V8REQUEST`
and the request object itself, so the same command name and the same
arguments.  The JSON serialiser and parser are those of the Qt library: they
are assumed to round-trip on the request, and the serialised text to fit a
`QByteArray`. -/
theorem ascii_request_frame_round_trip (toJson : QVariant → Bytes) (fromJson : Bytes → QVariant)
    (d : QmlEnginePrivate) (request : QVariantMap)
    (hlen : (toJson (QVariant.map request)).length < 4294967295)
    (hascii : ∀ b ∈ toJson (QVariant.map request), 0 < b ∧ b < 128)
    (hjson : fromJson (toJson (QVariant.map request)) = QVariant.map request) :
    ∃ p, (sendAndLogV8Request d request).trace = d.trace ++ [Effect.sendMessage p] ∧
      decodeFrame (messagePayloadParse fromJson) (p.encode toJson)
        = (asciiBytes V8DEBUG, asciiBytes V8REQUEST, QVariant.map request) ∧
      mapValue (decodeFrame (messagePayloadParse fromJson) (p.encode toJson)).2.2.toMap "command"
        = mapValue request "command" ∧
      mapValue (decodeFrame (messagePayloadParse fromJson) (p.encode toJson)).2.2.toMap
          "arguments"
        = mapValue request "arguments" := by
  have hl : V8REQUEST.length < 4294967295 := by decide
  have hd : decodeFrame (messagePayloadParse fromJson)
      ((packMessage V8REQUEST (Payload.json (QVariant.map request))).encode toJson)
        = (asciiBytes V8DEBUG, asciiBytes V8REQUEST, QVariant.map request) := by
    rw [decodeFrame_eq, readPacket_encode toJson V8REQUEST (QVariant.map request) hl hlen]
    show (asciiBytes V8DEBUG, asciiBytes V8REQUEST,
      fromJson (latin1ToUtf8 (toJson (QVariant.map request)))) = _
    rw [latin1ToUtf8_ascii _ hascii, hjson]
  refine ⟨packMessage V8REQUEST (Payload.json (QVariant.map request)), ?_, hd, ?_, ?_⟩
  · exact (sendMessage_trace _ _).1
  · rw [hd]; rfl
  · rw [hd]; rfl

set_option maxRecDepth 100000 in
/-- The ASCII round trip at the request `evaluate("1+1", frame = 0)`. -/
theorem ascii_request_frame_round_trip_example :
    decodeFrame (messagePayloadParse fromJsonUtf8)
        ((packMessage V8REQUEST (Payload.json (QVariant.map evaluateRequest))).encode toJsonUtf8)
      = (asciiBytes V8DEBUG, asciiBytes V8REQUEST, QVariant.map evaluateRequest) := by
  rfl

/-- C3 (as amended): for every handle table and every descriptor with a `ref`
key whose handle `H` has an entry in the table, once `extractData` returns
`d` on that entry, `extractData` on the descriptor returns the type, display
value and child list of `d`, the handle `H` and the descriptor's own name; the
handle `H` is the handle of `d` whenever the entry is inline (has no `ref`
key of its own). -/
theorem ref_descriptor_decodes_like_entry (fuel : Nat) (data refsVal entry : QVariant)
    (d : QmlV8ObjectData)
    (href : mapContains data.toMap "ref" = true)
    (hentry : valueFromRef (mapValue data.toMap "ref").toInt refsVal = some entry)
    (hd : extractData fuel entry refsVal = some d) :
    extractData (fuel + 1) data refsVal
        = some { handle := (mapValue data.toMap "ref").toInt,
                 name := (mapValue data.toMap "name").toString,
                 type := d.type, value := d.value, properties := d.properties } ∧
      (mapContains entry.toMap "ref" = false → d.handle = (mapValue data.toMap "ref").toInt) := by
  constructor
  · rw [extractData_ref_found fuel data refsVal entry href hentry, hd]
    rfl
  · intro hinline
    rw [extractData_inline fuel entry refsVal hinline] at hd
    have hh := (valueFromRef_handle _ _ _ hentry).1
    have : (extractInline entry.toMap).handle = (mapValue entry.toMap "handle").toInt := by
      unfold extractInline
      simp only []
      repeat' split
      all_goals rfl
    cases hd
    rw [this, hh]

/-- C3, witness: the descriptor `{ref: 2, name: "x"}` against a table whose
entry at handle `2` is the number `5`. -/
theorem ref_descriptor_decodes_like_entry_witness :
    (mapContains (refDescriptor 2 "x").toMap "ref" = true ∧
      valueFromRef (mapValue (refDescriptor 2 "x").toMap "ref").toInt chainedRefs
        = some (QVariant.map [("handle", QVariant.num 2), ("type", QVariant.str "number"),
                              ("value", QVariant.num 5)]) ∧
      extractData 0 (QVariant.map [("handle", QVariant.num 2), ("type", QVariant.str "number"),
                                   ("value", QVariant.num 5)]) chainedRefs
        = some { handle := 2, type := "number", value := QVariant.num 5 }) ∧
    (extractData 1 (refDescriptor 2 "x") chainedRefs
        = some { handle := 2, name := "x", type := "number", value := QVariant.num 5,
                 properties := [] } ∧
      (mapContains (QVariant.map [("handle", QVariant.num 2), ("type", QVariant.str "number"),
                                  ("value", QVariant.num 5)]).toMap "ref" = false →
        (2 : Int) = 2)) :=
  ⟨⟨by decide, by rfl, by rfl⟩,
    ref_descriptor_decodes_like_entry 0 (refDescriptor 2 "x") chainedRefs
      (QVariant.map [("handle", QVariant.num 2), ("type", QVariant.str "number"),
                     ("value", QVariant.num 5)])
      { handle := 2, type := "number", value := QVariant.num 5 } (by decide) (by rfl) (by rfl)⟩

/-- C3, counterexample: the entry at handle `1` is itself a reference to
handle `2`.  The descriptor `{ref: 1}` decodes to handle `1`, the entry at
handle `1` decodes to handle `2`: the two decoded values differ. -/
theorem ref_descriptor_handle_differs :
    valueFromRef 1 chainedRefs
        = some (QVariant.map [("handle", QVariant.num 1), ("ref", QVariant.num 2)]) ∧
      (extractData 5 (refDescriptor 1 "") chainedRefs).map (fun d => d.handle) = some 1 ∧
      (extractData 5 (QVariant.map [("handle", QVariant.num 1), ("ref", QVariant.num 2)])
          chainedRefs).map (fun d => d.handle) = some 2 ∧
      (extractData 5 (refDescriptor 1 "") chainedRefs).map (fun d => d.handle)
        ≠ (extractData 5 (QVariant.map [("handle", QVariant.num 1), ("ref", QVariant.num 2)])
          chainedRefs).map (fun d => d.handle) :=
  ⟨by rfl, by decide, by decide, by decide⟩

theorem toMap_map_toMap (e : QVariant) : (QVariant.map e.toMap).toMap = e.toMap := rfl

theorem extractData_entry_returns (rank : Int → Nat) (refsVal : QVariant)
    (hwf : RefsWellFounded rank refsVal) :
    ∀ (n : Nat) (e : QVariant), e ∈ refsVal.toList →
      rank (mapValue e.toMap "handle").toInt ≤ n →
      ∃ d, extractData n (QVariant.map e.toMap) refsVal = some d := by
  intro n
  induction n with
  | zero =>
    intro e he hr
    by_cases hc : mapContains e.toMap "ref" = true
    · have := hwf e he hc
      omega
    · have hc' : mapContains (QVariant.map e.toMap).toMap "ref" = false := by
        simpa [toMap_map_toMap] using hc
      exact ⟨_, extractData_inline 0 _ refsVal hc'⟩
  | succ m ih =>
    intro e he hr
    by_cases hc : mapContains e.toMap "ref" = true
    · have hlt := hwf e he hc
      have hc' : mapContains (QVariant.map e.toMap).toMap "ref" = true := hc
      cases hv : valueFromRef (mapValue (QVariant.map e.toMap).toMap "ref").toInt refsVal with
      | none => exact ⟨_, extractData_ref_missing _ _ refsVal hc' hv⟩
      | some entry =>
        obtain ⟨hh, e', he', rfl⟩ := valueFromRef_handle _ _ _ hv
        rw [toMap_map_toMap] at hh
        rw [toMap_map_toMap] at hh
        have hr' : rank (mapValue e'.toMap "handle").toInt ≤ m := by
          rw [hh]; omega
        obtain ⟨d', hd'⟩ := ih e' he' hr'
        refine ⟨{ handle := (mapValue (QVariant.map e.toMap).toMap "ref").toInt,
                  name := (mapValue (QVariant.map e.toMap).toMap "name").toString,
                  type := d'.type, value := d'.value, properties := d'.properties }, ?_⟩
        rw [extractData_ref_found m _ refsVal _ hc' hv, hd']
        rfl
    · have hc' : mapContains (QVariant.map e.toMap).toMap "ref" = false := by
        simpa [toMap_map_toMap] using hc
      exact ⟨_, extractData_inline _ _ refsVal hc'⟩

/-! ## C4: termination of the resolver -/

/-- C4 (as amended): `extractData` returns on every descriptor and every
handle table whose reference links are well-founded, that is, for which some
rank on handles decreases from the handle of every entry carrying a `ref` key
to the handle it refers to (no entry refers to itself, and no longer cycle
exists either): from some recursion depth on, every depth gives the same
decoded value. -/
theorem extractData_terminates (rank : Int → Nat) (refsVal data : QVariant)
    (hwf : RefsWellFounded rank refsVal) :
    ∃ (fuel : Nat) (d : QmlV8ObjectData),
      ∀ fuel', fuel ≤ fuel' → extractData fuel' data refsVal = some d := by
  by_cases hc : mapContains data.toMap "ref" = true
  · cases hv : valueFromRef (mapValue data.toMap "ref").toInt refsVal with
    | none =>
      exact ⟨0, _, fun fuel' _ => extractData_ref_missing fuel' data refsVal hc hv⟩
    | some entry =>
      obtain ⟨hh, e, he, rfl⟩ := valueFromRef_handle _ _ _ hv
      rw [toMap_map_toMap] at hh
      obtain ⟨d', hd'⟩ := extractData_entry_returns rank refsVal hwf
        (rank (mapValue e.toMap "handle").toInt) e he (le_refl _)
      refine ⟨rank (mapValue e.toMap "handle").toInt + 1,
        { handle := (mapValue data.toMap "ref").toInt,
          name := (mapValue data.toMap "name").toString,
          type := d'.type, value := d'.value, properties := d'.properties },
        fun fuel' hle => ?_⟩
      apply extractData_fuel_le refsVal data _ _ fuel' hle
      rw [extractData_ref_found _ data refsVal _ hc hv, hd']
      rfl
  · have hc' : mapContains data.toMap "ref" = false := by simpa using hc
    exact ⟨0, _, fun fuel' _ => extractData_inline fuel' data refsVal hc'⟩

/-- C4, witness: a table with a chain of two entries, ranked by `10 - handle`. -/
theorem extractData_terminates_witness :
    RefsWellFounded (fun h => (10 - h).toNat) chainedRefs ∧
    ∃ (fuel : Nat) (d : QmlV8ObjectData),
      ∀ fuel', fuel ≤ fuel' → extractData fuel' (refDescriptor 1 "a") chainedRefs = some d :=
  ⟨by unfold RefsWellFounded; decide,
    extractData_terminates (fun h => (10 - h).toNat) chainedRefs (refDescriptor 1 "a")
      (by unfold RefsWellFounded; decide)⟩

theorem extractData_cyclic (fuel : Nat) :
    extractData fuel (QVariant.map [("handle", QVariant.num 1), ("ref", QVariant.num 2)])
        cyclicRefs = none ∧
      extractData fuel (QVariant.map [("handle", QVariant.num 2), ("ref", QVariant.num 1)])
        cyclicRefs = none := by
  induction fuel with
  | zero =>
    exact ⟨extractData_ref_zero _ cyclicRefs _ (by decide) (by rfl),
           extractData_ref_zero _ cyclicRefs _ (by decide) (by rfl)⟩
  | succ n ih =>
    constructor
    · rw [extractData_ref_found n _ cyclicRefs
        (QVariant.map [("handle", QVariant.num 2), ("ref", QVariant.num 1)]) (by decide) (by rfl),
        ih.2]
      rfl
    · rw [extractData_ref_found n _ cyclicRefs
        (QVariant.map [("handle", QVariant.num 1), ("ref", QVariant.num 2)]) (by decide) (by rfl),
        ih.1]
      rfl

/-- C4, counterexample: in a table whose two entries refer to each other no
entry is a bare reference to its own handle, yet `extractData` on `{ref: 1}`
returns at no recursion depth. -/
theorem extractData_diverges_on_cycle :
    (∀ e ∈ cyclicRefs.toList, isSelfReference e = false) ∧
      ¬ ∃ (fuel : Nat) (d : QmlV8ObjectData),
          extractData fuel (refDescriptor 1 "") cyclicRefs = some d := by
  refine ⟨by decide, ?_⟩
  rintro ⟨fuel, d, h⟩
  cases fuel with
  | zero =>
    rw [extractData_ref_zero _ cyclicRefs
      (QVariant.map [("handle", QVariant.num 1), ("ref", QVariant.num 2)]) (by decide) (by rfl)] at h
    cases h
  | succ n =>
    rw [extractData_ref_found n _ cyclicRefs
      (QVariant.map [("handle", QVariant.num 1), ("ref", QVariant.num 2)]) (by decide) (by rfl),
      (extractData_cyclic n).1] at h
    cases h

/-! ## C5: inline descriptors -/

/-- C5: for every inline descriptor (no `ref` key) with handle `h`,
`extractData` returns (at every recursion depth) the handle `h` and the type
tag of the descriptor, with the value `"undefined"` for undefined, `"null"`
for null, the `value` field for boolean, number and string, `className` for
object and `name` for function; the child list is the `properties` list of
the descriptor, unchanged, for object and function, and empty for the
primitive types. -/
theorem inline_descriptor_decoding (fuel : Nat) (data refsVal : QVariant) (h : Int)
    (hinline : mapContains data.toMap "ref" = false)
    (hhandle : mapValue data.toMap "handle" = QVariant.num h) :
    ∃ d, extractData fuel data refsVal = some d ∧ d.handle = h ∧
      ((mapValue data.toMap "type").toString = "undefined" →
        d.type = "undefined" ∧ d.value = QVariant.str "undefined" ∧ d.properties = []) ∧
      ((mapValue data.toMap "type").toString = "null" →
        d.type = "null" ∧ d.value = QVariant.str "null" ∧ d.properties = []) ∧
      ((mapValue data.toMap "type").toString = "boolean" →
        d.type = "boolean" ∧ d.value = mapValue data.toMap "value" ∧ d.properties = []) ∧
      ((mapValue data.toMap "type").toString = "number" →
        d.type = "number" ∧ d.value = mapValue data.toMap "value" ∧ d.properties = []) ∧
      ((mapValue data.toMap "type").toString = "string" →
        d.type = "string" ∧ d.value = mapValue data.toMap "value" ∧ d.properties = []) ∧
      ((mapValue data.toMap "type").toString = "object" →
        d.type = "object" ∧ d.value = mapValue data.toMap "className" ∧
          d.properties = (mapValue data.toMap "properties").toList) ∧
      ((mapValue data.toMap "type").toString = "function" →
        d.type = "function" ∧ d.value = mapValue data.toMap "name" ∧
          d.properties = (mapValue data.toMap "properties").toList) := by
  refine ⟨extractInline data.toMap, extractData_inline fuel data refsVal hinline, ?_, ?_, ?_, ?_,
    ?_, ?_, ?_, ?_⟩
  · unfold extractInline
    simp only [hhandle]
    repeat' split
    all_goals rfl
  all_goals
    intro ht
    unfold extractInline
    simp [ht]

/-- C5, witness: the descriptor `{handle: 7, type: "number", value: 42}`. -/
theorem inline_descriptor_decoding_witness :
    (mapContains numberDescriptor.toMap "ref" = false ∧
      mapValue numberDescriptor.toMap "handle" = QVariant.num 7) ∧
    ∃ d, extractData 0 numberDescriptor QVariant.invalid = some d ∧ d.handle = 7 ∧
      ((mapValue numberDescriptor.toMap "type").toString = "undefined" →
        d.type = "undefined" ∧ d.value = QVariant.str "undefined" ∧ d.properties = []) ∧
      ((mapValue numberDescriptor.toMap "type").toString = "null" →
        d.type = "null" ∧ d.value = QVariant.str "null" ∧ d.properties = []) ∧
      ((mapValue numberDescriptor.toMap "type").toString = "boolean" →
        d.type = "boolean" ∧ d.value = mapValue numberDescriptor.toMap "value" ∧
          d.properties = []) ∧
      ((mapValue numberDescriptor.toMap "type").toString = "number" →
        d.type = "number" ∧ d.value = mapValue numberDescriptor.toMap "value" ∧
          d.properties = []) ∧
      ((mapValue numberDescriptor.toMap "type").toString = "string" →
        d.type = "string" ∧ d.value = mapValue numberDescriptor.toMap "value" ∧
          d.properties = []) ∧
      ((mapValue numberDescriptor.toMap "type").toString = "object" →
        d.type = "object" ∧ d.value = mapValue numberDescriptor.toMap "className" ∧
          d.properties = (mapValue numberDescriptor.toMap "properties").toList) ∧
      ((mapValue numberDescriptor.toMap "type").toString = "function" →
        d.type = "function" ∧ d.value = mapValue numberDescriptor.toMap "name" ∧
          d.properties = (mapValue numberDescriptor.toMap "properties").toList) :=
  ⟨⟨by decide, by rfl⟩,
    inline_descriptor_decoding 0 numberDescriptor QVariant.invalid 7 (by decide) (by rfl)⟩

theorem messageReceived_v8message (fuel : Nat) (env : Env) (d : QmlEnginePrivate)
    (data payload : Bytes)
    (hframe : readPacket data = (asciiBytes V8DEBUG, asciiBytes V8MESSAGE, payload)) :
    messageReceived fuel env d data = handleV8Message fuel env d (env.fromJson payload).toMap := by
  unfold messageReceived
  rw [hframe]
  show (if asciiBytes V8DEBUG = asciiBytes V8DEBUG then _ else _) = _
  rw [if_pos rfl, if_neg (by decide), if_neg (by decide), if_neg (by decide), if_pos rfl]

/-! ## C7: failed responses are dropped -/

/-- C7: for every response frame with `success = false` whose command is
`backtrace`, `lookup`, `frame`, `scope` or `scripts`, `messageReceived`
returns the engine state it was given, unchanged in every field (counter,
breakpoint tables, pending evaluations, scope queue, stack and watch models,
send buffer, transport log and trace of calls): nothing is sent. -/
theorem failed_response_is_dropped (fuel : Nat) (env : Env) (d : QmlEnginePrivate)
    (data payload : Bytes)
    (hframe : readPacket data = (asciiBytes V8DEBUG, asciiBytes V8MESSAGE, payload))
    (htype : (mapValue (env.fromJson payload).toMap "type").toString = "response")
    (hfail : (mapValue (env.fromJson payload).toMap "success").toBool = false)
    (hcmd : (mapValue (env.fromJson payload).toMap "command").toString
              ∈ ["backtrace", "lookup", "frame", "scope", "scripts"]) :
    messageReceived fuel env d data = some d := by
  rw [messageReceived_v8message fuel env d data payload hframe]
  unfold handleV8Message handleResponse dispatchResponse
  simp only [htype, hfail, if_true]
  simp only [List.mem_cons, List.mem_singleton, List.not_mem_nil, or_false] at hcmd
  rcases hcmd with h | h | h | h | h <;> simp [h]

set_option maxRecDepth 100000 in
/-- C7, witness: a failed `backtrace` response arriving at a fresh engine. -/
theorem failed_response_is_dropped_witness :
    (readPacket (v8MessageFrame failedBacktraceResponse)
        = (asciiBytes V8DEBUG, asciiBytes V8MESSAGE, toJsonCompact failedBacktraceResponse) ∧
      (mapValue (exampleEnv.fromJson (toJsonCompact failedBacktraceResponse)).toMap
          "type").toString = "response" ∧
      (mapValue (exampleEnv.fromJson (toJsonCompact failedBacktraceResponse)).toMap
          "success").toBool = false ∧
      (mapValue (exampleEnv.fromJson (toJsonCompact failedBacktraceResponse)).toMap
          "command").toString ∈ ["backtrace", "lookup", "frame", "scope", "scripts"]) ∧
    messageReceived 0 exampleEnv freshEngine (v8MessageFrame failedBacktraceResponse)
      = some freshEngine :=
  ⟨⟨by rfl, by rfl, by rfl, by decide⟩,
    failed_response_is_dropped 0 exampleEnv freshEngine
      (v8MessageFrame failedBacktraceResponse) (toJsonCompact failedBacktraceResponse)
      (by rfl) (by rfl) (by rfl) (by decide)⟩

theorem hashContains_of_hashValue {κ ν : Type} [DecidableEq κ] (h : List (κ × ν)) (k : κ) (v : ν)
    (hv : hashValue h k = some v) : hashContains h k = true := by
  unfold hashValue at hv
  unfold hashContains
  cases hf : h.find? (fun kv => decide (kv.1 = k)) with
  | none => rw [hf] at hv; cases hv
  | some kv =>
    have h1 := List.find?_some hf
    have h2 := List.mem_of_find?_eq_some hf
    rw [List.any_eq_true]
    exact ⟨kv, h2, h1⟩

theorem extractData_error_body (fuel : Nat) (msg : QVariant) :
    extractData fuel (QVariant.map [("type", QVariant.str "string"), ("value", msg)])
        QVariant.invalid
      = some { handle := 0, name := "", type := "string", value := msg, properties := [] } := by
  rw [extractData_inline fuel _ _ (by rfl)]
  rfl

/-! ## C8: a failed evaluation still produces a node -/

/-- C8: for every `evaluate` response with `success = false`, failure message
`m` and `request_seq = s`, where `s` is tracked in `evaluatingExpression`
with a watch expression (one not starting with `local.`) and `s` is in neither
`updateLocalsAndWatchers` nor `debuggerCommands`, `messageReceived` returns the
state in which the tracking entry is consumed and exactly one node has been
inserted into the watch model for that expression: its type is unset and its
value is `m`; nothing else changes. -/
theorem failed_evaluate_inserts_error_node (fuel : Nat) (env : Env) (d : QmlEnginePrivate)
    (data payload : Bytes) (s : Int) (m exp : String)
    (hframe : readPacket data = (asciiBytes V8DEBUG, asciiBytes V8MESSAGE, payload))
    (htype : (mapValue (env.fromJson payload).toMap "type").toString = "response")
    (hcmd : (mapValue (env.fromJson payload).toMap "command").toString = "evaluate")
    (hfail : (mapValue (env.fromJson payload).toMap "success").toBool = false)
    (hseq : (mapValue (env.fromJson payload).toMap "request_seq").toInt = s)
    (hmsg : mapValue (env.fromJson payload).toMap "message" = QVariant.str m)
    (hexp : hashValue d.evaluatingExpression s = some exp)
    (hwatch : startsWith exp "local." = false)
    (hlocals : d.updateLocalsAndWatchers.contains s = false)
    (hcommands : d.debuggerCommands.contains s = false) :
    messageReceived fuel env d data
      = some { d with
          evaluatingExpression := hashTakeRest d.evaluatingExpression s,
          watchHandler := d.watchHandler.insertItem
            { iname := env.watcherName exp, name := exp, exp := exp, id := 0, type := "",
              value := m, wantsChildren := false } } := by
  rw [messageReceived_v8message fuel env d data payload hframe]
  unfold handleV8Message handleResponse dispatchResponse
  simp only [htype, hcmd, hfail, hseq, hmsg, if_true]
  simp only [String.reduceEq, if_false, Bool.false_eq_true]
  unfold handleEvaluate
  simp only [hlocals, hcommands, Bool.false_eq_true, if_false, extractData_error_body,
    hashContains_of_hashValue _ _ _ hexp, hexp, Option.getD_some, hwatch, if_true]
  simp [insertSubItems, WatchItem.setError, QVariant.toString, toQuint64]

set_option maxRecDepth 100000 in
/-- C8, witness: the failed response to request `5`, which evaluates the watch
expression `x`. -/
theorem failed_evaluate_inserts_error_node_witness :
    (readPacket (v8MessageFrame failedEvaluateResponse)
        = (asciiBytes V8DEBUG, asciiBytes V8MESSAGE, toJsonCompact failedEvaluateResponse) ∧
      (mapValue (exampleEnv.fromJson (toJsonCompact failedEvaluateResponse)).toMap
          "type").toString = "response" ∧
      (mapValue (exampleEnv.fromJson (toJsonCompact failedEvaluateResponse)).toMap
          "command").toString = "evaluate" ∧
      (mapValue (exampleEnv.fromJson (toJsonCompact failedEvaluateResponse)).toMap
          "success").toBool = false ∧
      (mapValue (exampleEnv.fromJson (toJsonCompact failedEvaluateResponse)).toMap
          "request_seq").toInt = 5 ∧
      mapValue (exampleEnv.fromJson (toJsonCompact failedEvaluateResponse)).toMap "message"
        = QVariant.str "ReferenceError: x" ∧
      hashValue engineAwaitingEvaluate.evaluatingExpression 5 = some "x" ∧
      startsWith "x" "local." = false ∧
      engineAwaitingEvaluate.updateLocalsAndWatchers.contains 5 = false ∧
      engineAwaitingEvaluate.debuggerCommands.contains 5 = false) ∧
    messageReceived 0 exampleEnv engineAwaitingEvaluate (v8MessageFrame failedEvaluateResponse)
      = some { engineAwaitingEvaluate with
          evaluatingExpression := hashTakeRest engineAwaitingEvaluate.evaluatingExpression 5,
          watchHandler := engineAwaitingEvaluate.watchHandler.insertItem
            { iname := exampleEnv.watcherName "x", name := "x", exp := "x", id := 0, type := "",
              value := "ReferenceError: x", wantsChildren := false } } :=
  ⟨⟨by rfl, by rfl, by rfl, by rfl, by rfl, by rfl, by rfl, by rfl, by rfl, by rfl⟩,
    failed_evaluate_inserts_error_node 0 exampleEnv engineAwaitingEvaluate
      (v8MessageFrame failedEvaluateResponse) (toJsonCompact failedEvaluateResponse) 5
      "ReferenceError: x" "x" (by rfl) (by rfl) (by rfl) (by rfl) (by rfl) (by rfl) (by rfl)
      (by rfl) (by rfl) (by rfl)⟩

/-! ## C9: failed `setbreakpoint` responses -/

theorem core_sendMessage (d : QmlEnginePrivate) (p : Packet) : (sendMessage d p).core = d.core := by
  unfold sendMessage
  simp only []
  split <;> rfl

theorem core_initObject (d : QmlEnginePrivate) : (initObject d).1.core = d.core := rfl

theorem core_sendAndLogV8Request (d : QmlEnginePrivate) (r : QVariantMap) :
    (sendAndLogV8Request d r).core = d.core := core_sendMessage _ _

theorem core_evaluate (d : QmlEnginePrivate) (e : String) (g b : Bool) (f : Int) (c : Bool) :
    (evaluate d e g b f c).core = d.core := by
  unfold evaluate
  exact (core_sendAndLogV8Request _ _).trans (core_initObject d)

theorem core_lookup (d : QmlEnginePrivate) (hs : List Int) (i : Bool) :
    (lookup d hs i).core = d.core := by
  unfold lookup
  exact (core_sendAndLogV8Request _ _).trans (core_initObject d)

theorem core_scope (d : QmlEnginePrivate) (n f : Int) : (scope d n f).core = d.core := by
  unfold scope
  exact (core_sendAndLogV8Request _ _).trans (core_initObject d)

theorem core_clearBreakpoint (d : QmlEnginePrivate) (b : Int) :
    (clearBreakpoint d b).core = d.core := by
  unfold clearBreakpoint
  exact (core_sendAndLogV8Request _ _).trans (core_initObject d)

theorem bpView_of_core (d e : QmlEnginePrivate) (h : e.core = d.core) : bpView e = bpView d := by
  have h1 : e.core.breakHandler = d.core.breakHandler := by rw [h]
  have h2 : e.core.breakpoints = d.core.breakpoints := by rw [h]
  unfold bpView
  exact Prod.ext h1 h2

theorem watchHandler_of_core (d e : QmlEnginePrivate) (h : e.core = d.core) :
    e.watchHandler = d.watchHandler := by
  have h1 : e.core.watchHandler = d.core.watchHandler := by rw [h]
  exact h1

theorem stackHandler_of_core (d e : QmlEnginePrivate) (h : e.core = d.core) :
    e.stackHandler = d.stackHandler := by
  have h1 : e.core.stackHandler = d.core.stackHandler := by rw [h]
  exact h1

theorem findItem_insertItem_self (w : WatchHandler) (item : WatchItem) :
    (w.insertItem item).findItem item.iname = some item := by
  unfold WatchHandler.findItem WatchHandler.insertItem
  simp only [List.find?_append]
  have hnone : List.find? (fun i => decide (i.iname = item.iname))
      (List.filter (fun i => !(decide (i.iname = item.iname)
        || startsWith i.iname (item.iname ++ "."))) w.items) = none := by
    rw [List.find?_eq_none]
    intro x hx
    rw [List.mem_filter] at hx
    have := hx.2
    simp only [Bool.not_eq_true', Bool.or_eq_false_iff, decide_eq_false_iff_not] at this
    simpa using this.1
  rw [hnone]
  simp

theorem find?_filter_of_imp {α : Type} (p q : α → Bool) (h : ∀ a, p a = true → q a = true) :
    ∀ l : List α, (l.filter q).find? p = l.find? p := by
  intro l
  induction l with
  | nil => rfl
  | cons a l ih =>
    by_cases hq : q a = true
    · rw [List.filter_cons_of_pos hq]
      by_cases hp : p a = true
      · rw [List.find?_cons_of_pos _ hp, List.find?_cons_of_pos _ hp]
      · rw [List.find?_cons_of_neg _ hp, List.find?_cons_of_neg _ hp, ih]
    · rw [List.filter_cons_of_neg hq]
      have hp : ¬ p a = true := fun hp => hq (h a hp)
      rw [List.find?_cons_of_neg _ hp, ih]

theorem findItem_insertItem_other (w : WatchHandler) (item : WatchItem) (iname : String)
    (h1 : iname ≠ item.iname) (h2 : startsWith iname (item.iname ++ ".") = false) :
    (w.insertItem item).findItem iname = w.findItem iname := by
  unfold WatchHandler.findItem WatchHandler.insertItem
  simp only [List.find?_append]
  rw [find?_filter_of_imp]
  · have : List.find? (fun i => decide (i.iname = iname)) [item] = none := by
      rw [List.find?_eq_none]
      intro x hx
      rw [List.mem_singleton] at hx
      subst hx
      simpa using fun h => h1 h.symm
    rw [this, Option.or_none]
  · intro a ha
    have ha' : a.iname = iname := by simpa using ha
    rw [ha']
    simp [h1, h2]

theorem expandObject_watchHandler (d e : QmlEnginePrivate) (iname : String) (objectId : Int)
    (h : expandObject d iname objectId = some e) : e.watchHandler = d.watchHandler := by
  have hplain : (lookup
      { d with localsAndWatchers := (hashInsertMulti d.localsAndWatchers (wrapInt32 objectId) iname) }
      [wrapInt32 objectId]).watchHandler = d.watchHandler :=
    (watchHandler_of_core _ _ (core_lookup _ _ _)).trans rfl
  unfold expandObject at h
  simp only [] at h
  split at h
  · split at h
    · cases h
    · split at h
      · split at h
        · cases h
          exact (watchHandler_of_core _ _ (core_evaluate d _ _ _ _ _)).trans rfl
        · cases h; rfl
      · cases h; exact hplain
  · cases h; exact hplain

theorem expandObject_returns (d : QmlEnginePrivate) (iname : String) (objectId : Int)
    (h : objectId = 0 → (d.watchHandler.findItem iname).isSome = true) :
    ∃ e, expandObject d iname objectId = some e := by
  unfold expandObject
  simp only []
  split
  · rename_i h0
    have := h h0
    cases hf : d.watchHandler.findItem iname with
    | none => rw [hf] at this; cases this
    | some watch =>
      simp only []
      split
      · split
        · exact ⟨_, rfl⟩
        · exact ⟨_, rfl⟩
      · exact ⟨_, rfl⟩
  · exact ⟨_, rfl⟩

theorem expandObjects_return (l : List (Int × String)) :
    ∀ d : QmlEnginePrivate,
      (∀ kv ∈ l, kv.1 = 0 → (d.watchHandler.findItem kv.2).isSome = true) →
      ∃ e, l.foldlM (fun d kv => expandObject d kv.2 kv.1) d = some e ∧
        e.watchHandler = d.watchHandler := by
  induction l with
  | nil => intro d _; exact ⟨d, rfl, rfl⟩
  | cons kv l ih =>
    intro d h
    obtain ⟨e1, he1⟩ := expandObject_returns d kv.2 kv.1 (h kv (List.mem_cons_self _ _))
    have hw := expandObject_watchHandler d e1 kv.2 kv.1 he1
    obtain ⟨e, he, hew⟩ := ih e1 (by
      intro kv' hkv' h0
      rw [hw]
      exact h kv' (List.mem_cons_of_mem _ hkv') h0)
    refine ⟨e, ?_, hew.trans hw⟩
    rw [List.foldlM_cons]
    show (expandObject d kv.2 kv.1 >>= fun d' => _) = _
    rw [he1]
    exact he

theorem mem_hashInsert {κ ν : Type} [DecidableEq κ] (h : List (κ × ν)) (k : κ) (v : ν)
    (x : κ × ν) (hx : x ∈ hashInsert h k v) : x = (k, v) ∨ x ∈ h := by
  unfold hashInsert at hx
  rw [List.mem_cons] at hx
  rcases hx with hx | hx
  · exact Or.inl hx
  · exact Or.inr (List.mem_filter.1 hx).1

theorem expandedHandles_found (w : WatchHandler) :
    ∀ kv ∈ expandedHandles w, (w.findItem kv.2).isSome = true := by
  unfold expandedHandles
  have key : ∀ (l : List String) (acc : List (Int × String)),
      (∀ kv ∈ acc, (w.findItem kv.2).isSome = true) →
      ∀ kv ∈ l.foldl (fun acc iname =>
        match w.findItem iname with
        | some item => if item.isLocal then hashInsert acc item.id iname else acc
        | none => acc) acc, (w.findItem kv.2).isSome = true := by
    intro l
    induction l with
    | nil => intro acc hacc; exact hacc
    | cons iname l ih =>
      intro acc hacc
      rw [List.foldl_cons]
      apply ih
      cases hf : w.findItem iname with
      | none => exact hacc
      | some item =>
        simp only []
        split
        · intro kv hkv
          rcases mem_hashInsert _ _ _ _ hkv with rfl | hkv
          · simp [hf]
          · exact hacc kv hkv
        · exact hacc
  exact key _ [] (by intro kv hkv; cases hkv)

theorem fetchScopes_watchHandler (scopes : List QVariant) :
    ∀ d : QmlEnginePrivate, (fetchScopes d scopes).watchHandler = d.watchHandler := by
  unfold fetchScopes
  induction scopes with
  | nil => intro d; rfl
  | cons sc scopes ih =>
    intro d
    rw [List.foldl_cons, ih]
    split
    · rfl
    · exact (watchHandler_of_core _ _ (core_scope _ _ _)).trans rfl

theorem thisItem_global (objectData : QmlV8ObjectData)
    (hglobal : objectData.value.toString = "global") :
    thisItem objectData
      = { iname := "local.this", name := "this", id := 0, type := objectData.type,
          value := "global", wantsChildren := true } := by
  unfold thisItem
  simp [hglobal]

/-! ## C6: the global object -/

/-- C6 (as amended): the `this` node that `handleFrame` creates from a decoded
receiver whose display value is the literal `"global"` is marked as having
children, whatever the decoded property list (also when it is empty), and its
handle is set to the sentinel `0`: `handleFrame` returns, and the watch model
it leaves is the one before with that node inserted under `local.this`.  (The
call is made with a current frame that is usable, and no expanded item of id
`0` sits below `local.this`, where the insertion would remove it.) -/
theorem global_this_node_is_expandable (fuel : Nat) (d : QmlEnginePrivate)
    (bodyVal refsVal : QVariant) (objectData : QmlV8ObjectData)
    (hindex : 0 ≤ d.stackHandler.currentIndex)
    (husable : d.stackHandler.currentFrame.usable = true)
    (hreceiver : extractData fuel (mapValue bodyVal.toMap "receiver") refsVal = some objectData)
    (hglobal : objectData.value.toString = "global")
    (hexpanded : ∀ kv ∈ expandedHandles d.watchHandler, kv.1 = 0 →
      startsWith kv.2 "local.this." = false) :
    ∃ e, handleFrame fuel d bodyVal refsVal = some e ∧
      e.watchHandler = d.watchHandler.insertItem
        { iname := "local.this", name := "this", id := 0, type := objectData.type,
          value := "global", wantsChildren := true } ∧
      e.watchHandler.findItem "local.this"
        = some { iname := "local.this", name := "this", id := 0, type := objectData.type,
                 value := "global", wantsChildren := true } := by
  have hlt : ¬ (d.stackHandler.currentIndex < 0) := by omega
  have hitem := thisItem_global objectData hglobal
  have hw5 : (emit (fetchScopes
      { clearCache (emit d Effect.notifyUpdateStarted) with
        watchHandler := d.watchHandler.insertItem (thisItem objectData) }
      (mapValue bodyVal.toMap "scopes").toList)
      (Effect.gotoLocation (fetchScopes
      { clearCache (emit d Effect.notifyUpdateStarted) with
        watchHandler := d.watchHandler.insertItem (thisItem objectData) }
      (mapValue bodyVal.toMap "scopes").toList).stackHandler.currentFrame)).watchHandler
        = d.watchHandler.insertItem (thisItem objectData) :=
    (fetchScopes_watchHandler _ _).trans rfl
  have hfound : ∀ kv ∈ expandedHandles d.watchHandler, kv.1 = 0 →
      ((d.watchHandler.insertItem (thisItem objectData)).findItem kv.2).isSome = true := by
    intro kv hkv h0
    by_cases hself : kv.2 = "local.this"
    · rw [hself, hitem]
      exact (congrArg Option.isSome (findItem_insertItem_self d.watchHandler _)).trans rfl
    · have hdot : ("local.this" ++ "." : String) = "local.this." := by decide
      have hpre : startsWith kv.2
          (({ iname := "local.this", name := "this", id := 0, type := objectData.type,
              value := "global", wantsChildren := true } : WatchItem).iname ++ ".") = false := by
        show startsWith kv.2 ("local.this" ++ ".") = false
        rw [hdot]
        exact hexpanded kv hkv h0
      rw [hitem, findItem_insertItem_other d.watchHandler _ kv.2 hself hpre]
      exact expandedHandles_found d.watchHandler kv hkv
  obtain ⟨e, he, hew⟩ := expandObjects_return (expandedHandles d.watchHandler) _
    (by rw [hw5]; exact hfound)
  have hwe : (emit e Effect.stackFrameCompleted).watchHandler
      = d.watchHandler.insertItem (thisItem objectData) := hew.trans hw5
  refine ⟨emit e Effect.stackFrameCompleted, ?_, hitem ▸ hwe, ?_⟩
  · unfold handleFrame
    simp only []
    split
    · rename_i h; exact absurd h hlt
    · split
      · rename_i h
        have h' : (!d.stackHandler.currentFrame.usable) = true := h
        rw [husable] at h'
        cases h'
      · split
        · rename_i heq
          exact absurd (heq.symm.trans hreceiver) (by simp)
        · rename_i od heq
          have hod : od = objectData := Option.some.inj (heq.symm.trans hreceiver)
          subst hod
          split
          · rename_i heq2
            exact absurd (heq2.symm.trans he) (by simp)
          · rename_i e' heq2
            have : e' = e := Option.some.inj (heq2.symm.trans he)
            rw [this]
  · rw [hwe, hitem]
    exact findItem_insertItem_self d.watchHandler _


/-- C6, witness: a `frame` response whose receiver refers to the global
object, which the table reports without properties. -/
theorem global_this_node_is_expandable_witness :
    (0 ≤ stoppedEngine.stackHandler.currentIndex ∧
      stoppedEngine.stackHandler.currentFrame.usable = true ∧
      extractData 1 (mapValue globalFrameBody.toMap "receiver") globalRefs
        = some globalObjectData ∧
      globalObjectData.value.toString = "global" ∧
      globalObjectData.properties = [] ∧
      (∀ kv ∈ expandedHandles stoppedEngine.watchHandler, kv.1 = 0 →
        startsWith kv.2 "local.this." = false)) ∧
    ∃ e, handleFrame 1 stoppedEngine globalFrameBody globalRefs = some e ∧
      e.watchHandler = stoppedEngine.watchHandler.insertItem
        { iname := "local.this", name := "this", id := 0, type := globalObjectData.type,
          value := "global", wantsChildren := true } ∧
      e.watchHandler.findItem "local.this"
        = some { iname := "local.this", name := "this", id := 0, type := globalObjectData.type,
                 value := "global", wantsChildren := true } :=
  ⟨⟨by decide, by rfl, by rfl, by rfl, by rfl, by decide⟩,
    global_this_node_is_expandable 1 stoppedEngine globalFrameBody globalRefs globalObjectData
      (by decide) (by rfl) (by rfl) (by rfl) (by decide)⟩

/-- C6, counterexample: a property `g` whose value is the global object at
handle `5`, reported without properties.  The nodes that `insertSubItems`,
`handleScope`, `handleLookup` and `handleEvaluate` create for it have the
display value `"global"`, yet they are not marked as having children and
their handle is `5`, not `0`. -/
theorem global_nodes_elsewhere_are_plain :
    (insertSubItems 1 {} (some thisObjectItem) globalProperty globalRefs).map
        (fun w => w.items)
      = some [{ iname := "local.this.g", name := "g", exp := "this.g", id := 5,
                type := "object", value := "global", wantsChildren := false }] ∧
    (handleScope 1 stoppedEngine globalScopeBody globalRefs).map
        (fun e => e.watchHandler.items)
      = some [{ iname := "local.g", name := "g", exp := "g", id := 5, type := "object",
                value := "global", wantsChildren := false }] ∧
    (handleLookup 1 { stoppedEngine with localsAndWatchers := [(5, "g")] } globalLookupBody
        QVariant.invalid).map (fun e => e.watchHandler.items)
      = some [{ iname := "local.g", name := "g", exp := "g", id := 5, type := "object",
                value := "global", wantsChildren := false }] ∧
    (handleEvaluate 1 exampleEnv { stoppedEngine with evaluatingExpression := [(7, "g")] } 7 true
        (QVariant.map [("ref", QVariant.num 5)]) globalRefs).map
          (fun e => e.watchHandler.items)
      = some [{ iname := "watch.g", name := "g", exp := "g", id := 5, type := "object",
                value := "global", wantsChildren := false }] :=
  ⟨by rfl, by rfl, by rfl, by rfl⟩

theorem mem_modify (h : BreakHandler) (id : BreakpointModelId) (f : Breakpoint → Breakpoint)
    (b' : Breakpoint) (hb' : b' ∈ (h.modify id f).items) :
    ∃ b ∈ h.items, b' = if b.id = id then f b else b := by
  unfold BreakHandler.modify at hb'
  simp only [List.mem_map] at hb'
  obtain ⟨b, hb, rfl⟩ := hb'
  exact ⟨b, hb, rfl⟩

theorem modify_ids (h : BreakHandler) (id : BreakpointModelId) (f : Breakpoint → Breakpoint)
    (hf : ∀ b, (f b).id = b.id) :
    (h.modify id f).items.map (fun bp => bp.id) = h.items.map (fun bp => bp.id) := by
  unfold BreakHandler.modify
  simp only [List.map_map]
  apply List.map_congr_left
  intro b _
  simp only [Function.comp]
  split
  · exact hf b
  · rfl

/-- A change of the breakpoints with a given id that keeps ids and parameters
and establishes only acknowledged or non-file/line breakpoints keeps the
invariant. -/
theorem BpInv.modify (A : BreakpointModelId → Prop) (h : BreakHandler)
    (bps : List (BreakpointModelId × Int)) (id : BreakpointModelId)
    (f : Breakpoint → Breakpoint) (hinv : BpInv A (h, bps))
    (hid : ∀ b, (f b).id = b.id) (hparams : ∀ b, (f b).params = b.params)
    (hstate : ∀ b ∈ h.items, b.id = id →
      b.params.type = BreakpointType.BreakpointByFileAndLine →
      (f b).state.isEstablished = true → b.state.isEstablished = true ∨ A id) :
    BpInv A (h.modify id f, bps) := by
  obtain ⟨h1, h2, h3, h4⟩ := hinv
  refine ⟨?_, h2, ?_, ?_⟩
  · intro b' hb' htype hest
    obtain ⟨b, hb, rfl⟩ := mem_modify h id f b' hb'
    by_cases hbid : b.id = id
    · simp only [hbid, if_true] at htype hest ⊢
      rw [hid, hbid]
      rw [hparams] at htype
      rcases hstate b hb hbid htype hest with h' | h'
      · have := h1 b hb htype h'
        rwa [hbid] at this
      · exact h'
    · simp only [hbid, if_false] at htype hest ⊢
      exact h1 b hb htype hest
  · show ((h.modify id f).items.map (fun bp => bp.id)).Nodup
    rw [modify_ids h id f hid]
    exact h3
  · intro b' hb'
    obtain ⟨b, hb, rfl⟩ := mem_modify h id f b' hb'
    show _ < h.nextId
    split
    · rw [hid]; exact h4 b hb
    · exact h4 b hb

/-- Setting the state of an acknowledged or non-file/line breakpoint, or
setting a state that is not an established one, keeps the invariant. -/
theorem BpInv.setState (A : BreakpointModelId → Prop) (h : BreakHandler)
    (bps : List (BreakpointModelId × Int)) (id : BreakpointModelId) (st : BreakpointState)
    (hinv : BpInv A (h, bps))
    (hok : st.isEstablished = false ∨ A id ∨
      ∀ b ∈ h.items, b.id = id → b.params.type ≠ BreakpointType.BreakpointByFileAndLine) :
    BpInv A (h.setState id st, bps) := by
  unfold BreakHandler.setState
  apply BpInv.modify A h bps id (fun b => { b with state := st }) hinv (fun _ => rfl)
    (fun _ => rfl)
  intro b hb hbid htype hest
  rcases hok with hok | hok | hok
  · simp only [] at hest
    rw [hok] at hest
    cases hest
  · exact Or.inr hok
  · exact absurd htype (hok b hb hbid)

theorem BpInv.setResponse (A : BreakpointModelId → Prop) (h : BreakHandler)
    (bps : List (BreakpointModelId × Int)) (id : BreakpointModelId) (br : BreakpointResponse)
    (hinv : BpInv A (h, bps)) : BpInv A (h.setResponse id br, bps) := by
  unfold BreakHandler.setResponse
  apply BpInv.modify A h bps id (fun b => { b with response := br }) hinv (fun _ => rfl)
    (fun _ => rfl)
  intro b _ _ _ hest
  exact Or.inl hest

theorem BpInv.appendBreakpoint (A : BreakpointModelId → Prop) (h : BreakHandler)
    (bps : List (BreakpointModelId × Int)) (params : BreakpointParameters)
    (hinv : BpInv A (h, bps)) : BpInv A (h.appendBreakpoint params, bps) := by
  obtain ⟨h1, h2, h3, h4⟩ := hinv
  have h4' : ∀ b ∈ h.items, b.id < h.nextId := h4
  refine ⟨?_, h2, ?_, ?_⟩
  · intro b hb htype hest
    have hb' : b ∈ h.items ++ [{ id := h.nextId, params := params }] := hb
    rw [List.mem_append, List.mem_singleton] at hb'
    rcases hb' with hb' | rfl
    · exact h1 b hb' htype hest
    · cases hest
  · have hgoal : ((h.items ++ [({ id := h.nextId, params := params } : Breakpoint)]).map
        (fun bp => bp.id)).Nodup := by
      rw [List.map_append, List.nodup_append]
      refine ⟨h3, by simp, ?_⟩
      intro a ha hb
      rw [List.map_cons, List.map_nil, List.mem_singleton] at hb
      obtain ⟨b, hbm, rfl⟩ := List.mem_map.1 ha
      have hlt := h4' b hbm
      rw [hb] at hlt
      exact Nat.lt_irrefl _ hlt
    exact hgoal
  · intro b hb
    have hb' : b ∈ h.items ++ [{ id := h.nextId, params := params }] := hb
    rw [List.mem_append, List.mem_singleton] at hb'
    show b.id < h.nextId + 1
    rcases hb' with hb' | rfl
    · exact Nat.lt_succ_of_lt (h4' b hb')
    · exact Nat.lt_succ_self _

theorem foldl_view {α β γ : Type} (view : α → γ) (f : α → β → α)
    (h : ∀ a x, view (f a x) = view a) : ∀ (l : List β) (a : α), view (l.foldl f a) = view a := by
  intro l
  induction l with
  | nil => intro a; rfl
  | cons x l ih => intro a; rw [List.foldl_cons, ih, h]

theorem foldlM_view {α β γ : Type} (view : α → γ) (f : α → β → Option α)
    (h : ∀ a x b, f a x = some b → view b = view a) :
    ∀ (l : List β) (a b : α), l.foldlM f a = some b → view b = view a := by
  intro l
  induction l with
  | nil =>
    intro a b hb
    have : a = b := by simpa using hb
    rw [this]
  | cons x l ih =>
    intro a b hb
    rw [List.foldlM_cons] at hb
    cases hx : f a x with
    | none => rw [hx] at hb; cases hb
    | some c =>
      rw [hx] at hb
      exact (ih c b hb).trans (h a x c hx)

theorem bpView_clearCache (d : QmlEnginePrivate) : bpView (clearCache d) = bpView d := rfl

theorem bpView_clearBreakpoint (d : QmlEnginePrivate) (b : Int) :
    bpView (clearBreakpoint d b) = bpView d :=
  bpView_of_core _ _ (core_clearBreakpoint d b)

theorem foldl_inv {α β : Type} (P : α → Prop) (f : α → β → α) (h : ∀ a x, P a → P (f a x)) :
    ∀ (l : List β) (a : α), P a → P (l.foldl f a) := by
  intro l
  induction l with
  | nil => intro a ha; exact ha
  | cons x l ih => intro a ha; rw [List.foldl_cons]; exact ih _ (h a x ha)

theorem breakpointById_modify (h : BreakHandler) (id : BreakpointModelId)
    (f : Breakpoint → Breakpoint) (hid : ∀ b, (f b).id = b.id) :
    (h.modify id f).breakpointById id = (h.breakpointById id).map f := by
  unfold BreakHandler.breakpointById BreakHandler.modify
  simp only []
  induction h.items with
  | nil => rfl
  | cons b bs ih =>
    by_cases hb : b.id = id
    · have h1 : (if b.id = id then f b else b) = f b := if_pos hb
      rw [List.map_cons, h1, List.find?_cons_of_pos, List.find?_cons_of_pos]
      · rfl
      · simpa using hb
      · simpa [hid] using hb
    · have h1 : (if b.id = id then f b else b) = b := if_neg hb
      rw [List.map_cons, h1, List.find?_cons_of_neg, List.find?_cons_of_neg, ih]
      · simpa using hb
      · simpa using hb

theorem breakpointById_setState (h : BreakHandler) (id : BreakpointModelId)
    (st : BreakpointState) :
    (h.setState id st).breakpointById id
      = (h.breakpointById id).map (fun b => { b with state := st }) :=
  breakpointById_modify h id _ (fun _ => rfl)

theorem breakpointById_setResponse (h : BreakHandler) (id : BreakpointModelId)
    (br : BreakpointResponse) :
    (h.setResponse id br).breakpointById id
      = (h.breakpointById id).map (fun b => { b with response := br }) :=
  breakpointById_modify h id _ (fun _ => rfl)

theorem BpInv.congr (A : BreakpointModelId → Prop) (d e : QmlEnginePrivate)
    (h : bpView e = bpView d) (hinv : BpInv A (bpView d)) : BpInv A (bpView e) := by
  rw [h]; exact hinv

theorem bpView_setBreakpointState (d : QmlEnginePrivate) (id : BreakpointModelId)
    (st : BreakpointState) :
    bpView (setBreakpointState d id st) = (d.breakHandler.setState id st, d.breakpoints) := rfl

theorem breakpointById_appendBreakpoint (h : BreakHandler) (id : BreakpointModelId)
    (params : BreakpointParameters) (b : Breakpoint) (hb : h.breakpointById id = some b) :
    (h.appendBreakpoint params).breakpointById id = some b := by
  unfold BreakHandler.breakpointById BreakHandler.appendBreakpoint
  simp only []
  rw [List.find?_append]
  have hb' : List.find? (fun b => decide (b.id = id)) h.items = some b := hb
  rw [hb']
  rfl

theorem setState_setState (h : BreakHandler) (id : BreakpointModelId)
    (s t : BreakpointState) : (h.setState id s).setState id t = h.setState id t := by
  unfold BreakHandler.setState BreakHandler.modify
  simp only [List.map_map]
  congr 1
  apply List.map_congr_left
  intro b _
  show (if (if b.id = id then _ else b).id = id then _ else _) = _
  by_cases hc : b.id = id
  · simp [hc]
  · simp [hc]

theorem clearBreakpoint_trace (d : QmlEnginePrivate) (b : Int) :
    ∃ p, (clearBreakpoint d b).trace = d.trace ++ [Effect.sendMessage p] ∧
      p.command = some "clearbreakpoint" ∧
      p.arguments = QVariant.map [("breakpoint", QVariant.num b)] ∧
      p.seq = some (wrapInt32 (d.sequence + 1)) := by
  unfold clearBreakpoint initObject sendAndLogV8Request
  simp only []
  refine ⟨_, (sendMessage_trace _ _).1, ?_, ?_, ?_⟩ <;>
  simp [Packet.command, Packet.arguments, Packet.seq, packMessage, jsonInsert, mapContains,
    mapValue, QVariant.toMap, QVariant.toString, QVariant.toInt]

/-! ## C11: removal and change of a file/line breakpoint -/

/-- C11 (as amended): for a file/line breakpoint of the break handler,
`removeBreakpoint` itself (when the breakpoint is not parked in
`pendingBreakpoints`) sends one `clearbreakpoint` request and returns with the
breakpoint in state `Dead`; `changeBreakpoint` itself acknowledges the change,
sends no request and returns with the breakpoint in state `RemoveRequested` and
a new breakpoint with the same parameters appended to the break handler; and
`messageReceived` returns the state it was given on every `clearbreakpoint`
response: no acknowledgment from the remote side takes part in either
transition. -/
theorem remove_and_change_complete_locally (d : QmlEnginePrivate) (id : BreakpointModelId)
    (bp : Breakpoint) (hbp : d.breakHandler.breakpointById id = some bp)
    (htype : bp.params.type = BreakpointType.BreakpointByFileAndLine) :
    ((bp.params.fileName, id) ∉ d.pendingBreakpoints →
      (removeBreakpoint d id).breakHandler.breakpointById id
        = some { bp with state := BreakpointState.BreakpointDead } ∧
      ∃ p, (removeBreakpoint d id).trace = d.trace ++ [Effect.sendMessage p] ∧
        p.command = some "clearbreakpoint") ∧
    ((changeBreakpoint d id).breakHandler.breakpointById id
        = some { bp with state := BreakpointState.BreakpointRemoveRequested } ∧
      (changeBreakpoint d id).breakHandler.items
        = (d.breakHandler.setState id BreakpointState.BreakpointRemoveRequested).items
            ++ [{ id := d.breakHandler.nextId, params := bp.params }] ∧
      (changeBreakpoint d id).trace = d.trace) ∧
    (∀ (fuel : Nat) (env : Env) (data payload : Bytes),
      readPacket data = (asciiBytes V8DEBUG, asciiBytes V8MESSAGE, payload) →
      (mapValue (env.fromJson payload).toMap "type").toString = "response" →
      (mapValue (env.fromJson payload).toMap "command").toString = "clearbreakpoint" →
      messageReceived fuel env d data = some d) := by
  refine ⟨?_, ?_, ?_⟩
  · intro hnot
    obtain ⟨p, hp, hcmd, _, _⟩ := clearBreakpoint_trace
      { setBreakpointState d id BreakpointState.BreakpointRemoveProceeding with
        breakpoints := hashRemove d.breakpoints id }
      ((hashValue d.breakpoints id).getD 0)
    have hbh : (clearBreakpoint
        { setBreakpointState d id BreakpointState.BreakpointRemoveProceeding with
          breakpoints := hashRemove d.breakpoints id }
        ((hashValue d.breakpoints id).getD 0)).breakHandler
          = d.breakHandler.setState id BreakpointState.BreakpointRemoveProceeding :=
      congrArg Prod.fst (bpView_clearBreakpoint _ _)
    have hlook : (clearBreakpoint
        { setBreakpointState d id BreakpointState.BreakpointRemoveProceeding with
          breakpoints := hashRemove d.breakpoints id }
        ((hashValue d.breakpoints id).getD 0)).breakHandler.breakpointById id
          = some { bp with state := BreakpointState.BreakpointRemoveProceeding } := by
      rw [hbh, breakpointById_setState, hbp]
      rfl
    have hres : removeBreakpoint d id
        = setBreakpointState (clearBreakpoint
            { setBreakpointState d id BreakpointState.BreakpointRemoveProceeding with
              breakpoints := hashRemove d.breakpoints id }
            ((hashValue d.breakpoints id).getD 0)) id BreakpointState.BreakpointDead := by
      unfold removeBreakpoint
      rw [hbp]
      simp only []
      rw [if_neg (fun h => hnot h.2), htype]
      simp only [reduceCtorEq, if_false]
      have hlook' := hlook
      simp only [setBreakpointState] at hlook' ⊢
      rw [hlook']
      rfl
    rw [hres]
    refine ⟨?_, p, hp, hcmd⟩
    show (BreakHandler.setState _ id BreakpointState.BreakpointDead).breakpointById id = _
    rw [breakpointById_setState, hlook]
    rfl
  · have hlook : (d.breakHandler.setState id
        BreakpointState.BreakpointRemoveRequested).breakpointById id
          = some { bp with state := BreakpointState.BreakpointRemoveRequested } := by
      rw [breakpointById_setState, hbp]
      rfl
    have hres : changeBreakpoint d id
        = { d with breakHandler :=
              (d.breakHandler.setState id
                BreakpointState.BreakpointRemoveRequested).appendBreakpoint bp.params } := by
      unfold changeBreakpoint
      rw [hbp]
      simp only []
      rw [htype]
      simp only [reduceCtorEq, if_false, setBreakpointState, setState_setState]
      rw [breakpointById_appendBreakpoint _ id _ _ hlook]
      simp
    rw [hres]
    exact ⟨breakpointById_appendBreakpoint _ id _ _ hlook, rfl, rfl⟩
  · intro fuel env data payload hframe ht hc
    rw [messageReceived_v8message fuel env d data payload hframe]
    unfold handleV8Message handleResponse dispatchResponse
    simp [ht, hc]

set_option maxRecDepth 100000 in
/-- C11, witness: the file/line breakpoint `1`, bound to the remote index `7`.
Asked to remove it, `removeBreakpoint` returns with the breakpoint `Dead`;
asked to change it, `changeBreakpoint` returns with it in `RemoveRequested`
and the trace of calls as it was; a `clearbreakpoint` response changes
nothing. -/
theorem remove_and_change_complete_locally_witness :
    ((removeBreakpoint (boundBreakpointEngine BreakpointState.BreakpointRemoveRequested)
        1).breakHandler.breakpointById 1
      = some { id := 1, params := fileLineParams, claimed := true,
               state := BreakpointState.BreakpointDead }) ∧
    ((changeBreakpoint (boundBreakpointEngine BreakpointState.BreakpointChangeRequested)
        1).breakHandler.breakpointById 1
      = some { id := 1, params := fileLineParams, claimed := true,
               state := BreakpointState.BreakpointRemoveRequested }) ∧
    (changeBreakpoint (boundBreakpointEngine BreakpointState.BreakpointChangeRequested)
        1).trace = [] ∧
    messageReceived 0 exampleEnv
        (boundBreakpointEngine BreakpointState.BreakpointRemoveRequested)
        (v8MessageFrame clearBreakpointResponse)
      = some (boundBreakpointEngine BreakpointState.BreakpointRemoveRequested) :=
  ⟨((remove_and_change_complete_locally
        (boundBreakpointEngine BreakpointState.BreakpointRemoveRequested) 1
        { id := 1, params := fileLineParams, claimed := true,
          state := BreakpointState.BreakpointRemoveRequested } (by rfl) (by rfl)).1
      (by decide)).1,
    (remove_and_change_complete_locally
        (boundBreakpointEngine BreakpointState.BreakpointChangeRequested) 1
        { id := 1, params := fileLineParams, claimed := true,
          state := BreakpointState.BreakpointChangeRequested } (by rfl) (by rfl)).2.1.1,
    (remove_and_change_complete_locally
        (boundBreakpointEngine BreakpointState.BreakpointChangeRequested) 1
        { id := 1, params := fileLineParams, claimed := true,
          state := BreakpointState.BreakpointChangeRequested } (by rfl) (by rfl)).2.1.2.2,
    (remove_and_change_complete_locally
        (boundBreakpointEngine BreakpointState.BreakpointRemoveRequested) 1
        { id := 1, params := fileLineParams, claimed := true,
          state := BreakpointState.BreakpointRemoveRequested } (by rfl) (by rfl)).2.2
      0 exampleEnv (v8MessageFrame clearBreakpointResponse)
      (toJsonCompact clearBreakpointResponse) (by rfl) (by rfl) (by rfl)⟩

/-- C11, counterexample: the file/line breakpoint `1` is bound to the remote
index `7` and its removal is requested.  `removeBreakpoint` sends the
`clearbreakpoint` request number `6` and returns with the breakpoint already
`Dead`: no message has been received. -/
theorem file_line_breakpoint_dies_inside_removeBreakpoint :
    ((boundBreakpointEngine BreakpointState.BreakpointRemoveRequested).breakHandler.breakpointById
        1).map (fun bp => (bp.params.type, bp.state))
      = some (BreakpointType.BreakpointByFileAndLine,
              BreakpointState.BreakpointRemoveRequested) ∧
    ((removeBreakpoint (boundBreakpointEngine BreakpointState.BreakpointRemoveRequested)
        1).breakHandler.breakpointById 1).map (fun bp => bp.state)
      = some BreakpointState.BreakpointDead ∧
    requestCommands (removeBreakpoint
        (boundBreakpointEngine BreakpointState.BreakpointRemoveRequested) 1).trace
      = ["clearbreakpoint"] ∧
    requestSeqs (removeBreakpoint
        (boundBreakpointEngine BreakpointState.BreakpointRemoveRequested) 1).trace = [6] :=
  ⟨by rfl, by rfl, by rfl, by rfl⟩

/-! ## C13: removal of a parked breakpoint -/

theorem eraseBinding_split {κ ν : Type} [DecidableEq κ] [DecidableEq ν] (k : κ) (v : ν) :
    ∀ h : List (κ × ν), (k, v) ∈ h →
      ∃ l1 l2, h = l1 ++ (k, v) :: l2 ∧ eraseBinding h k v = l1 ++ l2 ∧ (k, v) ∉ l1 := by
  intro h
  induction h with
  | nil => intro hm; exact absurd hm (List.not_mem_nil _)
  | cons kv h ih =>
    intro hm
    by_cases hc : kv.1 = k ∧ kv.2 = v
    · refine ⟨[], h, ?_, ?_, List.not_mem_nil _⟩
      · have : kv = (k, v) := Prod.ext hc.1 hc.2
        rw [this]
        rfl
      · show (if kv.1 = k ∧ kv.2 = v then h else kv :: eraseBinding h k v) = _
        rw [if_pos hc]
        rfl
    · have hne : kv ≠ (k, v) := fun he => hc ⟨congrArg Prod.fst he, congrArg Prod.snd he⟩
      have hm' : (k, v) ∈ h := by
        rcases List.mem_cons.1 hm with he | hm'
        · exact absurd he.symm hne
        · exact hm'
      obtain ⟨l1, l2, h1, h2, h3⟩ := ih hm'
      refine ⟨kv :: l1, l2, ?_, ?_, ?_⟩
      · rw [h1]
        rfl
      · show (if kv.1 = k ∧ kv.2 = v then h else kv :: eraseBinding h k v) = _
        rw [if_neg hc, h2]
        rfl
      · intro hmem
        rcases List.mem_cons.1 hmem with he | hmem'
        · exact hne he.symm
        · exact h3 hmem'

/-- C13: for every file/line breakpoint that is parked in `pendingBreakpoints`
under its file name, `removeBreakpoint` removes exactly that one parked entry
(the first one for this file name and breakpoint; the entries before and
after it are kept, in their order) and changes nothing else: the binding table
`breakpoints`, the pending-insert table `breakpointsSync`, the break handler,
the counter, the send buffer, the transport log and the trace of calls are as
before, so no request is sent. -/
theorem parked_breakpoint_is_only_unparked (d : QmlEnginePrivate) (id : BreakpointModelId)
    (bp : Breakpoint) (hbp : d.breakHandler.breakpointById id = some bp)
    (htype : bp.params.type = BreakpointType.BreakpointByFileAndLine)
    (hparked : (bp.params.fileName, id) ∈ d.pendingBreakpoints) :
    (∃ l1 l2, d.pendingBreakpoints = l1 ++ (bp.params.fileName, id) :: l2 ∧
        (removeBreakpoint d id).pendingBreakpoints = l1 ++ l2 ∧
        (bp.params.fileName, id) ∉ l1) ∧
      removeBreakpoint d id
        = { d with pendingBreakpoints := (removeBreakpoint d id).pendingBreakpoints } ∧
      (removeBreakpoint d id).breakpoints = d.breakpoints ∧
      (removeBreakpoint d id).breakpointsSync = d.breakpointsSync ∧
      (removeBreakpoint d id).breakHandler = d.breakHandler ∧
      (removeBreakpoint d id).trace = d.trace ∧
      (removeBreakpoint d id).sent = d.sent ∧
      (removeBreakpoint d id).sendBuffer = d.sendBuffer ∧
      (removeBreakpoint d id).sequence = d.sequence := by
  have hres : removeBreakpoint d id
      = { d with pendingBreakpoints :=
            eraseBinding d.pendingBreakpoints bp.params.fileName id } := by
    unfold removeBreakpoint
    rw [hbp]
    simp only []
    rw [if_pos ⟨htype, hparked⟩]
  rw [hres]
  exact ⟨eraseBinding_split _ _ _ hparked, rfl, rfl, rfl, rfl, rfl, rfl, rfl, rfl⟩

/-- C13, witness: the breakpoint `1` is parked under `a.qml` between the
entries of two other breakpoints; only its entry goes. -/
theorem parked_breakpoint_is_only_unparked_witness :
    (removeBreakpoint parkedEngine 1).pendingBreakpoints = [("a.qml", 2), ("b.qml", 3)] ∧
      (removeBreakpoint parkedEngine 1).breakpoints = [(4, 7)] ∧
      (removeBreakpoint parkedEngine 1).breakpointsSync = [(5, 2)] ∧
      (removeBreakpoint parkedEngine 1).trace = [] :=
  ⟨by rfl,
    (parked_breakpoint_is_only_unparked parkedEngine 1
      { id := 1, params := fileLineParams, claimed := true,
        state := BreakpointState.BreakpointRemoveRequested }
      (by rfl) (by rfl) (by decide)).2.2.1,
    by rfl, by rfl⟩

theorem setBreakpoint_request (d : QmlEnginePrivate) (ty ta : String) (e : Bool) (l c : Int)
    (co : String) (ig : Int) (h : ty ≠ "event") :
    setBreakpoint d ty ta e l c co ig
      = sendMessage { d with sequence := wrapInt32 (d.sequence + 1) }
          (requestPacket (wrapInt32 (d.sequence + 1)) "setbreakpoint"
            (setBreakpointArguments ty ta e l c co ig)) := by
  unfold setBreakpoint initObject sendAndLogV8Request requestPacket setBreakpointArguments
  simp only [h, if_false]
  by_cases h1 : ty = "scriptRegExp" <;> by_cases h2 : l = 0 <;> by_cases h3 : c = 0 <;>
    by_cases h4 : co = "" <;> by_cases h5 : ig = -1 <;>
    simp [h1, h2, h3, h4, h5, jsonInsert, mapContains]

theorem clearBreakpoint_request (d : QmlEnginePrivate) (b : Int) :
    clearBreakpoint d b
      = sendMessage { d with sequence := wrapInt32 (d.sequence + 1) }
          (requestPacket (wrapInt32 (d.sequence + 1)) "clearbreakpoint"
            [("breakpoint", QVariant.num b)]) := by
  unfold clearBreakpoint initObject sendAndLogV8Request requestPacket
  simp [jsonInsert, mapContains]

theorem requestPacket_command (s : Int) (c : String) (a : QVariantMap) :
    (requestPacket s c a).command = some c := by
  simp [requestPacket, Packet.command, packMessage, mapContains, mapValue, QVariant.toMap,
    QVariant.toString]

theorem requestPacket_seq (s : Int) (c : String) (a : QVariantMap) :
    (requestPacket s c a).seq = some s := by
  simp [requestPacket, Packet.seq, packMessage, mapContains, mapValue, QVariant.toMap,
    QVariant.toInt]

theorem requestPacket_arguments (s : Int) (c : String) (a : QVariantMap) :
    (requestPacket s c a).arguments = QVariant.map a := by
  simp [requestPacket, Packet.arguments, packMessage, mapValue, QVariant.toMap]

/-! ## C12: parked breakpoints and the `scripts` response -/

theorem sendMessage_frame (d : QmlEnginePrivate) (p : Packet) :
    (sendMessage d p).pendingBreakpoints = d.pendingBreakpoints ∧
    (sendMessage d p).breakpointsSync = d.breakpointsSync ∧
    (sendMessage d p).breakHandler = d.breakHandler ∧
    (sendMessage d p).breakpoints = d.breakpoints ∧
    (sendMessage d p).breakpointsTemp = d.breakpointsTemp ∧
    (sendMessage d p).engineState = d.engineState ∧
    (sendMessage d p).previousStepAction = d.previousStepAction := by
  unfold sendMessage
  simp only []
  split <;> exact ⟨rfl, rfl, rfl, rfl, rfl, rfl, rfl⟩

theorem handleScriptsResponse_frame (env : Env) (d : QmlEnginePrivate) (resp : QVariantMap) :
    handleScriptsResponse env d resp
      = { d with trace := (handleScriptsResponse env d resp).trace } ∧
    requestCommands (newEffects d (handleScriptsResponse env d resp)) = [] := by
  unfold handleScriptsResponse
  simp only []
  have key : ∀ (l : List QVariant) (acc : QmlEnginePrivate × List String) (effs : List Effect),
      acc.1 = { d with trace := d.trace ++ effs } → requestCommands effs = [] →
      ∃ effs', (l.foldl (fun (acc : QmlEnginePrivate × List String) entry =>
          if (mapValue entry.toMap "name").toString = "" then acc
          else
            (emit acc.1 (Effect.updateScriptSource (mapValue entry.toMap "name").toString
                (mapValue entry.toMap "lineOffset").toInt
                (mapValue entry.toMap "columnOffset").toInt
                (mapValue entry.toMap "source").toString),
             if acc.2.contains (mapValue entry.toMap "name").toString then acc.2
             else acc.2 ++ [(mapValue entry.toMap "name").toString])) acc).1
        = { d with trace := d.trace ++ effs' } ∧ requestCommands effs' = [] := by
    intro l
    induction l with
    | nil => intro acc effs h1 h2; exact ⟨effs, h1, h2⟩
    | cons x l ih =>
      intro acc effs h1 h2
      rw [List.foldl_cons]
      by_cases hn : (mapValue x.toMap "name").toString = ""
      · rw [if_pos hn]
        exact ih acc effs h1 h2
      · rw [if_neg hn]
        apply ih _ (effs ++ [Effect.updateScriptSource (mapValue x.toMap "name").toString
                (mapValue x.toMap "lineOffset").toInt
                (mapValue x.toMap "columnOffset").toInt
                (mapValue x.toMap "source").toString])
        · show emit acc.1 _ = _
          rw [h1]
          simp [emit, List.append_assoc]
        · unfold requestCommands at h2 ⊢
          rw [List.filterMap_append, h2]
          rfl
  obtain ⟨effs, h1, h2⟩ := key (mapValue resp "body").toList (d, []) [] (by simp) rfl
  rw [h1]
  constructor
  · rfl
  · show requestCommands (List.drop d.trace.length (d.trace ++ effs ++ [_])) = []
    rw [List.append_assoc, List.drop_left]
    unfold requestCommands at h2 ⊢
    rw [List.filterMap_append, h2]
    rfl

theorem insertBreakpoint_resolved (env : Env) (d : QmlEnginePrivate) (id : BreakpointModelId)
    (bp : Breakpoint) (line column : Int)
    (hbp : d.breakHandler.breakpointById id = some bp)
    (htype : bp.params.type = BreakpointType.BreakpointByFileAndLine)
    (hadj : env.adjustBreakpointLineAndColumn bp.params.fileName bp.params.lineNumber
      = some (line, column, true)) :
    insertBreakpoint env d id
      = { sendMessage
            { d with sequence := wrapInt32 (d.sequence + 1),
                     breakHandler := d.breakHandler.setState id
                       BreakpointState.BreakpointInsertProceeding }
            (requestPacket (wrapInt32 (d.sequence + 1)) "setbreakpoint"
              (setBreakpointArguments "scriptRegExp" bp.params.fileName bp.params.enabled
                line column bp.params.condition bp.params.ignoreCount))
          with breakpointsSync := hashInsert d.breakpointsSync (wrapInt32 (d.sequence + 1)) id } := by
  unfold insertBreakpoint
  rw [hbp]
  simp only []
  rw [htype, hadj]
  simp only [reduceCtorEq, if_true, if_false]
  rw [setBreakpoint_request _ _ _ _ _ _ _ _ (by decide)]
  have h := sendMessage_frame
    { setBreakpointState d id BreakpointState.BreakpointInsertProceeding with
      sequence := wrapInt32 (d.sequence + 1) }
    (requestPacket (wrapInt32 (d.sequence + 1)) "setbreakpoint"
      (setBreakpointArguments "scriptRegExp" bp.params.fileName bp.params.enabled
        line column bp.params.condition bp.params.ignoreCount))
  have hs := (sendMessage_trace
    { setBreakpointState d id BreakpointState.BreakpointInsertProceeding with
      sequence := wrapInt32 (d.sequence + 1) }
    (requestPacket (wrapInt32 (d.sequence + 1)) "setbreakpoint"
      (setBreakpointArguments "scriptRegExp" bp.params.fileName bp.params.enabled
        line column bp.params.condition bp.params.ignoreCount))).2
  simp only [setBreakpointState] at h hs ⊢
  rw [h.2.1, hs]

theorem hashContains_hashRemove {κ ν : Type} [DecidableEq κ] (h : List (κ × ν)) (k : κ) :
    hashContains (hashRemove h k) k = false := by
  unfold hashContains hashRemove
  induction h with
  | nil => rfl
  | cons kv h ih =>
    by_cases hc : kv.1 = k
    · simp [List.filter, hc]
    · simp [List.filter, hc]

theorem hashContains_of_hashValues {κ ν : Type} [DecidableEq κ] (h : List (κ × ν)) (k : κ)
    (v : ν) (hv : v ∈ hashValues h k) : hashContains h k = true := by
  unfold hashValues at hv
  unfold hashContains
  obtain ⟨kv, hkv, _⟩ := List.mem_map.1 hv
  obtain ⟨hmem, hk⟩ := List.mem_filter.1 hkv
  exact List.any_eq_true.2 ⟨kv, hmem, hk⟩

/-- C12 (as amended): a file/line breakpoint parked in `pendingBreakpoints`
under the file name `F` stays parked when a `scripts` response is processed,
whatever scripts its body lists: `messageReceived` returns, and the parked
entries, the break handler, the pending-insert table and the counter are as
before and no request is sent.  It is `documentUpdated`, called for a document
named `F`, that removes the entries of `F` from `pendingBreakpoints` and
re-submits the breakpoint: when the breakpoint is the one parked under `F` and
its position can now be resolved, one `setbreakpoint` request for the resolved
position is sent and its sequence number is registered in `breakpointsSync`
for the breakpoint. -/
theorem parked_breakpoint_waits_for_document_update (fuel : Nat) (env : Env)
    (d : QmlEnginePrivate) (fileName : String) (id : BreakpointModelId) (bp : Breakpoint)
    (line column : Int)
    (hparked : hashValues d.pendingBreakpoints fileName = [id])
    (hbp : d.breakHandler.breakpointById id = some bp)
    (htype : bp.params.type = BreakpointType.BreakpointByFileAndLine)
    (hfile : bp.params.fileName = fileName)
    (hadj : env.adjustBreakpointLineAndColumn fileName bp.params.lineNumber
      = some (line, column, true)) :
    (∀ (data payload : Bytes),
      readPacket data = (asciiBytes V8DEBUG, asciiBytes V8MESSAGE, payload) →
      (mapValue (env.fromJson payload).toMap "type").toString = "response" →
      (mapValue (env.fromJson payload).toMap "command").toString = "scripts" →
      ∃ e, messageReceived fuel env d data = some e ∧
        e.pendingBreakpoints = d.pendingBreakpoints ∧ e.breakHandler = d.breakHandler ∧
        e.breakpointsSync = d.breakpointsSync ∧ e.sequence = d.sequence ∧
        e.sent = d.sent ∧ e.sendBuffer = d.sendBuffer ∧
        requestCommands (newEffects d e) = []) ∧
    ((documentUpdated env d fileName).pendingBreakpoints
        = hashRemove d.pendingBreakpoints fileName ∧
      hashContains (documentUpdated env d fileName).pendingBreakpoints fileName = false ∧
      (documentUpdated env d fileName).trace
        = d.trace ++ [Effect.sendMessage
            (requestPacket (wrapInt32 (d.sequence + 1)) "setbreakpoint"
              (setBreakpointArguments "scriptRegExp" fileName bp.params.enabled line column
                bp.params.condition bp.params.ignoreCount))] ∧
      (documentUpdated env d fileName).breakpointsSync
        = hashInsert d.breakpointsSync (wrapInt32 (d.sequence + 1)) id ∧
      (documentUpdated env d fileName).breakHandler.breakpointById id
        = some { bp with state := BreakpointState.BreakpointInsertProceeding }) := by
  constructor
  · intro data payload hframe ht hc
    rw [messageReceived_v8message fuel env d data payload hframe]
    have hdrop : requestCommands (newEffects d d) = [] := by
      unfold newEffects
      rw [List.drop_length]
      rfl
    unfold handleV8Message handleResponse dispatchResponse
    simp only [ht, hc, if_true]
    simp only [String.reduceEq, if_false, if_true]
    cases (mapValue (env.fromJson payload).toMap "success").toBool with
    | false => exact ⟨d, rfl, rfl, rfl, rfl, rfl, rfl, rfl, hdrop⟩
    | true =>
      obtain ⟨h1, h2⟩ := handleScriptsResponse_frame env d (env.fromJson payload).toMap
      refine ⟨_, rfl, ?_, ?_, ?_, ?_, ?_, ?_, h2⟩ <;> rw [h1]
  · have hcontains : hashContains d.pendingBreakpoints fileName = true :=
      hashContains_of_hashValues _ _ id (by rw [hparked]; exact List.mem_singleton.2 rfl)
    have hres : documentUpdated env d fileName
        = insertBreakpoint env
            { d with pendingBreakpoints := hashRemove d.pendingBreakpoints fileName } id := by
      unfold documentUpdated
      rw [if_pos hcontains]
      simp only []
      rw [hparked]
      rfl
    rw [hres, insertBreakpoint_resolved env
      { d with pendingBreakpoints := hashRemove d.pendingBreakpoints fileName } id bp line
      column hbp htype (by rw [hfile]; exact hadj)]
    have hf := sendMessage_frame
      { d with pendingBreakpoints := hashRemove d.pendingBreakpoints fileName,
               sequence := wrapInt32 (d.sequence + 1),
               breakHandler := d.breakHandler.setState id
                 BreakpointState.BreakpointInsertProceeding }
      (requestPacket (wrapInt32 (d.sequence + 1)) "setbreakpoint"
        (setBreakpointArguments "scriptRegExp" bp.params.fileName bp.params.enabled
          line column bp.params.condition bp.params.ignoreCount))
    have ht := (sendMessage_trace
      { d with pendingBreakpoints := hashRemove d.pendingBreakpoints fileName,
               sequence := wrapInt32 (d.sequence + 1),
               breakHandler := d.breakHandler.setState id
                 BreakpointState.BreakpointInsertProceeding }
      (requestPacket (wrapInt32 (d.sequence + 1)) "setbreakpoint"
        (setBreakpointArguments "scriptRegExp" bp.params.fileName bp.params.enabled
          line column bp.params.condition bp.params.ignoreCount))).1
    refine ⟨hf.1, ?_, ?_, rfl, ?_⟩
    · show hashContains (sendMessage _ _).pendingBreakpoints fileName = false
      rw [hf.1]
      exact hashContains_hashRemove _ _
    · show (sendMessage _ _).trace = _
      rw [ht, hfile]
    · show (sendMessage _ _).breakHandler.breakpointById id = _
      rw [hf.2.2.1]
      show (d.breakHandler.setState id _).breakpointById id = _
      rw [breakpointById_setState, hbp]
      rfl

set_option maxRecDepth 100000 in
/-- C12, witness: the breakpoint `1` is parked under `a.qml`.  A `scripts`
response listing `a.qml` leaves it parked; `documentUpdated` for `a.qml`, now
that the position can be resolved, removes the entry and sends the
`setbreakpoint` request number `6`, registered for the breakpoint `1`. -/
theorem parked_breakpoint_waits_for_document_update_witness :
    (∃ e, messageReceived 0 resolvingEnv engineWithParkedBreakpoint
          (v8MessageFrame scriptsResponse) = some e ∧
        e.pendingBreakpoints = engineWithParkedBreakpoint.pendingBreakpoints ∧
        e.breakHandler = engineWithParkedBreakpoint.breakHandler ∧
        e.breakpointsSync = engineWithParkedBreakpoint.breakpointsSync ∧
        e.sequence = engineWithParkedBreakpoint.sequence ∧
        e.sent = engineWithParkedBreakpoint.sent ∧
        e.sendBuffer = engineWithParkedBreakpoint.sendBuffer ∧
        requestCommands (newEffects engineWithParkedBreakpoint e) = []) ∧
    (documentUpdated resolvingEnv engineWithParkedBreakpoint "a.qml").pendingBreakpoints
      = [("b.qml", 3)] ∧
    (documentUpdated resolvingEnv engineWithParkedBreakpoint "a.qml").breakpointsSync
      = [(6, 1)] ∧
    requestCommands (documentUpdated resolvingEnv engineWithParkedBreakpoint "a.qml").trace
      = ["setbreakpoint"] :=
  ⟨(parked_breakpoint_waits_for_document_update 0 resolvingEnv engineWithParkedBreakpoint
      "a.qml" 1
      { id := 1, params := fileLineParams, claimed := true,
        state := BreakpointState.BreakpointInsertProceeding }
      10 0 (by rfl) (by rfl) (by rfl) (by rfl) (by rfl)).1
      (v8MessageFrame scriptsResponse) (toJsonCompact scriptsResponse)
      (by rfl) (by rfl) (by rfl),
    (parked_breakpoint_waits_for_document_update 0 resolvingEnv engineWithParkedBreakpoint
      "a.qml" 1
      { id := 1, params := fileLineParams, claimed := true,
        state := BreakpointState.BreakpointInsertProceeding }
      10 0 (by rfl) (by rfl) (by rfl) (by rfl) (by rfl)).2.1,
    by rfl, by rfl⟩

set_option maxRecDepth 100000 in
/-- C12, counterexample: the user sets a file/line breakpoint on `a.qml`
while the file cannot be resolved, so that synchronisation parks it under
`a.qml`; then a successful `scripts` response listing `a.qml` is processed.
The breakpoint is still parked, still `InsertProceeding`, and no request has
been sent. -/
theorem scripts_response_leaves_breakpoint_parked :
    (mapValue scriptsResponse.toMap "success").toBool = true ∧
    (mapValue scriptsResponse.toMap "body").toList.map
        (fun entry => (mapValue entry.toMap "name").toString) = ["a.qml"] ∧
    (run freshEngine (parkedSession.take 2)).map (fun d => d.pendingBreakpoints)
      = some [("a.qml", 1)] ∧
    (run freshEngine parkedSession).map (fun d =>
        (d.pendingBreakpoints, d.breakHandler.items.map (fun bp => (bp.id, bp.state)),
         requestCommands d.trace, d.breakpointsSync))
      = some ([("a.qml", 1)], [(1, BreakpointState.BreakpointInsertProceeding)], [], []) :=
  ⟨by rfl, by rfl, by rfl, by rfl⟩

/-! ## The `break` event -/

theorem falseHitRule_eq (resp : QVariantMap) :
    (decide ((mapValue (mapValue resp "body").toMap "breakpoints").toList.map QVariant.toInt ≠ [])
      && startsWith (mapValue (mapValue resp "body").toMap "invocationText").toString
          "[anonymous]()"
      && endsWith (mapValue (mapValue (mapValue resp "body").toMap "script").toMap
          "name").toString ".qml"
      && trimmedStartsWith (mapValue (mapValue resp "body").toMap "sourceLineText").toString
          '(') = falseHitRule resp := by
  unfold falseHitRule wrapperPattern eventBreakpointIds eventInvocationText eventScriptName
    eventSourceLineText
  simp only [Bool.and_assoc]

theorem handleBreakEvent_surfaced (d : QmlEnginePrivate) (resp : QVariantMap)
    (hfalse : falseHitRule resp = false) (hinternal : internalRule resp = false) :
    handleBreakEvent d resp
      = if (updateBreakpointData d (eventBreakpointIds resp) (eventInvocationText resp)
              (mapValue (mapValue resp "body").toMap "sourceLine").toInt).engineState
            = DebuggerState.InferiorRunOk then
          backtrace (notifyInferiorSpontaneousStop (clearTemporaryBreakpoints
            (updateBreakpointData d (eventBreakpointIds resp) (eventInvocationText resp)
              (mapValue (mapValue resp "body").toMap "sourceLine").toInt)
            (eventBreakpointIds resp)))
        else if (updateBreakpointData d (eventBreakpointIds resp) (eventInvocationText resp)
              (mapValue (mapValue resp "body").toMap "sourceLine").toInt).engineState
            = DebuggerState.InferiorStopOk then
          backtrace (updateBreakpointData d (eventBreakpointIds resp)
            (eventInvocationText resp)
            (mapValue (mapValue resp "body").toMap "sourceLine").toInt)
        else updateBreakpointData d (eventBreakpointIds resp) (eventInvocationText resp)
            (mapValue (mapValue resp "body").toMap "sourceLine").toInt := by
  unfold handleBreakEvent
  simp only []
  rw [falseHitRule_eq, hfalse]
  have hi : decide ((mapValue (mapValue resp "body").toMap "sourceLineText").toString
      = INTERNAL_FUNCTION) = false := hinternal
  rw [hi]
  rfl

theorem handleBreakEvent_falseHit (d : QmlEnginePrivate) (resp : QVariantMap)
    (hfalse : falseHitRule resp = true) (hinternal : internalRule resp = false) :
    handleBreakEvent d resp
      = continueDebugging (relocateBreakpoints d (eventBreakpointIds resp)
          (indexOf (eventSourceLineText resp) '(' + 1)) StepAction.Continue := by
  unfold handleBreakEvent
  simp only []
  rw [falseHitRule_eq, hfalse]
  have hi : decide ((mapValue (mapValue resp "body").toMap "sourceLineText").toString
      = INTERNAL_FUNCTION) = false := hinternal
  rw [hi]
  rfl

theorem handleBreakEvent_internal (d : QmlEnginePrivate) (resp : QVariantMap)
    (hfalse : falseHitRule resp = false) (hinternal : internalRule resp = true) :
    handleBreakEvent d resp = continueDebugging d d.previousStepAction := by
  unfold handleBreakEvent
  simp only []
  rw [falseHitRule_eq, hfalse]
  have hi : decide ((mapValue (mapValue resp "body").toMap "sourceLineText").toString
      = INTERNAL_FUNCTION) = true := hinternal
  rw [hi]
  rfl

theorem handleBreakEvent_both (d : QmlEnginePrivate) (resp : QVariantMap)
    (hfalse : falseHitRule resp = true) (hinternal : internalRule resp = true) :
    handleBreakEvent d resp
      = continueDebugging (continueDebugging (relocateBreakpoints d (eventBreakpointIds resp)
          (indexOf (eventSourceLineText resp) '(' + 1)) StepAction.Continue)
          StepAction.Continue := by
  unfold handleBreakEvent
  simp only []
  rw [falseHitRule_eq, hfalse]
  have hi : decide ((mapValue (mapValue resp "body").toMap "sourceLineText").toString
      = INTERNAL_FUNCTION) = true := hinternal
  rw [hi]
  rfl

theorem messageReceived_break (fuel : Nat) (env : Env) (d : QmlEnginePrivate)
    (data payload : Bytes)
    (hframe : readPacket data = (asciiBytes V8DEBUG, asciiBytes V8MESSAGE, payload))
    (htype : (mapValue (env.fromJson payload).toMap "type").toString = "event")
    (hevent : (mapValue (env.fromJson payload).toMap "event").toString = "break") :
    messageReceived fuel env d data
      = some (handleBreakEvent d (env.fromJson payload).toMap) := by
  rw [messageReceived_v8message fuel env d data payload hframe]
  unfold handleV8Message handleEvent
  simp only [htype, hevent]
  simp

theorem updateBreakpointData_frame (d : QmlEnginePrivate) (ids : List Int) (inv : String)
    (line : Int) :
    updateBreakpointData d ids inv line
      = { d with breakHandler := (updateBreakpointData d ids inv line).breakHandler } := by
  unfold updateBreakpointData
  apply foldl_inv (fun x : QmlEnginePrivate => x = { d with breakHandler := x.breakHandler })
  · intro a v8Id ha
    split
    · exact ha
    · split
      · exact ha
      · simp only []
        split
        · simp only [setBreakpointState]
          rw [ha]
        · simp only []
          rw [ha]
  · rfl

theorem backtrace_request (d : QmlEnginePrivate) :
    backtrace d
      = sendMessage { d with sequence := wrapInt32 (d.sequence + 1) }
          (requestPacket (wrapInt32 (d.sequence + 1)) "backtrace" []) := by
  unfold backtrace initObject sendAndLogV8Request requestPacket
  simp [jsonInsert, mapContains]

theorem requestsOf_append (xs ys : List Effect) :
    requestsOf (xs ++ ys) = requestsOf xs ++ requestsOf ys := by
  unfold requestsOf
  rw [List.filterMap_append]

theorem requestsOf_request (s : Int) (c : String) (a : QVariantMap) :
    requestsOf [Effect.sendMessage (requestPacket s c a)] = [(c, QVariant.map a)] := by
  unfold requestsOf
  simp [requestPacket_command, requestPacket_arguments]

theorem newEffects_append (d e : QmlEnginePrivate) (effs : List Effect)
    (h : e.trace = d.trace ++ effs) : newEffects d e = effs := by
  unfold newEffects
  rw [h, List.drop_left]

theorem clearTemporaryBreakpoints_spec (ids : List Int) :
    ∀ d : QmlEnginePrivate, ∃ effs : List Effect,
      (clearTemporaryBreakpoints d ids).trace = d.trace ++ effs ∧
      requestsOf effs
        = (ids.filter (fun i => d.breakpointsTemp.contains i)).map
            (fun i => ("clearbreakpoint", QVariant.map [("breakpoint", QVariant.num i)])) ∧
      (∀ eff ∈ effs, ∃ p, eff = Effect.sendMessage p) ∧
      (clearTemporaryBreakpoints d ids).breakpointsTemp = d.breakpointsTemp ∧
      (clearTemporaryBreakpoints d ids).engineState = d.engineState ∧
      (clearTemporaryBreakpoints d ids).breakHandler = d.breakHandler := by
  induction ids with
  | nil =>
    intro d
    exact ⟨[], (List.append_nil _).symm, rfl, fun _ h => absurd h (List.not_mem_nil _),
      rfl, rfl, rfl⟩
  | cons i ids ih =>
    intro d
    unfold clearTemporaryBreakpoints
    rw [List.foldl_cons]
    by_cases hc : d.breakpointsTemp.contains i = true
    · rw [if_pos hc]
      obtain ⟨effs, h1, h2, h3, h4, h5, h6⟩ := ih (clearBreakpoint d i)
      unfold clearTemporaryBreakpoints at h1 h4 h5 h6
      have hf := sendMessage_frame { d with sequence := wrapInt32 (d.sequence + 1) }
        (requestPacket (wrapInt32 (d.sequence + 1)) "clearbreakpoint"
          [("breakpoint", QVariant.num i)])
      have ht := (sendMessage_trace { d with sequence := wrapInt32 (d.sequence + 1) }
        (requestPacket (wrapInt32 (d.sequence + 1)) "clearbreakpoint"
          [("breakpoint", QVariant.num i)])).1
      rw [← clearBreakpoint_request] at hf ht
      refine ⟨Effect.sendMessage (requestPacket (wrapInt32 (d.sequence + 1)) "clearbreakpoint"
          [("breakpoint", QVariant.num i)]) :: effs, ?_, ?_, ?_, ?_, ?_, ?_⟩
      · rw [h1, ht]
        simp
      · have : requestsOf (Effect.sendMessage (requestPacket (wrapInt32 (d.sequence + 1))
            "clearbreakpoint" [("breakpoint", QVariant.num i)]) :: effs)
            = requestsOf [Effect.sendMessage (requestPacket (wrapInt32 (d.sequence + 1))
                "clearbreakpoint" [("breakpoint", QVariant.num i)])] ++ requestsOf effs :=
          requestsOf_append [_] effs
        rw [this, requestsOf_request, h2, hf.2.2.2.2.1, List.filter_cons, if_pos hc]
        rfl
      · intro eff heff
        rcases List.mem_cons.1 heff with h | h
        · exact ⟨_, h⟩
        · exact h3 eff h
      · rw [h4, hf.2.2.2.2.1]
      · rw [h5, hf.2.2.2.2.2.1]
      · rw [h6, hf.2.2.1]
    · rw [if_neg hc]
      obtain ⟨effs, h1, h2, h3, h4, h5, h6⟩ := ih d
      unfold clearTemporaryBreakpoints at h1 h4 h5 h6
      refine ⟨effs, h1, ?_, h3, h4, h5, h6⟩
      rw [h2, List.filter_cons, if_neg hc]

theorem handleBreakEvent_running (d : QmlEnginePrivate) (resp : QVariantMap)
    (hfalse : falseHitRule resp = false) (hinternal : internalRule resp = false)
    (hrun : d.engineState = DebuggerState.InferiorRunOk) :
    ∃ (effs : List Effect) (s : Int),
      (handleBreakEvent d resp).trace
        = d.trace ++ effs ++ [Effect.notifyInferiorSpontaneousStop,
            Effect.sendMessage (requestPacket s "backtrace" [])] ∧
      requestsOf effs
        = ((eventBreakpointIds resp).filter (fun i => d.breakpointsTemp.contains i)).map
            (fun i => ("clearbreakpoint", QVariant.map [("breakpoint", QVariant.num i)])) ∧
      (∀ eff ∈ effs, ∃ p, eff = Effect.sendMessage p) ∧
      (handleBreakEvent d resp).breakpointsTemp = d.breakpointsTemp ∧
      (handleBreakEvent d resp).engineState = DebuggerState.InferiorStopOk := by
  rw [handleBreakEvent_surfaced d resp hfalse hinternal]
  have hu := updateBreakpointData_frame d (eventBreakpointIds resp) (eventInvocationText resp)
    (mapValue (mapValue resp "body").toMap "sourceLine").toInt
  generalize updateBreakpointData d (eventBreakpointIds resp) (eventInvocationText resp)
    (mapValue (mapValue resp "body").toMap "sourceLine").toInt = u at hu ⊢
  have hue : u.engineState = d.engineState := by rw [hu]
  have hut : u.trace = d.trace := by rw [hu]
  have hub : u.breakpointsTemp = d.breakpointsTemp := by rw [hu]
  rw [if_pos (hue.trans hrun)]
  obtain ⟨effs, h1, h2, h3, h4, _, _⟩ :=
    clearTemporaryBreakpoints_spec (eventBreakpointIds resp) u
  generalize clearTemporaryBreakpoints u (eventBreakpointIds resp) = c at h1 h4 ⊢
  rw [backtrace_request]
  have hf := sendMessage_frame
    { notifyInferiorSpontaneousStop c with
      sequence := wrapInt32 ((notifyInferiorSpontaneousStop c).sequence + 1) }
    (requestPacket (wrapInt32 ((notifyInferiorSpontaneousStop c).sequence + 1)) "backtrace" [])
  have ht := (sendMessage_trace
    { notifyInferiorSpontaneousStop c with
      sequence := wrapInt32 ((notifyInferiorSpontaneousStop c).sequence + 1) }
    (requestPacket (wrapInt32 ((notifyInferiorSpontaneousStop c).sequence + 1))
      "backtrace" [])).1
  refine ⟨effs, wrapInt32 ((notifyInferiorSpontaneousStop c).sequence + 1),
    ?_, ?_, h3, ?_, ?_⟩
  · rw [ht]
    show (c.trace ++ [Effect.notifyInferiorSpontaneousStop]) ++ [_] = _
    rw [h1, hut]
    simp
  · rw [h2, hub]
  · rw [hf.2.2.2.2.1]
    show c.breakpointsTemp = _
    rw [h4, hub]
  · rw [hf.2.2.2.2.2.1]
    rfl

theorem handleBreakEvent_stopped (d : QmlEnginePrivate) (resp : QVariantMap)
    (hfalse : falseHitRule resp = false) (hinternal : internalRule resp = false)
    (hstop : d.engineState = DebuggerState.InferiorStopOk) :
    (handleBreakEvent d resp).trace
      = d.trace ++ [Effect.sendMessage
          (requestPacket (wrapInt32 (d.sequence + 1)) "backtrace" [])] ∧
    (handleBreakEvent d resp).engineState = DebuggerState.InferiorStopOk := by
  rw [handleBreakEvent_surfaced d resp hfalse hinternal]
  have hu := updateBreakpointData_frame d (eventBreakpointIds resp) (eventInvocationText resp)
    (mapValue (mapValue resp "body").toMap "sourceLine").toInt
  generalize updateBreakpointData d (eventBreakpointIds resp) (eventInvocationText resp)
    (mapValue (mapValue resp "body").toMap "sourceLine").toInt = u at hu ⊢
  have hue : u.engineState = d.engineState := by rw [hu]
  have hut : u.trace = d.trace := by rw [hu]
  have hus : u.sequence = d.sequence := by rw [hu]
  rw [if_neg (by rw [hue, hstop]; decide), if_pos (hue.trans hstop), backtrace_request]
  have hf := sendMessage_frame { u with sequence := wrapInt32 (u.sequence + 1) }
    (requestPacket (wrapInt32 (u.sequence + 1)) "backtrace" [])
  have ht := (sendMessage_trace { u with sequence := wrapInt32 (u.sequence + 1) }
    (requestPacket (wrapInt32 (u.sequence + 1)) "backtrace" [])).1
  constructor
  · rw [ht]
    show u.trace ++ _ = _
    rw [hut, hus]
  · rw [hf.2.2.2.2.2.1]
    exact hue.trans hstop

theorem handleBreakEvent_elsewhere (d : QmlEnginePrivate) (resp : QVariantMap)
    (hfalse : falseHitRule resp = false) (hinternal : internalRule resp = false)
    (hrun : d.engineState ≠ DebuggerState.InferiorRunOk)
    (hstop : d.engineState ≠ DebuggerState.InferiorStopOk) :
    (handleBreakEvent d resp).trace = d.trace := by
  rw [handleBreakEvent_surfaced d resp hfalse hinternal]
  have hu := updateBreakpointData_frame d (eventBreakpointIds resp) (eventInvocationText resp)
    (mapValue (mapValue resp "body").toMap "sourceLine").toInt
  generalize updateBreakpointData d (eventBreakpointIds resp) (eventInvocationText resp)
    (mapValue (mapValue resp "body").toMap "sourceLine").toInt = u at hu ⊢
  have hue : u.engineState = d.engineState := by rw [hu]
  rw [if_neg (by rw [hue]; exact hrun), if_neg (by rw [hue]; exact hstop), hu]

/-! ## C14: unbound acknowledgments -/

/-- C14 (as amended): a `setbreakpoint` response whose `request_seq` matches no
entry of `breakpointsSync` puts its index at the end of `breakpointsTemp`; and
at every `break` event that neither rule suppresses, received while the engine
state is `InferiorRunOk`, `messageReceived` issues one `clearbreakpoint`
request for each listed index found in `breakpointsTemp` (then the `backtrace`
request) and leaves `breakpointsTemp` as it was: an index is never removed
from it, so every such later event listing the index issues a
`clearbreakpoint` request for it again. -/
theorem unbound_acknowledgment_is_cleared_at_each_hit (fuel : Nat) (env : Env)
    (d : QmlEnginePrivate) (data payload : Bytes)
    (hframe : readPacket data = (asciiBytes V8DEBUG, asciiBytes V8MESSAGE, payload)) :
    ((mapValue (env.fromJson payload).toMap "type").toString = "response" →
      (mapValue (env.fromJson payload).toMap "command").toString = "setbreakpoint" →
      hashValue d.breakpointsSync (mapValue (env.fromJson payload).toMap "request_seq").toInt
        = none →
      messageReceived fuel env d data
        = some { d with breakpointsTemp := d.breakpointsTemp ++
            [(mapValue (mapValue (env.fromJson payload).toMap "body").toMap
              "breakpoint").toInt] }) ∧
    ((mapValue (env.fromJson payload).toMap "type").toString = "event" →
      (mapValue (env.fromJson payload).toMap "event").toString = "break" →
      falseHitRule (env.fromJson payload).toMap = false →
      internalRule (env.fromJson payload).toMap = false →
      d.engineState = DebuggerState.InferiorRunOk →
      ∃ e, messageReceived fuel env d data = some e ∧
        e.breakpointsTemp = d.breakpointsTemp ∧
        requestsOf (newEffects d e)
          = ((eventBreakpointIds (env.fromJson payload).toMap).filter
                (fun i => d.breakpointsTemp.contains i)).map
              (fun i => ("clearbreakpoint", QVariant.map [("breakpoint", QVariant.num i)]))
            ++ [("backtrace", QVariant.map [])] ∧
        ∀ i ∈ eventBreakpointIds (env.fromJson payload).toMap,
          d.breakpointsTemp.contains i = true →
          ("clearbreakpoint", QVariant.map [("breakpoint", QVariant.num i)])
              ∈ requestsOf (newEffects d e) ∧
            e.breakpointsTemp.contains i = true) := by
  constructor
  · intro ht hc hseq
    rw [messageReceived_v8message fuel env d data payload hframe]
    unfold handleV8Message handleResponse dispatchResponse handleSetBreakpointResponse
    simp only [ht, hc, if_true]
    simp only [String.reduceEq, if_false, if_true]
    rw [hseq]
  · intro ht he hfalse hinternal hrun
    rw [messageReceived_break fuel env d data payload hframe ht he]
    obtain ⟨effs, s, h1, h2, _, h4, _⟩ :=
      handleBreakEvent_running d (env.fromJson payload).toMap hfalse hinternal hrun
    have hnew : newEffects d (handleBreakEvent d (env.fromJson payload).toMap)
        = effs ++ [Effect.notifyInferiorSpontaneousStop,
            Effect.sendMessage (requestPacket s "backtrace" [])] := by
      apply newEffects_append
      rw [h1, List.append_assoc]
    have hreq : requestsOf (newEffects d (handleBreakEvent d (env.fromJson payload).toMap))
        = ((eventBreakpointIds (env.fromJson payload).toMap).filter
                (fun i => d.breakpointsTemp.contains i)).map
              (fun i => ("clearbreakpoint", QVariant.map [("breakpoint", QVariant.num i)]))
            ++ [("backtrace", QVariant.map [])] := by
      rw [hnew, requestsOf_append, h2]
      have : requestsOf [Effect.notifyInferiorSpontaneousStop,
            Effect.sendMessage (requestPacket s "backtrace" [])]
          = requestsOf [Effect.sendMessage (requestPacket s "backtrace" [])] := rfl
      rw [this, requestsOf_request]
    refine ⟨_, rfl, h4, hreq, ?_⟩
    intro i hi htemp
    constructor
    · rw [hreq]
      apply List.mem_append_left
      exact List.mem_map.2 ⟨i, List.mem_filter.2 ⟨hi, htemp⟩, rfl⟩
    · rw [h4]
      exact htemp

set_option maxRecDepth 100000 in
/-- C14, witness: a running engine whose `breakpointsTemp` is `[7]` receives a
`break` event listing `7`: one `clearbreakpoint` request for `7` and the
`backtrace` request are issued, and `breakpointsTemp` is still `[7]`.  An
untracked `setbreakpoint` response reporting `7` appends `7`. -/
theorem unbound_acknowledgment_is_cleared_at_each_hit_witness :
    messageReceived 0 exampleEnv runningEngine (v8MessageFrame unboundSetBreakpointResponse)
      = some { runningEngine with breakpointsTemp := [7, 7] } ∧
    ∃ e, messageReceived 0 exampleEnv runningEngine (v8MessageFrame (plainBreakEvent [7]))
        = some e ∧
      e.breakpointsTemp = [7] ∧
      requestsOf (newEffects runningEngine e)
        = [("clearbreakpoint", QVariant.map [("breakpoint", QVariant.num 7)]),
           ("backtrace", QVariant.map [])] :=
  ⟨(unbound_acknowledgment_is_cleared_at_each_hit 0 exampleEnv runningEngine
      (v8MessageFrame unboundSetBreakpointResponse)
      (toJsonCompact unboundSetBreakpointResponse) (by rfl)).1 (by rfl) (by rfl) (by rfl),
    match (unbound_acknowledgment_is_cleared_at_each_hit 0 exampleEnv runningEngine
      (v8MessageFrame (plainBreakEvent [7])) (toJsonCompact (plainBreakEvent [7]))
      (by rfl)).2 (by rfl) (by rfl) (by rfl) (by rfl) (by rfl) with
    | ⟨e, h1, h2, h3, _⟩ => ⟨e, h1, h2, h3⟩⟩

set_option maxRecDepth 100000 in
/-- C14, counterexample: while the program runs, an untracked `setbreakpoint`
response reports the index `7`; the first `break` event listing `7` issues a
`clearbreakpoint` request for `7`; the program runs again and a second `break`
event listing `7` issues a `clearbreakpoint` request for `7` once more.  The
index `7` is in `breakpointsTemp` all along. -/
theorem unbound_acknowledgment_is_cleared_twice :
    (run freshEngine (runToLineSession.take 2)).map (fun d => d.breakpointsTemp) = some [7] ∧
    (run freshEngine (runToLineSession.take 3)).map
        (fun d => (d.breakpointsTemp, requestsOf d.trace))
      = some ([7], [("clearbreakpoint", QVariant.map [("breakpoint", QVariant.num 7)]),
                    ("backtrace", QVariant.map [])]) ∧
    (run freshEngine runToLineSession).map
        (fun d => (d.breakpointsTemp, requestsOf d.trace))
      = some ([7], [("clearbreakpoint", QVariant.map [("breakpoint", QVariant.num 7)]),
                    ("backtrace", QVariant.map []),
                    ("clearbreakpoint", QVariant.map [("breakpoint", QVariant.num 7)]),
                    ("backtrace", QVariant.map [])]) :=
  ⟨by rfl, by rfl, by rfl⟩

/-! ## Relocation of the breakpoints of a false hit -/

theorem continueDebugging_request (d : QmlEnginePrivate) (a : StepAction) :
    continueDebugging d a
      = { sendMessage { d with sequence := wrapInt32 (d.sequence + 1) }
            (continueRequest (wrapInt32 (d.sequence + 1)) a)
          with previousStepAction := a } := by
  unfold continueDebugging initObject sendAndLogV8Request continueRequest
  cases a <;> simp [jsonInsert, mapContains]

theorem hashValue_hashInsert {κ ν : Type} [DecidableEq κ] (h : List (κ × ν)) (k k' : κ)
    (v : ν) :
    hashValue (hashInsert h k v) k' = if k' = k then some v else hashValue h k' := by
  unfold hashValue hashInsert
  by_cases hk : k' = k
  · rw [if_pos hk, List.find?_cons]
    simp [hk]
  · rw [if_neg hk, List.find?_cons]
    have h1 : decide ((k, v).1 = k') = false := by
      simp only [decide_eq_false_iff_not]
      exact fun he => hk he.symm
    rw [h1]
    have hfun : (fun kv : κ × ν => decide (decide (kv.1 ≠ k) = true ∧ decide (kv.1 = k') = true))
        = (fun kv => decide (kv.1 = k')) := by
      funext kv
      by_cases h2 : kv.1 = k'
      · simp [h2, hk]
      · simp [h2]
    rw [List.find?_filter, hfun]

theorem relocatedBreakpoints_congr (d e : QmlEnginePrivate) (ids : List Int)
    (h : bpView e = bpView d) : relocatedBreakpoints e ids = relocatedBreakpoints d ids := by
  have h1 : e.breakHandler = d.breakHandler := congrArg Prod.fst h
  have h2 : e.breakpoints = d.breakpoints := congrArg Prod.snd h
  unfold relocatedBreakpoints
  rw [h1, h2]

/-- One round of the relocation loop for an index bound to a breakpoint. -/
theorem relocate_round (d : QmlEnginePrivate) (v8Id : Int) (id : BreakpointModelId)
    (bp : Breakpoint) (column : Int)
    (hlo : -2147483648 ≤ d.sequence) (hhi : d.sequence + 2 ≤ 2147483647) :
    ∃ x : QmlEnginePrivate,
      x = { setBreakpoint (clearBreakpoint d v8Id) "scriptRegExp" bp.params.fileName
              bp.params.enabled bp.params.lineNumber column bp.params.condition
              bp.params.ignoreCount with
            breakpointsSync := hashInsert
              (setBreakpoint (clearBreakpoint d v8Id) "scriptRegExp" bp.params.fileName
                bp.params.enabled bp.params.lineNumber column bp.params.condition
                bp.params.ignoreCount).breakpointsSync
              (setBreakpoint (clearBreakpoint d v8Id) "scriptRegExp" bp.params.fileName
                bp.params.enabled bp.params.lineNumber column bp.params.condition
                bp.params.ignoreCount).sequence id } ∧
      x.trace = d.trace ++ relocationRequests d.sequence column [(v8Id, id, bp)] ∧
      x.sequence = d.sequence + 2 ∧
      x.breakpointsSync = hashInsert d.breakpointsSync (d.sequence + 2) id ∧
      bpView x = bpView d ∧ x.engineState = d.engineState ∧
      x.previousStepAction = d.previousStepAction ∧
      x.breakpointsTemp = d.breakpointsTemp := by
  refine ⟨_, rfl, ?_⟩
  have hw1 : wrapInt32 (d.sequence + 1) = d.sequence + 1 :=
    wrapInt32_id _ (by omega) (by omega)
  have hw2 : wrapInt32 (d.sequence + 1 + 1) = d.sequence + 2 := by
    rw [wrapInt32_id _ (by omega) (by omega)]
    omega
  rw [clearBreakpoint_request, setBreakpoint_request _ _ _ _ _ _ _ _ (by decide)]
  have hf1 := sendMessage_frame { d with sequence := wrapInt32 (d.sequence + 1) }
    (requestPacket (wrapInt32 (d.sequence + 1)) "clearbreakpoint"
      [("breakpoint", QVariant.num v8Id)])
  have ht1 := sendMessage_trace { d with sequence := wrapInt32 (d.sequence + 1) }
    (requestPacket (wrapInt32 (d.sequence + 1)) "clearbreakpoint"
      [("breakpoint", QVariant.num v8Id)])
  generalize sendMessage { d with sequence := wrapInt32 (d.sequence + 1) }
    (requestPacket (wrapInt32 (d.sequence + 1)) "clearbreakpoint"
      [("breakpoint", QVariant.num v8Id)]) = c at hf1 ht1 ⊢
  have hcs : c.sequence = d.sequence + 1 := ht1.2.trans hw1
  rw [hcs, hw2]
  have hf2 := sendMessage_frame { c with sequence := d.sequence + 2 }
    (requestPacket (d.sequence + 2) "setbreakpoint"
      (setBreakpointArguments "scriptRegExp" bp.params.fileName bp.params.enabled
        bp.params.lineNumber column bp.params.condition bp.params.ignoreCount))
  have ht2 := sendMessage_trace { c with sequence := d.sequence + 2 }
    (requestPacket (d.sequence + 2) "setbreakpoint"
      (setBreakpointArguments "scriptRegExp" bp.params.fileName bp.params.enabled
        bp.params.lineNumber column bp.params.condition bp.params.ignoreCount))
  generalize sendMessage { c with sequence := d.sequence + 2 }
    (requestPacket (d.sequence + 2) "setbreakpoint"
      (setBreakpointArguments "scriptRegExp" bp.params.fileName bp.params.enabled
        bp.params.lineNumber column bp.params.condition bp.params.ignoreCount)) = s
    at hf2 ht2 ⊢
  refine ⟨?_, ?_, ?_, ?_, ?_, ?_, ?_⟩
  · show s.trace = _
    rw [ht2.1]
    show c.trace ++ _ = _
    rw [ht1.1, hw1]
    simp [relocationRequests]
  · show s.sequence = _
    exact ht2.2
  · show hashInsert s.breakpointsSync s.sequence id = _
    rw [hf2.2.1, ht2.2]
    show hashInsert c.breakpointsSync _ _ = _
    rw [hf1.2.1]
  · show (s.breakHandler, s.breakpoints) = _
    rw [hf2.2.2.1, hf2.2.2.2.1]
    show (c.breakHandler, c.breakpoints) = _
    rw [hf1.2.2.1, hf1.2.2.2.1]
    rfl
  · show s.engineState = _
    rw [hf2.2.2.2.2.2.1]
    exact hf1.2.2.2.2.2.1
  · show s.previousStepAction = _
    rw [hf2.2.2.2.2.2.2]
    exact hf1.2.2.2.2.2.2
  · show s.breakpointsTemp = _
    rw [hf2.2.2.2.2.1]
    exact hf1.2.2.2.2.1

theorem relocateBreakpoints_spec (column : Int) (ids : List Int) :
    ∀ d : QmlEnginePrivate, -2147483648 ≤ d.sequence →
      d.sequence + 2 * (relocatedBreakpoints d ids).length ≤ 2147483647 →
      (relocateBreakpoints d ids column).trace
          = d.trace ++ relocationRequests d.sequence column (relocatedBreakpoints d ids) ∧
        (relocateBreakpoints d ids column).sequence
          = d.sequence + 2 * (relocatedBreakpoints d ids).length ∧
        bpView (relocateBreakpoints d ids column) = bpView d ∧
        (relocateBreakpoints d ids column).engineState = d.engineState ∧
        (relocateBreakpoints d ids column).previousStepAction = d.previousStepAction ∧
        (relocateBreakpoints d ids column).breakpointsTemp = d.breakpointsTemp ∧
        (∀ s, s ≤ d.sequence →
          hashValue (relocateBreakpoints d ids column).breakpointsSync s
            = hashValue d.breakpointsSync s) ∧
        (∀ (k : Nat) (b : Int × BreakpointModelId × Breakpoint),
          (relocatedBreakpoints d ids)[k]? = some b →
          hashValue (relocateBreakpoints d ids column).breakpointsSync
            (d.sequence + 2 * k + 2) = some b.2.1) := by
  induction ids with
  | nil =>
    intro d _ _
    refine ⟨(List.append_nil _).symm, ?_, rfl, rfl, rfl, rfl, fun _ _ => rfl, ?_⟩
    · show d.sequence = d.sequence + 2 * ((0 : Nat) : Int)
      simp
    · intro k b hb
      exact absurd hb (by simp [relocatedBreakpoints])
  | cons v rest ih =>
    intro d hlo hhi
    cases hkey : hashKey d.breakpoints v with
    | none =>
      have hrel : relocatedBreakpoints d (v :: rest) = relocatedBreakpoints d rest := by
        unfold relocatedBreakpoints
        rw [List.filterMap_cons, hkey]
      have hstep : relocateBreakpoints d (v :: rest) column
          = relocateBreakpoints d rest column := by
        unfold relocateBreakpoints
        rw [List.foldl_cons, hkey]
      rw [hrel] at hhi ⊢
      rw [hstep]
      exact ih d hlo hhi
    | some id =>
      cases hbp : d.breakHandler.breakpointById id with
      | none =>
        have hrel : relocatedBreakpoints d (v :: rest) = relocatedBreakpoints d rest := by
          unfold relocatedBreakpoints
          rw [List.filterMap_cons, hkey]
          simp only [hbp, Option.map_none']
        have hstep : relocateBreakpoints d (v :: rest) column
            = relocateBreakpoints d rest column := by
          unfold relocateBreakpoints
          rw [List.foldl_cons, hkey]
          simp only [hbp]
        rw [hrel] at hhi ⊢
        rw [hstep]
        exact ih d hlo hhi
      | some bp =>
        have hrel : relocatedBreakpoints d (v :: rest)
            = (v, id, bp) :: relocatedBreakpoints d rest := by
          unfold relocatedBreakpoints
          rw [List.filterMap_cons, hkey]
          simp only [hbp, Option.map_some']
        rw [hrel] at hhi ⊢
        have hlen : ((v, id, bp) :: relocatedBreakpoints d rest).length
            = (relocatedBreakpoints d rest).length + 1 := rfl
        rw [hlen] at hhi ⊢
        obtain ⟨x, hx, hxt, hxs, hxsync, hxv, hxe, hxp, hxtemp⟩ :=
          relocate_round d v id bp column hlo (by omega)
        have hstep : relocateBreakpoints d (v :: rest) column
            = relocateBreakpoints x rest column := by
          unfold relocateBreakpoints
          rw [List.foldl_cons, hkey]
          simp only [hbp]
          rw [hx]
        have hcongr := relocatedBreakpoints_congr d x rest hxv
        obtain ⟨i1, i2, i3, i4, i5, i6, i7, i8⟩ := ih x (by omega)
          (by rw [hcongr, hxs]; push_cast at hhi ⊢; omega)
        rw [hcongr] at i1 i2 i8
        rw [hstep]
        refine ⟨?_, ?_, i3.trans hxv, i4.trans hxe, i5.trans hxp, i6.trans hxtemp, ?_, ?_⟩
        · rw [i1, hxt, hxs, List.append_assoc]
          rfl
        · rw [i2, hxs]
          push_cast
          omega
        · intro s hs
          rw [i7 s (by omega), hxsync, hashValue_hashInsert, if_neg (by omega)]
        · intro k b hb
          cases k with
          | zero =>
            have hb0 : b = (v, id, bp) := by
              simpa using hb.symm
            rw [i7 _ (by rw [hxs]; push_cast; omega), hxsync, hashValue_hashInsert, hb0]
            simp
          | succ k =>
            have hb' : (relocatedBreakpoints d rest)[k]? = some b := by
              simpa using hb
            have := i8 k b hb'
            rw [hxs] at this
            have heq : d.sequence + 2 * ((k + 1 : Nat) : Int) + 2
                = d.sequence + 2 + 2 * (k : Int) + 2 := by
              push_cast
              omega
            rw [heq]
            exact this

/-- The calls of a relocation are `clearbreakpoint` and `setbreakpoint`
requests, whatever the counter. -/
theorem relocateBreakpoints_effects (column : Int) (ids : List Int) :
    ∀ d : QmlEnginePrivate, ∃ effs : List Effect,
      (relocateBreakpoints d ids column).trace = d.trace ++ effs ∧
      (∀ eff ∈ effs, ∃ p, eff = Effect.sendMessage p ∧
        (p.command = some "clearbreakpoint" ∨ p.command = some "setbreakpoint")) ∧
      (relocateBreakpoints d ids column).engineState = d.engineState := by
  induction ids with
  | nil =>
    intro d
    exact ⟨[], (List.append_nil _).symm, fun _ h => absurd h (List.not_mem_nil _), rfl⟩
  | cons v rest ih =>
    intro d
    cases hkey : hashKey d.breakpoints v with
    | none =>
      have hstep : relocateBreakpoints d (v :: rest) column
          = relocateBreakpoints d rest column := by
        unfold relocateBreakpoints
        rw [List.foldl_cons, hkey]
      rw [hstep]
      exact ih d
    | some id =>
      cases hbp : d.breakHandler.breakpointById id with
      | none =>
        have hstep : relocateBreakpoints d (v :: rest) column
            = relocateBreakpoints d rest column := by
          unfold relocateBreakpoints
          rw [List.foldl_cons, hkey]
          simp only [hbp]
        rw [hstep]
        exact ih d
      | some bp =>
        have hstep : relocateBreakpoints d (v :: rest) column
            = relocateBreakpoints
                { setBreakpoint (clearBreakpoint d v) "scriptRegExp" bp.params.fileName
                    bp.params.enabled bp.params.lineNumber column bp.params.condition
                    bp.params.ignoreCount with
                  breakpointsSync := hashInsert
                    (setBreakpoint (clearBreakpoint d v) "scriptRegExp" bp.params.fileName
                      bp.params.enabled bp.params.lineNumber column bp.params.condition
                      bp.params.ignoreCount).breakpointsSync
                    (setBreakpoint (clearBreakpoint d v) "scriptRegExp" bp.params.fileName
                      bp.params.enabled bp.params.lineNumber column bp.params.condition
                      bp.params.ignoreCount).sequence id } rest column := by
          unfold relocateBreakpoints
          rw [List.foldl_cons, hkey]
          simp only [hbp]
        rw [hstep]
        obtain ⟨effs, h1, h2, h3⟩ := ih
          { setBreakpoint (clearBreakpoint d v) "scriptRegExp" bp.params.fileName
              bp.params.enabled bp.params.lineNumber column bp.params.condition
              bp.params.ignoreCount with
            breakpointsSync := hashInsert
              (setBreakpoint (clearBreakpoint d v) "scriptRegExp" bp.params.fileName
                bp.params.enabled bp.params.lineNumber column bp.params.condition
                bp.params.ignoreCount).breakpointsSync
              (setBreakpoint (clearBreakpoint d v) "scriptRegExp" bp.params.fileName
                bp.params.enabled bp.params.lineNumber column bp.params.condition
                bp.params.ignoreCount).sequence id }
        have hc := clearBreakpoint_request d v
        have hs := setBreakpoint_request (clearBreakpoint d v) "scriptRegExp"
          bp.params.fileName bp.params.enabled bp.params.lineNumber column bp.params.condition
          bp.params.ignoreCount (by decide)
        have htc := (sendMessage_trace { d with sequence := wrapInt32 (d.sequence + 1) }
          (requestPacket (wrapInt32 (d.sequence + 1)) "clearbreakpoint"
            [("breakpoint", QVariant.num v)])).1
        have hfc := sendMessage_frame { d with sequence := wrapInt32 (d.sequence + 1) }
          (requestPacket (wrapInt32 (d.sequence + 1)) "clearbreakpoint"
            [("breakpoint", QVariant.num v)])
        rw [← hc] at htc hfc
        have hts := (sendMessage_trace
          { clearBreakpoint d v with sequence := wrapInt32 ((clearBreakpoint d v).sequence + 1) }
          (requestPacket (wrapInt32 ((clearBreakpoint d v).sequence + 1)) "setbreakpoint"
            (setBreakpointArguments "scriptRegExp" bp.params.fileName bp.params.enabled
              bp.params.lineNumber column bp.params.condition bp.params.ignoreCount))).1
        have hfs := sendMessage_frame
          { clearBreakpoint d v with sequence := wrapInt32 ((clearBreakpoint d v).sequence + 1) }
          (requestPacket (wrapInt32 ((clearBreakpoint d v).sequence + 1)) "setbreakpoint"
            (setBreakpointArguments "scriptRegExp" bp.params.fileName bp.params.enabled
              bp.params.lineNumber column bp.params.condition bp.params.ignoreCount))
        rw [← hs] at hts hfs
        refine ⟨Effect.sendMessage (requestPacket (wrapInt32 (d.sequence + 1))
            "clearbreakpoint" [("breakpoint", QVariant.num v)])
          :: Effect.sendMessage (requestPacket
              (wrapInt32 ((clearBreakpoint d v).sequence + 1)) "setbreakpoint"
              (setBreakpointArguments "scriptRegExp" bp.params.fileName bp.params.enabled
                bp.params.lineNumber column bp.params.condition bp.params.ignoreCount))
          :: effs, ?_, ?_, ?_⟩
        · rw [h1]
          show (setBreakpoint _ _ _ _ _ _ _ _).trace ++ effs = _
          rw [hts]
          show (clearBreakpoint d v).trace ++ _ ++ effs = _
          rw [htc]
          simp
        · intro eff heff
          rcases List.mem_cons.1 heff with h | heff
          · exact ⟨_, h, Or.inl (requestPacket_command _ _ _)⟩
          rcases List.mem_cons.1 heff with h | heff
          · exact ⟨_, h, Or.inr (requestPacket_command _ _ _)⟩
          · exact h2 eff heff
        · rw [h3]
          show (setBreakpoint _ _ _ _ _ _ _ _).engineState = _
          rw [hfs.2.2.2.2.2.1]
          show (clearBreakpoint d v).engineState = _
          exact hfc.2.2.2.2.2.1

theorem continueRequest_command (s : Int) (a : StepAction) :
    (continueRequest s a).command = some "continue" := by
  cases a <;>
    simp [continueRequest, Packet.command, packMessage, mapContains, mapValue, QVariant.toMap,
      QVariant.toString]

theorem continueRequest_seq (s : Int) (a : StepAction) :
    (continueRequest s a).seq = some s := by
  cases a <;>
    simp [continueRequest, Packet.seq, packMessage, mapContains, mapValue, QVariant.toMap,
      QVariant.toInt]

theorem continueDebugging_trace (d : QmlEnginePrivate) (a : StepAction) :
    (continueDebugging d a).trace
      = d.trace ++ [Effect.sendMessage (continueRequest (wrapInt32 (d.sequence + 1)) a)] ∧
    (continueDebugging d a).sequence = wrapInt32 (d.sequence + 1) ∧
    (continueDebugging d a).engineState = d.engineState ∧
    (continueDebugging d a).breakpointsSync = d.breakpointsSync ∧
    (continueDebugging d a).previousStepAction = a := by
  rw [continueDebugging_request]
  have ht := sendMessage_trace { d with sequence := wrapInt32 (d.sequence + 1) }
    (continueRequest (wrapInt32 (d.sequence + 1)) a)
  have hf := sendMessage_frame { d with sequence := wrapInt32 (d.sequence + 1) }
    (continueRequest (wrapInt32 (d.sequence + 1)) a)
  exact ⟨ht.1, ht.2, hf.2.2.2.2.2.1, hf.2.1, rfl⟩

theorem mem_requestCommands (effs : List Effect) (c : String)
    (h : c ∈ requestCommands effs) :
    ∃ p, Effect.sendMessage p ∈ effs ∧ p.command = some c := by
  unfold requestCommands at h
  obtain ⟨eff, heff, hc⟩ := List.mem_filterMap.1 h
  cases eff with
  | sendMessage p => exact ⟨p, heff, hc⟩
  | _ => exact absurd hc (by simp)

theorem requestCommands_append (xs ys : List Effect) :
    requestCommands (xs ++ ys) = requestCommands xs ++ requestCommands ys := by
  unfold requestCommands
  rw [List.filterMap_append]

theorem handleBreakEvent_falseHit_effects (d : QmlEnginePrivate) (resp : QVariantMap)
    (hfalse : falseHitRule resp = true) :
    ∃ (effs : List Effect) (s : Int),
      (handleBreakEvent d resp).trace
        = d.trace ++ effs ++ Effect.sendMessage (continueRequest s StepAction.Continue)
            :: (if internalRule resp = true then
                  [Effect.sendMessage (continueRequest (wrapInt32 (s + 1)) StepAction.Continue)]
                else []) ∧
      (∀ eff ∈ effs, ∃ p, eff = Effect.sendMessage p ∧
        (p.command = some "clearbreakpoint" ∨ p.command = some "setbreakpoint")) ∧
      (handleBreakEvent d resp).engineState = d.engineState := by
  obtain ⟨effs, h1, h2, h3⟩ := relocateBreakpoints_effects
    (indexOf (eventSourceLineText resp) '(' + 1) (eventBreakpointIds resp) d
  generalize hr : relocateBreakpoints d (eventBreakpointIds resp)
    (indexOf (eventSourceLineText resp) '(' + 1) = r at h1 h3
  have hc := continueDebugging_trace r StepAction.Continue
  refine ⟨effs, wrapInt32 (r.sequence + 1), ?_, h2, ?_⟩
  · cases hi : internalRule resp with
    | false =>
      rw [handleBreakEvent_falseHit d resp hfalse hi, hr, hc.1, h1]
      simp
    | true =>
      rw [handleBreakEvent_both d resp hfalse hi, hr]
      have hc2 := continueDebugging_trace (continueDebugging r StepAction.Continue)
        StepAction.Continue
      rw [hc2.1, hc.1, hc.2.1, h1]
      simp
  · cases hi : internalRule resp with
    | false =>
      rw [handleBreakEvent_falseHit d resp hfalse hi, hr, hc.2.2.1, h3]
    | true =>
      rw [handleBreakEvent_both d resp hfalse hi, hr]
      have hc2 := continueDebugging_trace (continueDebugging r StepAction.Continue)
        StepAction.Continue
      rw [hc2.2.2.1, hc.2.2.1, h3]

/-! ## C15: false hits -/

/-- C15 (as amended): for every `break` event that lists at least one
breakpoint, whose invocation text starts with `[anonymous]()`, whose script
name ends with `.qml` and whose source line, trimmed, begins with `(`,
`messageReceived` treats the event as a false hit: it returns, the engine state
is as before and no stop notification is made, no `backtrace` request is
issued, and one `continue` request is issued (a second one when the source
line is also the internal-function marker). -/
theorem false_hit_is_resumed (fuel : Nat) (env : Env) (d : QmlEnginePrivate)
    (data payload : Bytes)
    (hframe : readPacket data = (asciiBytes V8DEBUG, asciiBytes V8MESSAGE, payload))
    (htype : (mapValue (env.fromJson payload).toMap "type").toString = "event")
    (hevent : (mapValue (env.fromJson payload).toMap "event").toString = "break")
    (hids : eventBreakpointIds (env.fromJson payload).toMap ≠ [])
    (hpattern : wrapperPattern (env.fromJson payload).toMap = true) :
    ∃ e, messageReceived fuel env d data = some e ∧
      e.engineState = d.engineState ∧
      Effect.notifyInferiorSpontaneousStop ∉ newEffects d e ∧
      "backtrace" ∉ requestCommands (newEffects d e) ∧
      (requestCommands (newEffects d e)).count "continue"
        = (if internalRule (env.fromJson payload).toMap = true then 2 else 1) := by
  have hfalse : falseHitRule (env.fromJson payload).toMap = true := by
    unfold falseHitRule
    rw [hpattern, decide_eq_true hids]
    rfl
  rw [messageReceived_break fuel env d data payload hframe htype hevent]
  obtain ⟨effs, s, h1, h2, h3⟩ :=
    handleBreakEvent_falseHit_effects d (env.fromJson payload).toMap hfalse
  have hnew := newEffects_append d _ _ (h1.trans (List.append_assoc _ _ _))
  refine ⟨_, rfl, h3, ?_, ?_, ?_⟩
  · rw [hnew]
    intro hmem
    rcases List.mem_append.1 hmem with h | h
    · obtain ⟨p, hp, _⟩ := h2 _ h
      exact Effect.noConfusion hp
    · rcases List.mem_cons.1 h with h | h
      · exact Effect.noConfusion h
      · split at h
        · exact Effect.noConfusion (List.mem_singleton.1 h)
        · exact absurd h (List.not_mem_nil _)
  · rw [hnew]
    intro hmem
    obtain ⟨p, hp, hc⟩ := mem_requestCommands _ _ hmem
    rcases List.mem_append.1 hp with h | h
    · obtain ⟨q, hq, hq'⟩ := h2 _ h
      have hpq : p = q := Effect.sendMessage.inj hq
      rw [hpq] at hc
      rcases hq' with hq' | hq' <;>
        exact absurd (Option.some.inj (hq'.symm.trans hc)) (by decide)
    · rcases List.mem_cons.1 h with h | h
      · rw [Effect.sendMessage.inj h, continueRequest_command] at hc
        exact absurd (Option.some.inj hc) (by decide)
      · split at h
        · rw [Effect.sendMessage.inj (List.mem_singleton.1 h), continueRequest_command] at hc
          exact absurd (Option.some.inj hc) (by decide)
        · exact absurd h (List.not_mem_nil _)
  · rw [hnew, requestCommands_append, List.count_append]
    have h0 : (requestCommands effs).count "continue" = 0 := by
      apply List.count_eq_zero.2
      intro hmem
      obtain ⟨p, hp, hc⟩ := mem_requestCommands _ _ hmem
      obtain ⟨q, hq, hq'⟩ := h2 _ hp
      have hpq : p = q := Effect.sendMessage.inj hq
      rw [hpq] at hc
      rcases hq' with hq' | hq' <;>
        exact absurd (Option.some.inj (hq'.symm.trans hc)) (by decide)
    rw [h0]
    cases internalRule (env.fromJson payload).toMap <;>
      simp [requestCommands, continueRequest_command]

set_option maxRecDepth 100000 in
/-- C15, witness: a running engine receives a `break` event showing the
wrapper pattern and listing the breakpoint index `7`. -/
theorem false_hit_is_resumed_witness :
    ∃ e, messageReceived 0 exampleEnv runningBoundEngine
        (v8MessageFrame (wrapperBreakEvent [7])) = some e ∧
      e.engineState = runningBoundEngine.engineState ∧
      Effect.notifyInferiorSpontaneousStop ∉ newEffects runningBoundEngine e ∧
      "backtrace" ∉ requestCommands (newEffects runningBoundEngine e) ∧
      (requestCommands (newEffects runningBoundEngine e)).count "continue"
        = (if internalRule
              (exampleEnv.fromJson (toJsonCompact (wrapperBreakEvent [7]))).toMap = true
            then 2 else 1) :=
  false_hit_is_resumed 0 exampleEnv runningBoundEngine
    (v8MessageFrame (wrapperBreakEvent [7])) (toJsonCompact (wrapperBreakEvent [7]))
    (by rfl) (by rfl) (by rfl)
    (fun h => List.noConfusion
      ((show eventBreakpointIds
          (exampleEnv.fromJson (toJsonCompact (wrapperBreakEvent [7]))).toMap = [7]
        from by rfl).symm.trans h))
    (by rfl)

set_option maxRecDepth 100000 in
/-- C15, counterexample: a running engine receives a `break` event with
invocation text `[anonymous]()`, script `main.qml` and source line `(x) => x`
that lists no breakpoint.  The event is surfaced: the stop is notified and a
`backtrace` request is issued; no `continue` request is. -/
theorem wrapper_hit_without_breakpoints_is_surfaced :
    wrapperPattern (wrapperBreakEvent []).toMap = true ∧
    eventBreakpointIds (wrapperBreakEvent []).toMap = [] ∧
    (messageReceived 0 exampleEnv runningBoundEngine
        (v8MessageFrame (wrapperBreakEvent []))).map
      (fun e => (e.engineState, requestCommands (newEffects runningBoundEngine e),
        (newEffects runningBoundEngine e).length))
      = some (DebuggerState.InferiorStopOk, ["backtrace"], 2) ∧
    (messageReceived 0 exampleEnv runningBoundEngine
        (v8MessageFrame (wrapperBreakEvent []))).map
      (fun e => (newEffects runningBoundEngine e).head?.map
        (fun eff => match eff with
          | Effect.notifyInferiorSpontaneousStop => true
          | _ => false))
      = some (some true) :=
  ⟨by rfl, by rfl, by rfl, by rfl⟩

/-! ## C16: relocation at a false hit -/

theorem getElem?_append_of_some {α : Type} (xs ys : List α) (a : α) :
    ∀ i : Nat, xs[i]? = some a → (xs ++ ys)[i]? = some a := by
  induction xs with
  | nil => intro i h; exact absurd h (by simp)
  | cons x xs ih =>
    intro i h
    cases i with
    | zero => simpa using h
    | succ i =>
      have h' : xs[i]? = some a := by simpa using h
      simpa using ih i h'

theorem relocationRequests_get (column : Int) (l : List (Int × BreakpointModelId × Breakpoint)) :
    ∀ (s : Int) (k : Nat) (b : Int × BreakpointModelId × Breakpoint), l[k]? = some b →
      (relocationRequests s column l)[2 * k]?
        = some (Effect.sendMessage (requestPacket (s + 2 * k + 1) "clearbreakpoint"
            [("breakpoint", QVariant.num b.1)])) ∧
      (relocationRequests s column l)[2 * k + 1]?
        = some (Effect.sendMessage (requestPacket (s + 2 * k + 2) "setbreakpoint"
            (setBreakpointArguments "scriptRegExp" b.2.2.params.fileName b.2.2.params.enabled
              b.2.2.params.lineNumber column b.2.2.params.condition
              b.2.2.params.ignoreCount))) := by
  induction l with
  | nil => intro s k b h; exact absurd h (by simp)
  | cons x l ih =>
    intro s k b h
    obtain ⟨v, id, bp⟩ := x
    cases k with
    | zero =>
      have hb : b = (v, id, bp) := by simpa using h.symm
      rw [hb]
      simp [relocationRequests]
    | succ k =>
      have h' : l[k]? = some b := by simpa using h
      obtain ⟨h1, h2⟩ := ih (s + 2) k b h'
      have e1 : s + 2 * ((k + 1 : Nat) : Int) + 1 = s + 2 + 2 * (k : Int) + 1 := by
        push_cast; omega
      have e2 : s + 2 * ((k + 1 : Nat) : Int) + 2 = s + 2 + 2 * (k : Int) + 2 := by
        push_cast; omega
      rw [e1, e2]
      constructor
      · have : 2 * (k + 1) = 2 * k + 1 + 1 := by omega
        rw [this]
        simp only [relocationRequests, List.getElem?_cons_succ]
        exact h1
      · have : 2 * (k + 1) + 1 = 2 * k + 1 + 1 + 1 := by omega
        rw [this]
        simp only [relocationRequests, List.getElem?_cons_succ]
        exact h2

theorem relocationRequests_length (column : Int)
    (l : List (Int × BreakpointModelId × Breakpoint)) :
    ∀ s : Int, (relocationRequests s column l).length = 2 * l.length := by
  induction l with
  | nil => intro s; rfl
  | cons x l ih =>
    intro s
    obtain ⟨v, id, bp⟩ := x
    show (relocationRequests (s + 2) column l).length + 1 + 1 = 2 * (l.length + 1)
    rw [ih]
    omega

theorem indexOf_of_trimmedStartsWith (s : String) (c : Char)
    (h : trimmedStartsWith s c = true) : indexOf s c + 1 ≠ 0 := by
  unfold indexOf
  cases hi : s.toList.indexOf? c with
  | some i => simp only []; omega
  | none =>
    exfalso
    have hnot : c ∉ s.toList := by
      intro hmem
      have := List.indexOf?_eq_none_iff.1 hi
      exact absurd (by simp) (this c hmem)
    unfold trimmedStartsWith at h
    cases hd : s.toList.dropWhile isSpace with
    | nil => rw [hd] at h; exact absurd h (by simp)
    | cons x xs =>
      rw [hd] at h
      have hx : x = c := by simpa using h
      have hsuf : (x :: xs) <:+ s.toList := hd ▸ List.dropWhile_suffix _
      exact hnot (hsuf.subset (hx ▸ List.mem_cons_self _ _))

theorem setBreakpointArguments_column (ty ta : String) (e : Bool) (l c : Int) (co : String)
    (ig : Int) (hc : c ≠ 0) :
    mapValue (setBreakpointArguments ty ta e l c co ig) "column" = QVariant.num (c - 1) := by
  unfold setBreakpointArguments
  by_cases hl : l = 0 <;> simp [hl, hc, mapValue, List.find?_cons]

/-- C16 (as amended): when a `break` event is handled as a false hit (and the
`int` counter does not overflow), then for every listed breakpoint index that
the binding table maps to a breakpoint of the break handler, in the order of
the list, the engine issues a `clearbreakpoint` request for that index followed
by a `setbreakpoint` request for the file and line of that breakpoint whose
`column` argument is the zero-based position of the first `(` in the source
line text, and the sequence number of that `setbreakpoint` request is a key of
`breakpointsSync` mapped to the breakpoint when `messageReceived` returns;
after these requests a `continue` request is issued (and a second one when the
source line is also the internal-function marker).  Listed indices that are
bound to no breakpoint are skipped. -/
theorem false_hit_relocates_bound_breakpoints (fuel : Nat) (env : Env)
    (d : QmlEnginePrivate) (data payload : Bytes)
    (hframe : readPacket data = (asciiBytes V8DEBUG, asciiBytes V8MESSAGE, payload))
    (htype : (mapValue (env.fromJson payload).toMap "type").toString = "event")
    (hevent : (mapValue (env.fromJson payload).toMap "event").toString = "break")
    (hfalse : falseHitRule (env.fromJson payload).toMap = true)
    (hlo : -2147483648 ≤ d.sequence)
    (hhi : d.sequence + 2 * (relocatedBreakpoints d
        (eventBreakpointIds (env.fromJson payload).toMap)).length + 2 ≤ 2147483647) :
    ∃ e, messageReceived fuel env d data = some e ∧
      newEffects d e
        = relocationRequests d.sequence
            (indexOf (eventSourceLineText (env.fromJson payload).toMap) '(' + 1)
            (relocatedBreakpoints d (eventBreakpointIds (env.fromJson payload).toMap))
          ++ Effect.sendMessage (continueRequest
                (d.sequence + 2 * (relocatedBreakpoints d
                  (eventBreakpointIds (env.fromJson payload).toMap)).length + 1)
                StepAction.Continue)
            :: (if internalRule (env.fromJson payload).toMap = true then
                  [Effect.sendMessage (continueRequest
                    (d.sequence + 2 * (relocatedBreakpoints d
                      (eventBreakpointIds (env.fromJson payload).toMap)).length + 2)
                    StepAction.Continue)]
                else []) ∧
      ∀ (k : Nat) (b : Int × BreakpointModelId × Breakpoint),
        (relocatedBreakpoints d (eventBreakpointIds (env.fromJson payload).toMap))[k]?
          = some b →
        (newEffects d e)[2 * k]?
          = some (Effect.sendMessage (requestPacket (d.sequence + 2 * k + 1) "clearbreakpoint"
              [("breakpoint", QVariant.num b.1)])) ∧
        (newEffects d e)[2 * k + 1]?
          = some (Effect.sendMessage (requestPacket (d.sequence + 2 * k + 2) "setbreakpoint"
              (setBreakpointArguments "scriptRegExp" b.2.2.params.fileName
                b.2.2.params.enabled b.2.2.params.lineNumber
                (indexOf (eventSourceLineText (env.fromJson payload).toMap) '(' + 1)
                b.2.2.params.condition b.2.2.params.ignoreCount))) ∧
        mapValue (setBreakpointArguments "scriptRegExp" b.2.2.params.fileName
            b.2.2.params.enabled b.2.2.params.lineNumber
            (indexOf (eventSourceLineText (env.fromJson payload).toMap) '(' + 1)
            b.2.2.params.condition b.2.2.params.ignoreCount) "column"
          = QVariant.num (indexOf (eventSourceLineText (env.fromJson payload).toMap) '(') ∧
        hashValue e.breakpointsSync (d.sequence + 2 * k + 2) = some b.2.1 := by
  rw [messageReceived_break fuel env d data payload hframe htype hevent]
  generalize env.fromJson payload = doc at hfalse hhi ⊢
  have hpat : trimmedStartsWith (eventSourceLineText doc.toMap) '(' = true := by
    unfold falseHitRule wrapperPattern at hfalse
    simp only [Bool.and_eq_true] at hfalse
    exact hfalse.2.2
  have hcol := indexOf_of_trimmedStartsWith _ _ hpat
  generalize hpos : indexOf (eventSourceLineText doc.toMap) '(' = pos at hcol ⊢
  obtain ⟨r1, r2, _, _, _, _, _, r8⟩ := relocateBreakpoints_spec (pos + 1)
    (eventBreakpointIds doc.toMap) d hlo (by omega)
  generalize hb : relocatedBreakpoints d (eventBreakpointIds doc.toMap) = bound
    at hhi r1 r2 r8 ⊢
  generalize hr : relocateBreakpoints d (eventBreakpointIds doc.toMap) (pos + 1) = r
    at r1 r2 r8
  have hc := continueDebugging_trace r StepAction.Continue
  have hw1 : wrapInt32 (r.sequence + 1) = d.sequence + 2 * bound.length + 1 := by
    rw [r2]
    exact wrapInt32_id _ (by omega) (by omega)
  have hres : ∃ e, handleBreakEvent d doc.toMap = e ∧
      e.trace = d.trace ++ (relocationRequests d.sequence (pos + 1) bound
          ++ Effect.sendMessage (continueRequest (d.sequence + 2 * bound.length + 1)
                StepAction.Continue)
            :: (if internalRule doc.toMap = true then
                  [Effect.sendMessage (continueRequest (d.sequence + 2 * bound.length + 2)
                    StepAction.Continue)]
                else [])) ∧
      e.breakpointsSync = r.breakpointsSync := by
    cases hi : internalRule doc.toMap with
    | false =>
      refine ⟨_, rfl, ?_, ?_⟩
      · rw [handleBreakEvent_falseHit d doc.toMap hfalse hi, hpos, hr, hc.1, r1, hw1]
        simp
      · rw [handleBreakEvent_falseHit d doc.toMap hfalse hi, hpos, hr, hc.2.2.2.1]
    | true =>
      have hc2 := continueDebugging_trace (continueDebugging r StepAction.Continue)
        StepAction.Continue
      have hw2 : wrapInt32 (d.sequence + 2 * bound.length + 1 + 1)
          = d.sequence + 2 * bound.length + 2 := by
        rw [wrapInt32_id _ (by omega) (by omega)]
        omega
      refine ⟨_, rfl, ?_, ?_⟩
      · rw [handleBreakEvent_both d doc.toMap hfalse hi, hpos, hr, hc2.1, hc.1, hc.2.1, r1, hw1, hw2]
        simp
      · rw [handleBreakEvent_both d doc.toMap hfalse hi, hpos, hr, hc2.2.2.2.1, hc.2.2.2.1]
  obtain ⟨e, he, het, hes⟩ := hres
  rw [he]
  have hnew := newEffects_append d e _ het
  refine ⟨e, rfl, hnew, ?_⟩
  intro k b hk
  obtain ⟨g1, g2⟩ := relocationRequests_get (pos + 1) bound d.sequence k b hk
  refine ⟨?_, ?_, ?_, ?_⟩
  · rw [hnew]
    exact getElem?_append_of_some _ _ _ _ g1
  · rw [hnew]
    exact getElem?_append_of_some _ _ _ _ g2
  · rw [setBreakpointArguments_column _ _ _ _ _ _ _ hcol]
    congr 1
    omega
  · rw [hes]
    exact r8 k b hk

set_option maxRecDepth 100000 in
/-- C16, witness: the breakpoint `1` (file `a.qml`, line `10`) is bound to the
remote index `7`, the counter is at `5`, and a false hit listing `7` arrives
with the source line `(x) => x`: request `6` clears the index `7`, request
`7` sets the breakpoint again at column `0` (the position of the `(`), and
`breakpointsSync` maps `7` to the breakpoint `1`. -/
theorem false_hit_relocates_bound_breakpoints_witness :
    ∃ e, messageReceived 0 exampleEnv runningBoundEngine
        (v8MessageFrame (wrapperBreakEvent [7])) = some e ∧
      (newEffects runningBoundEngine e)[0]?
        = some (Effect.sendMessage (requestPacket 6 "clearbreakpoint"
            [("breakpoint", QVariant.num 7)])) ∧
      (newEffects runningBoundEngine e)[1]?
        = some (Effect.sendMessage (requestPacket 7 "setbreakpoint"
            (setBreakpointArguments "scriptRegExp" "a.qml" true 10 1 "" 0))) ∧
      mapValue (setBreakpointArguments "scriptRegExp" "a.qml" true 10 1 "" 0) "column"
        = QVariant.num 0 ∧
      hashValue e.breakpointsSync 7 = some 1 :=
  match false_hit_relocates_bound_breakpoints 0 exampleEnv runningBoundEngine
      (v8MessageFrame (wrapperBreakEvent [7])) (toJsonCompact (wrapperBreakEvent [7]))
      (by rfl) (by rfl) (by rfl) (by rfl) (by decide) (by decide) with
  | ⟨e, h1, _, h3⟩ =>
    ⟨e, h1,
      h3 0 (7, 1, { id := 1, params := fileLineParams, claimed := true,
                    state := BreakpointState.BreakpointInserted }) (by rfl)⟩

set_option maxRecDepth 100000 in
/-- C16, counterexample: the same false hit lists the indices `7` and `9`, of
which only `7` is bound to a breakpoint.  No `clearbreakpoint` and no
`setbreakpoint` request is issued for `9`: the requests are the two for `7`
and the `continue` request. -/
theorem false_hit_skips_unbound_index :
    falseHitRule (wrapperBreakEvent [7, 9]).toMap = true ∧
    eventBreakpointIds (wrapperBreakEvent [7, 9]).toMap = [7, 9] ∧
    runningBoundEngine.breakpoints = [(1, 7)] ∧
    (messageReceived 0 exampleEnv runningBoundEngine
        (v8MessageFrame (wrapperBreakEvent [7, 9]))).map
      (fun e => requestsOf (newEffects runningBoundEngine e))
      = some [("clearbreakpoint", QVariant.map [("breakpoint", QVariant.num 7)]),
              ("setbreakpoint", QVariant.map
                  [("type", QVariant.str "scriptRegExp"), ("enabled", QVariant.bool true),
                   ("target", QVariant.str "a.qml"), ("line", QVariant.num 9),
                   ("column", QVariant.num 0), ("ignoreCount", QVariant.num 0)]),
              ("continue", QVariant.invalid)] :=
  ⟨by rfl, by rfl, by rfl, by rfl⟩

/-! ## C17: breaks in the internal function -/

/-- C17: for every `break` event whose source line text is the
internal-function marker, `messageReceived` returns, makes no stop
notification (the engine state is as before), issues no `backtrace` request,
and the last thing it does is to issue a `continue` request for the step
action recorded in `previousStepAction`, the field in which every
`continueDebugging` call records its action: when the event is not a false hit
as well, this request is all that is issued and it carries the action the
engine state held on arrival (`stepaction` `in`, `out` or `next`, or no
arguments for a plain continue); when it is, the false-hit rule has just issued
a plain `continue` request, and the second request is a plain one too. -/
theorem internal_function_break_is_resumed (fuel : Nat) (env : Env) (d : QmlEnginePrivate)
    (data payload : Bytes)
    (hframe : readPacket data = (asciiBytes V8DEBUG, asciiBytes V8MESSAGE, payload))
    (htype : (mapValue (env.fromJson payload).toMap "type").toString = "event")
    (hevent : (mapValue (env.fromJson payload).toMap "event").toString = "break")
    (hinternal : eventSourceLineText (env.fromJson payload).toMap = INTERNAL_FUNCTION) :
    (∀ (d0 : QmlEnginePrivate) (a : StepAction),
      (continueDebugging d0 a).previousStepAction = a) ∧
    ∃ e, messageReceived fuel env d data = some e ∧
      e.engineState = d.engineState ∧
      Effect.notifyInferiorSpontaneousStop ∉ newEffects d e ∧
      "backtrace" ∉ requestCommands (newEffects d e) ∧
      (falseHitRule (env.fromJson payload).toMap = false →
        newEffects d e
          = [Effect.sendMessage
              (continueRequest (wrapInt32 (d.sequence + 1)) d.previousStepAction)]) ∧
      (falseHitRule (env.fromJson payload).toMap = true →
        ∃ (effs : List Effect) (s : Int),
          newEffects d e
            = effs ++ [Effect.sendMessage (continueRequest s StepAction.Continue),
                Effect.sendMessage
                  (continueRequest (wrapInt32 (s + 1)) StepAction.Continue)] ∧
          ∀ eff ∈ effs, ∃ p, eff = Effect.sendMessage p ∧
            (p.command = some "clearbreakpoint" ∨ p.command = some "setbreakpoint")) := by
  refine ⟨fun d0 a => (continueDebugging_trace d0 a).2.2.2.2, ?_⟩
  have hi : internalRule (env.fromJson payload).toMap = true := by
    unfold internalRule
    exact decide_eq_true hinternal
  rw [messageReceived_break fuel env d data payload hframe htype hevent]
  generalize env.fromJson payload = doc at hi ⊢
  cases hf : falseHitRule doc.toMap with
  | false =>
    have hres := handleBreakEvent_internal d doc.toMap hf hi
    have hc := continueDebugging_trace d d.previousStepAction
    have hnew := newEffects_append d _ _ hc.1
    rw [hres]
    refine ⟨_, rfl, hc.2.2.1, ?_, ?_, fun _ => hnew, fun h => absurd h (by simp)⟩
    · rw [hnew]
      intro hmem
      exact Effect.noConfusion (List.mem_singleton.1 hmem)
    · rw [hnew]
      intro hmem
      obtain ⟨p, hp, hcmd⟩ := mem_requestCommands _ _ hmem
      rw [Effect.sendMessage.inj (List.mem_singleton.1 hp), continueRequest_command] at hcmd
      exact absurd (Option.some.inj hcmd) (by decide)
  | true =>
    obtain ⟨effs, s, h1, h2, h3⟩ := handleBreakEvent_falseHit_effects d doc.toMap hf
    rw [hi, if_pos rfl] at h1
    have hnew := newEffects_append d _ _ (h1.trans (List.append_assoc _ _ _))
    refine ⟨_, rfl, h3, ?_, ?_, fun h => absurd h (by simp), fun _ => ⟨effs, s, hnew, h2⟩⟩
    · rw [hnew]
      intro hmem
      rcases List.mem_append.1 hmem with h | h
      · obtain ⟨p, hp, _⟩ := h2 _ h
        exact Effect.noConfusion hp
      · rcases List.mem_cons.1 h with h | h
        · exact Effect.noConfusion h
        · exact Effect.noConfusion (List.mem_singleton.1 h)
    · rw [hnew]
      intro hmem
      obtain ⟨p, hp, hc⟩ := mem_requestCommands _ _ hmem
      rcases List.mem_append.1 hp with h | h
      · obtain ⟨q, hq, hq'⟩ := h2 _ h
        have hpq : p = q := Effect.sendMessage.inj hq
        rw [hpq] at hc
        rcases hq' with hq' | hq' <;>
          exact absurd (Option.some.inj (hq'.symm.trans hc)) (by decide)
      · rcases List.mem_cons.1 h with h | h
        · rw [Effect.sendMessage.inj h, continueRequest_command] at hc
          exact absurd (Option.some.inj hc) (by decide)
        · rw [Effect.sendMessage.inj (List.mem_singleton.1 h), continueRequest_command] at hc
          exact absurd (Option.some.inj hc) (by decide)

set_option maxRecDepth 100000 in
/-- C17, witness: the user has stepped in (request number `6`); a `break`
event on the internal-function marker arrives.  The engine issues the request
number `7`, a `continue` with `stepaction` `in`, and nothing else. -/
theorem internal_function_break_is_resumed_witness :
    steppingEngine.previousStepAction = StepAction.StepIn ∧
    ∃ e, messageReceived 0 exampleEnv steppingEngine (v8MessageFrame internalBreakEvent)
        = some e ∧
      e.engineState = DebuggerState.InferiorRunOk ∧
      newEffects steppingEngine e
        = [Effect.sendMessage (continueRequest 7 StepAction.StepIn)] ∧
      (continueRequest 7 StepAction.StepIn).arguments
        = QVariant.map [("stepaction", QVariant.str "in")] :=
  ⟨by rfl,
    match (internal_function_break_is_resumed 0 exampleEnv steppingEngine
      (v8MessageFrame internalBreakEvent) (toJsonCompact internalBreakEvent)
      (by rfl) (by rfl) (by rfl) (by rfl)).2 with
    | ⟨e, h1, h2, _, _, h5, _⟩ => ⟨e, h1, h2, h5 (by rfl), by rfl⟩⟩

/-! ## The `exception` event -/

theorem messageReceived_exception (fuel : Nat) (env : Env) (d : QmlEnginePrivate)
    (data payload : Bytes)
    (hframe : readPacket data = (asciiBytes V8DEBUG, asciiBytes V8MESSAGE, payload))
    (htype : (mapValue (env.fromJson payload).toMap "type").toString = "event")
    (hevent : (mapValue (env.fromJson payload).toMap "event").toString = "exception") :
    messageReceived fuel env d data
      = some (handleExceptionEvent env d (env.fromJson payload).toMap) := by
  rw [messageReceived_v8message fuel env d data payload hframe]
  unfold handleV8Message handleEvent
  simp only [htype, hevent]
  simp

theorem showConsoleMessages_frame (msgs : List String) :
    ∀ d : QmlEnginePrivate,
      msgs.foldl (fun d msg => emit d (Effect.showConsoleMessage msg)) d
        = { d with trace := d.trace ++ msgs.map Effect.showConsoleMessage } := by
  induction msgs with
  | nil => intro d; simp
  | cons m msgs ih =>
    intro d
    rw [List.foldl_cons, ih]
    simp [emit]

theorem handleExceptionEvent_eq (env : Env) (d : QmlEnginePrivate) (resp : QVariantMap) :
    handleExceptionEvent env d resp
      = if d.engineState = DebuggerState.InferiorRunOk then
          backtrace (backtrace (notifyInferiorSpontaneousStop
            { d with trace :=
                (d.trace ++ (exceptionMessages env resp).map Effect.showConsoleMessage) }))
        else if d.engineState = DebuggerState.InferiorStopOk then
          backtrace { d with trace :=
            (d.trace ++ (exceptionMessages env resp).map Effect.showConsoleMessage) }
        else { d with trace :=
            (d.trace ++ (exceptionMessages env resp).map Effect.showConsoleMessage) } := by
  unfold handleExceptionEvent
  simp only []
  rw [showConsoleMessages_frame]
  have hs : ∀ x : QmlEnginePrivate,
      (backtrace (notifyInferiorSpontaneousStop x)).engineState
        = DebuggerState.InferiorStopOk := by
    intro x
    rw [backtrace_request]
    exact (sendMessage_frame _ _).2.2.2.2.2.1
  unfold exceptionMessages
  by_cases h1 : d.engineState = DebuggerState.InferiorRunOk
  · simp only [h1, if_true]
    rw [if_pos (hs _)]
  · simp only [h1, if_false]

theorem requestCommands_eq_map (t : List Effect) :
    requestCommands t = (requestsOf t).map Prod.fst := by
  induction t with
  | nil => rfl
  | cons eff t ih =>
    have h1 : requestCommands (eff :: t) = requestCommands [eff] ++ requestCommands t :=
      requestCommands_append [eff] t
    have h2 : requestsOf (eff :: t) = requestsOf [eff] ++ requestsOf t :=
      requestsOf_append [eff] t
    rw [h1, h2, List.map_append, ih]
    congr 1
    cases eff with
    | sendMessage p =>
      unfold requestCommands requestsOf
      cases hp : p.command <;> simp [hp]
    | _ => rfl

/-! ## C18: surfaced events -/

/-- C18 (as amended): for every `break` event that neither the false-hit rule
nor the internal-function rule suppresses, and for every `exception` event,
`messageReceived` returns and, when the engine state is `InferiorRunOk`, it
notifies a spontaneous stop and right after that sends a `backtrace` request
(for a `break` event this is the only `backtrace` request, and what precedes
the notification are `clearbreakpoint` requests; for an `exception` event the
console messages precede it); when the engine state is `InferiorStopOk` it
sends exactly one `backtrace` request, without a notification; in every other
engine state it sends no request and makes no notification. -/
theorem surfaced_event_requests_backtrace (fuel : Nat) (env : Env) (d : QmlEnginePrivate)
    (data payload : Bytes)
    (hframe : readPacket data = (asciiBytes V8DEBUG, asciiBytes V8MESSAGE, payload))
    (htype : (mapValue (env.fromJson payload).toMap "type").toString = "event") :
    ((mapValue (env.fromJson payload).toMap "event").toString = "break" →
      falseHitRule (env.fromJson payload).toMap = false →
      internalRule (env.fromJson payload).toMap = false →
      ∃ e, messageReceived fuel env d data = some e ∧
        (d.engineState = DebuggerState.InferiorRunOk →
          (∃ (effs : List Effect) (s : Int),
            newEffects d e = effs ++ [Effect.notifyInferiorSpontaneousStop,
              Effect.sendMessage (requestPacket s "backtrace" [])] ∧
            ∀ c ∈ requestCommands effs, c = "clearbreakpoint") ∧
          (requestCommands (newEffects d e)).count "backtrace" = 1) ∧
        (d.engineState = DebuggerState.InferiorStopOk →
          newEffects d e = [Effect.sendMessage
            (requestPacket (wrapInt32 (d.sequence + 1)) "backtrace" [])]) ∧
        (d.engineState ≠ DebuggerState.InferiorRunOk →
          d.engineState ≠ DebuggerState.InferiorStopOk → newEffects d e = [])) ∧
    ((mapValue (env.fromJson payload).toMap "event").toString = "exception" →
      ∃ e, messageReceived fuel env d data = some e ∧
        (d.engineState = DebuggerState.InferiorRunOk →
          ∃ (s : Int) (rest : List Effect),
            newEffects d e
              = (exceptionMessages env (env.fromJson payload).toMap).map
                  Effect.showConsoleMessage
                ++ [Effect.notifyInferiorSpontaneousStop,
                    Effect.sendMessage (requestPacket s "backtrace" [])] ++ rest) ∧
        (d.engineState = DebuggerState.InferiorStopOk →
          newEffects d e
            = (exceptionMessages env (env.fromJson payload).toMap).map
                Effect.showConsoleMessage
              ++ [Effect.sendMessage
                  (requestPacket (wrapInt32 (d.sequence + 1)) "backtrace" [])]) ∧
        (d.engineState ≠ DebuggerState.InferiorRunOk →
          d.engineState ≠ DebuggerState.InferiorStopOk →
          newEffects d e
            = (exceptionMessages env (env.fromJson payload).toMap).map
                Effect.showConsoleMessage)) := by
  constructor
  · intro hevent hfalse hinternal
    rw [messageReceived_break fuel env d data payload hframe htype hevent]
    generalize env.fromJson payload = doc at hfalse hinternal ⊢
    refine ⟨_, rfl, ?_, ?_, ?_⟩
    · intro hrun
      obtain ⟨effs, s, h1, h2, _, _, _⟩ :=
        handleBreakEvent_running d doc.toMap hfalse hinternal hrun
      have hnew := newEffects_append d _ _ (h1.trans (List.append_assoc _ _ _))
      have hclear : ∀ c ∈ requestCommands effs, c = "clearbreakpoint" := by
        intro c hc
        rw [requestCommands_eq_map, h2, List.map_map] at hc
        obtain ⟨i, _, hi⟩ := List.mem_map.1 hc
        exact hi.symm
      refine ⟨⟨effs, s, hnew, hclear⟩, ?_⟩
      rw [hnew, requestCommands_append, List.count_append]
      have h0 : (requestCommands effs).count "backtrace" = 0 := by
        apply List.count_eq_zero.2
        intro hmem
        exact absurd (hclear _ hmem) (by decide)
      rw [h0]
      simp [requestCommands, requestPacket_command]
    · intro hstop
      exact newEffects_append d _ _ (handleBreakEvent_stopped d doc.toMap hfalse hinternal hstop).1
    · intro hrun hstop
      have h := handleBreakEvent_elsewhere d doc.toMap hfalse hinternal hrun hstop
      unfold newEffects
      rw [h, List.drop_length]
  · intro hevent
    rw [messageReceived_exception fuel env d data payload hframe htype hevent]
    generalize env.fromJson payload = doc
    rw [handleExceptionEvent_eq]
    generalize (exceptionMessages env doc.toMap).map Effect.showConsoleMessage = msgs
    refine ⟨_, rfl, ?_, ?_, ?_⟩
    · intro hrun
      rw [if_pos hrun]
      have hb1 := backtrace_request (notifyInferiorSpontaneousStop
        { d with trace := (d.trace ++ msgs) })
      have ht1 := (sendMessage_trace
        { notifyInferiorSpontaneousStop { d with trace := (d.trace ++ msgs) } with
          sequence := wrapInt32 ((notifyInferiorSpontaneousStop
            { d with trace := (d.trace ++ msgs) }).sequence + 1) }
        (requestPacket (wrapInt32 ((notifyInferiorSpontaneousStop
            { d with trace := (d.trace ++ msgs) }).sequence + 1)) "backtrace" [])).1
      rw [← hb1] at ht1
      generalize backtrace (notifyInferiorSpontaneousStop
        { d with trace := (d.trace ++ msgs) }) = b1 at ht1 ⊢
      have hb2 := backtrace_request b1
      have ht2 := (sendMessage_trace { b1 with sequence := wrapInt32 (b1.sequence + 1) }
        (requestPacket (wrapInt32 (b1.sequence + 1)) "backtrace" [])).1
      rw [← hb2] at ht2
      refine ⟨wrapInt32 (d.sequence + 1),
        [Effect.sendMessage (requestPacket (wrapInt32 (b1.sequence + 1)) "backtrace" [])], ?_⟩
      apply newEffects_append
      rw [ht2]
      show b1.trace ++ _ = _
      rw [ht1]
      show ((d.trace ++ msgs) ++ [Effect.notifyInferiorSpontaneousStop]) ++ _ ++ _ = _
      simp
      rfl
    · intro hstop
      rw [if_neg (by rw [hstop]; decide), if_pos hstop, backtrace_request]
      apply newEffects_append
      rw [(sendMessage_trace _ _).1]
      show (d.trace ++ msgs) ++ _ = _
      rw [List.append_assoc]
    · intro hrun hstop
      rw [if_neg hrun, if_neg hstop]
      exact newEffects_append d _ _ rfl

set_option maxRecDepth 100000 in
/-- C18, witness: a running engine receives a `break` event that no rule
suppresses, and a stopped engine receives an `exception` event. -/
theorem surfaced_event_requests_backtrace_witness :
    (∃ e, messageReceived 0 exampleEnv runningEngine (v8MessageFrame (plainBreakEvent [7]))
        = some e ∧
      (requestCommands (newEffects runningEngine e)).count "backtrace" = 1) ∧
    (∃ e, messageReceived 0 exampleEnv
          { runningEngine with engineState := DebuggerState.InferiorStopOk }
          (v8MessageFrame exceptionEvent) = some e ∧
      newEffects { runningEngine with engineState := DebuggerState.InferiorStopOk } e
        = [Effect.showConsoleMessage "ReferenceError: y is not defined",
           Effect.sendMessage (requestPacket 6 "backtrace" [])]) :=
  ⟨match (surfaced_event_requests_backtrace 0 exampleEnv runningEngine
      (v8MessageFrame (plainBreakEvent [7])) (toJsonCompact (plainBreakEvent [7]))
      (by rfl) (by rfl)).1 (by rfl) (by rfl) (by rfl) with
    | ⟨e, h1, h2, _, _⟩ => ⟨e, h1, (h2 (by rfl)).2⟩,
    match (surfaced_event_requests_backtrace 0 exampleEnv
      { runningEngine with engineState := DebuggerState.InferiorStopOk }
      (v8MessageFrame exceptionEvent) (toJsonCompact exceptionEvent)
      (by rfl) (by rfl)).2 (by rfl) with
    | ⟨e, h1, _, h3, _⟩ => ⟨e, h1, h3 (by rfl)⟩⟩

set_option maxRecDepth 100000 in
/-- C18, counterexample: an engine that has been asked to run and is not
running yet (state `EngineRunRequested`) receives a `break` event that neither
rule suppresses.  Nothing is sent: no `backtrace` request is issued. -/
theorem break_event_before_running_requests_nothing :
    falseHitRule (plainBreakEvent [7]).toMap = false ∧
    internalRule (plainBreakEvent [7]).toMap = false ∧
    startingEngine.engineState = DebuggerState.EngineRunRequested ∧
    (messageReceived 0 exampleEnv startingEngine (v8MessageFrame (plainBreakEvent [7]))).map
        (fun e => (requestCommands (newEffects startingEngine e),
          (newEffects startingEngine e).length, e.engineState))
      = some ([], 0, DebuggerState.EngineRunRequested) :=
  ⟨by rfl, by rfl, by rfl, by rfl⟩

/-! ## C19: events without a name -/

/-- C19: for every event frame whose event name is empty or missing (read as
a string, the `event` field is empty), `messageReceived` does exactly what
`handleEvaluate` does when called with the counter `sequence` (the most
recently issued sequence number), the `success` flag of the frame, the body
`{type: "string", value: <the message of the frame>}` and no handle table: the
two calls return the same state, or neither returns. -/
theorem nameless_event_is_an_evaluate_result (fuel : Nat) (env : Env) (d : QmlEnginePrivate)
    (data payload : Bytes)
    (hframe : readPacket data = (asciiBytes V8DEBUG, asciiBytes V8MESSAGE, payload))
    (htype : (mapValue (env.fromJson payload).toMap "type").toString = "event")
    (hname : (mapValue (env.fromJson payload).toMap "event").toString = "") :
    messageReceived fuel env d data
      = handleEvaluate fuel env d d.sequence
          (mapValue (env.fromJson payload).toMap "success").toBool
          (QVariant.map [("type", QVariant.str "string"),
            ("value", mapValue (env.fromJson payload).toMap "message")])
          QVariant.invalid := by
  rw [messageReceived_v8message fuel env d data payload hframe]
  unfold handleV8Message handleEvent
  simp only [htype, hname]
  simp

set_option maxRecDepth 100000 in
/-- C19, witness: the engine awaits the result of the expression `x`, sent
with the sequence number `5`, and an event frame without a name arrives: the
watch model gets the error node of `x`, as from `handleEvaluate`. -/
theorem nameless_event_is_an_evaluate_result_witness :
    mapValue (exampleEnv.fromJson (toJsonCompact namelessEvent)).toMap "event"
      = QVariant.invalid ∧
    messageReceived 0 exampleEnv engineAwaitingEvaluate (v8MessageFrame namelessEvent)
      = handleEvaluate 0 exampleEnv engineAwaitingEvaluate 5 false
          (QVariant.map [("type", QVariant.str "string"),
            ("value", QVariant.str "SyntaxError: Unexpected token")])
          QVariant.invalid ∧
    (messageReceived 0 exampleEnv engineAwaitingEvaluate (v8MessageFrame namelessEvent)).map
        (fun e => e.watchHandler.items.map (fun item => (item.iname, item.value)))
      = some [("watch.x", "SyntaxError: Unexpected token")] :=
  ⟨by rfl,
    nameless_event_is_an_evaluate_result 0 exampleEnv engineAwaitingEvaluate
      (v8MessageFrame namelessEvent) (toJsonCompact namelessEvent) (by rfl) (by rfl) (by rfl),
    by rfl⟩

/-! ## The frames of a backtrace -/

theorem handleBacktrace_eq (fuel : Nat) (env : Env) (d : QmlEnginePrivate)
    (bodyVal refsVal : QVariant) (hfrom : (mapValue bodyVal.toMap "fromFrame").toInt = 0) :
    handleBacktrace fuel env d bodyVal refsVal
      = match collectStackFrames fuel env (mapValue bodyVal.toMap "frames").toList refsVal with
        | none => none
        | some (stackFrames, lookupTable) =>
          handleFrame fuel
            { d with stackIndexLookup := lookupTable,
                     stackHandler := d.stackHandler.setFrames stackFrames }
            (((mapValue bodyVal.toMap "frames").toList.get? 0).getD QVariant.invalid)
            refsVal := by
  unfold handleBacktrace collectStackFrames
  simp only []
  rw [if_neg (by rw [hfrom]; decide)]

theorem extractStackFrame_level (fuel : Nat) (env : Env) (fr refsVal : QVariant)
    (sf : StackFrame) (h : extractStackFrame fuel env fr refsVal = some sf) :
    (isInternalFrame fr = true → sf = { level := -1 }) ∧
    (isInternalFrame fr = false → sf.level = (mapValue fr.toMap "index").toInt) := by
  unfold extractStackFrame at h
  simp only [] at h
  constructor
  · intro hi
    have hi' : isString (mapValue fr.toMap "sourceLineText") INTERNAL_FUNCTION = true := hi
    rw [if_pos hi'] at h
    exact (Option.some.inj h).symm
  · intro hi
    have hi' : ¬ isString (mapValue fr.toMap "sourceLineText") INTERNAL_FUNCTION = true := by
      intro hc
      have : isInternalFrame fr = true := hc
      rw [hi] at this
      exact Bool.noConfusion this
    rw [if_neg hi'] at h
    split at h
    · rw [← Option.some.inj h]
    · cases h

theorem renumberFrom_append (l1 l2 : List StackFrame) :
    ∀ i : Nat, renumberFrom i (l1 ++ l2)
      = renumberFrom i l1 ++ renumberFrom (i + l1.length) l2 := by
  induction l1 with
  | nil => intro i; rfl
  | cons x l1 ih =>
    intro i
    show _ :: renumberFrom (i + 1) (l1 ++ l2) = _ :: (renumberFrom (i + 1) l1 ++ _)
    rw [ih]
    have : i + 1 + l1.length = i + (x :: l1).length := by
      simp only [List.length_cons]; omega
    rw [this]

theorem renumberFrom_length (l : List StackFrame) :
    ∀ i : Nat, (renumberFrom i l).length = l.length := by
  induction l with
  | nil => intro i; rfl
  | cons x l ih => intro i; show (renumberFrom (i + 1) l).length + 1 = _; rw [ih]; rfl

/-- What the frame loop has collected when it returns, from any start. -/
theorem collect_loop_spec (fuel : Nat) (env : Env) (refsVal : QVariant)
    (frames : List QVariant) :
    ∀ (decoded0 : List StackFrame) (table : List (Int × Int))
      (result : List StackFrame × List (Int × Int)),
      frames.foldlM (fun (acc : List StackFrame × List (Int × Int)) fr =>
        match extractStackFrame fuel env fr refsVal with
        | none => none
        | some stackFrame =>
          if stackFrame.level < 0 then some acc
          else
            some (acc.1 ++ [{ stackFrame with level := ((acc.1.length : Nat) : Int) }],
                  hashInsert acc.2 ((acc.1.length : Nat) : Int) stackFrame.level))
          (renumberFrom 0 decoded0, table) = some result →
      ∃ decoded : List StackFrame,
        List.Forall₂ (fun fr sf => extractStackFrame fuel env fr refsVal = some sf)
          (visibleFrames frames) decoded ∧
        result.1 = renumberFrom 0 (decoded0 ++ decoded) := by
  induction frames with
  | nil =>
    intro decoded0 table result h
    have hr : (renumberFrom 0 decoded0, table) = result := by simpa using h
    refine ⟨[], List.Forall₂.nil, ?_⟩
    rw [← hr, List.append_nil]
  | cons fr frames ih =>
    intro decoded0 table result h
    rw [List.foldlM_cons] at h
    cases hsf : extractStackFrame fuel env fr refsVal with
    | none =>
      rw [hsf] at h
      exact absurd h (by simp)
    | some sf =>
      rw [hsf] at h
      obtain ⟨hint, hext⟩ := extractStackFrame_level fuel env fr refsVal sf hsf
      by_cases hlevel : sf.level < 0
      · have hhidden : visibleFrames (fr :: frames) = visibleFrames frames := by
          unfold visibleFrames
          rw [List.filter_cons]
          cases hi : isInternalFrame fr with
          | true => simp
          | false =>
            have := hext hi
            rw [this] at hlevel
            have : decide (0 ≤ (mapValue fr.toMap "index").toInt) = false := by
              simp only [decide_eq_false_iff_not]; omega
            simp [this]
        simp only [hlevel, if_true] at h
        rw [hhidden]
        exact ih decoded0 table result h
      · have hi : isInternalFrame fr = false := by
          cases hi : isInternalFrame fr with
          | false => rfl
          | true =>
            have := hint hi
            rw [this] at hlevel
            exact absurd (by decide) hlevel
        have hvis : visibleFrames (fr :: frames) = fr :: visibleFrames frames := by
          unfold visibleFrames
          rw [List.filter_cons]
          have hidx := hext hi
          have : decide (0 ≤ (mapValue fr.toMap "index").toInt) = true := by
            simp only [decide_eq_true_eq]; omega
          simp [hi, this]
        simp only [hlevel, if_false] at h
        have hstep : renumberFrom 0 decoded0
            ++ [{ sf with level := (((renumberFrom 0 decoded0).length : Nat) : Int) }]
            = renumberFrom 0 (decoded0 ++ [sf]) := by
          rw [renumberFrom_append, renumberFrom_length]
          simp [renumberFrom]
        rw [hstep] at h
        obtain ⟨decoded, h1, h2⟩ := ih (decoded0 ++ [sf]) _ result h
        refine ⟨sf :: decoded, ?_, ?_⟩
        · rw [hvis]
          exact List.Forall₂.cons hsf h1
        · rw [h2, List.append_assoc]
          rfl

theorem collectStackFrames_spec (fuel : Nat) (env : Env) (refsVal : QVariant)
    (frames : List QVariant) (result : List StackFrame × List (Int × Int))
    (h : collectStackFrames fuel env frames refsVal = some result) :
    ∃ decoded : List StackFrame,
      List.Forall₂ (fun fr sf => extractStackFrame fuel env fr refsVal = some sf)
        (visibleFrames frames) decoded ∧
      result.1 = renumberFrom 0 decoded := by
  obtain ⟨decoded, h1, h2⟩ := collect_loop_spec fuel env refsVal frames [] [] result h
  exact ⟨decoded, h1, h2⟩

theorem stackHandler_expandObject (d e : QmlEnginePrivate) (iname : String) (objectId : Int)
    (h : expandObject d iname objectId = some e) : e.stackHandler = d.stackHandler := by
  have hplain : (lookup
      { d with localsAndWatchers := (hashInsertMulti d.localsAndWatchers (wrapInt32 objectId) iname) }
      [wrapInt32 objectId]).stackHandler = d.stackHandler :=
    (stackHandler_of_core _ _ (core_lookup _ _ _)).trans rfl
  unfold expandObject at h
  simp only [] at h
  split at h
  · split at h
    · cases h
    · split at h
      · split at h
        · cases h
          exact (stackHandler_of_core _ _ (core_evaluate d _ _ _ _ _)).trans rfl
        · cases h; rfl
      · cases h; exact hplain
  · cases h; exact hplain

theorem stackHandler_fetchScopes (scopes : List QVariant) (d : QmlEnginePrivate) :
    (fetchScopes d scopes).stackHandler = d.stackHandler := by
  unfold fetchScopes
  apply foldl_view (fun x : QmlEnginePrivate => x.stackHandler)
  intro a sc
  split
  · rfl
  · exact (stackHandler_of_core _ _ (core_scope _ _ _)).trans rfl

theorem stackHandler_handleFrame (fuel : Nat) (d e : QmlEnginePrivate)
    (bodyVal refsVal : QVariant) (h : handleFrame fuel d bodyVal refsVal = some e) :
    e.stackHandler = d.stackHandler := by
  unfold handleFrame at h
  simp only [] at h
  split at h
  · cases h; rfl
  · split at h
    · cases h; rfl
    · split at h
      · cases h
      · split at h
        · cases h
        · rename_i e' heq
          cases h
          have h1 := foldlM_view (fun x : QmlEnginePrivate => x.stackHandler) _
            (fun a kv b hb => stackHandler_expandObject a b kv.2 kv.1 hb) _ _ _ heq
          have h2 : e'.stackHandler = (fetchScopes
              { clearCache (emit d Effect.notifyUpdateStarted) with
                watchHandler := (clearCache (emit d Effect.notifyUpdateStarted)).watchHandler.insertItem
                  (thisItem (by assumption)) }
              (mapValue bodyVal.toMap "scopes").toList).stackHandler := h1
          show e'.stackHandler = d.stackHandler
          rw [h2, stackHandler_fetchScopes]
          rfl

theorem extractStackFrame_returns (rank : Int → Nat) (env : Env) (fr refsVal : QVariant)
    (hwf : RefsWellFounded rank refsVal) :
    ∃ (fuel0 : Nat) (sf : StackFrame),
      ∀ fuel, fuel0 ≤ fuel → extractStackFrame fuel env fr refsVal = some sf := by
  obtain ⟨f1, d1, h1⟩ := extractData_terminates rank refsVal (mapValue fr.toMap "func") hwf
  obtain ⟨f2, d2, h2⟩ := extractData_terminates rank refsVal (mapValue fr.toMap "script") hwf
  obtain ⟨f3, d3, h3⟩ := extractData_terminates rank refsVal (mapValue fr.toMap "receiver") hwf
  by_cases hi : isString (mapValue fr.toMap "sourceLineText") INTERNAL_FUNCTION = true
  · refine ⟨0, { level := -1 }, ?_⟩
    intro fuel _
    unfold extractStackFrame
    simp only []
    rw [if_pos hi]
  · refine ⟨max f1 (max f2 f3),
      { level := (mapValue fr.toMap "index").toInt,
        function := (if d1.value.toString = "" then "Anonymous Function"
          else d1.value.toString),
        file := env.toFileInProject d2.value.toString,
        usable := env.isReadable (env.toFileInProject d2.value.toString),
        receiver := d3.value.toString,
        line := (mapValue fr.toMap "line").toInt + 1 }, ?_⟩
    intro fuel hfuel
    have hf1 : f1 ≤ fuel := le_trans (le_max_left _ _) hfuel
    have hf2 : f2 ≤ fuel := le_trans (le_trans (le_max_left _ _) (le_max_right _ _)) hfuel
    have hf3 : f3 ≤ fuel := le_trans (le_trans (le_max_right _ _) (le_max_right _ _)) hfuel
    unfold extractStackFrame
    simp only []
    rw [if_neg hi, h1 fuel hf1, h2 fuel hf2, h3 fuel hf3]

theorem extractStackFrames_return (rank : Int → Nat) (env : Env) (refsVal : QVariant)
    (hwf : RefsWellFounded rank refsVal) (frames : List QVariant) :
    ∃ fuel0 : Nat, ∀ fuel, fuel0 ≤ fuel → ∀ fr ∈ frames,
      ∃ sf, extractStackFrame fuel env fr refsVal = some sf := by
  induction frames with
  | nil => exact ⟨0, fun _ _ fr h => absurd h (List.not_mem_nil _)⟩
  | cons x frames ih =>
    obtain ⟨f0, h0⟩ := ih
    obtain ⟨f1, sf, h1⟩ := extractStackFrame_returns rank env x refsVal hwf
    refine ⟨max f0 f1, ?_⟩
    intro fuel hfuel fr hfr
    rcases List.mem_cons.1 hfr with h | h
    · rw [h]
      exact ⟨sf, h1 fuel (le_trans (le_max_right _ _) hfuel)⟩
    · exact h0 fuel (le_trans (le_max_left _ _) hfuel) fr h

theorem collect_loop_returns (fuel : Nat) (env : Env) (refsVal : QVariant)
    (frames : List QVariant)
    (hall : ∀ fr ∈ frames, ∃ sf, extractStackFrame fuel env fr refsVal = some sf) :
    ∀ acc : List StackFrame × List (Int × Int),
      ∃ result, frames.foldlM (fun (acc : List StackFrame × List (Int × Int)) fr =>
        match extractStackFrame fuel env fr refsVal with
        | none => none
        | some stackFrame =>
          if stackFrame.level < 0 then some acc
          else
            some (acc.1 ++ [{ stackFrame with level := ((acc.1.length : Nat) : Int) }],
                  hashInsert acc.2 ((acc.1.length : Nat) : Int) stackFrame.level)) acc
        = some result := by
  induction frames with
  | nil => intro acc; exact ⟨acc, rfl⟩
  | cons fr frames ih =>
    intro acc
    obtain ⟨sf, hsf⟩ := hall fr (List.mem_cons_self _ _)
    rw [List.foldlM_cons, hsf]
    by_cases hl : sf.level < 0
    · simp only [hl, if_true]
      exact ih (fun fr' h => hall fr' (List.mem_cons_of_mem _ h)) acc
    · simp only [hl, if_false]
      exact ih (fun fr' h => hall fr' (List.mem_cons_of_mem _ h)) _

/-! ## C20: the frames handed to the stack model -/

/-- C20 (as amended): for every backtrace response with `fromFrame = 0`, the
frame list `handleBacktrace` hands to the stack model (`setFrames`) is the
response's frame list with the frames whose `sourceLineText` is the
internal-function marker, and those reported with a negative `index`, removed:
every other frame is kept, decoded by `extractStackFrame`, the kept frames are
in the response order, and their levels are their positions `0, 1, ...` in the
list handed over.  The list is also the frame list of the stack model when
`handleBacktrace` returns.  The frame loop returns, from some recursion depth
on, whenever the reference links of the handle table are well-founded. -/
theorem backtrace_hands_over_visible_frames (rank : Int → Nat) (env : Env)
    (d : QmlEnginePrivate) (bodyVal refsVal : QVariant)
    (hfrom : (mapValue bodyVal.toMap "fromFrame").toInt = 0) :
    (∀ (fuel : Nat) (stackFrames : List StackFrame) (lookupTable : List (Int × Int)),
      collectStackFrames fuel env (mapValue bodyVal.toMap "frames").toList refsVal
        = some (stackFrames, lookupTable) →
      (∃ decoded : List StackFrame,
        List.Forall₂ (fun fr sf => extractStackFrame fuel env fr refsVal = some sf)
          (visibleFrames (mapValue bodyVal.toMap "frames").toList) decoded ∧
        stackFrames = renumberFrom 0 decoded) ∧
      handleBacktrace fuel env d bodyVal refsVal
        = handleFrame fuel
            { d with stackIndexLookup := lookupTable,
                     stackHandler := d.stackHandler.setFrames stackFrames }
            (((mapValue bodyVal.toMap "frames").toList.get? 0).getD QVariant.invalid)
            refsVal ∧
      ∀ e, handleBacktrace fuel env d bodyVal refsVal = some e →
        e.stackHandler.frames = stackFrames) ∧
    (RefsWellFounded rank refsVal →
      ∃ fuel0 : Nat, ∀ fuel, fuel0 ≤ fuel →
        ∃ result, collectStackFrames fuel env (mapValue bodyVal.toMap "frames").toList refsVal
          = some result) := by
  constructor
  · intro fuel stackFrames lookupTable hcollect
    have heq := handleBacktrace_eq fuel env d bodyVal refsVal hfrom
    rw [hcollect] at heq
    refine ⟨?_, heq, ?_⟩
    · obtain ⟨decoded, h1, h2⟩ := collectStackFrames_spec fuel env refsVal _ _ hcollect
      exact ⟨decoded, h1, h2⟩
    · intro e he
      rw [heq] at he
      rw [stackHandler_handleFrame fuel _ e _ refsVal he]
      rfl
  · intro hwf
    obtain ⟨fuel0, h0⟩ := extractStackFrames_return rank env refsVal hwf
      (mapValue bodyVal.toMap "frames").toList
    refine ⟨fuel0, ?_⟩
    intro fuel hfuel
    exact collect_loop_returns fuel env refsVal _ (h0 fuel hfuel) ([], [])

set_option maxRecDepth 100000 in
/-- C20, witness: a backtrace response with the frames `f`, an internal frame
and `h`: the stack model gets `f` at level `0` and `h` at level `1`. -/
theorem backtrace_hands_over_visible_frames_witness :
    visibleFrames framesWithInternal
      = [backtraceFrame 0 "f" "x = 1", backtraceFrame 2 "h" "z = 3"] ∧
    (∃ decoded : List StackFrame,
      List.Forall₂ (fun fr sf => extractStackFrame 0 exampleEnv fr QVariant.invalid = some sf)
        (visibleFrames (mapValue (backtraceBody framesWithInternal).toMap "frames").toList)
        decoded ∧
      [{ level := 0, function := "f", file := "a.qml", receiver := "Item", line := 3,
         usable := true },
       { level := 1, function := "h", file := "a.qml", receiver := "Item", line := 3,
         usable := true }] = renumberFrom 0 decoded) ∧
    (handleBacktrace 0 exampleEnv freshEngine (backtraceBody framesWithInternal)
        QVariant.invalid).map (fun e => e.stackHandler.frames.map
          (fun sf => (sf.level, sf.function)))
      = some [(0, "f"), (1, "h")] :=
  ⟨by rfl,
    ((backtrace_hands_over_visible_frames (fun _ => 0) exampleEnv freshEngine
      (backtraceBody framesWithInternal) QVariant.invalid (by rfl)).1 0
      [{ level := 0, function := "f", file := "a.qml", receiver := "Item", line := 3,
         usable := true },
       { level := 1, function := "h", file := "a.qml", receiver := "Item", line := 3,
         usable := true }]
      [(1, 2), (0, 0)] (by rfl)).1,
    by rfl⟩

set_option maxRecDepth 100000 in
/-- C20, counterexample: a backtrace response with the frames `f` (index `0`)
and `g` (index `-2`), neither of them an internal frame: the stack model gets
`f` alone. -/
theorem frame_with_negative_index_is_dropped :
    (mapValue (backtraceBody framesWithNegativeIndex).toMap "fromFrame").toInt = 0 ∧
    framesWithNegativeIndex.map isInternalFrame = [false, false] ∧
    (handleBacktrace 0 exampleEnv freshEngine (backtraceBody framesWithNegativeIndex)
        QVariant.invalid).map (fun e => e.stackHandler.frames.map
          (fun sf => (sf.level, sf.function)))
      = some [(0, "f")] :=
  ⟨by rfl, by rfl, by rfl⟩

/-! ## C24: the send buffer -/

/-- While the client is not enabled, a run of `sendMessage` calls appends the
messages to the send buffer, in call order, and hands nothing to the
transport. -/
theorem sendMessage_run_buffered (msgs : List Packet) :
    ∀ d : QmlEnginePrivate, d.clientState ≠ ClientState.Enabled →
      (msgs.foldl sendMessage d).sendBuffer = d.sendBuffer ++ msgs ∧
      (msgs.foldl sendMessage d).sent = d.sent ∧
      (msgs.foldl sendMessage d).clientState = d.clientState ∧
      (msgs.foldl sendMessage d).sequence = d.sequence := by
  induction msgs with
  | nil => intro d _; simp
  | cons m ms ih =>
    intro d hd
    have h1 : sendMessage d m
        = { d with trace := d.trace ++ [Effect.sendMessage m],
                   sendBuffer := d.sendBuffer ++ [m] } := by
      unfold sendMessage
      simp only [if_neg hd]
    obtain ⟨a, b, c, e⟩ := ih (sendMessage d m) (by rw [h1]; exact hd)
    rw [List.foldl_cons, a, b, c, e, h1]
    simp

/-- While the client is enabled, a run of `sendMessage` calls hands the
messages to the transport, in call order, and leaves the send buffer alone. -/
theorem sendMessage_run_enabled (msgs : List Packet) :
    ∀ d : QmlEnginePrivate, d.clientState = ClientState.Enabled →
      (msgs.foldl sendMessage d).sent = d.sent ++ msgs ∧
      (msgs.foldl sendMessage d).sendBuffer = d.sendBuffer ∧
      (msgs.foldl sendMessage d).clientState = ClientState.Enabled := by
  induction msgs with
  | nil => intro d hd; simp [hd]
  | cons m ms ih =>
    intro d hd
    have h1 : sendMessage d m
        = { d with trace := d.trace ++ [Effect.sendMessage m],
                   sent := d.sent ++ [m] } := by
      unfold sendMessage
      simp only [if_pos hd]
    obtain ⟨a, b, c⟩ := ih (sendMessage d m) (by rw [h1]; exact hd)
    rw [List.foldl_cons, a, b, c, h1]
    simp

/-- The state `stateChanged` reaches on the transition to `Enabled`: the
buffer is flushed, then the `connect` message and the `version` request are
sent. -/
theorem stateChanged_enabled (d : QmlEnginePrivate) :
    (stateChanged d ClientState.Enabled).sendBuffer = [] ∧
    (stateChanged d ClientState.Enabled).clientState = ClientState.Enabled ∧
    (flushSendBuffer { d with clientState := ClientState.Enabled }).sent
      = d.sent ++ d.sendBuffer ∧
    (stateChanged d ClientState.Enabled).sent
      = d.sent ++ d.sendBuffer
        ++ [packMessage CONNECT,
            packMessage V8REQUEST (Payload.json (QVariant.map
              [("seq", QVariant.num (wrapInt32 (d.sequence + 1))),
               ("type", QVariant.str "request"),
               ("command", QVariant.str "version")]))] := by
  simp [stateChanged, flushSendBuffer, version, connect, sendAndLogV8Request, sendMessage,
    initObject, jsonInsert, mapContains]

/-- C24: for every run of `sendMessage` calls made while the client is not
enabled, the messages are held in the send buffer in call order and nothing
reaches the transport; on the transition to `Enabled`, `flushSendBuffer` hands
exactly the buffered messages to the transport, oldest first and each once
(`stateChanged` then sends its own `connect` and `version` messages after
them), and the send buffer is empty afterwards; every `sendMessage` call made
from then on goes straight to the transport, in call order, and the buffer
stays empty. -/
theorem buffered_messages_are_flushed_in_order (d : QmlEnginePrivate) (msgs later : List Packet)
    (hstate : d.clientState ≠ ClientState.Enabled) :
    (msgs.foldl sendMessage d).sent = d.sent ∧
    (msgs.foldl sendMessage d).sendBuffer = d.sendBuffer ++ msgs ∧
    (flushSendBuffer { msgs.foldl sendMessage d with clientState := ClientState.Enabled }).sent
      = d.sent ++ (d.sendBuffer ++ msgs) ∧
    (flushSendBuffer { msgs.foldl sendMessage d with
        clientState := ClientState.Enabled }).sendBuffer = [] ∧
    (stateChanged (msgs.foldl sendMessage d) ClientState.Enabled).sent
      = d.sent ++ (d.sendBuffer ++ msgs)
        ++ [packMessage CONNECT,
            packMessage V8REQUEST (Payload.json (QVariant.map
              [("seq", QVariant.num (wrapInt32 (d.sequence + 1))),
               ("type", QVariant.str "request"),
               ("command", QVariant.str "version")]))] ∧
    (stateChanged (msgs.foldl sendMessage d) ClientState.Enabled).sendBuffer = [] ∧
    (later.foldl sendMessage
        (stateChanged (msgs.foldl sendMessage d) ClientState.Enabled)).sent
      = (stateChanged (msgs.foldl sendMessage d) ClientState.Enabled).sent ++ later ∧
    (later.foldl sendMessage
        (stateChanged (msgs.foldl sendMessage d) ClientState.Enabled)).sendBuffer = [] := by
  obtain ⟨hbuf, hsent, _, hseq⟩ := sendMessage_run_buffered msgs d hstate
  obtain ⟨s1, s2, s3, s4⟩ := stateChanged_enabled (msgs.foldl sendMessage d)
  obtain ⟨l1, l2, _⟩ := sendMessage_run_enabled later _ s2
  refine ⟨hsent, hbuf, ?_, ?_, ?_, s1, l1, ?_⟩
  · rw [s3, hsent, hbuf]
  · simp [flushSendBuffer]
  · rw [s4, hsent, hbuf, hseq]
  · rw [l2, s1]

/-- C24 at a concrete engine: two requests issued before the connection is
enabled are flushed in call order, followed by `connect` and `version`. -/
theorem buffered_messages_are_flushed_in_order_witness :
    (stateChanged ([packMessage DISCONNECT, packMessage INTERRUPT].foldl sendMessage freshEngine)
        ClientState.Enabled).sent
      = [] ++ ([] ++ [packMessage DISCONNECT, packMessage INTERRUPT])
        ++ [packMessage CONNECT,
            packMessage V8REQUEST (Payload.json (QVariant.map
              [("seq", QVariant.num (wrapInt32 (-1 + 1))),
               ("type", QVariant.str "request"),
               ("command", QVariant.str "version")]))] :=
  (buffered_messages_are_flushed_in_order freshEngine
    [packMessage DISCONNECT, packMessage INTERRUPT] [] (by decide)).2.2.2.2.1

/-! ## C25: disconnection and the send buffer -/

/-- What `disconnect` does to the transport: the `disconnect` request goes the
way of every message, into the send buffer unless the client is enabled. -/
theorem disconnect_transport (d : QmlEnginePrivate) :
    (disconnect d).clientState = d.clientState ∧
    (disconnect d).sequence = wrapInt32 (d.sequence + 1) ∧
    (disconnect d).sendBuffer
      = d.sendBuffer ++ (if d.clientState = ClientState.Enabled then []
          else [disconnectRequest (wrapInt32 (d.sequence + 1))]) ∧
    (disconnect d).sent
      = d.sent ++ (if d.clientState = ClientState.Enabled
          then [disconnectRequest (wrapInt32 (d.sequence + 1))] else []) := by
  by_cases h : d.clientState = ClientState.Enabled <;>
    simp [disconnect, sendMessage, initObject, jsonInsert, mapContains, disconnectRequest, h]

/-- C25 (as amended): disconnection does not clear the send buffer.  After
`QmlEnginePrivate::disconnect`, and after `stateChanged` to a state other than
`Enabled`, every message the send buffer held is still in it, in order
(`disconnect` appends its own `disconnect` request behind them when the client
is not enabled), nothing has reached the transport, and the next transition to
`Enabled` delivers all of them, oldest first, ahead of the `connect` message
and the `version` request. -/
theorem disconnection_keeps_the_send_buffer (d : QmlEnginePrivate) (st : ClientState)
    (hclient : d.clientState ≠ ClientState.Enabled) (hst : st ≠ ClientState.Enabled) :
    (disconnect d).sendBuffer
      = d.sendBuffer ++ [disconnectRequest (wrapInt32 (d.sequence + 1))] ∧
    (disconnect d).sent = d.sent ∧
    (stateChanged d st).sendBuffer = d.sendBuffer ∧
    (stateChanged d st).sent = d.sent ∧
    (stateChanged (disconnect d) st).sendBuffer
      = d.sendBuffer ++ [disconnectRequest (wrapInt32 (d.sequence + 1))] ∧
    (stateChanged (stateChanged (disconnect d) st) ClientState.Enabled).sent
      = d.sent ++ (d.sendBuffer ++ [disconnectRequest (wrapInt32 (d.sequence + 1))])
        ++ [packMessage CONNECT,
            versionRequest (wrapInt32 (wrapInt32 (d.sequence + 1) + 1))] := by
  obtain ⟨_, c2, c3, c4⟩ := disconnect_transport d
  rw [if_neg hclient] at c3 c4
  have hs : ∀ x : QmlEnginePrivate, stateChanged x st = { x with clientState := st } := by
    intro x
    unfold stateChanged
    simp only [if_neg hst]
  obtain ⟨_, _, _, s4⟩ := stateChanged_enabled (stateChanged (disconnect d) st)
  refine ⟨c3, by simpa using c4, by rw [hs], by rw [hs], by rw [hs]; exact c3, ?_⟩
  rw [s4, hs]
  show (disconnect d).sent ++ (disconnect d).sendBuffer ++ _ = _
  rw [c3, c4, c2]
  simp [versionRequest]

/-- C25 at a concrete engine: the buffered `interrupt` survives `disconnect`
and the change to `Unavailable`, and is delivered when the client is enabled. -/
theorem disconnection_keeps_the_send_buffer_witness :
    (stateChanged (stateChanged (disconnect bufferingEngine) ClientState.Unavailable)
        ClientState.Enabled).sent
      = [] ++ ([packMessage INTERRUPT] ++ [disconnectRequest (wrapInt32 (3 + 1))])
        ++ [packMessage CONNECT, versionRequest (wrapInt32 (wrapInt32 (3 + 1) + 1))] :=
  (disconnection_keeps_the_send_buffer bufferingEngine ClientState.Unavailable
    (by decide) (by decide)).2.2.2.2.2

/-- C25 as stated fails: with an `interrupt` waiting in the send buffer of a
client that is not enabled, the buffer is not empty after `disconnect`, nor
after `stateChanged` to `Unavailable` or `NotConnected`, and the `interrupt`
is delivered by the flush of the next transition to `Enabled`. -/
theorem send_buffer_survives_disconnection :
    (disconnect bufferingEngine).sendBuffer
      = [packMessage INTERRUPT, disconnectRequest 4] ∧
    (stateChanged bufferingEngine ClientState.Unavailable).sendBuffer
      = [packMessage INTERRUPT] ∧
    (stateChanged (disconnect bufferingEngine) ClientState.NotConnected).sendBuffer
      = [packMessage INTERRUPT, disconnectRequest 4] ∧
    (flushSendBuffer { stateChanged (disconnect bufferingEngine) ClientState.NotConnected with
        clientState := ClientState.Enabled }).sent
      = [packMessage INTERRUPT, disconnectRequest 4] ∧
    (stateChanged (stateChanged (disconnect bufferingEngine) ClientState.NotConnected)
        ClientState.Enabled).sent
      = [packMessage INTERRUPT, disconnectRequest 4, packMessage CONNECT, versionRequest 5] := by
  refine ⟨by rfl, by rfl, by rfl, by rfl, by rfl⟩

/-! ## C22: stale scope responses -/

/-- A response frame is handed to the dispatcher with its `success` flag and
its command name. -/
theorem messageReceived_response (fuel : Nat) (env : Env) (d : QmlEnginePrivate)
    (data payload : Bytes)
    (hframe : readPacket data = (asciiBytes V8DEBUG, asciiBytes V8MESSAGE, payload))
    (htype : (mapValue (env.fromJson payload).toMap "type").toString = "response") :
    messageReceived fuel env d data
      = dispatchResponse fuel env d (env.fromJson payload).toMap
          (mapValue (env.fromJson payload).toMap "success").toBool
          (mapValue (env.fromJson payload).toMap "command").toString := by
  rw [messageReceived_v8message fuel env d data payload hframe]
  unfold handleV8Message handleResponse
  simp only [htype, if_true]

/-- The dispatcher hands a successful `scope` response to `handleScope`. -/
theorem dispatchResponse_scope (fuel : Nat) (env : Env) (d : QmlEnginePrivate)
    (resp : QVariantMap) (success : Bool) :
    dispatchResponse fuel env d resp success "scope"
      = if success then handleScope fuel d (mapValue resp "body") (mapValue resp "refs")
        else some d := by
  unfold dispatchResponse
  rw [if_neg (by decide), if_neg (by decide), if_neg (by decide), if_neg (by decide),
    if_neg (by decide), if_neg (by decide), if_neg (by decide), if_neg (by decide),
    if_neg (by decide), if_pos rfl]

/-- C22: for every `scope` response whose `frameIndex` differs from the current
index of the stack model, `handleScope` returns the engine state it was given,
unchanged in every field, and so does `messageReceived` on the frame carrying
the response: the watch model has no new node, `localsAndWatchers` is what it
was, and the trace of calls has grown by nothing, neither a `lookup` request
nor an update-finished notification. -/
theorem stale_scope_response_changes_nothing (fuel : Nat) (env : Env) (d : QmlEnginePrivate)
    (data payload : Bytes)
    (hframe : readPacket data = (asciiBytes V8DEBUG, asciiBytes V8MESSAGE, payload))
    (htype : (mapValue (env.fromJson payload).toMap "type").toString = "response")
    (hcmd : (mapValue (env.fromJson payload).toMap "command").toString = "scope")
    (hstale : (mapValue (mapValue (env.fromJson payload).toMap "body").toMap "frameIndex").toInt
                ≠ d.stackHandler.currentIndex) :
    handleScope fuel d (mapValue (env.fromJson payload).toMap "body")
        (mapValue (env.fromJson payload).toMap "refs") = some d ∧
    messageReceived fuel env d data = some d ∧
    ∀ e, messageReceived fuel env d data = some e →
      e.watchHandler = d.watchHandler ∧ e.localsAndWatchers = d.localsAndWatchers ∧
      newEffects d e = [] ∧ e.sent = d.sent ∧ e.sendBuffer = d.sendBuffer := by
  have h1 : handleScope fuel d (mapValue (env.fromJson payload).toMap "body")
      (mapValue (env.fromJson payload).toMap "refs") = some d := by
    unfold handleScope
    simp only [if_pos hstale]
  have h2 : messageReceived fuel env d data = some d := by
    rw [messageReceived_response fuel env d data payload hframe htype, hcmd,
      dispatchResponse_scope, h1]
    simp
  refine ⟨h1, h2, ?_⟩
  intro e he
  rw [h2] at he
  cases he
  simp [newEffects]

set_option maxRecDepth 100000 in
/-- C22 at a concrete engine: stopped in frame `0`, it receives a `scope`
response for frame `1`. -/
theorem stale_scope_response_changes_nothing_witness :
    (mapValue (mapValue (exampleEnv.fromJson (toJsonCompact (scopeResponse 1))).toMap
        "body").toMap "frameIndex").toInt ≠ stoppedEngine.stackHandler.currentIndex ∧
    messageReceived 3 exampleEnv stoppedEngine (v8MessageFrame (scopeResponse 1))
      = some stoppedEngine :=
  ⟨by decide,
    (stale_scope_response_changes_nothing 3 exampleEnv stoppedEngine
      (v8MessageFrame (scopeResponse 1)) (toJsonCompact (scopeResponse 1))
      (by rfl) (by rfl) (by rfl) (by decide)).2.1⟩

/-! ## C26: one resolution per request -/

set_option maxRecDepth 100000 in
/-- C26 fails on the code for a console command: the request number `5` is
tracked in `debuggerCommands`; the first `evaluate` response for it prints the
result `42` to the console and requests the queued scope again, and leaves
`5` in `debuggerCommands`; a second `evaluate` response with the same
`request_seq` prints `42` once more and sends one more `scope` request. -/
theorem console_command_is_resolved_twice :
    (run engineAwaitingCommand
        [Input.messageReceived 3 exampleEnv (v8MessageFrame commandResponse)]).map
      (fun e => (e.trace, e.debuggerCommands))
      = some ([Effect.printToConsolePane (ConsoleItem.node "42" []),
               Effect.sendMessage (requestPacket 6 "scope" [("number", QVariant.num 1)])],
              [5]) ∧
    (run engineAwaitingCommand
        [Input.messageReceived 3 exampleEnv (v8MessageFrame commandResponse),
         Input.messageReceived 3 exampleEnv (v8MessageFrame commandResponse)]).map
      (fun e => (e.trace, e.debuggerCommands))
      = some ([Effect.printToConsolePane (ConsoleItem.node "42" []),
               Effect.sendMessage (requestPacket 6 "scope" [("number", QVariant.num 1)]),
               Effect.printToConsolePane (ConsoleItem.node "42" []),
               Effect.sendMessage (requestPacket 7 "scope" [("number", QVariant.num 1)])],
              [5]) := by
  refine ⟨by rfl, by rfl⟩

/-! ## The frame update: what `handleFrame` sends and notifies -/

theorem scope_trace (d : QmlEnginePrivate) (n : Int) :
    ∃ p, (scope d n).trace = d.trace ++ [Effect.sendMessage p] ∧
      p.command = some "scope" ∧ p.arguments = scopeArguments n := by
  unfold scope initObject sendAndLogV8Request
  simp only []
  refine ⟨_, (sendMessage_trace _ _).1, ?_, ?_⟩
  · by_cases h : n = -1 <;>
      simp [h, Packet.command, packMessage, jsonInsert, mapContains, mapValue, QVariant.toMap,
        QVariant.toString]
  · by_cases h : n = -1 <;>
      simp [h, scopeArguments, Packet.arguments, packMessage, jsonInsert, mapContains, mapValue,
        QVariant.toMap]

theorem lookup_trace (d : QmlEnginePrivate) (h : Int) :
    (lookup d [h]).trace
      = d.trace ++ [Effect.sendMessage
          (requestPacket (wrapInt32 (d.sequence + 1)) "lookup"
            [("handles", QVariant.list [QVariant.num h])])] := by
  unfold lookup initObject sendAndLogV8Request
  simp only []
  rw [(sendMessage_trace _ _).1]
  simp [requestPacket, jsonInsert, mapContains]

theorem evaluate_trace (d : QmlEnginePrivate) (e : String) (f : Int) :
    ∃ p, (evaluate d e false false f).trace = d.trace ++ [Effect.sendMessage p] ∧
      p.command = some "evaluate" := by
  unfold evaluate initObject sendAndLogV8Request
  simp only []
  refine ⟨_, (sendMessage_trace _ _).1, ?_⟩
  simp [Packet.command, packMessage, jsonInsert, mapContains, mapValue, QVariant.toMap,
    QVariant.toString]

theorem requestsOf_packets (ps : List Packet) :
    requestsOf (ps.map Effect.sendMessage)
      = ps.filterMap (fun p => p.command.map (fun c => (c, p.arguments))) := by
  unfold requestsOf
  rw [List.filterMap_map]
  rfl

theorem fetchScopes_spec (scopes : List QVariant) :
    ∀ d : QmlEnginePrivate, ∃ packets : List Packet,
      (fetchScopes d scopes).trace = d.trace ++ packets.map Effect.sendMessage ∧
      packets.map (fun p => (p.command, p.arguments))
        = (nonGlobalScopes scopes).map (fun i => (some "scope", scopeArguments i)) ∧
      (fetchScopes d scopes).currentFrameScopes
        = d.currentFrameScopes ++ nonGlobalScopes scopes := by
  induction scopes with
  | nil => intro d; exact ⟨[], by simp [fetchScopes], by simp [nonGlobalScopes],
      by simp [fetchScopes, nonGlobalScopes]⟩
  | cons sc scopes ih =>
    intro d
    by_cases h0 : (mapValue sc.toMap "type").toInt = 0
    · obtain ⟨ps, h1, h2, h3⟩ := ih d
      have hf : fetchScopes d (sc :: scopes) = fetchScopes d scopes := by
        unfold fetchScopes
        rw [List.foldl_cons, if_pos h0]
      have hn : nonGlobalScopes (sc :: scopes) = nonGlobalScopes scopes := by
        simp [nonGlobalScopes, h0]
      rw [hf, hn]
      exact ⟨ps, h1, h2, h3⟩
    · obtain ⟨p, hp, hc, ha⟩ := scope_trace
        { d with currentFrameScopes :=
            d.currentFrameScopes ++ [(mapValue sc.toMap "index").toInt] }
        (mapValue sc.toMap "index").toInt
      obtain ⟨ps, h1, h2, h3⟩ := ih (scope
        { d with currentFrameScopes :=
            d.currentFrameScopes ++ [(mapValue sc.toMap "index").toInt] }
        (mapValue sc.toMap "index").toInt)
      have hf : fetchScopes d (sc :: scopes) = fetchScopes (scope
          { d with currentFrameScopes :=
              d.currentFrameScopes ++ [(mapValue sc.toMap "index").toInt] }
          (mapValue sc.toMap "index").toInt) scopes := by
        unfold fetchScopes
        rw [List.foldl_cons, if_neg h0]
      have hn : nonGlobalScopes (sc :: scopes)
          = (mapValue sc.toMap "index").toInt :: nonGlobalScopes scopes := by
        simp [nonGlobalScopes, h0]
      have hcs : (scope
          { d with currentFrameScopes :=
              d.currentFrameScopes ++ [(mapValue sc.toMap "index").toInt] }
          (mapValue sc.toMap "index").toInt).currentFrameScopes
            = d.currentFrameScopes ++ [(mapValue sc.toMap "index").toInt] := by
        have := congrArg QmlEnginePrivate.currentFrameScopes (core_scope
          { d with currentFrameScopes :=
              d.currentFrameScopes ++ [(mapValue sc.toMap "index").toInt] }
          (mapValue sc.toMap "index").toInt (-1))
        exact this
      rw [hf, hn]
      refine ⟨p :: ps, ?_, ?_, ?_⟩
      · rw [h1, hp]
        simp
      · rw [List.map_cons, List.map_cons, h2, hc, ha]
      · rw [h3, hcs]
        simp

theorem expandObject_trace (d e : QmlEnginePrivate) (iname : String) (objectId : Int)
    (h : expandObject d iname objectId = some e) :
    ∃ packets : List Packet,
      e.trace = d.trace ++ packets.map Effect.sendMessage ∧
      (objectId ≠ 0 → ∃ p ∈ packets, p.command = some "lookup" ∧
        p.arguments = lookupArguments (wrapInt32 objectId)) ∧
      ∀ p ∈ packets, (p.command = some "lookup" ∧
          p.arguments = lookupArguments (wrapInt32 objectId)) ∨
        p.command = some "evaluate" := by
  have hplain : ∀ x : QmlEnginePrivate, x.trace = d.trace →
      ∃ packets : List Packet,
        (lookup x [wrapInt32 objectId]).trace = d.trace ++ packets.map Effect.sendMessage ∧
        (objectId ≠ 0 → ∃ p ∈ packets, p.command = some "lookup" ∧
          p.arguments = lookupArguments (wrapInt32 objectId)) ∧
        ∀ p ∈ packets, (p.command = some "lookup" ∧
            p.arguments = lookupArguments (wrapInt32 objectId)) ∨
          p.command = some "evaluate" := by
    intro x hx
    refine ⟨[requestPacket (wrapInt32 (x.sequence + 1)) "lookup"
      [("handles", QVariant.list [QVariant.num (wrapInt32 objectId)])]], ?_, ?_, ?_⟩
    · rw [lookup_trace, hx]
      rfl
    · intro _
      exact ⟨_, List.mem_singleton.2 rfl, requestPacket_command _ _ _,
        requestPacket_arguments _ _ _⟩
    · intro p hp
      rw [List.mem_singleton] at hp
      subst hp
      exact Or.inl ⟨requestPacket_command _ _ _, requestPacket_arguments _ _ _⟩
  unfold expandObject at h
  simp only [] at h
  split at h
  · rename_i h0
    split at h
    · cases h
    · split at h
      · split at h
        · cases h
          obtain ⟨p, hp, hc⟩ := evaluate_trace d (by assumption : WatchItem).name
            d.stackHandler.currentIndex
          refine ⟨[p], ?_, fun hne => absurd h0 hne, ?_⟩
          · show (evaluate d _ false false d.stackHandler.currentIndex).trace = _
            rw [hp]
            rfl
          · intro q hq
            rw [List.mem_singleton] at hq
            subst hq
            exact Or.inr hc
        · cases h
          exact ⟨[], by simp, fun hne => absurd h0 hne, by intro p hp; cases hp⟩
      · cases h
        exact hplain _ rfl
  · cases h
    exact hplain _ rfl

theorem expandObjects_trace (l : List (Int × String)) :
    ∀ d e : QmlEnginePrivate, l.foldlM (fun d kv => expandObject d kv.2 kv.1) d = some e →
      ∃ packets : List Packet,
        e.trace = d.trace ++ packets.map Effect.sendMessage ∧
        (∀ kv ∈ l, kv.1 ≠ 0 → ∃ p ∈ packets, p.command = some "lookup" ∧
          p.arguments = lookupArguments (wrapInt32 kv.1)) ∧
        ∀ p ∈ packets, (∃ kv ∈ l, p.command = some "lookup" ∧
            p.arguments = lookupArguments (wrapInt32 kv.1)) ∨
          p.command = some "evaluate" := by
  induction l with
  | nil =>
    intro d e h
    cases h
    refine ⟨[], by simp, ?_, ?_⟩
    · intro kv hkv
      cases hkv
    · intro p hp
      cases hp
  | cons kv l ih =>
    intro d e h
    rw [List.foldlM_cons] at h
    cases h1 : expandObject d kv.2 kv.1 with
    | none => rw [h1] at h; cases h
    | some d1 =>
      rw [h1] at h
      obtain ⟨ps1, t1, a1, b1⟩ := expandObject_trace d d1 kv.2 kv.1 h1
      obtain ⟨ps, t, a, b⟩ := ih d1 e h
      refine ⟨ps1 ++ ps, ?_, ?_, ?_⟩
      · rw [t, t1]
        simp
      · intro kv' hkv' hne
        rcases List.mem_cons.1 hkv' with rfl | hmem
        · obtain ⟨p, hp, hc⟩ := a1 hne
          exact ⟨p, List.mem_append_left _ hp, hc⟩
        · obtain ⟨p, hp, hc⟩ := a kv' hmem hne
          exact ⟨p, List.mem_append_right _ hp, hc⟩
      · intro p hp
        rcases List.mem_append.1 hp with hp | hp
        · rcases b1 p hp with hc | hc
          · exact Or.inl ⟨kv, List.mem_cons_self _ _, hc⟩
          · exact Or.inr hc
        · rcases b p hp with ⟨kv', hkv', hc⟩ | hc
          · exact Or.inl ⟨kv', List.mem_cons_of_mem _ hkv', hc⟩
          · exact Or.inr hc

theorem expandObject_currentFrameScopes (d e : QmlEnginePrivate) (iname : String)
    (objectId : Int) (h : expandObject d iname objectId = some e) :
    e.currentFrameScopes = d.currentFrameScopes := by
  have hplain : (lookup
      { d with localsAndWatchers := (hashInsertMulti d.localsAndWatchers (wrapInt32 objectId) iname) }
      [wrapInt32 objectId]).currentFrameScopes = d.currentFrameScopes :=
    (congrArg QmlEnginePrivate.currentFrameScopes (core_lookup _ _ _)).trans rfl
  unfold expandObject at h
  simp only [] at h
  split at h
  · split at h
    · cases h
    · split at h
      · split at h
        · cases h
          exact (congrArg QmlEnginePrivate.currentFrameScopes
            (core_evaluate d _ _ _ _ _)).trans rfl
        · cases h; rfl
      · cases h; exact hplain
  · cases h; exact hplain

theorem handleFrame_skipped (fuel : Nat) (d : QmlEnginePrivate) (bodyVal refsVal : QVariant)
    (h : d.stackHandler.currentIndex < 0 ∨ d.stackHandler.currentFrame.usable = false) :
    handleFrame fuel d bodyVal refsVal = some (clearCache (emit d Effect.notifyUpdateStarted)) := by
  unfold handleFrame
  simp only []
  split
  · rfl
  · rename_i hlt
    rcases h with h | h
    · exact absurd h hlt
    · split
      · rfl
      · rename_i hu
        exact absurd (show (!d.stackHandler.currentFrame.usable) = true by rw [h]; rfl) hu

theorem handleFrame_usable (fuel : Nat) (d : QmlEnginePrivate) (bodyVal refsVal : QVariant)
    (objectData : QmlV8ObjectData)
    (hindex : 0 ≤ d.stackHandler.currentIndex)
    (husable : d.stackHandler.currentFrame.usable = true)
    (hreceiver : extractData fuel (mapValue bodyVal.toMap "receiver") refsVal = some objectData) :
    handleFrame fuel d bodyVal refsVal
      = ((expandedHandles d.watchHandler).foldlM (fun d kv => expandObject d kv.2 kv.1)
          (emit (fetchScopes
              { clearCache (emit d Effect.notifyUpdateStarted) with
                watchHandler := d.watchHandler.insertItem (thisItem objectData) }
              (mapValue bodyVal.toMap "scopes").toList)
            (Effect.gotoLocation d.stackHandler.currentFrame))).map
          (fun d => emit d Effect.stackFrameCompleted) := by
  have hlt : ¬ (d.stackHandler.currentIndex < 0) := by omega
  have hsh : (fetchScopes
      { clearCache (emit d Effect.notifyUpdateStarted) with
        watchHandler := d.watchHandler.insertItem (thisItem objectData) }
      (mapValue bodyVal.toMap "scopes").toList).stackHandler = d.stackHandler :=
    (stackHandler_fetchScopes _ _).trans rfl
  rw [← hsh]
  unfold handleFrame
  simp only []
  split
  · rename_i h; exact absurd h hlt
  · split
    · rename_i h
      have h' : (!d.stackHandler.currentFrame.usable) = true := h
      rw [husable] at h'
      cases h'
    · split
      · rename_i heq
        exact absurd (heq.symm.trans hreceiver) (by simp)
      · rename_i od heq
        have hod : od = objectData := Option.some.inj (heq.symm.trans hreceiver)
        subst hod
        split
        · rename_i heq2
          have heq3 : List.foldlM (fun d kv => expandObject d kv.2 kv.1)
              (emit (fetchScopes
                { clearCache (emit d Effect.notifyUpdateStarted) with
                  watchHandler := d.watchHandler.insertItem (thisItem od) }
                (mapValue bodyVal.toMap "scopes").toList)
              (Effect.gotoLocation (fetchScopes
                { clearCache (emit d Effect.notifyUpdateStarted) with
                  watchHandler := d.watchHandler.insertItem (thisItem od) }
                (mapValue bodyVal.toMap "scopes").toList).stackHandler.currentFrame))
              (expandedHandles d.watchHandler) = none := heq2
          rw [heq3]
          rfl
        · rename_i e' heq2
          have heq3 : List.foldlM (fun d kv => expandObject d kv.2 kv.1)
              (emit (fetchScopes
                { clearCache (emit d Effect.notifyUpdateStarted) with
                  watchHandler := d.watchHandler.insertItem (thisItem od) }
                (mapValue bodyVal.toMap "scopes").toList)
              (Effect.gotoLocation (fetchScopes
                { clearCache (emit d Effect.notifyUpdateStarted) with
                  watchHandler := d.watchHandler.insertItem (thisItem od) }
                (mapValue bodyVal.toMap "scopes").toList).stackHandler.currentFrame))
              (expandedHandles d.watchHandler) = some e' := heq2
          rw [heq3]
          rfl

/-- What a frame update does once the current frame is usable and the
receiver has been decoded: the trace grows by the update-started notification,
one `scope` request per non-global scope of the frame body, the jump to the
current location, the re-expansion requests and one `stackFrameCompleted`. -/
theorem handleFrame_spec (fuel : Nat) (d e : QmlEnginePrivate) (bodyVal refsVal : QVariant)
    (objectData : QmlV8ObjectData)
    (hindex : 0 ≤ d.stackHandler.currentIndex)
    (husable : d.stackHandler.currentFrame.usable = true)
    (hreceiver : extractData fuel (mapValue bodyVal.toMap "receiver") refsVal = some objectData)
    (h : handleFrame fuel d bodyVal refsVal = some e) :
    ∃ scopePackets expandPackets : List Packet,
      e.trace = d.trace ++ (Effect.notifyUpdateStarted :: scopePackets.map Effect.sendMessage
        ++ Effect.gotoLocation d.stackHandler.currentFrame
          :: expandPackets.map Effect.sendMessage ++ [Effect.stackFrameCompleted]) ∧
      scopePackets.map (fun p => (p.command, p.arguments))
        = (nonGlobalScopes (mapValue bodyVal.toMap "scopes").toList).map
            (fun i => (some "scope", scopeArguments i)) ∧
      (∀ kv ∈ expandedHandles d.watchHandler, kv.1 ≠ 0 →
        ∃ p ∈ expandPackets, p.command = some "lookup" ∧
          p.arguments = lookupArguments (wrapInt32 kv.1)) ∧
      (∀ p ∈ expandPackets,
        (∃ kv ∈ expandedHandles d.watchHandler, p.command = some "lookup" ∧
          p.arguments = lookupArguments (wrapInt32 kv.1)) ∨
        p.command = some "evaluate") ∧
      e.currentFrameScopes = nonGlobalScopes (mapValue bodyVal.toMap "scopes").toList ∧
      e.watchHandler = d.watchHandler.insertItem (thisItem objectData) := by
  rw [handleFrame_usable fuel d bodyVal refsVal objectData hindex husable hreceiver] at h
  obtain ⟨sps, s1, s2, s3⟩ := fetchScopes_spec (mapValue bodyVal.toMap "scopes").toList
    { clearCache (emit d Effect.notifyUpdateStarted) with
      watchHandler := d.watchHandler.insertItem (thisItem objectData) }
  cases hfold : (expandedHandles d.watchHandler).foldlM (fun d kv => expandObject d kv.2 kv.1)
      (emit (fetchScopes
          { clearCache (emit d Effect.notifyUpdateStarted) with
            watchHandler := d.watchHandler.insertItem (thisItem objectData) }
          (mapValue bodyVal.toMap "scopes").toList)
        (Effect.gotoLocation d.stackHandler.currentFrame)) with
  | none => rw [hfold] at h; cases h
  | some e1 =>
    rw [hfold] at h
    cases h
    obtain ⟨eps, t1, a1, b1⟩ := expandObjects_trace _ _ _ hfold
    have hw := foldlM_view (fun x : QmlEnginePrivate => x.watchHandler) _
      (fun a kv b hb => expandObject_watchHandler a b kv.2 kv.1 hb) _ _ _ hfold
    have hc := foldlM_view (fun x : QmlEnginePrivate => x.currentFrameScopes) _
      (fun a kv b hb => expandObject_currentFrameScopes a b kv.2 kv.1 hb) _ _ _ hfold
    refine ⟨sps, eps, ?_, s2, a1, b1, ?_, ?_⟩
    · show e1.trace ++ [Effect.stackFrameCompleted] = _
      rw [t1]
      show ((fetchScopes _ _).trace ++ [_]) ++ _ ++ _ = _
      rw [s1]
      simp [clearCache, emit]
    · show e1.currentFrameScopes = _
      have hc' : e1.currentFrameScopes = (fetchScopes
          { clearCache (emit d Effect.notifyUpdateStarted) with
            watchHandler := d.watchHandler.insertItem (thisItem objectData) }
          (mapValue bodyVal.toMap "scopes").toList).currentFrameScopes := hc
      rw [hc', s3]
      simp [clearCache]
    · show e1.watchHandler = _
      have hw' : e1.watchHandler = (fetchScopes
          { clearCache (emit d Effect.notifyUpdateStarted) with
            watchHandler := d.watchHandler.insertItem (thisItem objectData) }
          (mapValue bodyVal.toMap "scopes").toList).watchHandler := hw
      rw [hw', fetchScopes_watchHandler]

theorem handleFrame_returns (fuel : Nat) (d : QmlEnginePrivate) (bodyVal refsVal : QVariant)
    (objectData : QmlV8ObjectData)
    (hindex : 0 ≤ d.stackHandler.currentIndex)
    (husable : d.stackHandler.currentFrame.usable = true)
    (hreceiver : extractData fuel (mapValue bodyVal.toMap "receiver") refsVal = some objectData)
    (hfound : ∀ kv ∈ expandedHandles d.watchHandler, kv.1 = 0 →
      ((d.watchHandler.insertItem (thisItem objectData)).findItem kv.2).isSome = true) :
    ∃ e, handleFrame fuel d bodyVal refsVal = some e := by
  rw [handleFrame_usable fuel d bodyVal refsVal objectData hindex husable hreceiver]
  obtain ⟨e, he, _⟩ := expandObjects_return (expandedHandles d.watchHandler)
    (emit (fetchScopes
        { clearCache (emit d Effect.notifyUpdateStarted) with
          watchHandler := d.watchHandler.insertItem (thisItem objectData) }
        (mapValue bodyVal.toMap "scopes").toList)
      (Effect.gotoLocation d.stackHandler.currentFrame))
    (by
      have hw : (emit (fetchScopes
          { clearCache (emit d Effect.notifyUpdateStarted) with
            watchHandler := d.watchHandler.insertItem (thisItem objectData) }
          (mapValue bodyVal.toMap "scopes").toList)
          (Effect.gotoLocation d.stackHandler.currentFrame)).watchHandler
            = d.watchHandler.insertItem (thisItem objectData) :=
        (fetchScopes_watchHandler _ _).trans rfl
      rw [hw]
      exact hfound)
  exact ⟨_, by rw [he]; rfl⟩

theorem handleFrame_receiver (fuel : Nat) (d e : QmlEnginePrivate) (bodyVal refsVal : QVariant)
    (hindex : 0 ≤ d.stackHandler.currentIndex)
    (husable : d.stackHandler.currentFrame.usable = true)
    (h : handleFrame fuel d bodyVal refsVal = some e) :
    ∃ objectData, extractData fuel (mapValue bodyVal.toMap "receiver") refsVal
      = some objectData := by
  have hlt : ¬ (d.stackHandler.currentIndex < 0) := by omega
  unfold handleFrame at h
  simp only [] at h
  split at h
  · rename_i hneg; exact absurd hneg hlt
  · split at h
    · rename_i hu
      have h' : (!d.stackHandler.currentFrame.usable) = true := hu
      rw [husable] at h'
      cases h'
    · split at h
      · cases h
      · rename_i od heq
        exact ⟨od, heq⟩

theorem countP_packets (ps : List Packet) :
    (ps.map Effect.sendMessage).countP Effect.isStackFrameCompleted = 0 := by
  induction ps with
  | nil => rfl
  | cons p ps ih =>
    rw [List.map_cons, List.countP_cons, ih]
    rfl

/-! ## C27: the frame-completed notification -/

/-- C27 (as amended): a frame update started by `handleFrame` while the current
frame index is not negative and the current frame is usable emits exactly one
`stackFrameCompleted` notification, as the last call of the update, whenever
the call returns; and it does return, from some recursion depth on, when the
reference links of the handle table are well-founded and every expanded local
item of id `0` is still in the watch model once the `this` node is in place.
When the current frame index is negative or the current frame is not usable,
`handleFrame` returns right after the update-started notification and emits no
`stackFrameCompleted` at all. -/
theorem stackFrameCompleted_once_per_usable_frame (rank : Int → Nat) (d : QmlEnginePrivate)
    (bodyVal refsVal : QVariant) (hwf : RefsWellFounded rank refsVal) :
    ((d.stackHandler.currentIndex < 0 ∨ d.stackHandler.currentFrame.usable = false) →
      ∀ fuel, ∃ e, handleFrame fuel d bodyVal refsVal = some e ∧
        newEffects d e = [Effect.notifyUpdateStarted] ∧
        (newEffects d e).countP Effect.isStackFrameCompleted = 0) ∧
    (0 ≤ d.stackHandler.currentIndex → d.stackHandler.currentFrame.usable = true →
      (∀ fuel e, handleFrame fuel d bodyVal refsVal = some e →
        (newEffects d e).countP Effect.isStackFrameCompleted = 1 ∧
        (newEffects d e).getLast? = some Effect.stackFrameCompleted) ∧
      ∃ (fuel0 : Nat) (objectData : QmlV8ObjectData), ∀ fuel, fuel0 ≤ fuel →
        extractData fuel (mapValue bodyVal.toMap "receiver") refsVal = some objectData ∧
        ((∀ kv ∈ expandedHandles d.watchHandler, kv.1 = 0 →
            ((d.watchHandler.insertItem (thisItem objectData)).findItem kv.2).isSome = true) →
          ∃ e, handleFrame fuel d bodyVal refsVal = some e)) := by
  constructor
  · intro hskip fuel
    refine ⟨_, handleFrame_skipped fuel d bodyVal refsVal hskip, ?_, ?_⟩
    · exact newEffects_append d _ [Effect.notifyUpdateStarted] rfl
    · rw [newEffects_append d _ [Effect.notifyUpdateStarted] rfl]
      rfl
  · intro hindex husable
    constructor
    · intro fuel e he
      obtain ⟨od, hod⟩ := handleFrame_receiver fuel d e bodyVal refsVal hindex husable he
      obtain ⟨sps, eps, ht, _⟩ :=
        handleFrame_spec fuel d e bodyVal refsVal od hindex husable hod he
      rw [newEffects_append d e _ ht]
      constructor
      · simp only [List.countP_cons, List.countP_append, countP_packets, List.countP_nil]
        rfl
      · have hl : (Effect.notifyUpdateStarted :: sps.map Effect.sendMessage
            ++ Effect.gotoLocation d.stackHandler.currentFrame
              :: eps.map Effect.sendMessage ++ [Effect.stackFrameCompleted])
            = (Effect.notifyUpdateStarted :: sps.map Effect.sendMessage
              ++ Effect.gotoLocation d.stackHandler.currentFrame
                :: eps.map Effect.sendMessage) ++ [Effect.stackFrameCompleted] := by simp
        rw [hl, List.getLast?_concat]
    · obtain ⟨fuel0, od, hfuel⟩ :=
        extractData_terminates rank refsVal (mapValue bodyVal.toMap "receiver") hwf
      refine ⟨fuel0, od, fun fuel hle => ⟨hfuel fuel hle, fun hfound => ?_⟩⟩
      exact handleFrame_returns fuel d bodyVal refsVal od hindex husable (hfuel fuel hle) hfound

/-- C27 at a concrete engine: stopped in a usable frame, a `frame` response
whose receiver is the global object; the update ends with the only
`stackFrameCompleted`. -/
theorem stackFrameCompleted_once_per_usable_frame_witness :
    RefsWellFounded (fun _ => 0) globalRefs ∧
    0 ≤ stoppedEngine.stackHandler.currentIndex ∧
    stoppedEngine.stackHandler.currentFrame.usable = true ∧
    ∀ fuel e, handleFrame fuel stoppedEngine globalFrameBody globalRefs = some e →
      (newEffects stoppedEngine e).countP Effect.isStackFrameCompleted = 1 ∧
      (newEffects stoppedEngine e).getLast? = some Effect.stackFrameCompleted :=
  ⟨by unfold RefsWellFounded; decide, by decide, by decide,
    ((stackFrameCompleted_once_per_usable_frame (fun _ => 0) stoppedEngine globalFrameBody
      globalRefs (by unfold RefsWellFounded; decide)).2 (by decide) (by decide)).1⟩

/-- C27 as stated fails: with a negative current frame index (a fresh engine),
and with a current frame that is not usable, `handleFrame` returns after the
update-started notification; no `stackFrameCompleted` is emitted. -/
theorem frame_update_without_usable_frame_is_not_completed :
    (handleFrame 3 freshEngine globalFrameBody globalRefs).map (fun e => e.trace)
      = some [Effect.notifyUpdateStarted] ∧
    (handleFrame 3 engineInUnusableFrame globalFrameBody globalRefs).map (fun e => e.trace)
      = some [Effect.notifyUpdateStarted] ∧
    (handleFrame 3 stoppedEngine globalFrameBody globalRefs).map
        (fun e => e.trace.countP Effect.isStackFrameCompleted) = some 1 := by
  refine ⟨by rfl, by rfl, by rfl⟩

theorem mem_expandedHandles (w : WatchHandler) :
    ∀ kv ∈ expandedHandles w, ∃ item, w.findItem kv.2 = some item ∧ item.id = kv.1 ∧
      item.isLocal = true ∧ kv.2 ∈ w.expandedINames := by
  unfold expandedHandles
  have key : ∀ (l : List String) (acc : List (Int × String)),
      (∀ iname ∈ l, iname ∈ w.expandedINames) →
      (∀ kv ∈ acc, ∃ item, w.findItem kv.2 = some item ∧ item.id = kv.1 ∧
        item.isLocal = true ∧ kv.2 ∈ w.expandedINames) →
      ∀ kv ∈ l.foldl (fun acc iname =>
        match w.findItem iname with
        | some item => if item.isLocal then hashInsert acc item.id iname else acc
        | none => acc) acc, ∃ item, w.findItem kv.2 = some item ∧ item.id = kv.1 ∧
          item.isLocal = true ∧ kv.2 ∈ w.expandedINames := by
    intro l
    induction l with
    | nil => intro acc _ hacc; exact hacc
    | cons iname l ih =>
      intro acc hl hacc
      rw [List.foldl_cons]
      apply ih _ (fun i hi => hl i (List.mem_cons_of_mem _ hi))
      cases hf : w.findItem iname with
      | none => exact hacc
      | some item =>
        simp only []
        split
        · rename_i hloc
          intro kv hkv
          rcases mem_hashInsert _ _ _ _ hkv with rfl | hkv
          · exact ⟨item, hf, rfl, hloc, hl iname (List.mem_cons_self _ _)⟩
          · exact hacc kv hkv
        · exact hacc
  exact key _ [] (fun i hi => hi) (by intro kv hkv; cases hkv)

theorem mem_requestsOf_packets (ps : List Packet) (r : String × QVariant) :
    r ∈ requestsOf (ps.map Effect.sendMessage)
      ↔ ∃ p ∈ ps, p.command = some r.1 ∧ p.arguments = r.2 := by
  rw [requestsOf_packets, List.mem_filterMap]
  constructor
  · rintro ⟨p, hp, hr⟩
    cases hc : p.command with
    | none => rw [hc] at hr; cases hr
    | some c =>
      rw [hc] at hr
      cases hr
      exact ⟨p, hp, hc, rfl⟩
  · rintro ⟨p, hp, hc, ha⟩
    refine ⟨p, hp, ?_⟩
    rw [hc]
    show some (r.1, p.arguments) = some r
    rw [ha]

/-- The JSON requests of a frame update: one `scope` request per non-global
scope of the frame body, in order, then the re-expansion requests. -/
theorem handleFrame_requests (fuel : Nat) (d e : QmlEnginePrivate) (bodyVal refsVal : QVariant)
    (objectData : QmlV8ObjectData)
    (hindex : 0 ≤ d.stackHandler.currentIndex)
    (husable : d.stackHandler.currentFrame.usable = true)
    (hreceiver : extractData fuel (mapValue bodyVal.toMap "receiver") refsVal = some objectData)
    (h : handleFrame fuel d bodyVal refsVal = some e) :
    ∃ expandPackets : List Packet,
      requestsOf (newEffects d e)
        = (nonGlobalScopes (mapValue bodyVal.toMap "scopes").toList).map
            (fun i => ("scope", scopeArguments i))
          ++ requestsOf (expandPackets.map Effect.sendMessage) ∧
      (∀ kv ∈ expandedHandles d.watchHandler, kv.1 ≠ 0 →
        ∃ p ∈ expandPackets, p.command = some "lookup" ∧
          p.arguments = lookupArguments (wrapInt32 kv.1)) ∧
      (∀ p ∈ expandPackets,
        (∃ kv ∈ expandedHandles d.watchHandler, p.command = some "lookup" ∧
          p.arguments = lookupArguments (wrapInt32 kv.1)) ∨
        p.command = some "evaluate") := by
  obtain ⟨sps, eps, ht, hs, ha, hb, _, _⟩ :=
    handleFrame_spec fuel d e bodyVal refsVal objectData hindex husable hreceiver h
  refine ⟨eps, ?_, ha, hb⟩
  rw [newEffects_append d e _ ht]
  have h1 : (Effect.notifyUpdateStarted :: sps.map Effect.sendMessage
        ++ Effect.gotoLocation d.stackHandler.currentFrame
          :: eps.map Effect.sendMessage ++ [Effect.stackFrameCompleted])
      = [Effect.notifyUpdateStarted] ++ (sps.map Effect.sendMessage
        ++ ([Effect.gotoLocation d.stackHandler.currentFrame]
          ++ (eps.map Effect.sendMessage ++ [Effect.stackFrameCompleted]))) := by simp
  rw [h1, requestsOf_append, requestsOf_append, requestsOf_append, requestsOf_append]
  have h2 : requestsOf [Effect.notifyUpdateStarted] = [] := rfl
  have h3 : requestsOf [Effect.gotoLocation d.stackHandler.currentFrame] = [] := rfl
  have h4 : requestsOf [Effect.stackFrameCompleted] = [] := rfl
  rw [h2, h3, h4, List.nil_append, List.nil_append, List.append_nil]
  congr 1
  rw [requestsOf_packets]
  have h5 : sps.filterMap (fun p => p.command.map (fun c => (c, p.arguments)))
      = (sps.map (fun p => (p.command, p.arguments))).filterMap
          (fun q => q.1.map (fun c => (c, q.2))) := by
    rw [List.filterMap_map]
    rfl
  rw [h5, hs, List.filterMap_map]
  exact congrFun (List.filterMap_eq_map (fun i : Int => ("scope", scopeArguments i))) _

/-! ## C28: the handles of the re-expansion -/

/-- C28 (as amended): the `lookup` requests `handleFrame` issues to re-expand
the previously expanded local items use the handles that were stored in the
watch items before the update.  The handles are collected (`expandedHandles`)
from the watch model as it is when `handleFrame` is entered: each is the id of
an expanded local item of that model.  Once the `this` node and the scopes of
the new frame are requested, `handleFrame` sends, for every collected id other
than `0`, a `lookup` request for that id (converted to `int`), and every
`lookup` request it sends is for one of the collected ids: none of the handles
comes from a response of the new frame.  The call returns when the receiver
decodes and every expanded local item of id `0` is still in the watch model. -/
theorem reexpansion_uses_stored_handles (fuel : Nat) (d : QmlEnginePrivate)
    (bodyVal refsVal : QVariant) (objectData : QmlV8ObjectData)
    (hindex : 0 ≤ d.stackHandler.currentIndex)
    (husable : d.stackHandler.currentFrame.usable = true)
    (hreceiver : extractData fuel (mapValue bodyVal.toMap "receiver") refsVal = some objectData)
    (hfound : ∀ kv ∈ expandedHandles d.watchHandler, kv.1 = 0 →
      ((d.watchHandler.insertItem (thisItem objectData)).findItem kv.2).isSome = true) :
    (∀ kv ∈ expandedHandles d.watchHandler, ∃ item, d.watchHandler.findItem kv.2 = some item ∧
      item.id = kv.1 ∧ item.isLocal = true ∧ kv.2 ∈ d.watchHandler.expandedINames) ∧
    ∃ e, handleFrame fuel d bodyVal refsVal = some e ∧
      (∀ kv ∈ expandedHandles d.watchHandler, kv.1 ≠ 0 →
        ("lookup", lookupArguments (wrapInt32 kv.1)) ∈ requestsOf (newEffects d e)) ∧
      (∀ r ∈ requestsOf (newEffects d e), r.1 = "lookup" →
        ∃ kv ∈ expandedHandles d.watchHandler, r.2 = lookupArguments (wrapInt32 kv.1)) := by
  refine ⟨mem_expandedHandles d.watchHandler, ?_⟩
  obtain ⟨e, he⟩ := handleFrame_returns fuel d bodyVal refsVal objectData hindex husable
    hreceiver hfound
  obtain ⟨eps, hreq, ha, hb⟩ :=
    handleFrame_requests fuel d e bodyVal refsVal objectData hindex husable hreceiver he
  refine ⟨e, he, ?_, ?_⟩
  · intro kv hkv hne
    obtain ⟨p, hp, hc, harg⟩ := ha kv hkv hne
    rw [hreq]
    exact List.mem_append_right _
      ((mem_requestsOf_packets eps ("lookup", lookupArguments (wrapInt32 kv.1))).2
        ⟨p, hp, hc, harg⟩)
  · intro r hr hlookup
    rw [hreq] at hr
    rcases List.mem_append.1 hr with hr | hr
    · obtain ⟨i, _, hi⟩ := List.mem_map.1 hr
      rw [← hi] at hlookup
      have hne : ("scope" : String) ≠ "lookup" := by decide
      exact absurd hlookup hne
    · obtain ⟨p, hp, hc, harg⟩ := (mem_requestsOf_packets eps r).1 hr
      rcases hb p hp with ⟨kv, hkv, _, hkarg⟩ | hev
      · exact ⟨kv, hkv, harg.symm.trans hkarg⟩
      · rw [hc, hlookup] at hev
        exact absurd hev (by decide)

/-- C28 at a concrete engine: the expanded local `obj` carries the handle `-3`
of the previous frame; the update for the new frame returns and looks `-3` up. -/
theorem reexpansion_uses_stored_handles_witness :
    ∃ e, handleFrame 3 engineWithExpandedLocal localFrameBody (QVariant.list []) = some e ∧
      (∀ kv ∈ expandedHandles engineWithExpandedLocal.watchHandler, kv.1 ≠ 0 →
        ("lookup", lookupArguments (wrapInt32 kv.1))
          ∈ requestsOf (newEffects engineWithExpandedLocal e)) ∧
      (∀ r ∈ requestsOf (newEffects engineWithExpandedLocal e), r.1 = "lookup" →
        ∃ kv ∈ expandedHandles engineWithExpandedLocal.watchHandler,
          r.2 = lookupArguments (wrapInt32 kv.1)) :=
  (reexpansion_uses_stored_handles 3 engineWithExpandedLocal localFrameBody (QVariant.list [])
    { handle := 11, type := "object", value := QVariant.str "Item" }
    (by decide) (by decide) (by rfl) (by decide)).2

/-- C28 as stated fails: the watch model holds the expanded local `obj` with
the transient handle `-3` of the previous frame; the update for the new frame
requests the local scope of the new frame, and then a `lookup` of the cached
handle `-3`, before any response of the new frame has arrived. -/
theorem stale_negative_handle_is_looked_up :
    expandedHandles engineWithExpandedLocal.watchHandler = [(toQuint64 (-3), "local.obj")] ∧
    (handleFrame 3 engineWithExpandedLocal localFrameBody (QVariant.list [])).map
        (fun e => requestsOf (newEffects engineWithExpandedLocal e))
      = some [("scope", QVariant.map [("number", QVariant.num 0)]),
              ("lookup", QVariant.map [("handles", QVariant.list [QVariant.num (-3)])])] := by
  refine ⟨by rfl, by rfl⟩

/-! ## C21: the frame body behind the locals of a backtrace -/

theorem handleFrame_scope_requests (fuel : Nat) (d e : QmlEnginePrivate)
    (bodyVal refsVal : QVariant) (objectData : QmlV8ObjectData)
    (hindex : 0 ≤ d.stackHandler.currentIndex)
    (husable : d.stackHandler.currentFrame.usable = true)
    (hreceiver : extractData fuel (mapValue bodyVal.toMap "receiver") refsVal = some objectData)
    (h : handleFrame fuel d bodyVal refsVal = some e) :
    requestsNamed "scope" (newEffects d e)
      = (nonGlobalScopes (mapValue bodyVal.toMap "scopes").toList).map
          (fun i => ("scope", scopeArguments i)) := by
  obtain ⟨eps, hreq, _, hb⟩ :=
    handleFrame_requests fuel d e bodyVal refsVal objectData hindex husable hreceiver h
  unfold requestsNamed
  rw [hreq, List.filter_append]
  have h1 : ((nonGlobalScopes (mapValue bodyVal.toMap "scopes").toList).map
      (fun i => ("scope", scopeArguments i))).filter (fun r => decide (r.1 = "scope"))
        = (nonGlobalScopes (mapValue bodyVal.toMap "scopes").toList).map
            (fun i => ("scope", scopeArguments i)) := by
    rw [List.filter_eq_self]
    intro r hr
    obtain ⟨i, _, hi⟩ := List.mem_map.1 hr
    rw [← hi]
    exact decide_eq_true rfl
  have h2 : (requestsOf (eps.map Effect.sendMessage)).filter
      (fun r => decide (r.1 = "scope")) = [] := by
    rw [List.filter_eq_nil_iff]
    intro r hr
    obtain ⟨p, hp, hc, _⟩ := (mem_requestsOf_packets eps r).1 hr
    rcases hb p hp with ⟨_, _, hl, _⟩ | hev
    · have : r.1 = "lookup" := Option.some.inj (hc.symm.trans hl)
      rw [this]
      simp
    · have : r.1 = "evaluate" := Option.some.inj (hc.symm.trans hev)
      rw [this]
      simp
  rw [h1, h2, List.append_nil]

theorem collectStackFrames_head (fuel : Nat) (env : Env) (refsVal fr : QVariant)
    (rest : List QVariant) (sf : StackFrame) (result : List StackFrame × List (Int × Int))
    (hvisible : isInternalFrame fr = false ∧ 0 ≤ (mapValue fr.toMap "index").toInt)
    (hsf : extractStackFrame fuel env fr refsVal = some sf)
    (h : collectStackFrames fuel env (fr :: rest) refsVal = some result) :
    visibleFrames (fr :: rest) = fr :: visibleFrames rest ∧
    ∃ tail, result.1 = { sf with level := 0 } :: tail := by
  have hv : visibleFrames (fr :: rest) = fr :: visibleFrames rest := by
    unfold visibleFrames
    rw [List.filter_cons_of_pos]
    simp [hvisible.1, hvisible.2]
  refine ⟨hv, ?_⟩
  obtain ⟨decoded, hf, hr⟩ := collectStackFrames_spec fuel env refsVal (fr :: rest) result h
  rw [hv] at hf
  cases hf with
  | cons h1 h2 =>
    rename_i sf' ds
    have : sf' = sf := Option.some.inj (h1.symm.trans hsf)
    subst this
    exact ⟨renumberFrom 1 ds, hr⟩

theorem collectStackFrames_returns (rank : Int → Nat) (env : Env) (refsVal : QVariant)
    (hwf : RefsWellFounded rank refsVal) (frames : List QVariant) :
    ∃ fuel0 : Nat, ∀ fuel, fuel0 ≤ fuel →
      ∃ result, collectStackFrames fuel env frames refsVal = some result := by
  obtain ⟨fuel0, h0⟩ := extractStackFrames_return rank env refsVal hwf frames
  exact ⟨fuel0, fun fuel hle => collect_loop_returns fuel env refsVal frames (h0 fuel hle) ([], [])⟩

/-- C21 (as amended): for every backtrace response with `fromFrame = 0` whose
first frame is not filtered out (it is no internal frame and its index is not
negative), that frame is the first frame remaining after the filtering and the
one the stack model makes current.  From some recursion depth on (the
reference links of the handle table being well-founded) the frame loop returns
and the frame and its receiver decode.  If the decoded frame is usable,
`handleBacktrace` builds the `this` node from the receiver of that frame body,
queues in `currentFrameScopes` the indices of the scopes of that frame body
whose type is not global (`0`), in order, and the `scope` requests it issues
are exactly one per such scope, in the same order (it returns when every
expanded local item of id `0` is still in the watch model).  If the decoded
frame is not usable, `handleBacktrace` returns after the update-started
notification: no `this` node is built, nothing is queued and no request is
issued. -/
theorem backtrace_refreshes_locals_from_first_frame (rank : Int → Nat) (env : Env)
    (d : QmlEnginePrivate) (bodyVal refsVal fr : QVariant) (rest : List QVariant)
    (hwf : RefsWellFounded rank refsVal)
    (hfrom : (mapValue bodyVal.toMap "fromFrame").toInt = 0)
    (hframes : (mapValue bodyVal.toMap "frames").toList = fr :: rest)
    (hvisible : isInternalFrame fr = false ∧ 0 ≤ (mapValue fr.toMap "index").toInt) :
    (visibleFrames (mapValue bodyVal.toMap "frames").toList).head? = some fr ∧
    ∃ (fuel0 : Nat) (sf : StackFrame) (objectData : QmlV8ObjectData), ∀ fuel, fuel0 ≤ fuel →
      extractStackFrame fuel env fr refsVal = some sf ∧
      extractData fuel (mapValue fr.toMap "receiver") refsVal = some objectData ∧
      (sf.usable = true →
        (∀ kv ∈ expandedHandles d.watchHandler, kv.1 = 0 →
          ((d.watchHandler.insertItem (thisItem objectData)).findItem kv.2).isSome = true) →
        ∃ e, handleBacktrace fuel env d bodyVal refsVal = some e ∧
          e.stackHandler.currentFrame = { sf with level := 0 } ∧
          e.watchHandler = d.watchHandler.insertItem (thisItem objectData) ∧
          e.currentFrameScopes = nonGlobalScopes (mapValue fr.toMap "scopes").toList ∧
          requestsNamed "scope" (newEffects d e)
            = (nonGlobalScopes (mapValue fr.toMap "scopes").toList).map
                (fun i => ("scope", scopeArguments i))) ∧
      (sf.usable = false →
        ∃ e, handleBacktrace fuel env d bodyVal refsVal = some e ∧
          e.stackHandler.currentFrame = { sf with level := 0 } ∧
          e.watchHandler = d.watchHandler ∧ e.currentFrameScopes = [] ∧
          newEffects d e = [Effect.notifyUpdateStarted]) := by
  constructor
  · rw [hframes]
    unfold visibleFrames
    rw [List.filter_cons_of_pos (by simp [hvisible.1, hvisible.2])]
    rfl
  · obtain ⟨f1, hloop⟩ := collectStackFrames_returns rank env refsVal hwf (fr :: rest)
    obtain ⟨f2, sf, hsf⟩ := extractStackFrame_returns rank env fr refsVal hwf
    obtain ⟨f3, od, hod⟩ := extractData_terminates rank refsVal (mapValue fr.toMap "receiver") hwf
    refine ⟨max f1 (max f2 f3), sf, od, ?_⟩
    intro fuel hfuel
    have hf1 : f1 ≤ fuel := le_trans (le_max_left _ _) hfuel
    have hf2 : f2 ≤ fuel := le_trans (le_trans (le_max_left _ _) (le_max_right _ _)) hfuel
    have hf3 : f3 ≤ fuel := le_trans (le_trans (le_max_right _ _) (le_max_right _ _)) hfuel
    obtain ⟨result, hres⟩ := hloop fuel hf1
    obtain ⟨_, tail, htail⟩ := collectStackFrames_head fuel env refsVal fr rest sf result
      hvisible (hsf fuel hf2) hres
    have hback : handleBacktrace fuel env d bodyVal refsVal
        = handleFrame fuel
            { d with stackIndexLookup := result.2,
                     stackHandler := d.stackHandler.setFrames result.1 } fr refsVal := by
      rw [handleBacktrace_eq fuel env d bodyVal refsVal hfrom, hframes, hres]
      rfl
    have hcur : (d.stackHandler.setFrames result.1).currentFrame = { sf with level := 0 } := by
      rw [htail]
      rfl
    refine ⟨hsf fuel hf2, hod fuel hf3, ?_, ?_⟩
    · intro husable hfound
      have hu : ({ d with stackIndexLookup := result.2,
                          stackHandler := d.stackHandler.setFrames result.1 }
          : QmlEnginePrivate).stackHandler.currentFrame.usable = true := by
        show (d.stackHandler.setFrames result.1).currentFrame.usable = true
        rw [hcur]
        exact husable
      have hi : 0 ≤ ({ d with stackIndexLookup := result.2,
                              stackHandler := d.stackHandler.setFrames result.1 }
          : QmlEnginePrivate).stackHandler.currentIndex := by
        show (0 : Int) ≤ 0
        exact le_refl _
      obtain ⟨e, he⟩ := handleFrame_returns fuel _ fr refsVal od hi hu (hod fuel hf3) hfound
      obtain ⟨_, _, _, _, _, _, hscopes, hwatch⟩ :=
        handleFrame_spec fuel _ e fr refsVal od hi hu (hod fuel hf3) he
      have hreq := handleFrame_scope_requests fuel _ e fr refsVal od hi hu (hod fuel hf3) he
      have hstack := stackHandler_handleFrame fuel _ e fr refsVal he
      refine ⟨e, hback.trans he, ?_, hwatch, hscopes, hreq⟩
      rw [hstack]
      exact hcur
    · intro hunusable
      have hskip := handleFrame_skipped fuel
        { d with stackIndexLookup := result.2,
                 stackHandler := d.stackHandler.setFrames result.1 } fr refsVal
        (Or.inr (by
          show (d.stackHandler.setFrames result.1).currentFrame.usable = false
          rw [hcur]
          exact hunusable))
      refine ⟨_, hback.trans hskip, hcur, rfl, rfl, ?_⟩
      exact newEffects_append d _ [Effect.notifyUpdateStarted] rfl

set_option maxRecDepth 100000 in
/-- C21 at a concrete response: the frame `f`, which has a local, a global and
a closure scope, above an internal frame and the frame `h`; the scopes `0`
and `2` of `f` are requested. -/
theorem backtrace_refreshes_locals_from_first_frame_witness :
    (visibleFrames (mapValue (backtraceBody
      [scopedFrame 0 "f" "x = 1", backtraceFrame 1 "" INTERNAL_FUNCTION,
       backtraceFrame 2 "h" "z = 3"]).toMap "frames").toList).head?
      = some (scopedFrame 0 "f" "x = 1") ∧
    (handleBacktrace 3 exampleEnv freshEngine (backtraceBody
      [scopedFrame 0 "f" "x = 1", backtraceFrame 1 "" INTERNAL_FUNCTION,
       backtraceFrame 2 "h" "z = 3"]) (QVariant.list [])).map
        (fun e => (e.currentFrameScopes, requestsNamed "scope" (newEffects freshEngine e)))
      = some ([0, 2], [("scope", QVariant.map [("number", QVariant.num 0)]),
                       ("scope", QVariant.map [("number", QVariant.num 2)])]) :=
  ⟨(backtrace_refreshes_locals_from_first_frame (fun _ => 0) exampleEnv freshEngine
      (backtraceBody [scopedFrame 0 "f" "x = 1", backtraceFrame 1 "" INTERNAL_FUNCTION,
        backtraceFrame 2 "h" "z = 3"]) (QVariant.list [])
      (scopedFrame 0 "f" "x = 1")
      [backtraceFrame 1 "" INTERNAL_FUNCTION, backtraceFrame 2 "h" "z = 3"]
      (by unfold RefsWellFounded; decide) (by rfl) (by rfl) ⟨by rfl, by decide⟩).1,
    by rfl⟩

set_option maxRecDepth 100000 in
/-- C21 as stated fails: the only frame of the response, `f`, has a local and
a closure scope, but its file cannot be read, so the frame is not usable: the
stack model shows it as the current frame, and `handleBacktrace` builds no
`this` node, queues no scope and sends no request.  A response with
`fromFrame = 2` is dropped altogether. -/
theorem unusable_first_frame_fetches_no_scopes :
    nonGlobalScopes (mapValue (scopedFrame 0 "f" "x = 1").toMap "scopes").toList = [0, 2] ∧
    (handleBacktrace 3 unreadableEnv freshEngine (backtraceBody [scopedFrame 0 "f" "x = 1"])
        (QVariant.list [])).map
        (fun e => (e.stackHandler.frames.map (fun sf => sf.function), e.watchHandler.items,
                   e.currentFrameScopes, requestsOf (newEffects freshEngine e)))
      = some (["f"], [], [], []) ∧
    (handleBacktrace 3 exampleEnv freshEngine
        (QVariant.map [("fromFrame", QVariant.num 2),
          ("frames", QVariant.list [scopedFrame 2 "f" "x = 1"])])
        (QVariant.list [])).map
        (fun e => (e.stackHandler.frames, e.watchHandler.items, e.trace.length))
      = some ([], [], 0) := by
  refine ⟨by rfl, by rfl, by rfl⟩

/-! ## C29: pending inserts of other breakpoints -/

set_option maxRecDepth 100000 in
/-- C29 fails on the code for a signal breakpoint: the `setbreakpoint` request
number `0` of the file/line breakpoint `1` is pending (`breakpointsSync` maps
`0` to `1`) when the signal breakpoint `2` is inserted.  `insertBreakpoint`
sends the signal message, which takes no sequence number (the counter stays
at `0` and the one message sent carries no `seq`), and then files `2` under
the counter value `0`: the pending entry of breakpoint `1` is overwritten.
The same happens in one synchronisation pass over both breakpoints, and the
`setbreakpoint` response number `0` then binds the remote index `7` to
breakpoint `2`, while breakpoint `1` stays in `InsertProceeding`. -/
theorem signal_breakpoint_overwrites_pending_insert :
    engineBeforeSignalInsert.breakpointsSync = [(0, 1)] ∧
    (insertBreakpoint resolvingEnv engineBeforeSignalInsert 2).breakpointsSync = [(0, 2)] ∧
    (insertBreakpoint resolvingEnv engineBeforeSignalInsert 2).sequence = 0 ∧
    (newEffects engineBeforeSignalInsert
        (insertBreakpoint resolvingEnv engineBeforeSignalInsert 2)).map
        (fun eff => match eff with
          | Effect.sendMessage p => (p.type, p.seq)
          | _ => ("", none))
      = [(BREAKONSIGNAL, none)] ∧
    (run freshEngine twoBreakpointSession).map (fun e => e.breakpointsSync) = some [(0, 2)] ∧
    (run freshEngine (twoBreakpointSession ++
        [Input.messageReceived 0 exampleEnv (v8MessageFrame (setBreakpointResponse true))])).map
        (fun e => (e.breakpoints, e.breakpointsSync,
                   e.breakHandler.items.map (fun bp => (bp.id, bp.state))))
      = some ([(2, 7)], [],
              [(1, BreakpointState.BreakpointInsertProceeding),
               (2, BreakpointState.BreakpointInserted)]) := by
  refine ⟨by rfl, by rfl, by rfl, by rfl, by rfl, by rfl⟩

/-! ## C30: visible positions and remote frame indices -/

set_option maxRecDepth 100000 in
/-- C30 fails on the code below a filtered frame: the stack is `f`, an
internal frame and `h`, with the remote indices `0`, `1` and `2`.  After
`handleBacktrace` the visible stack is `f`, `h` and `stackIndexLookup` maps
the visible position `1` of `h` to its remote index `2`; `activateFrame 1`
uses that entry and requests the remote frame `2`.  The `scope` response for
the remote frame `2`, the active frame, is then discarded by `handleScope`,
which compares its `frameIndex` with the visible position `1`: the state is
unchanged.  A `scope` response for the remote frame `1`, the filtered
internal frame, is applied instead: its local `x` lands in the watch model. -/
theorem scope_response_below_filtered_frame_is_discarded :
    (handleBacktrace 3 exampleEnv stoppedEngine (backtraceBody framesWithInternal)
        (QVariant.list [])).map
        (fun e => (e.stackHandler.frames.map (fun sf => (sf.level, sf.function)),
                   hashValue e.stackIndexLookup 0, hashValue e.stackIndexLookup 1))
      = some ([(0, "f"), (1, "h")], some 0, some 2) ∧
    engineInLowerFrame.stackHandler.currentIndex = 1 ∧
    hashValue engineInLowerFrame.stackIndexLookup
      engineInLowerFrame.stackHandler.currentIndex = some 2 ∧
    (requestsOf engineInLowerFrame.trace).getLast?
      = some ("frame", QVariant.map [("number", QVariant.num 2)]) ∧
    messageReceived 3 exampleEnv engineInLowerFrame (v8MessageFrame (scopeResponse 2))
      = some engineInLowerFrame ∧
    (messageReceived 3 exampleEnv engineInLowerFrame (v8MessageFrame (scopeResponse 1))).map
        (fun e => (e.watchHandler.items.map (fun i => (i.iname, i.value)),
                   newEffects engineInLowerFrame e))
      = some ([("local.this", "Item"), ("local.x", "1")], [Effect.notifyUpdateFinished]) := by
  refine ⟨by rfl, by rfl, by rfl, by rfl, by rfl, by rfl⟩

/-! ## C23: a looked-up primitive -/

theorem handleLookup_eq (fuel : Nat) (d : QmlEnginePrivate) (bodyVal refsVal : QVariant) :
    handleLookup fuel d bodyVal refsVal
      = ((bodyVal.toMap.map Prod.fst).foldlM (lookupEntry fuel bodyVal.toMap refsVal) d).map
          (fun d => emit d Effect.notifyUpdateFinished) := rfl

theorem extractInline_primitive (dataMap : QVariantMap)
    (h : (extractInline dataMap).type ∈ primitiveTypes) :
    (extractInline dataMap).properties = [] := by
  unfold extractInline at h ⊢
  simp only [] at h ⊢
  split
  · rfl
  · split
    · rfl
    · split
      · rfl
      · split
        · rfl
        · split
          · rfl
          · rename_i h1 h2 h3 h4 h5
            exfalso
            rw [if_neg h1, if_neg h2, if_neg h3, if_neg h4, if_neg h5] at h
            split at h
            · exact absurd (show ("object" : String) ∈ primitiveTypes from h) (by decide)
            · split at h
              · exact absurd (show ("function" : String) ∈ primitiveTypes from h) (by decide)
              · split at h
                · exact absurd (show ("script" : String) ∈ primitiveTypes from h) (by decide)
                · exact absurd (show ("" : String) ∈ primitiveTypes from h) (by decide)

theorem extractData_primitive (refsVal : QVariant) :
    ∀ (fuel : Nat) (data : QVariant) (d : QmlV8ObjectData),
      extractData fuel data refsVal = some d → d.type ∈ primitiveTypes → d.properties = [] := by
  intro fuel
  induction fuel with
  | zero =>
    intro data d h hp
    by_cases hc : mapContains data.toMap "ref" = true
    · cases hv : valueFromRef (mapValue data.toMap "ref").toInt refsVal with
      | none =>
        rw [extractData_ref_missing _ _ _ hc hv] at h
        cases h
        rfl
      | some entry =>
        rw [extractData_ref_zero _ _ _ hc hv] at h
        cases h
    · have hc' : mapContains data.toMap "ref" = false := by simpa using hc
      rw [extractData_inline _ _ _ hc'] at h
      cases h
      exact extractInline_primitive _ hp
  | succ n ih =>
    intro data d h hp
    by_cases hc : mapContains data.toMap "ref" = true
    · cases hv : valueFromRef (mapValue data.toMap "ref").toInt refsVal with
      | none =>
        rw [extractData_ref_missing _ _ _ hc hv] at h
        cases h
        rfl
      | some entry =>
        rw [extractData_ref_found _ _ _ _ hc hv] at h
        cases he : extractData n entry refsVal with
        | none => rw [he] at h; cases h
        | some d' =>
          rw [he] at h
          cases h
          exact ih entry d' he hp
    · have hc' : mapContains data.toMap "ref" = false := by simpa using hc
      rw [extractData_inline _ _ _ hc'] at h
      cases h
      exact extractInline_primitive _ hp

theorem hashValues_hashTakeRest_ne {κ ν : Type} [DecidableEq κ] (h : List (κ × ν)) (k k' : κ)
    (hne : k' ≠ k) : hashValues (hashTakeRest h k') k = hashValues h k := by
  induction h with
  | nil => rfl
  | cons kv h ih =>
    unfold hashTakeRest
    by_cases hk : kv.1 = k'
    · rw [if_pos hk]
      unfold hashValues
      rw [List.filter_cons_of_neg]
      rw [hk]
      simpa using hne
    · rw [if_neg hk]
      unfold hashValues at ih ⊢
      by_cases hkk : kv.1 = k
      · rw [List.filter_cons_of_pos (by simpa using hkk),
          List.filter_cons_of_pos (by simpa using hkk), List.map_cons, List.map_cons, ih]
      · rw [List.filter_cons_of_neg (by simpa using hkk),
          List.filter_cons_of_neg (by simpa using hkk), ih]

theorem hashValues_hashTakeRest {κ ν : Type} [DecidableEq κ] (h : List (κ × ν)) (k : κ) :
    hashValues (hashTakeRest h k) k = (hashValues h k).drop 1 := by
  induction h with
  | nil => rfl
  | cons kv h ih =>
    unfold hashTakeRest
    by_cases hk : kv.1 = k
    · rw [if_pos hk]
      unfold hashValues
      rw [List.filter_cons_of_pos (by simpa using hk)]
      rfl
    · rw [if_neg hk]
      unfold hashValues at ih ⊢
      rw [List.filter_cons_of_neg (by simpa using hk),
        List.filter_cons_of_neg (by simpa using hk), ih]

theorem hashValue_eq_head {κ ν : Type} [DecidableEq κ] (h : List (κ × ν)) (k : κ) :
    hashValue h k = (hashValues h k).head? := by
  induction h with
  | nil => rfl
  | cons kv h ih =>
    unfold hashValue hashValues at ih ⊢
    by_cases hk : kv.1 = k
    · rw [List.find?_cons_of_pos _ (by simpa using hk),
        List.filter_cons_of_pos (by simpa using hk)]
      rfl
    · rw [List.find?_cons_of_neg _ (by simpa using hk),
        List.filter_cons_of_neg (by simpa using hk), ih]

theorem extractAll_return (rank : Int → Nat) (refsVal : QVariant)
    (hwf : RefsWellFounded rank refsVal) (l : List QVariant) :
    ∃ fuel0 : Nat, ∀ fuel, fuel0 ≤ fuel → ∀ x ∈ l,
      ∃ d, extractData fuel x refsVal = some d := by
  induction l with
  | nil => exact ⟨0, fun _ _ x h => absurd h (List.not_mem_nil _)⟩
  | cons y l ih =>
    obtain ⟨f0, h0⟩ := ih
    obtain ⟨f1, d1, h1⟩ := extractData_terminates rank refsVal y hwf
    refine ⟨max f0 f1, ?_⟩
    intro fuel hfuel x hx
    rcases List.mem_cons.1 hx with h | h
    · rw [h]
      exact ⟨d1, h1 fuel (le_trans (le_max_right _ _) hfuel)⟩
    · exact h0 fuel (le_trans (le_max_left _ _) hfuel) x h

theorem insertSubItems_returns (fuel : Nat) (parent : Option WatchItem)
    (properties : List QVariant) (refsVal : QVariant)
    (hall : ∀ x ∈ properties, ∃ d, extractData fuel x refsVal = some d) :
    ∀ w : WatchHandler, ∃ w', insertSubItems fuel w parent properties refsVal = some w' := by
  cases parent with
  | none => intro w; exact ⟨w, rfl⟩
  | some parent =>
    unfold insertSubItems
    simp only []
    induction properties with
    | nil => intro w; exact ⟨w, rfl⟩
    | cons x properties ih =>
      intro w
      obtain ⟨dx, hdx⟩ := hall x (List.mem_cons_self _ _)
      rw [List.foldlM_cons, hdx]
      simp only []
      split
      · exact ih (fun y hy => hall y (List.mem_cons_of_mem _ hy)) w
      · exact ih (fun y hy => hall y (List.mem_cons_of_mem _ hy)) _

theorem lookupEntry_returns (fuel : Nat) (body : QVariantMap) (refsVal : QVariant)
    (handle : String) (data : QmlV8ObjectData)
    (hdata : extractData fuel (mapValue body handle) refsVal = some data)
    (hprops : ∀ x ∈ data.properties, ∃ d, extractData fuel x refsVal = some d) :
    ∀ d : QmlEnginePrivate, ∃ e, lookupEntry fuel body refsVal d handle = some e := by
  intro d
  unfold lookupEntry
  rw [hdata]
  simp only []
  split
  · obtain ⟨w', hw'⟩ := insertSubItems_returns fuel
      (d.watchHandler.findItem
        ((hashValue d.localsAndWatchers (stringToInt handle)).getD ""))
      data.properties refsVal hprops d.watchHandler
    rw [hw']
    exact ⟨_, rfl⟩
  · exact ⟨_, rfl⟩

theorem lookupEntry_localsAndWatchers (fuel : Nat) (body : QVariantMap) (refsVal : QVariant)
    (d e : QmlEnginePrivate) (handle : String)
    (h : lookupEntry fuel body refsVal d handle = some e) :
    e.localsAndWatchers = hashTakeRest d.localsAndWatchers (stringToInt handle) := by
  unfold lookupEntry at h
  split at h
  · cases h
  · simp only [] at h
    split at h
    · split at h
      · cases h
      · cases h; rfl
    · cases h; rfl

theorem lookupLoop_returns (rank : Int → Nat) (body : QVariantMap) (refsVal : QVariant)
    (hwf : RefsWellFounded rank refsVal) (keys : List String) :
    ∃ fuel0 : Nat, ∀ fuel, fuel0 ≤ fuel → ∀ d : QmlEnginePrivate,
      ∃ e, keys.foldlM (lookupEntry fuel body refsVal) d = some e := by
  induction keys with
  | nil => exact ⟨0, fun _ _ d => ⟨d, rfl⟩⟩
  | cons k keys ih =>
    obtain ⟨f0, h0⟩ := ih
    obtain ⟨f1, data, h1⟩ := extractData_terminates rank refsVal (mapValue body k) hwf
    obtain ⟨f2, h2⟩ := extractAll_return rank refsVal hwf data.properties
    refine ⟨max f0 (max f1 f2), ?_⟩
    intro fuel hfuel d
    have hf0 : f0 ≤ fuel := le_trans (le_max_left _ _) hfuel
    have hf1 : f1 ≤ fuel := le_trans (le_trans (le_max_left _ _) (le_max_right _ _)) hfuel
    have hf2 : f2 ≤ fuel := le_trans (le_trans (le_max_right _ _) (le_max_right _ _)) hfuel
    obtain ⟨e1, he1⟩ := lookupEntry_returns fuel body refsVal k data (h1 fuel hf1)
      (h2 fuel hf2) d
    obtain ⟨e, he⟩ := h0 fuel hf0 e1
    refine ⟨e, ?_⟩
    rw [List.foldlM_cons]
    show (lookupEntry fuel body refsVal d k >>= fun d' => _) = _
    rw [he1]
    exact he

theorem lookupLoop_tracking (fuel : Nat) (body : QVariantMap) (refsVal : QVariant) (h : Int)
    (keys : List String) (hkeys : ∀ k ∈ keys, stringToInt k ≠ h) :
    ∀ d e : QmlEnginePrivate, keys.foldlM (lookupEntry fuel body refsVal) d = some e →
      hashValues e.localsAndWatchers h = hashValues d.localsAndWatchers h := by
  induction keys with
  | nil => intro d e he; cases he; rfl
  | cons k keys ih =>
    intro d e he
    rw [List.foldlM_cons] at he
    cases h1 : lookupEntry fuel body refsVal d k with
    | none => rw [h1] at he; cases he
    | some d1 =>
      rw [h1] at he
      rw [ih (fun k' hk' => hkeys k' (List.mem_cons_of_mem _ hk')) d1 e he,
        lookupEntry_localsAndWatchers fuel body refsVal d d1 k h1]
      exact hashValues_hashTakeRest_ne _ _ _ (hkeys k (List.mem_cons_self _ _))

theorem lookupEntry_primitive (fuel : Nat) (body : QVariantMap) (refsVal : QVariant)
    (d : QmlEnginePrivate) (handle name : String) (data : QmlV8ObjectData)
    (htracked : hashValue d.localsAndWatchers (stringToInt handle) = some name)
    (hplain : startsWith name "local." = false ∧ startsWith name "watch." = false)
    (hdecode : extractData fuel (mapValue body handle) refsVal = some data)
    (hprimitive : data.type ∈ primitiveTypes) :
    lookupEntry fuel body refsVal d handle
      = some { d with
          localsAndWatchers := hashTakeRest d.localsAndWatchers (stringToInt handle),
          watchHandler := d.watchHandler.insertItem
            (primitiveNode name (stringToInt handle) data) } := by
  have hprops := extractData_primitive refsVal fuel _ data hdecode hprimitive
  unfold lookupEntry
  rw [hdecode]
  simp only [htracked, Option.getD_some, hplain.1, hplain.2, Bool.or_self]
  simp [primitiveNode, hprops]

/-- C23: for every `lookup` response body and every entry of it, keyed by the
handle `h` (no other key of the body denotes `h`), whose value decodes to a
primitive (type `undefined`, `null`, `boolean`, `number` or `string`), where
`h` is tracked in `localsAndWatchers` under a plain name `n` (starting neither
with `local.` nor with `watch.`).  When the loop of `handleLookup` reaches the
entry, `h` is still tracked under `n`, and the step for the entry inserts into
the watch model one node `local.n` with the handle `h` (stored as the
`quint64` id of the node), the decoded type and the string form of the decoded
value, marked as having no children to fetch, and takes the tracking entry
out of `localsAndWatchers`; the node is then the node stored under `local.n`;
and when the loop has gone through the remaining entries `handleLookup`
returns, ending with the update-finished notification, and the tracking entry
is gone in the state it returns.  The loop does reach the entry and does go
through the remaining ones from some recursion depth on, whenever the
reference links of the handle table are well-founded (for the first entry of a
body nothing is needed to reach it, and for the last nothing to finish). -/
theorem looked_up_primitive_becomes_a_local_node (d : QmlEnginePrivate)
    (bodyVal refsVal : QVariant) (before after : List String) (handle name : String)
    (fuel1 : Nat) (data : QmlV8ObjectData)
    (hkeys : bodyVal.toMap.map Prod.fst = before ++ handle :: after)
    (hunique : ∀ k ∈ before ++ after, stringToInt k ≠ stringToInt handle)
    (htracked : hashValue d.localsAndWatchers (stringToInt handle) = some name)
    (hplain : startsWith name "local." = false ∧ startsWith name "watch." = false)
    (hdecode : extractData fuel1 (mapValue bodyVal.toMap handle) refsVal = some data)
    (hprimitive : data.type ∈ primitiveTypes) :
    (∀ (fuel : Nat) (d1 : QmlEnginePrivate), fuel1 ≤ fuel →
      before.foldlM (lookupEntry fuel bodyVal.toMap refsVal) d = some d1 →
      hashValue d1.localsAndWatchers (stringToInt handle) = some name ∧
      lookupEntry fuel bodyVal.toMap refsVal d1 handle
        = some { d1 with
            localsAndWatchers := hashTakeRest d1.localsAndWatchers (stringToInt handle),
            watchHandler := d1.watchHandler.insertItem
              (primitiveNode name (stringToInt handle) data) } ∧
      (d1.watchHandler.insertItem (primitiveNode name (stringToInt handle) data)).findItem
          ("local." ++ name) = some (primitiveNode name (stringToInt handle) data) ∧
      (primitiveNode name (stringToInt handle) data).wantsChildren = false ∧
      ∀ e : QmlEnginePrivate,
        after.foldlM (lookupEntry fuel bodyVal.toMap refsVal)
            { d1 with
              localsAndWatchers := hashTakeRest d1.localsAndWatchers (stringToInt handle),
              watchHandler := d1.watchHandler.insertItem
                (primitiveNode name (stringToInt handle) data) } = some e →
        handleLookup fuel d bodyVal refsVal = some (emit e Effect.notifyUpdateFinished) ∧
        hashValues (emit e Effect.notifyUpdateFinished).localsAndWatchers (stringToInt handle)
          = (hashValues d.localsAndWatchers (stringToInt handle)).drop 1) ∧
    (∀ rank : Int → Nat, RefsWellFounded rank refsVal →
      ∃ fuel0 : Nat, fuel1 ≤ fuel0 ∧ ∀ fuel, fuel0 ≤ fuel → ∃ d1 e : QmlEnginePrivate,
        before.foldlM (lookupEntry fuel bodyVal.toMap refsVal) d = some d1 ∧
        after.foldlM (lookupEntry fuel bodyVal.toMap refsVal)
            { d1 with
              localsAndWatchers := hashTakeRest d1.localsAndWatchers (stringToInt handle),
              watchHandler := d1.watchHandler.insertItem
                (primitiveNode name (stringToInt handle) data) } = some e) := by
  constructor
  · intro fuel d1 hf0 hd1
    have hdec := extractData_fuel_le refsVal _ data fuel1 fuel hf0 hdecode
    have htrack1 : hashValues d1.localsAndWatchers (stringToInt handle)
        = hashValues d.localsAndWatchers (stringToInt handle) :=
      lookupLoop_tracking fuel bodyVal.toMap refsVal _ before
        (fun k hk => hunique k (List.mem_append_left _ hk)) d d1 hd1
    have htracked1 : hashValue d1.localsAndWatchers (stringToInt handle) = some name := by
      rw [hashValue_eq_head, htrack1, ← hashValue_eq_head]
      exact htracked
    have hstep := lookupEntry_primitive fuel bodyVal.toMap refsVal d1 handle name data
      htracked1 hplain hdec hprimitive
    refine ⟨htracked1, hstep, findItem_insertItem_self _ _, rfl, ?_⟩
    intro e he
    have htrack2 := lookupLoop_tracking fuel bodyVal.toMap refsVal _ after
      (fun k hk => hunique k (List.mem_append_right _ hk)) _ e he
    constructor
    · rw [handleLookup_eq, hkeys, List.foldlM_append, hd1]
      show ((List.foldlM (lookupEntry fuel bodyVal.toMap refsVal) d1 (handle :: after)).map _)
        = _
      rw [List.foldlM_cons, hstep]
      show ((List.foldlM (lookupEntry fuel bodyVal.toMap refsVal) _ after).map _) = _
      rw [he]
      rfl
    · show hashValues e.localsAndWatchers (stringToInt handle) = _
      rw [htrack2]
      show hashValues (hashTakeRest d1.localsAndWatchers (stringToInt handle))
        (stringToInt handle) = _
      rw [hashValues_hashTakeRest, htrack1]
  · intro rank hwf
    obtain ⟨f1, hbefore⟩ := lookupLoop_returns rank bodyVal.toMap refsVal hwf before
    obtain ⟨f2, hafter⟩ := lookupLoop_returns rank bodyVal.toMap refsVal hwf after
    refine ⟨max fuel1 (max f1 f2), le_max_left _ _, ?_⟩
    intro fuel hfuel
    have hf1 : f1 ≤ fuel := le_trans (le_trans (le_max_left _ _) (le_max_right _ _)) hfuel
    have hf2 : f2 ≤ fuel := le_trans (le_trans (le_max_right _ _) (le_max_right _ _)) hfuel
    obtain ⟨d1, hd1⟩ := hbefore fuel hf1 d
    obtain ⟨e, he⟩ := hafter fuel hf2
      { d1 with
        localsAndWatchers := hashTakeRest d1.localsAndWatchers (stringToInt handle),
        watchHandler := d1.watchHandler.insertItem
          (primitiveNode name (stringToInt handle) data) }
    exact ⟨d1, e, hd1, he⟩

set_option maxRecDepth 100000 in
/-- C23 at Scenario D: the response `{"7": {handle: 7, type: "number", value:
42}}` to `lookup([7])` for the local `x` gives the node `local.x` with the
handle `7`, the type `number`, the value `42` and no children, and `7` is no
longer tracked. -/
theorem looked_up_primitive_becomes_a_local_node_witness :
    (numberLookupBody.toMap.map Prod.fst = [] ++ "7" :: [] ∧
      hashValue engineAwaitingLookup.localsAndWatchers (stringToInt "7") = some "x" ∧
      extractData 0 (mapValue numberLookupBody.toMap "7") (QVariant.list [])
        = some { handle := 7, type := "number", value := QVariant.num 42 }) ∧
    primitiveNode "x" (stringToInt "7") { handle := 7, type := "number", value := QVariant.num 42 }
      = { exp := "x", name := "x", iname := "local.x", id := 7, type := "number",
          value := "42", wantsChildren := false } ∧
    lookupEntry 0 numberLookupBody.toMap (QVariant.list []) engineAwaitingLookup "7"
      = some { engineAwaitingLookup with
          localsAndWatchers :=
            hashTakeRest engineAwaitingLookup.localsAndWatchers (stringToInt "7"),
          watchHandler := engineAwaitingLookup.watchHandler.insertItem
            (primitiveNode "x" (stringToInt "7")
              { handle := 7, type := "number", value := QVariant.num 42 }) } ∧
    (handleLookup 0 engineAwaitingLookup numberLookupBody (QVariant.list [])).map
        (fun e => (e.watchHandler.items, e.localsAndWatchers,
                   (newEffects engineAwaitingLookup e).length))
      = some ([{ exp := "x", name := "x", iname := "local.x", id := 7, type := "number",
                 value := "42", wantsChildren := false }], [], 1) :=
  ⟨⟨by rfl, by rfl, by rfl⟩, by rfl,
    ((looked_up_primitive_becomes_a_local_node engineAwaitingLookup numberLookupBody
      (QVariant.list []) [] [] "7" "x" 0
      { handle := 7, type := "number", value := QVariant.num 42 }
      (by rfl) (by intro k hk; cases hk) (by rfl)
      ⟨by decide, by decide⟩ (by rfl) (by decide)).1 0 engineAwaitingLookup
        (le_refl 0) rfl).2.1,
    by rfl⟩

/-- A backtrace response that does not start at frame `0` is dropped:
`handleBacktrace` returns the state it was given
(`QTC_ASSERT(0 == fromFrameIndex, return)`). -/
theorem handleBacktrace_drops_partial_response (fuel : Nat) (env : Env) (d : QmlEnginePrivate)
    (bodyVal refsVal : QVariant) (hfrom : (mapValue bodyVal.toMap "fromFrame").toInt ≠ 0) :
    handleBacktrace fuel env d bodyVal refsVal = some d := by
  unfold handleBacktrace
  simp only []
  rw [if_pos hfrom]

end QmlEngine
